import Mathlib

/-! The DTU of gem5-SemperOS: NoC addresses, endpoint registers and the message unit.

A shallow embedding of `src/mem/dtu/noc_addr.hh`, `src/mem/dtu/regfile.hh`,
`src/mem/dtu/msg_unit.cc` and the command interface of `src/mem/dtu/dtu.{hh,cc}`.

Conventions.
* C++ unsigned integers are natural numbers; every narrowing store or wrapping
  operation is written with an explicit `% 2 ^ w`.
* A function returns `none` where the C++ code stops in a failed `assert` or
  `panic`, or where its behaviour is undefined (division by zero, a shift of a
  value by its width or more, a signed shift past the sign bit).
* Calls that leave the DTU (starting a transfer, scheduling an event, answering a
  NoC packet, a functional write to local memory) are recorded in lists kept in the
  state.
-/

namespace SemperOS

/-! ## noc_addr.hh -/

def ID_BITS : Nat := 64
def RESERVED_BITS : Nat := 5
def VALID_BITS : Nat := 1
def CORE_BITS : Nat := 10
def VPE_BITS : Nat := 11
def OFFSET_BITS : Nat := ID_BITS - RESERVED_BITS - VALID_BITS - CORE_BITS - VPE_BITS

def VALID_SHIFT : Nat := ID_BITS - RESERVED_BITS
def CORE_SHIFT : Nat := VALID_SHIFT - CORE_BITS
def VPE_SHIFT : Nat := CORE_SHIFT - VPE_BITS

/-- Bitwise complement of `x` in a `w`-bit unsigned integer. -/
def notBits (w x : Nat) : Nat := 2 ^ w - 1 - x % 2 ^ w

/-- The class `NocAddr`: `bool valid; unsigned coreId; unsigned vpeId; Addr offset`. -/
structure NocAddr where
  valid : Bool
  coreId : Nat
  vpeId : Nat
  offset : Nat
deriving DecidableEq, Repr

namespace NocAddr

/-- The constructor `NocAddr(Addr addr)`; `valid` is the conversion of `addr >> VALID_SHIFT`
to `bool`. -/
def ofAddr (addr : Nat) : NocAddr :=
  { valid := addr >>> VALID_SHIFT != 0
    coreId := (addr >>> CORE_SHIFT) &&& ((1 <<< CORE_BITS) - 1)
    vpeId := (addr >>> VPE_SHIFT) &&& ((1 <<< VPE_BITS) - 1)
    offset := addr &&& ((1 <<< OFFSET_BITS) - 1) }

/-- The constructor `NocAddr(unsigned _coreId, unsigned _vpeId, Addr _offset)`. -/
def ofTuple (coreId vpeId offset : Nat) : NocAddr :=
  { valid := true, coreId := coreId, vpeId := vpeId, offset := offset }

/-- The method `NocAddr::getAddr`: the three assertions, then the fields shifted into a
64-bit word. -/
def getAddr (a : NocAddr) : Option Nat :=
  if a.coreId &&& notBits 32 ((1 <<< CORE_BITS) - 1) ≠ 0 then none
  else if a.vpeId &&& notBits 32 ((1 <<< VPE_BITS) - 1) ≠ 0 then none
  else if a.offset &&& notBits 64 ((1 <<< OFFSET_BITS) - 1) ≠ 0 then none
  else
    let res := ((if a.valid then 1 else 0) <<< VALID_SHIFT) % 2 ^ 64
    let res := res ||| (a.coreId <<< CORE_SHIFT) % 2 ^ 64
    let res := res ||| (a.vpeId <<< VPE_SHIFT) % 2 ^ 64
    let res := res ||| a.offset
    some res

end NocAddr

/-! ## regfile.hh -/

def CREDITS_BITS : Nat := 16

/-- The struct `SendEp` (`uint32_t vpeId; uint16_t targetCore; uint8_t targetEp;
uint16_t maxMsgSize; uint16_t credits; uint64_t label`). -/
structure SendEp where
  vpeId : Nat := 0
  targetCore : Nat := 0
  targetEp : Nat := 0
  maxMsgSize : Nat := 0
  credits : Nat := 0
  label : Nat := 0
deriving DecidableEq, Repr

/-- The struct `RecvEp` (`uint8_t rdPos, wrPos; uint64_t bufAddr; uint16_t msgSize, size,
msgCount; uint32_t occupied, unread`). -/
structure RecvEp where
  rdPos : Nat := 0
  wrPos : Nat := 0
  bufAddr : Nat := 0
  msgSize : Nat := 0
  size : Nat := 0
  msgCount : Nat := 0
  occupied : Nat := 0
  unread : Nat := 0
deriving DecidableEq, Repr

/-- The struct `MemEp`. -/
structure MemEp where
  vpeId : Nat := 0
  remoteAddr : Nat := 0
  remoteSize : Nat := 0
  targetCore : Nat := 0
  flags : Nat := 0
deriving DecidableEq, Repr

/-- Conversion of a 64-bit unsigned value to `int` (two's complement, low 32 bits). -/
def toInt (x : Nat) : Int :=
  if x % 2 ^ 32 < 2 ^ 31 then ((x % 2 ^ 32 : Nat) : Int) else ((x % 2 ^ 32 : Nat) : Int) - 2 ^ 32

namespace RecvEp

def MAX_MSGS : Nat := 32

/-- The expression `(msg - bufAddr) / msgSize` of `msgToIdx` and `finishMsgReceive`, in
64-bit unsigned arithmetic (`msgSize` not zero). -/
def slotQuot (ep : RecvEp) (msg : Nat) : Nat :=
  ((msg + 2 ^ 64 - ep.bufAddr) % 2 ^ 64) / ep.msgSize

/-- `RecvEp::msgToIdx`: `int idx = (msg - bufAddr) / msgSize;` narrowed to `int`; the result
is `idx` when `0 <= idx < MAX_MSGS` and `MAX_MSGS` otherwise. Division by a zero `msgSize`
is undefined. -/
def msgToIdx (ep : RecvEp) (msg : Nat) : Option Nat :=
  if ep.msgSize = 0 then none
  else
    let idx : Int := toInt (ep.slotQuot msg)
    some (if 0 ≤ idx ∧ idx < (MAX_MSGS : Int) then idx.toNat else MAX_MSGS)

/-- `RecvEp::isUnread`: `unread & (static_cast<uint32_t>(1) << idx)` as a `bool`; the shift
is undefined for `idx >= 32`. -/
def isUnread (ep : RecvEp) (idx : Nat) : Option Bool :=
  if idx < 32 then some (ep.unread &&& (1 <<< idx) != 0) else none

/-- `RecvEp::setUnread`. -/
def setUnread (ep : RecvEp) (idx : Nat) (unr : Bool) : Option RecvEp :=
  if idx < 32 then
    some (if unr then { ep with unread := ep.unread ||| (1 <<< idx) }
          else { ep with unread := ep.unread &&& notBits 32 (1 <<< idx) })
  else none

/-- `RecvEp::isOccupied`. -/
def isOccupied (ep : RecvEp) (idx : Nat) : Option Bool :=
  if idx < 32 then some (ep.occupied &&& (1 <<< idx) != 0) else none

/-- `RecvEp::setOccupied`. -/
def setOccupied (ep : RecvEp) (idx : Nat) (occ : Bool) : Option RecvEp :=
  if idx < 32 then
    some (if occ then { ep with occupied := ep.occupied ||| (1 <<< idx) }
          else { ep with occupied := ep.occupied &&& notBits 32 (1 <<< idx) })
  else none

end RecvEp

/-- The endpoint types of `enum class EpType`, each with the record its registers hold. -/
inductive Ep where
  | INVALID
  | SEND (e : SendEp)
  | RECEIVE (e : RecvEp)
  | MEMORY (e : MemEp)
deriving DecidableEq, Repr

/-- The class `RegFile`: the DTU registers, the command registers and the endpoint
registers (`dtuRegs`, `cmdRegs`, `epRegs`), the first two with one field per register of
`enum class DtuReg` and `enum class CmdReg`. -/
structure RegFile where
  STATUS : Nat := 0
  ROOT_PT : Nat := 0
  PF_EP : Nat := 0
  LAST_PF : Nat := 0
  RW_BARRIER : Nat := 0
  VPE_ID : Nat := 0
  MSG_CNT : Nat := 0
  EXT_CMD : Nat := 0
  COMMAND : Nat := 0
  DATA_ADDR : Nat := 0
  DATA_SIZE : Nat := 0
  OFFSET : Nat := 0
  REPLY_EPID : Nat := 0
  REPLY_LABEL : Nat := 0
  epRegs : List Ep := []
deriving DecidableEq, Repr

namespace RegFile

/-- Modelled from the spec: `RegFile::getSendEp` is defined in regfile.cc, which is not
among the sources. Spec §3: the three registers of an endpoint encode its type and the
fields of that type. The model keeps the decoded record per endpoint id; reading an
endpoint as SEND gives its record when it holds a SEND endpoint, and is not determined
otherwise (`none`). -/
def getSendEp (rf : RegFile) (epId : Nat) : Option SendEp :=
  match rf.epRegs[epId]? with
  | some (Ep.SEND e) => some e
  | _ => none

/-- Modelled from the spec: `RegFile::setSendEp` (regfile.cc) stores the record as the
SEND endpoint `epId`. -/
def setSendEp (rf : RegFile) (epId : Nat) (ep : SendEp) : RegFile :=
  { rf with epRegs := rf.epRegs.set epId (Ep.SEND ep) }

/-- Modelled from the spec: `RegFile::getRecvEp` (regfile.cc), as `getSendEp`. -/
def getRecvEp (rf : RegFile) (epId : Nat) : Option RecvEp :=
  match rf.epRegs[epId]? with
  | some (Ep.RECEIVE e) => some e
  | _ => none

/-- Modelled from the spec: `RegFile::setRecvEp` (regfile.cc) stores the record as the
RECEIVE endpoint `epId`. -/
def setRecvEp (rf : RegFile) (epId : Nat) (ep : RecvEp) : RegFile :=
  { rf with epRegs := rf.epRegs.set epId (Ep.RECEIVE ep) }

end RegFile

/-! ## dtu.hh -/

def CREDITS_UNLIM : Nat := (1 <<< CREDITS_BITS) - 1

/-- The flags of `enum MessageFlags`. -/
def REPLY_FLAG : Nat := 1 <<< 0
def GRANT_CREDITS_FLAG : Nat := 1 <<< 1
def REPLY_ENABLED : Nat := 1 <<< 2
def PAGEFAULT : Nat := 1 <<< 3
def REPLY_FAILED : Nat := 1 <<< 4

/-- The codes of `enum Error`. -/
inductive Error where
  | NONE
  | MISS_CREDITS
  | NO_RING_SPACE
  | VPE_GONE
  | NO_MAPPING
deriving DecidableEq, Repr

/-- The packed struct `MessageHeader` (`uint8_t flags; uint16_t senderCoreId;
uint8_t senderEpId; uint8_t replyEpId; uint16_t length; uint16_t senderVpeId;
uint64_t label; uint64_t replyLabel`). -/
structure MessageHeader where
  flags : Nat := 0
  senderCoreId : Nat := 0
  senderEpId : Nat := 0
  replyEpId : Nat := 0
  length : Nat := 0
  senderVpeId : Nat := 0
  label : Nat := 0
  replyLabel : Nat := 0
deriving DecidableEq, Repr

/-- The value of `sizeof(Dtu::MessageHeader)` for the packed struct. -/
def sizeofMessageHeader : Nat := 1 + 2 + 1 + 1 + 2 + 2 + 8 + 8

/-- The opcodes of `Command::Opcode`. -/
inductive Opcode where
  | IDLE
  | SEND
  | REPLY
  | READ
  | WRITE
  | FETCH_MSG
  | ACK_MSG
  | DEBUG_MSG
deriving DecidableEq, Repr

/-- The struct `Command`; `error` is kept as the number found in the register. -/
structure Command where
  error : Nat := 0
  opcode : Opcode := Opcode.IDLE
  arg : Nat := 0
  epid : Nat := 0
deriving DecidableEq, Repr

/-- The values of `enum class TransferType`. -/
inductive TransferType where
  | LOCAL_READ
  | LOCAL_WRITE
  | REMOTE_WRITE
  | REMOTE_READ
deriving DecidableEq, Repr

/-- The flags of `XferUnit::XferFlags`; their numeric values are declared in xfer_unit.hh,
which is not among the sources, so a set of flags is kept as a list of names. -/
inductive XferFlag where
  | MESSAGE
  | MSGRECV
  | LAST
deriving DecidableEq, Repr

/-- An inbound NoC packet that carries a message: `getAddr()`, `getSize()`, the
`MessageHeader` at the start of its data, `needsResponse()`, and the bytes behind
`getPtr()` where the transfer engine copies them. -/
structure Packet where
  addr : Nat := 0
  size : Nat := 0
  header : MessageHeader := {}
  needsResponse : Bool := true
  data : List Nat := []
deriving DecidableEq, Repr

/-- The arguments of one call of `Dtu::startTransfer` (the delay is not recorded). -/
structure Transfer where
  type : TransferType
  targetAddr : NocAddr
  sourceAddr : Nat
  size : Nat
  pkt : Option Packet := none
  header : Option MessageHeader := none
  flags : List XferFlag := []
deriving DecidableEq, Repr

/-! ## msg_unit.hh -/

/-- The struct `MessageUnit::MsgInfo`. -/
structure MsgInfo where
  ready : Bool := false
  unlimcred : Bool := false
  flags : Nat := 0
  targetCoreId : Nat := 0
  targetVpeId : Nat := 0
  targetEpId : Nat := 0
  replyEpId : Nat := 0
  label : Nat := 0
  replyLabel : Nat := 0
deriving DecidableEq, Repr

/-- The data members of the class `MessageUnit`. -/
structure MessageUnit where
  info : MsgInfo := {}
  header : MessageHeader := {}
  flagsPhys : Nat := 0
  offset : Nat := 0
deriving DecidableEq, Repr

/-! ## pt_unit.hh -/

/-- The data members of `PtUnit::TranslateEvent` that pt_unit.cc reads and writes, with
`id` standing for the address of the event object (the value compared by
`pfqueue.front() != ev` and sent as `replyLabel`), and `trans` the list of waiting
`Translation` objects, each named by a number. -/
structure TranslateEvent where
  id : Nat := 0
  level : Nat := 0
  virt : Nat := 0
  access : Nat := 0
  trans : List Nat := []
  ptAddr : Nat := 0
  pf : Bool := false
  toKernel : Bool := false
deriving DecidableEq, Repr

/-- A pagefault message as `PtUnit::sendPagefaultMsg` passes it to `Dtu::sendNocRequest`
with the type `NocPacketType::PAGEFAULT`: the NoC address and size of the packet, the
message header, and the fields `opcode`, `virt` and `access` of the `PagefaultMessage`. -/
structure PagefaultRequest where
  addr : Nat := 0
  size : Nat := 0
  header : MessageHeader := {}
  opcode : Nat := 0
  virt : Nat := 0
  access : Nat := 0
deriving DecidableEq, Repr

/-- The data members of the class `PtUnit` used by pt_unit.cc: the queue of pending
pagefaults (the events themselves stand for the pointers the queue holds), the address
of the last failed resolution and the count of consecutive failures on it. Their types
and initial values are declared in pt_unit.hh, which is not among the sources; the
counter is kept as a natural number. With them the record of the calls that leave the
unit: the pagefault messages sent, the waiters notified (`Translation`, success, physical
address), the calls of `DtuTlb::block` (address, flag), the entries inserted with
`mkTlbEntry` (address, physical address, flags), and the events scheduled. -/
structure PtUnit where
  pfqueue : List TranslateEvent := []
  lastPfAddr : Nat := 0
  lastPfCnt : Nat := 0
  sent : List PagefaultRequest := []
  notified : List (Nat × Bool × NocAddr) := []
  blocked : List (Nat × Bool) := []
  tlbEntries : List (Nat × NocAddr × Nat) := []
  scheduled : List TranslateEvent := []
deriving DecidableEq, Repr

/-- The state of one `Dtu`: its register file, its message unit, `cmdInProgress`, the
construction parameters used here, and the record of the calls that leave the modelled
part: the errors of the `FinishCommandEvent`s scheduled by `scheduleFinishOp`, the
transfers handed to `startTransfer`, the packets answered with `sendNocResponse`, the
packets passed to `handlePFResp`, the header reads issued by `requestHeader` (endpoint
and address), the number of `wakeupCore` calls, the commands handed to the memory unit,
the functional one-byte writes to local memory (physical address and byte), the number
of `warn` calls, the page-table unit, the vectors passed to `injectIRQ`, and the member
`atomicMode`. -/
structure Dtu where
  regFile : RegFile := {}
  msgUnit : MessageUnit := {}
  cmdInProgress : Bool := false
  coreId : Nat := 0
  maxNocPacketSize : Nat := 0
  numCmdEpidBits : Nat := 0
  finishEvents : List Error := []
  transfers : List Transfer := []
  nocResponses : List Packet := []
  pfResps : List Packet := []
  headerReqs : List (Nat × Nat) := []
  wakeups : Nat := 0
  memCmds : List Command := []
  funcWrites : List (Nat × Nat) := []
  warnings : Nat := 0
  ptUnit : PtUnit := {}
  irqs : List Nat := []
  atomicMode : Bool := false
deriving DecidableEq, Repr

namespace Dtu

/-- The member `numEndpoints`: the register file is built with `num_endpoints` endpoints. -/
def numEndpoints (d : Dtu) : Nat := d.regFile.epRegs.length

/-- `Dtu::scheduleFinishOp`: a `FinishCommandEvent` is scheduled when a command is in
progress. -/
def scheduleFinishOp (d : Dtu) (error : Error) : Dtu :=
  if d.cmdInProgress then { d with finishEvents := d.finishEvents ++ [error] } else d

/-- `Dtu::startTransfer`. -/
def startTransfer (d : Dtu) (t : Transfer) : Dtu :=
  { d with transfers := d.transfers ++ [t] }

/-- `Dtu::sendNocResponse`. -/
def sendNocResponse (d : Dtu) (pkt : Packet) : Dtu :=
  { d with nocResponses := d.nocResponses ++ [pkt] }

/-- `Dtu::handlePFResp`. -/
def handlePFResp (d : Dtu) (pkt : Packet) : Dtu :=
  { d with pfResps := d.pfResps ++ [pkt] }

/-- `Dtu::wakeupCore`. -/
def wakeupCore (d : Dtu) : Dtu :=
  { d with wakeups := d.wakeups + 1 }

end Dtu

/-! ## msg_unit.cc: the receive ring -/

/-- The loop `for (i = lo; n times; ++i) if (p(i)) goto found;`: `some (some i)` when the
loop is left at `i`, `some none` when it runs to its end, `none` when evaluating `p` is
undefined. -/
def scanLoop (p : Nat → Option Bool) : Nat → Nat → Option (Option Nat)
  | _, 0 => some none
  | i, n + 1 =>
    match p i with
    | none => none
    | some true => some (some i)
    | some false => scanLoop p (i + 1) n

/-- The loop `for (i = lo; i < hi; ++i) if (p(i)) goto found;`. -/
def scan (p : Nat → Option Bool) (lo hi : Nat) : Option (Option Nat) :=
  scanLoop p lo (hi - lo)

/-- The two loops of `fetchMessage` and of `allocSlot`: from `pos` up to `size`, then from
`0` up to `pos`. -/
def scanRing (p : Nat → Option Bool) (pos size : Nat) : Option (Option Nat) :=
  match scan p pos size with
  | none => none
  | some (some i) => some (some i)
  | some none => scan p 0 pos

namespace Ring

/-- The body of `MessageUnit::fetchMessage` on the endpoint record `ep` read from the
register file: the returned address, and the record passed to `setRecvEp` (`none` on the
path that returns without writing). The two `none` results after the scan are
`assert(false)` and `assert(ep.isOccupied(i))`; `msgCount--` is reached with `msgCount`
not 0. -/
def fetchMessage (ep : RecvEp) : Option (Nat × Option RecvEp) :=
  if ep.msgCount = 0 then some (0, none)
  else
    match scanRing ep.isUnread ep.rdPos ep.size with
    | none => none
    | some none => none
    | some (some i) =>
      match ep.isOccupied i with
      | none => none
      | some false => none
      | some true =>
        match ep.setUnread i false with
        | none => none
        | some ep1 =>
          let ep2 := { ep1 with msgCount := ep1.msgCount - 1, rdPos := (i + 1) % 2 ^ 8 }
          some ((ep2.bufAddr + i * ep2.msgSize) % 2 ^ 64, some ep2)

/-- The body of `MessageUnit::allocSlot` on the record `ep`: the returned index (`ep.size`
when both loops run to their end) and the record passed to `setRecvEp`, which is also the
new value of the caller's `ep` (`none` when nothing is written). -/
def allocSlot (msgSize : Nat) (ep : RecvEp) : Option (Nat × Option RecvEp) :=
  if msgSize > ep.msgSize then none
  else
    match scanRing (fun i => (ep.isOccupied i).map not) ep.wrPos ep.size with
    | none => none
    | some none => some (ep.size, none)
    | some (some i) =>
      match ep.setOccupied i true with
      | none => none
      | some ep1 => some (i, some { ep1 with wrPos := (i + 1) % 2 ^ 8 })

/-- The body of `MessageUnit::ackMessage` on the record `ep`, with `msg` the value of the
`OFFSET` register: the record passed to `setRecvEp`. -/
def ackMessage (ep : RecvEp) (msg : Nat) : Option RecvEp :=
  match ep.msgToIdx msg with
  | none => none
  | some msgidx =>
    if msgidx = RecvEp.MAX_MSGS then none
    else
      match ep.isOccupied msgidx with
      | none => none
      | some false => none
      | some true => ep.setOccupied msgidx false

/-- The body of `MessageUnit::finishMsgReceive` on the record `ep`: the record passed to
`setRecvEp`, `none` on the `Buffer full` return. `int idx = (msgAddr - ep.bufAddr) /
ep.msgSize` is undefined for `msgSize = 0`, and `setUnread` for a negative `idx`. -/
def finishMsgReceive (ep : RecvEp) (msgAddr : Nat) : Option (Option RecvEp) :=
  if ep.msgSize = 0 then none
  else
    let idx : Int := toInt (ep.slotQuot msgAddr)
    if ep.msgCount = ep.size then some none
    else if idx < 0 then none
    else
      match ({ ep with msgCount := (ep.msgCount + 1) % 2 ^ 16 } : RecvEp).setUnread
          idx.toNat true with
      | none => none
      | some ep1 => some (some ep1)

end Ring

namespace Dtu

/-- The call `dtu.regs().setRecvEp(epid, ep)` where a function makes it (`some ep`), and
no call (`none`). -/
def writeRecvEp (d : Dtu) (epid : Nat) : Option RecvEp → Dtu
  | none => d
  | some ep => { d with regFile := d.regFile.setRecvEp epid ep }

end Dtu

namespace MessageUnit

/-- `MessageUnit::fetchMessage`. -/
def fetchMessage (d : Dtu) (epid : Nat) : Option (Nat × Dtu) :=
  match d.regFile.getRecvEp epid with
  | none => none
  | some ep =>
    match Ring.fetchMessage ep with
    | none => none
    | some (a, w) => some (a, d.writeRecvEp epid w)

/-- `MessageUnit::allocSlot`: the returned index, the caller's `ep` after the call, and the
state. -/
def allocSlot (d : Dtu) (msgSize epid : Nat) (ep : RecvEp) : Option (Nat × RecvEp × Dtu) :=
  match Ring.allocSlot msgSize ep with
  | none => none
  | some (i, w) => some (i, w.getD ep, d.writeRecvEp epid w)

/-- `MessageUnit::ackMessage`. -/
def ackMessage (d : Dtu) (epId : Nat) : Option Dtu :=
  match d.regFile.getRecvEp epId with
  | none => none
  | some ep =>
    match Ring.ackMessage ep d.regFile.OFFSET with
    | none => none
    | some ep1 => some (d.writeRecvEp epId (some ep1))

/-- `MessageUnit::finishMsgReceive`; `updateSuspendablePin` acts on the CPU only and is
left out. -/
def finishMsgReceive (d : Dtu) (epId msgAddr : Nat) : Option Dtu :=
  match d.regFile.getRecvEp epId with
  | none => none
  | some ep =>
    match Ring.finishMsgReceive ep msgAddr with
    | none => none
    | some none => some d
    | some (some ep1) => some (d.writeRecvEp epId (some ep1)).wakeupCore

end MessageUnit

/-! ## msg_unit.cc: sending and receiving -/

namespace MessageUnit

/-- `MessageUnit::requestHeader` up to the read request for the header: the assertions on
`offset`, on the index of the message named by `OFFSET` and on its occupied bit; the read
itself (through the TLB, tlb.hh is not among the sources) is recorded by endpoint and
virtual address. -/
def requestHeader (d : Dtu) (epid : Nat) : Option Dtu :=
  if ¬ d.msgUnit.offset < sizeofMessageHeader then none
  else
    match d.regFile.getRecvEp epid with
    | none => none
    | some ep =>
      match ep.msgToIdx d.regFile.OFFSET with
      | none => none
      | some msgidx =>
        let msgOff := (ep.msgSize * msgidx) % 2 ^ 64
        let msgAddr := (ep.bufAddr + msgOff) % 2 ^ 64
        if msgidx = RecvEp.MAX_MSGS then none
        else
          match ep.isOccupied msgidx with
          | none => none
          | some false => none
          | some true =>
            some { d with headerReqs :=
              d.headerReqs ++ [(epid, (msgAddr + d.msgUnit.offset) % 2 ^ 64)] }

/-- `MessageUnit::startXfer`. -/
def startXfer (d : Dtu) (cmd : Command) : Option Dtu :=
  let info := d.msgUnit.info
  if info.ready = false then none
  else
    let messageAddr := d.regFile.DATA_ADDR
    let messageSize := d.regFile.DATA_SIZE
    let flags :=
      if cmd.opcode = Opcode.REPLY then REPLY_FLAG ||| GRANT_CREDITS_FLAG else REPLY_ENABLED
    let header : MessageHeader :=
      { flags := (flags ||| info.flags) % 2 ^ 8
        senderCoreId := d.coreId % 2 ^ 16
        senderVpeId := d.regFile.VPE_ID % 2 ^ 16
        senderEpId := (if info.unlimcred then d.numEndpoints else cmd.arg) % 2 ^ 8
        replyEpId := info.replyEpId % 2 ^ 8
        length := messageSize % 2 ^ 16
        label := info.label
        replyLabel := info.replyLabel }
    if (messageSize + sizeofMessageHeader) % 2 ^ 64 > d.maxNocPacketSize then none
    else
      let nocAddr := NocAddr.ofTuple info.targetCoreId info.targetVpeId info.targetEpId
      let d1 := d.startTransfer
        { type := TransferType.LOCAL_READ
          targetAddr := nocAddr
          sourceAddr := messageAddr
          size := messageSize
          pkt := none
          header := some header
          flags := [] }
      some { d1 with msgUnit := { d1.msgUnit with info := { info with ready := false } } }

/-- The last part of `MessageUnit::startTransmission` (`fill the info struct and start the
transfer`), with `ep` the endpoint record after the credits have been paid. -/
def fillInfoAndStart (d : Dtu) (cmd : Command) (ep : SendEp) : Option Dtu :=
  let info : MsgInfo :=
    { d.msgUnit.info with
      targetCoreId := ep.targetCore
      targetVpeId := ep.vpeId % 2 ^ 16
      targetEpId := ep.targetEp
      label := ep.label
      replyLabel := d.regFile.REPLY_LABEL
      replyEpId := d.regFile.REPLY_EPID % 2 ^ 32
      flags := 0
      ready := true
      unlimcred := decide (ep.credits = CREDITS_UNLIM) }
  startXfer { d with msgUnit := { d.msgUnit with info := info } } cmd

/-- `MessageUnit::startTransmission`. A SEND on an endpoint that does not hold a SEND
endpoint is not determined by the sources (`none`). -/
def startTransmission (d : Dtu) (cmd : Command) : Option Dtu :=
  let epid := cmd.arg
  if cmd.opcode = Opcode.REPLY then
    requestHeader { d with msgUnit := { d.msgUnit with offset := 0, flagsPhys := 0 } } cmd.arg
  else
    let messageSize := d.regFile.DATA_SIZE
    match d.regFile.getSendEp epid with
    | none => none
    | some ep =>
      if (messageSize + sizeofMessageHeader) % 2 ^ 64 > ep.maxMsgSize then none
      else if ep.credits ≠ CREDITS_UNLIM then
        if ep.credits < ep.maxMsgSize then some (d.scheduleFinishOp Error.MISS_CREDITS)
        else
          let ep1 := { ep with credits := ep.credits - ep.maxMsgSize }
          fillInfoAndStart { d with regFile := d.regFile.setSendEp epid ep1 } cmd ep1
      else fillInfoAndStart d cmd ep

/-- The credit grant of `MessageUnit::recvFromNoc` for a header with `REPLY_FLAG` and
`GRANT_CREDITS_FLAG` whose `replyEpId` is below `numEndpoints`: credits are added to a
SEND endpoint with bounded credits (spec §4.3: `the named replyEp is a valid SEND endpoint
with bounded credits`); nothing is written otherwise. -/
def grantCredits (d : Dtu) (header : MessageHeader) : Dtu :=
  if header.flags &&& REPLY_FLAG ≠ 0 ∧ header.flags &&& GRANT_CREDITS_FLAG ≠ 0 ∧
      header.replyEpId < d.numEndpoints then
    match d.regFile.getSendEp header.replyEpId with
    | none => d
    | some sep =>
      if sep.credits ≠ CREDITS_UNLIM then
        let sep1 := { sep with credits := (sep.credits + sep.maxMsgSize) % 2 ^ 16 }
        { d with regFile := d.regFile.setSendEp header.replyEpId sep1 }
      else d
  else d

/-- `MessageUnit::recvFromNoc`: the returned error and the state. -/
def recvFromNoc (d : Dtu) (pkt : Packet) : Option (Error × Dtu) :=
  let header := pkt.header
  let pfResp := REPLY_FLAG ||| PAGEFAULT
  if header.flags &&& pfResp = pfResp then some (Error.NONE, d.handlePFResp pkt)
  else
    let addr := NocAddr.ofAddr pkt.addr
    let epId := addr.offset % 2 ^ 32
    match d.regFile.getRecvEp epId with
    | none => none
    | some ep0 =>
      match allocSlot d pkt.size epId ep0 with
      | none => none
      | some (msgidx, ep, d1) =>
        let localAddr := (ep.bufAddr + msgidx * ep.msgSize) % 2 ^ 64
        let vpeId := d1.regFile.VPE_ID % 2 ^ 16
        if addr.vpeId = vpeId ∧ msgidx ≠ ep.size then
          let d2 := grantCredits d1 header
          some (Error.NONE, d2.startTransfer
            { type := TransferType.REMOTE_WRITE
              targetAddr := NocAddr.ofTuple 0 0 0
              sourceAddr := localAddr
              size := pkt.size
              pkt := some pkt
              header := none
              flags := [XferFlag.MSGRECV] })
        else
          let res := if addr.vpeId ≠ vpeId then Error.VPE_GONE else Error.NO_RING_SPACE
          some (res, d1.sendNocResponse pkt)

end MessageUnit

/-! ## Words used to state the properties -/

/-- The order in which the two loops of `fetchMessage` and `allocSlot` visit the slots:
`pos, pos + 1, ..., size - 1, 0, ..., pos - 1`. -/
def cyclicOrder (pos size : Nat) : List Nat :=
  List.range' pos (size - pos) ++ List.range' 0 pos

/-- The number of set bits of a 32-bit word. -/
def popcount (x : Nat) : Nat :=
  (List.range 32).countP (fun i => x.testBit i)

/-- The ring operations of the message unit on one RECEIVE endpoint. -/
inductive RingOp where
  | allocSlot (msgSize : Nat)
  | finishMsgReceive (msgAddr : Nat)
  | fetchMessage
  | ackMessage (offset : Nat)
deriving DecidableEq, Repr

namespace Ring

/-- The endpoint record in the register file after one ring operation on the record `ep`
(`none` when the operation stops in an assertion or is undefined). -/
def step (ep : RecvEp) : RingOp → Option RecvEp
  | RingOp.allocSlot msgSize => (allocSlot msgSize ep).map (fun r => r.2.getD ep)
  | RingOp.finishMsgReceive msgAddr => (finishMsgReceive ep msgAddr).map (fun w => w.getD ep)
  | RingOp.fetchMessage => (fetchMessage ep).map (fun r => r.2.getD ep)
  | RingOp.ackMessage offset => ackMessage ep offset

/-- The endpoint record after a sequence of ring operations. -/
def run (ep : RecvEp) : List RingOp → Option RecvEp
  | [] => some ep
  | op :: ops =>
    match step ep op with
    | none => none
    | some ep1 => run ep1 ops

end Ring

namespace Ring

/-- The rings reached from the empty ring with the given `bufAddr`, `msgSize` and `size`
by the four ring operations, where `finishMsgReceive` is called for a slot whose unread
bit is clear (as it is for a slot that `allocSlot` has just handed out). -/
inductive Reached (bufAddr msgSize size : Nat) : RecvEp → Prop where
  | empty : Reached bufAddr msgSize size
      { bufAddr := bufAddr, msgSize := msgSize, size := size }
  | allocSlot {ep : RecvEp} (m : Nat) (r : Nat × Option RecvEp) :
      Reached bufAddr msgSize size ep → Ring.allocSlot m ep = some r →
      Reached bufAddr msgSize size (r.2.getD ep)
  | finishMsgReceive {ep : RecvEp} (msgAddr : Nat) (w : Option RecvEp) :
      Reached bufAddr msgSize size ep → Ring.finishMsgReceive ep msgAddr = some w →
      ep.unread.testBit (toInt (ep.slotQuot msgAddr)).toNat = false →
      Reached bufAddr msgSize size (w.getD ep)
  | fetchMessage {ep : RecvEp} (r : Nat × Option RecvEp) :
      Reached bufAddr msgSize size ep → Ring.fetchMessage ep = some r →
      Reached bufAddr msgSize size (r.2.getD ep)
  | ackMessage {ep : RecvEp} (offset : Nat) (ep1 : RecvEp) :
      Reached bufAddr msgSize size ep → Ring.ackMessage ep offset = some ep1 →
      Reached bufAddr msgSize size ep1

end Ring

/-- The calls `fetchMessage(epid)` repeated until one returns 0, at most `fuel` calls: the
addresses returned before the 0, in the order of the calls, and the state after the call
that returned 0. The result is `none` when a call stops in an assertion, or when `fuel`
calls have not returned 0. -/
def fetchUntilZero (epid : Nat) : Nat → Dtu → Option (List Nat × Dtu)
  | 0, _ => none
  | fuel + 1, d =>
    match MessageUnit.fetchMessage d epid with
    | none => none
    | some (a, d1) =>
      if a = 0 then some ([], d1)
      else
        match fetchUntilZero epid fuel d1 with
        | none => none
        | some (as, d2) => some (a :: as, d2)

/-- The unread indices of a ring in the order `rdPos, ..., size-1, 0, ..., rdPos-1`. -/
def unreadInOrder (ep : RecvEp) : List Nat :=
  (cyclicOrder ep.rdPos ep.size).filter (fun i => ep.unread.testBit i)

/-- The runs of a DTU from the state `d0`, as far as the SEND endpoint `e` is concerned:
`CreditRun e d0 s g d` says that `d` is reached from `d0` by `s` successful SEND commands
on `e` (calls of `startTransmission` that start a transfer), `g` matching reply-grants
(calls of `recvFromNoc` that accept a message whose header has `REPLY_FLAG` and
`GRANT_CREDITS_FLAG`, is no page-fault reply and names `e` as `replyEpId`), each grant
made when fewer grants than sends have happened, and any other steps that leave the
registers of endpoint `e` as they are. -/
inductive CreditRun (e : Nat) (d0 : Dtu) : Nat → Nat → Dtu → Prop where
  | start : CreditRun e d0 0 0 d0
  | send {d : Dtu} {s g : Nat} (cmd : Command) (d1 : Dtu) :
      CreditRun e d0 s g d → cmd.opcode = Opcode.SEND → cmd.arg = e →
      MessageUnit.startTransmission d cmd = some d1 →
      d1.transfers.length = d.transfers.length + 1 →
      CreditRun e d0 (s + 1) g d1
  | grant {d : Dtu} {s g : Nat} (pkt : Packet) (d1 : Dtu) :
      CreditRun e d0 s g d → g < s →
      pkt.header.flags &&& REPLY_FLAG ≠ 0 → pkt.header.flags &&& GRANT_CREDITS_FLAG ≠ 0 →
      pkt.header.flags &&& (REPLY_FLAG ||| PAGEFAULT) ≠ REPLY_FLAG ||| PAGEFAULT →
      pkt.header.replyEpId = e →
      MessageUnit.recvFromNoc d pkt = some (Error.NONE, d1) →
      CreditRun e d0 s (g + 1) d1
  | other {d : Dtu} {s g : Nat} (d1 : Dtu) :
      CreditRun e d0 s g d → d1.regFile.getSendEp e = d.regFile.getSendEp e →
      CreditRun e d0 s g d1

/-! ## dtu.hh: the bytes of a message header -/

/-- The `w` bytes of `n`, least significant first (the byte order of the host the
simulator is built for). -/
def leBytes (n : Nat) : Nat → List Nat
  | 0 => []
  | w + 1 => n % 256 :: leBytes (n / 256) w

/-- The number held by a list of bytes, least significant first. -/
def ofLeBytes : List Nat → Nat
  | [] => 0
  | b :: bs => b % 256 + 256 * ofLeBytes bs

/-- `memcpy(dst + off, src, src.length)` on a byte array. -/
def copyInto (dst : List Nat) (off : Nat) (src : List Nat) : List Nat :=
  dst.take off ++ src ++ dst.drop (off + src.length)

namespace MessageHeader

/-- The 25 bytes of the packed struct `MessageHeader`, in declaration order. -/
def toBytes (h : MessageHeader) : List Nat :=
  leBytes h.flags 1 ++ leBytes h.senderCoreId 2 ++ leBytes h.senderEpId 1 ++
    leBytes h.replyEpId 1 ++ leBytes h.length 2 ++ leBytes h.senderVpeId 2 ++
    leBytes h.label 8 ++ leBytes h.replyLabel 8

/-- The packed struct `MessageHeader` read from its bytes. -/
def ofBytes (bs : List Nat) : MessageHeader :=
  { flags := ofLeBytes (bs.take 1)
    senderCoreId := ofLeBytes ((bs.drop 1).take 2)
    senderEpId := ofLeBytes ((bs.drop 3).take 1)
    replyEpId := ofLeBytes ((bs.drop 4).take 1)
    length := ofLeBytes ((bs.drop 5).take 2)
    senderVpeId := ofLeBytes ((bs.drop 7).take 2)
    label := ofLeBytes ((bs.drop 9).take 8)
    replyLabel := ofLeBytes ((bs.drop 17).take 8) }

end MessageHeader

/-- The response to a read of local memory: `getAddr()` and the bytes of its data
(`getSize()` is their number). -/
structure MemPacket where
  addr : Nat := 0
  data : List Nat := []
deriving DecidableEq, Repr

/-! ## msg_unit.cc: replies -/

namespace MessageUnit

/-- The member `header` after `recvFromMem` has copied the data of `pkt` into it at
`offset`. -/
def headerAfter (d : Dtu) (pkt : MemPacket) : MessageHeader :=
  MessageHeader.ofBytes (copyInto d.msgUnit.header.toBytes d.msgUnit.offset pkt.data)

/-- `MessageUnit::recvFromMem`: the data of the response is copied into the member
`header`; while the header is incomplete the rest is requested; once it is complete,
`REPLY_ENABLED` is asserted, `info` is filled from the header, the flag byte without
`REPLY_ENABLED` is written to `flagsPhys` with a functional request, and `startXfer` is
called. -/
def recvFromMem (d : Dtu) (cmd : Command) (pkt : MemPacket) : Option Dtu :=
  if ¬ d.msgUnit.offset + pkt.data.length ≤ sizeofMessageHeader then none
  else
    let header := headerAfter d pkt
    let flagsPhys := if d.msgUnit.offset = 0 then pkt.addr else d.msgUnit.flagsPhys
    let offset := d.msgUnit.offset + pkt.data.length
    let mu : MessageUnit :=
      { d.msgUnit with header := header, flagsPhys := flagsPhys, offset := offset }
    if offset < sizeofMessageHeader then requestHeader { d with msgUnit := mu } cmd.arg
    else if header.flags &&& REPLY_ENABLED = 0 then none
    else
      let info : MsgInfo :=
        { mu.info with
          targetCoreId := header.senderCoreId
          targetVpeId := header.senderVpeId
          targetEpId := header.replyEpId
          replyEpId := header.senderEpId
          label := header.replyLabel
          replyLabel := 0
          flags := header.flags &&& PAGEFAULT
          ready := true
          unlimcred := false }
      let flags := header.flags &&& notBits 8 REPLY_ENABLED
      let mu1 : MessageUnit := { mu with info := info, header := { header with flags := flags } }
      startXfer { d with msgUnit := mu1, funcWrites := d.funcWrites ++ [(flagsPhys, flags)] } cmd

/-- `MessageUnit::finishMsgReply`: `flagsPhys != 0` is asserted; `REPLY_ENABLED` is cleared
in the member `header.flags`; the `if (error == VPE_GONE)` has the `warn` as its only
statement, so `REPLY_FAILED` is set whatever the error; the flag byte is written to
`flagsPhys` with a functional request; `ackMessage` is called (its guard is commented
out). -/
def finishMsgReply (d : Dtu) (error : Error) (epid : Nat) : Option Dtu :=
  if d.msgUnit.flagsPhys = 0 then none
  else
    let flags := d.msgUnit.header.flags &&& notBits 8 REPLY_ENABLED
    let warnings := if error = Error.VPE_GONE then d.warnings + 1 else d.warnings
    let flags := (flags ||| REPLY_FAILED) % 2 ^ 8
    let mu : MessageUnit := { d.msgUnit with header := { d.msgUnit.header with flags := flags } }
    ackMessage
      { d with msgUnit := mu, warnings := warnings,
               funcWrites := d.funcWrites ++ [(d.msgUnit.flagsPhys, flags)] }
      epid

end MessageUnit

/-! ## mem_unit.hh -/

namespace MemoryUnit

/-- Modelled from the spec: `MemoryUnit::startRead` is defined in mem_unit.cc, which is not
among the sources. The memory unit "translates READ/WRITE commands against the addressed
MEMORY endpoint into one or more NoC transactions"; the command handed over is recorded,
the transactions are not modelled. The memory unit is no friend of `Dtu` and cannot reach
the private member `cmdInProgress`. -/
def startRead (d : Dtu) (cmd : Command) : Dtu :=
  { d with memCmds := d.memCmds ++ [cmd] }

/-- Modelled from the spec: `MemoryUnit::startWrite`, as `startRead`. -/
def startWrite (d : Dtu) (cmd : Command) : Dtu :=
  { d with memCmds := d.memCmds ++ [cmd] }

end MemoryUnit

/-! ## dtu.cc: the command register -/

/-- The constant `Dtu::numCmdOpcodeBits`. -/
def numCmdOpcodeBits : Nat := 3

namespace Error

/-- The value of an enumerator of `Error`. -/
def toNat : Error → Nat
  | NONE => 0
  | MISS_CREDITS => 1
  | NO_RING_SPACE => 2
  | VPE_GONE => 3
  | NO_MAPPING => 4

end Error

namespace Opcode

/-- The conversion `static_cast<Command::Opcode>(x)`; it is applied to `reg & 7`. -/
def ofValue : Nat → Opcode
  | 0 => IDLE
  | 1 => SEND
  | 2 => REPLY
  | 3 => READ
  | 4 => WRITE
  | 5 => FETCH_MSG
  | 6 => ACK_MSG
  | _ => DEBUG_MSG

/-- The value of an enumerator of `Command::Opcode`. -/
def toNat : Opcode → Nat
  | IDLE => 0
  | SEND => 1
  | REPLY => 2
  | READ => 3
  | WRITE => 4
  | FETCH_MSG => 5
  | ACK_MSG => 6
  | DEBUG_MSG => 7

end Opcode

namespace Dtu

/-- `Dtu::getCommand`: the assertion on the two widths; a shift of the 64-bit register by
64 has no defined value; `arg` is the register above the opcode, narrowed to `unsigned`
(32 bits), `epid` is `arg` under the mask, and `error` is the register above both fields,
converted to the 32-bit type that underlies `Error`. -/
def getCommand (d : Dtu) : Option Command :=
  if ¬ d.numCmdEpidBits + numCmdOpcodeBits ≤ 64 then none
  else
    let opcodeMask := (1 <<< numCmdOpcodeBits) % 2 ^ 64 - 1
    let argMask := (1 <<< d.numCmdEpidBits) % 2 ^ 64 - 1
    let reg := d.regFile.COMMAND
    let bits := numCmdOpcodeBits + d.numCmdEpidBits
    if 64 ≤ bits then none
    else
      let arg := (reg >>> numCmdOpcodeBits) % 2 ^ 32
      some { error := (reg >>> bits) % 2 ^ 32
             opcode := Opcode.ofValue (reg &&& opcodeMask)
             arg := arg
             epid := (arg &&& argMask) % 2 ^ 32 }

/-- `Dtu::finishCommand`. The value written to `COMMAND` is `error << bits`, a shift of an
`int`: it has no defined value when `bits` is 32 or more or when the result does not fit
below the sign bit. -/
def finishCommand (d : Dtu) (error : Error) : Option Dtu :=
  match d.getCommand with
  | none => none
  | some cmd =>
    if d.cmdInProgress = false then none
    else
      match (if cmd.opcode = Opcode.REPLY then MessageUnit.finishMsgReply d error cmd.epid
             else some d) with
      | none => none
      | some d1 =>
        let bits := numCmdOpcodeBits + d1.numCmdEpidBits
        if 32 ≤ bits ∨ 2 ^ 31 ≤ error.toNat <<< bits then none
        else
          some { d1 with regFile := { d1.regFile with COMMAND := error.toNat <<< bits },
                         cmdInProgress := false }

/-- `Dtu::executeCommand`. -/
def executeCommand (d : Dtu) : Option Dtu :=
  match d.getCommand with
  | none => none
  | some cmd =>
    if cmd.opcode = Opcode.IDLE then some d
    else if d.cmdInProgress = true then none
    else
      let d1 := { d with cmdInProgress := true }
      if cmd.opcode ≠ Opcode.DEBUG_MSG ∧ ¬ cmd.arg < d1.numEndpoints then none
      else
        match cmd.opcode with
        | Opcode.SEND => MessageUnit.startTransmission d1 cmd
        | Opcode.REPLY => MessageUnit.startTransmission d1 cmd
        | Opcode.READ => some (MemoryUnit.startRead d1 cmd)
        | Opcode.WRITE => some (MemoryUnit.startWrite d1 cmd)
        | Opcode.FETCH_MSG =>
          match MessageUnit.fetchMessage d1 cmd.arg with
          | none => none
          | some (addr, d2) =>
            finishCommand { d2 with regFile := { d2.regFile with OFFSET := addr } } Error.NONE
        | Opcode.ACK_MSG =>
          match MessageUnit.ackMessage d1 cmd.arg with
          | none => none
          | some d2 => finishCommand d2 Error.NONE
        | Opcode.DEBUG_MSG => finishCommand d1 Error.NONE
        | Opcode.IDLE => none

/-- The case `MemReqType::HEADER` of `Dtu::completeMemRequest`: the response to a header
read is passed to the message unit with the current command. -/
def completeHeaderRequest (d : Dtu) (pkt : MemPacket) : Option Dtu :=
  match d.getCommand with
  | none => none
  | some cmd => MessageUnit.recvFromMem d cmd pkt

end Dtu

/-! ## Runs of the command dispatcher -/

/-- The number of commands that one call of `executeCommand` starts: none for IDLE, one for
every other opcode. -/
def startsCommand (op : Opcode) : Nat :=
  if op = Opcode.IDLE then 0 else 1

/-- The number of `finishCommand` calls made inside one call of `executeCommand`: the cases
FETCH_MSG, ACK_MSG and DEBUG_MSG of its switch end with `finishCommand(NONE)`. -/
def finishesInline : Opcode → Nat
  | Opcode.FETCH_MSG => 1
  | Opcode.ACK_MSG => 1
  | Opcode.DEBUG_MSG => 1
  | _ => 0

/-- The states of a DTU reached from its construction (`cmdInProgress(false)`) by calls of
`executeCommand`, of `finishCommand`, of the message unit's entry points for packets from
the NoC and from memory and for finished receives, and by writes to the registers;
`CmdRun s f d` holds when `d` is reached with `s` commands started and `f` commands
finished. -/
inductive CmdRun : Nat → Nat → Dtu → Prop where
  | init (d : Dtu) : d.cmdInProgress = false → CmdRun 0 0 d
  | executeCommand {s f : Nat} {d : Dtu} (cmd : Command) (d1 : Dtu) :
      CmdRun s f d → d.getCommand = some cmd → d.executeCommand = some d1 →
      CmdRun (s + startsCommand cmd.opcode) (f + finishesInline cmd.opcode) d1
  | finishCommand {s f : Nat} {d : Dtu} (e : Error) (d1 : Dtu) :
      CmdRun s f d → d.finishCommand e = some d1 → CmdRun s (f + 1) d1
  | recvFromNoc {s f : Nat} {d : Dtu} (pkt : Packet) (r : Error × Dtu) :
      CmdRun s f d → MessageUnit.recvFromNoc d pkt = some r → CmdRun s f r.2
  | completeHeaderRequest {s f : Nat} {d : Dtu} (pkt : MemPacket) (d1 : Dtu) :
      CmdRun s f d → d.completeHeaderRequest pkt = some d1 → CmdRun s f d1
  | finishMsgReceive {s f : Nat} {d : Dtu} (epId msgAddr : Nat) (d1 : Dtu) :
      CmdRun s f d → MessageUnit.finishMsgReceive d epId msgAddr = some d1 → CmdRun s f d1
  | writeRegs {s f : Nat} {d : Dtu} (rf : RegFile) :
      CmdRun s f d → CmdRun s f { d with regFile := rf }

/-! ## pt_unit.cc: `resolveFailed` -/

namespace Dtu

/-- `Dtu::injectIRQ`: the vector is recorded. -/
def injectIRQ (d : Dtu) (vector : Nat) : Dtu :=
  { d with irqs := d.irqs ++ [vector] }

end Dtu

namespace PtUnit

/-- `PtUnit::resolveFailed`: a failure on the address of the last failure increments the
counter, and when the incremented counter is 100, `LAST_PF` is set to the address and
`injectIRQ(0x41)` is called; a failure on another address makes it the last address with
count 1. -/
def resolveFailed (d : Dtu) (virt : Nat) : Dtu :=
  if virt = d.ptUnit.lastPfAddr then
    let d1 : Dtu := { d with ptUnit := { d.ptUnit with lastPfCnt := d.ptUnit.lastPfCnt + 1 } }
    if d1.ptUnit.lastPfCnt = 100 then
      Dtu.injectIRQ { d1 with regFile := { d1.regFile with LAST_PF := virt } } 0x41
    else d1
  else
    { d with ptUnit := { d.ptUnit with lastPfAddr := virt, lastPfCnt := 1 } }

/-- A sequence of `PtUnit::resolveFailed` calls, one per address of the list. -/
def resolveFailedAll (d : Dtu) (virts : List Nat) : Dtu :=
  virts.foldl resolveFailed d

end PtUnit

/-! ## tlb.hh -/

namespace DtuTlb

/-- Modelled from the spec: `DtuTlb::PAGE_BITS` is declared in tlb.hh, which is not among
the sources. The page-fault scenario of the specification maps the virtual address
`0x4000` with physical page `0x80` to `0x80000`: pages have 12 offset bits. -/
def PAGE_BITS : Nat := 12

end DtuTlb

/-! ## dtu.cc: requests of the CPU -/

namespace DtuTlb

/-- Modelled from the spec: the access bits of `DtuTlb` are declared in tlb.hh, which is
not among the sources. Spec §3 gives the permission bits of a page-table entry as `IXWR`
(INTERN, EXEC, WRITE, READ), from the most to the least significant. -/
def READ : Nat := 1

/-- Modelled from the spec: see `DtuTlb.READ`. -/
def WRITE : Nat := 2

/-- Modelled from the spec: see `DtuTlb.READ`. -/
def EXEC : Nat := 4

/-- Modelled from the spec: see `DtuTlb.READ`. -/
def INTERN : Nat := 8

/-- Modelled from the spec: the values of `DtuTlb::Result` (tlb.hh), which spec §3 lists
as HIT, MISS, PAGEFAULT and NOMAP. -/
inductive Result where
  | HIT
  | MISS
  | PAGEFAULT
  | NOMAP
deriving DecidableEq, Repr

end DtuTlb

/-- What `Dtu::handleCpuRequest` reads of a CPU packet: `getAddr()`, `isRead()` and
`isWrite()`. -/
structure CpuPacket where
  addr : Nat := 0
  isRead : Bool := false
  isWrite : Bool := false
deriving DecidableEq, Repr

/-- What `Dtu::handleCpuRequest` reads outside the register file: the member
`regFileBaseAddr` of the base class, the member `tlb` (a null pointer when the DTU has no
TLB) as the function `DtuTlb::lookup` of the virtual address and the access bits, and
`PtUnit::translateFunctional`. The TLB class is declared in tlb.hh, which is not among
the sources; every theorem holds for all lookup functions. -/
structure CpuEnv where
  regFileBaseAddr : Nat
  tlb : Option (Nat → Nat → DtuTlb.Result × NocAddr) := none
  translateFunctional : Nat → Nat → Option NocAddr := fun _ _ => none

/-- The calls by which `Dtu::handleCpuRequest` passes a request on, with the address of
the packet at the call. -/
inductive CpuAction where
  | forwardRequestToRegFile (addr : Nat)
  | regWatchRange (addr : Nat)
  | sendFunctional (addr : Nat)
  | schedTimingReq (addr : Nat)
  | startTranslate (virt access : Nat) (pf : Bool)
deriving DecidableEq, Repr

namespace Dtu

/-- `Dtu::translate`: the result (1, 0 or -1), the address of the packet afterwards and the
call of `PtUnit::startTranslate`, if any. The result is `none` when an assertion fails
(an instruction fetch that is not a read, or a physical address rejected by `getAddr`). -/
def translate (env : CpuEnv) (pkt : CpuPacket) (icache functional : Bool) :
    Option (Int × Nat × List CpuAction) :=
  match env.tlb with
  | none => some (1, pkt.addr, [])
  | some lookup =>
    if icache && !pkt.isRead then none
    else
      let access := DtuTlb.INTERN |||
        (if icache then DtuTlb.EXEC else if pkt.isRead then DtuTlb.READ else DtuTlb.WRITE)
      match lookup pkt.addr access with
      | (DtuTlb.Result.HIT, phys) =>
        match phys.getAddr with
        | none => none
        | some a => some (1, a, [])
      | (DtuTlb.Result.NOMAP, _) => some (-1, pkt.addr, [])
      | (res, _) =>
        let pf := res != DtuTlb.Result.MISS
        if functional then
          if !pf then
            match env.translateFunctional pkt.addr access with
            | some phys =>
              match phys.getAddr with
              | none => none
              | some a => some (1, a, [])
            | none => some (-1, pkt.addr, [])
          else some (-1, pkt.addr, [])
        else some (0, pkt.addr, [CpuAction.startTranslate pkt.addr access pf])

/-- `Dtu::handleCpuRequest`: the returned flag and the calls made. The result is `none`
when an assertion fails. -/
def handleCpuRequest (d : Dtu) (env : CpuEnv) (pkt : CpuPacket) (icache functional : Bool) :
    Option (Bool × List CpuAction) :=
  if pkt.addr ≥ env.regFileBaseAddr then
    if functional then none
    else if icache then some (false, [])
    else some (true, [CpuAction.forwardRequestToRegFile pkt.addr])
  else if pkt.isWrite && decide (pkt.addr ≥ d.regFile.RW_BARRIER) then
    some (false, [])
  else
    match translate env pkt icache functional with
    | none => none
    | some (tres, addr, acts) =>
      if tres = 1 then
        some (true, CpuAction.regWatchRange pkt.addr :: acts ++
          [if functional then CpuAction.sendFunctional addr
           else CpuAction.schedTimingReq addr])
      else if tres = -1 then
        some (false, CpuAction.regWatchRange pkt.addr :: acts)
      else some (true, CpuAction.regWatchRange pkt.addr :: acts)

end Dtu

/-! ## xfer_unit.cc -/

/-- The data members of `XferUnit::TransferEvent` that xfer_unit.cc reads and writes; the
class is declared in xfer_unit.hh, which is not among the sources. -/
structure TransferEvent where
  type : TransferType := TransferType.LOCAL_READ
  remoteAddr : NocAddr := NocAddr.ofAddr 0
  localAddr : Nat := 0
  size : Nat := 0
  pkt : Option Packet := none
  flags : List XferFlag := []
deriving DecidableEq, Repr

/-- The data members of `XferUnit::Buffer` (xfer_unit.hh): `id`, `event`, the cursor
`offset` into `bytes`, `free`, and the contents of the array `bytes` from its start, as
far as they have been written. -/
structure Buffer where
  id : Nat := 0
  event : TransferEvent := {}
  offset : Nat := 0
  free : Bool := true
  bytes : List Nat := []
deriving DecidableEq, Repr

/-- The `n` bytes behind a pointer to the start of `src`; a byte beyond the end of the
list, which has not been written, reads as 0. -/
def peekBytes (src : List Nat) (n : Nat) : List Nat :=
  (src ++ List.replicate (n - src.length) 0).take n

/-- `memcpy(dst + off, src, n)` on a byte array. -/
def pokeBytes (dst : List Nat) (off : Nat) (src : List Nat) (n : Nat) : List Nat :=
  peekBytes dst off ++ peekBytes src n ++ dst.drop (off + n)

/-- A memory request of type `MemReqType::TRANSFER` as `TransferEvent::translateDone`
passes it to `Dtu::sendMemRequest`: the local (virtual) address, the physical address and
size of the generated packet, whether it is a `WriteReq`, the buffer id, and for a
`WriteReq` the bytes copied into the packet. -/
structure MemRequest where
  virt : Nat
  addr : Nat
  size : Nat
  writing : Bool
  bufId : Nat
  data : List Nat := []
deriving DecidableEq, Repr

/-- The events the transfer engine leaves for later: `process bufId` is the
`TransferEvent` of a buffer scheduled by `dtu.schedule`; `memResponse bufId size data` is
a memory request scheduled by `schedMemRequest`, whose response reaches
`XferUnit::recvMemResponse` with the bytes `data` of its packet; `translation bufId virt access pf` is a translation started
with `Dtu::startTranslate`, whose end reaches `TransferEvent::translateDone`; `start t`
is a `StartEvent` that repeats `XferUnit::startTransfer`. -/
inductive XferEvent where
  | process (bufId : Nat)
  | memResponse (bufId size : Nat) (data : List Nat)
  | translation (bufId virt access : Nat) (pf : Bool)
  | start (t : Transfer)
deriving DecidableEq, Repr

/-- The calls by which the transfer engine hands a finished transfer back to the DTU;
`sendNocRequest` has the type (`MESSAGE` or `WRITE_REQ`), the address, the size and the
bytes of the packet. -/
inductive XferAction where
  | sendNocRequest (message : Bool) (addr size : Nat) (data : List Nat)
  | scheduleFinishOp
  | freeRequest (pkt : Option Packet)
  | finishMsgReceive (epId msgAddr : Nat)
  | schedNocResponse (pkt : Packet)
  | schedNocRequestFinished
deriving DecidableEq, Repr

/-- How a call can end without a result: an assertion of the code fails (or a null
pointer is used), or the model has used up its fuel. -/
inductive Stop where
  | assertion
  | fuel
deriving DecidableEq, Repr

/-- The state of the class `XferUnit` with the member `atomicMode` of its DTU, and the
record of what leaves it: the memory requests in the order of issue, the events left for
later in the order of scheduling, and the calls back into the DTU. `localMem` holds the
contents of the local memory behind the DTU, which a read request returns, as pairs of
physical address and byte. -/
structure XferUnit where
  blockSize : Nat := 64
  bufSize : Nat := 1024
  bufs : List Buffer := []
  atomicMode : Bool := false
  memReqs : List MemRequest := []
  events : List XferEvent := []
  actions : List XferAction := []
  localMem : List (Nat × Nat) := []
deriving DecidableEq, Repr

namespace XferUnit

/-- The byte of the local memory at the physical address `a`: the first pair for `a`, and
0 when there is none. -/
def memByte (m : List (Nat × Nat)) (a : Nat) : Nat :=
  match m.find? (fun p => p.1 == a) with
  | some p => p.2
  | none => 0

/-- The bytes that a read request of `n` bytes at the physical address `addr` returns. -/
def readMem (m : List (Nat × Nat)) (addr n : Nat) : List Nat :=
  (List.range n).map (fun i => memByte m (addr + i))

/-- The type of the member `tlb` of the DTU as the transfer engine uses it: a null pointer,
or `DtuTlb::lookup` as a function of the virtual address and the access bits. -/
abbrev Tlb : Type := Option (Nat → Nat → DtuTlb.Result × NocAddr)

/-- Whether a buffer is in use by a transfer with the `MSGRECV` flag. -/
def Buffer.receiving (b : Buffer) : Bool :=
  !b.free && b.event.flags.contains XferFlag.MSGRECV

/-- The statement `buf->offset += n` under the condition `c`. -/
def Buffer.advance (b : Buffer) (c : Bool) (n : Nat) : Buffer :=
  if c then { b with offset := b.offset + n } else b

/-- The statements `memcpy(buf->bytes + buf->offset, data, n); buf->offset += n` under the
condition `c`. -/
def Buffer.receive (b : Buffer) (c : Bool) (data : List Nat) (n : Nat) : Buffer :=
  if c then { b with bytes := pokeBytes b.bytes b.offset data n, offset := b.offset + n }
  else b

/-- `XferUnit::allocateBuf`: the index of the buffer returned, or `none` for `NULL`. -/
def allocateBuf (x : XferUnit) (recvmsg : Bool) : Option Nat × XferUnit :=
  if recvmsg && x.bufs.any Buffer.receiving then (none, x)
  else
    match x.bufs.findIdx? (fun b => b.free) with
    | some i =>
      (some i, { x with bufs := x.bufs.modify (fun b => { b with free := false, offset := 0 }) i })
    | none => (none, x)

/-- `XferUnit::startTransfer`. -/
def startTransfer (x : XferUnit) (t : Transfer) : Except Stop (Bool × XferUnit) :=
  match allocateBuf x (t.flags.contains XferFlag.MSGRECV) with
  | (none, x1) => Except.ok (false, { x1 with events := x1.events ++ [XferEvent.start t] })
  | (some i, x1) =>
    match x1.bufs[i]? with
    | none => Except.error Stop.assertion
    | some buf =>
      if buf.event.size ≠ 0 then Except.error Stop.assertion
      else
        let ev : TransferEvent :=
          { type := t.type, remoteAddr := t.targetAddr, localAddr := t.sourceAddr,
            size := t.size, pkt := none, flags := t.flags }
        let buf1 : Buffer :=
          match t.header, t.pkt with
          | some header, _ =>
            { buf with
              event := { ev with flags := ev.flags.insert XferFlag.MESSAGE }
              offset := buf.offset + sizeofMessageHeader
              bytes := pokeBytes buf.bytes 0 header.toBytes sizeofMessageHeader }
          | none, some pkt =>
            { buf with
              event := { ev with pkt := t.pkt }
              bytes := pokeBytes buf.bytes 0 pkt.data pkt.size }
          | none, none => { buf with event := ev }
        let remote := t.type = TransferType.REMOTE_READ ∨ t.type = TransferType.REMOTE_WRITE
        Except.ok (true,
          { x1 with
            bufs := x1.bufs.set i buf1
            events := x1.events ++ [XferEvent.process i]
            actions :=
              if remote then x1.actions ++ [XferAction.schedNocRequestFinished]
              else x1.actions })

/-- The packet that `TransferEvent::translateDone` generates for the next block of the
transfer of `buf`, as it is passed to `Dtu::sendMemRequest`: `reqSize` bytes at the
physical address `pa`; a `WriteReq` carries the bytes of the buffer from the cursor on. -/
def nextRequest (buf : Buffer) (pa reqSize : Nat) : MemRequest :=
  let writing := decide (buf.event.type = TransferType.REMOTE_WRITE ∨
    buf.event.type = TransferType.LOCAL_WRITE)
  { virt := buf.event.localAddr, addr := pa, size := reqSize, writing := writing,
    bufId := buf.id,
    data := if writing then peekBytes (buf.bytes.drop buf.offset) reqSize else [] }

/-- `XferUnit::TransferEvent::translateDone` of the event of buffer `bufId`, with
`Dtu::sendMemRequest` as the argument `send`. -/
def translateDone (send : XferUnit → MemRequest → Except Stop XferUnit) (x : XferUnit)
    (bufId : Nat) (success : Bool) (phys : NocAddr) : Except Stop XferUnit :=
  match x.bufs[bufId]? with
  | none => Except.error Stop.assertion
  | some buf =>
    if !success then Except.error Stop.assertion
    else if buf.event.size = 0 then Except.error Stop.assertion
    else
      let localOff := buf.event.localAddr &&& ((x.blockSize + 2 ^ 64 - 1) % 2 ^ 64)
      let reqSize := min buf.event.size ((x.blockSize + 2 ^ 64 - localOff) % 2 ^ 64)
      let writing := decide (buf.event.type = TransferType.REMOTE_WRITE ∨
        buf.event.type = TransferType.LOCAL_WRITE)
      match phys.getAddr with
      | none => Except.error Stop.assertion
      | some pa =>
        if writing && decide (x.bufSize < buf.offset + reqSize) then
          Except.error Stop.assertion
        else
          let x1 : XferUnit :=
            { x with bufs := x.bufs.set bufId (Buffer.advance buf writing reqSize) }
          match send x1 (nextRequest buf pa reqSize) with
          | Except.error e => Except.error e
          | Except.ok x2 =>
            match x2.bufs[bufId]? with
            | none => Except.error Stop.assertion
            | some buf2 =>
              Except.ok { x2 with
                bufs := x2.bufs.set bufId { buf2 with
                  event := { buf2.event with
                    localAddr := (buf2.event.localAddr + reqSize) % 2 ^ 64
                    size := (buf2.event.size + 2 ^ 64 - reqSize) % 2 ^ 64 } } }

/-- `XferUnit::TransferEvent::process` of the event of buffer `bufId`. -/
def process (send : XferUnit → MemRequest → Except Stop XferUnit) (tlb : Tlb)
    (x : XferUnit) (bufId : Nat) : Except Stop XferUnit :=
  match x.bufs[bufId]? with
  | none => Except.error Stop.assertion
  | some buf =>
    match tlb with
    | none => translateDone send x bufId true (NocAddr.ofAddr buf.event.localAddr)
    | some lookup =>
      let writing := buf.event.type = TransferType.REMOTE_WRITE ∨
        buf.event.type = TransferType.LOCAL_WRITE
      let remote := buf.event.type = TransferType.REMOTE_WRITE ∨
        buf.event.type = TransferType.REMOTE_READ
      let access := (if writing then DtuTlb.WRITE else DtuTlb.READ) |||
        (if remote then 0 else DtuTlb.INTERN)
      match lookup buf.event.localAddr access with
      | (DtuTlb.Result.HIT, phys) => translateDone send x bufId true phys
      | (DtuTlb.Result.NOMAP, _) => Except.error Stop.assertion
      | (res, _) =>
        Except.ok { x with
          events := x.events ++ [XferEvent.translation bufId buf.event.localAddr access
            (res == DtuTlb.Result.PAGEFAULT)] }

/-- The block of `XferUnit::recvMemResponse` that ends a transfer whose size has reached
zero: the call back into the DTU by transfer type, then `buf->free = true`. -/
def finishTransfer (x : XferUnit) (bufId : Nat) (buf : Buffer) : Except Stop XferUnit :=
  let freed : List XferAction → Except Stop XferUnit := fun acts =>
    Except.ok { x with
      bufs := x.bufs.set bufId { buf with free := true }
      actions := x.actions ++ acts }
  match buf.event.type with
  | TransferType.LOCAL_READ =>
    match buf.event.remoteAddr.getAddr with
    | none => Except.error Stop.assertion
    | some a =>
      freed [XferAction.sendNocRequest (buf.event.flags.contains XferFlag.MESSAGE) a
        buf.offset (peekBytes buf.bytes buf.offset)]
  | TransferType.LOCAL_WRITE =>
    freed ((if buf.event.flags.contains XferFlag.LAST then [XferAction.scheduleFinishOp]
      else []) ++ [XferAction.freeRequest buf.event.pkt])
  | _ =>
    match buf.event.pkt with
    | none => Except.error Stop.assertion
    | some pkt =>
      freed ((if buf.event.flags.contains XferFlag.MSGRECV then
          [XferAction.finishMsgReceive (NocAddr.ofAddr pkt.addr).offset buf.event.localAddr]
        else []) ++
        (if pkt.needsResponse then
          [XferAction.schedNocResponse
            (if buf.event.type = TransferType.REMOTE_READ then
              { pkt with data := peekBytes buf.bytes buf.offset }
             else pkt)]
         else []))

/-- `XferUnit::recvMemResponse` for a response of `size` bytes `data` to a request of
buffer `bufId`. -/
def recvMemResponse (send : XferUnit → MemRequest → Except Stop XferUnit) (tlb : Tlb)
    (x : XferUnit) (bufId : Nat) (data : List Nat) (size : Nat) : Except Stop XferUnit :=
  match x.bufs[bufId]? with
  | none => Except.error Stop.assertion
  | some buf =>
    if buf.free then Except.error Stop.assertion
    else
      let reading := decide (buf.event.type = TransferType.LOCAL_READ ∨
        buf.event.type = TransferType.REMOTE_READ)
      if reading && decide (x.bufSize < buf.offset + size) then Except.error Stop.assertion
      else
        let buf1 : Buffer := Buffer.receive buf reading data size
        let x1 : XferUnit := { x with bufs := x.bufs.set bufId buf1 }
        if buf.event.size = 0 then finishTransfer x1 bufId buf1
        else process send tlb x1 bufId

/-- The bytes of the packet of the request `req` when its response arrives: the bytes
written for a `WriteReq`, the contents of the local memory for a `ReadReq`. -/
def responseData (x : XferUnit) (req : MemRequest) : List Nat :=
  if req.writing then req.data else readMem x.localMem req.addr req.size

/-- `Dtu::sendMemRequest` for a request of type `MemReqType::TRANSFER`. In timing mode the
request is scheduled, and its response arrives later. In atomic mode the request is sent
and `Dtu::completeMemRequest` is called before returning, which calls
`XferUnit::recvMemResponse` with the buffer id, the bytes and the size of the packet; the
first argument bounds the depth of these nested calls. -/
def sendMemRequest (tlb : Tlb) : Nat → XferUnit → MemRequest → Except Stop XferUnit
  | 0, x, req =>
    if x.atomicMode then Except.error Stop.fuel
    else
      Except.ok { x with
        memReqs := x.memReqs ++ [req]
        events := x.events ++
          [XferEvent.memResponse req.bufId req.size (responseData x req)] }
  | f + 1, x, req =>
    if x.atomicMode then
      recvMemResponse (sendMemRequest tlb f) tlb { x with memReqs := x.memReqs ++ [req] }
        req.bufId (responseData x req) req.size
    else
      Except.ok { x with
        memReqs := x.memReqs ++ [req]
        events := x.events ++
          [XferEvent.memResponse req.bufId req.size (responseData x req)] }

/-- One event taken from the queue: the scheduled `TransferEvent` is processed, the memory
response is delivered, the finished translation calls `translateDone` with the physical
address `walk virt access` found by the page-table unit, the `StartEvent` calls
`startTransfer` again. -/
def step (tlb : Tlb) (walk : Nat → Nat → NocAddr) (depth : Nat) (x : XferUnit) :
    XferEvent → Except Stop XferUnit
  | XferEvent.process b => process (sendMemRequest tlb depth) tlb x b
  | XferEvent.memResponse b size data =>
    recvMemResponse (sendMemRequest tlb depth) tlb x b data size
  | XferEvent.translation b virt access _ =>
    translateDone (sendMemRequest tlb depth) x b true (walk virt access)
  | XferEvent.start t =>
    match startTransfer x t with
    | Except.error e => Except.error e
    | Except.ok (_, x1) => Except.ok x1

/-- The event loop: the events left for later are taken in the order of scheduling until
none is left, at most `fuel` of them. -/
def run (tlb : Tlb) (walk : Nat → Nat → NocAddr) (depth : Nat) :
    Nat → XferUnit → Except Stop XferUnit
  | 0, x => if x.events = [] then Except.ok x else Except.error Stop.fuel
  | fuel + 1, x =>
    match x.events with
    | [] => Except.ok x
    | e :: rest =>
      match step tlb walk depth { x with events := rest } e with
      | Except.error err => Except.error err
      | Except.ok x1 => run tlb walk depth fuel x1

end XferUnit

namespace XferUnit

/-- The states of the transfer engine reachable from a pool of free buffers with idle
events: by a call of `startTransfer`, by one event (a scheduled `TransferEvent`, a memory
response for any buffer and size, the end of a translation with any physical address, or
a repeated `startTransfer`) whose call returns, or by dropping the oldest queued event. -/
inductive Reachable (tlb : Tlb) : XferUnit → Prop where
  | init (blockSize bufSize bufCount : Nat) (atomicMode : Bool)
      (localMem : List (Nat × Nat)) :
      Reachable tlb
        { blockSize := blockSize, bufSize := bufSize, atomicMode := atomicMode,
          bufs := (List.range bufCount).map (fun i => { id := i }), localMem := localMem }
  | startTransfer {x x1 : XferUnit} (t : Transfer) (r : Bool) :
      Reachable tlb x → startTransfer x t = Except.ok (r, x1) → Reachable tlb x1
  | step {x x1 : XferUnit} (walk : Nat → Nat → NocAddr) (depth : Nat) (e : XferEvent) :
      Reachable tlb x → step tlb walk depth x e = Except.ok x1 → Reachable tlb x1
  | dequeue {x : XferUnit} :
      Reachable tlb x → Reachable tlb { x with events := x.events.tail }

end XferUnit

/-- The buffers of the second list that are in use with `MSGRECV` are in use with
`MSGRECV` in the first list, at the same index. -/
def Shrinks (l l1 : List Buffer) : Prop :=
  ∀ (i : Nat) (b1 : Buffer), l1[i]? = some b1 → XferUnit.Buffer.receiving b1 = true →
    ∃ b : Buffer, l[i]? = some b ∧ XferUnit.Buffer.receiving b = true

/-- At most one buffer is in use with `MSGRECV`: two buffers in use with `MSGRECV` are
the same buffer. -/
def AtMostOneReceiving (l : List Buffer) : Prop :=
  ∀ (i j : Nat) (bi bj : Buffer), l[i]? = some bi → l[j]? = some bj →
    XferUnit.Buffer.receiving bi = true → XferUnit.Buffer.receiving bj = true → i = j

/-- The block requests of a transfer of `s` bytes from the local address `a` with blocks
of `B` bytes, as pairs of address and length: the first request starts at `a`, its length
is `min s (B - a mod B)` and at least 1, it ends within the block it starts in, and the
rest is the same for the `s - l` bytes from `a + l`; the list ends when no byte is left. -/
def IsBlockSeq (B : Nat) : Nat → Nat → List (Nat × Nat) → Prop
  | _, s, [] => s = 0
  | a, s, (a1, l) :: rest =>
    a1 = a ∧ l = min s (B - a % B) ∧ 1 ≤ l ∧ a / B = (a + l - 1) / B ∧
      IsBlockSeq B (a + l) (s - l) rest

/-- What the event loop needs of the translations of a transfer: an address found by the
TLB or by the page-table unit passes the assertions of `NocAddr::getAddr`, and the TLB
does not answer `NOMAP` (the assertion of `TransferEvent::process`). -/
def TranslatesAll (tlb : XferUnit.Tlb) (walk : Nat → Nat → NocAddr) : Prop :=
  (∀ v acc, ((walk v acc).getAddr).isSome = true) ∧
  (∀ lookup, tlb = some lookup → ∀ v acc,
    (lookup v acc).1 ≠ DtuTlb.Result.NOMAP ∧ ((lookup v acc).2.getAddr).isSome = true)

/-- What `XferUnit::recvMemResponse` needs of a finished transfer: the remote address of a
`LOCAL_READ` passes the assertions of `NocAddr::getAddr`, and a remote transfer has its
packet (`assert(buf->event.pkt != NULL)`). -/
def CanFinish (ev : TransferEvent) : Prop :=
  (ev.type = TransferType.LOCAL_READ → (ev.remoteAddr.getAddr).isSome = true) ∧
  (ev.type = TransferType.REMOTE_READ ∨ ev.type = TransferType.REMOTE_WRITE →
    ev.pkt.isSome = true)

/-- The state in which the transfer of buffer `b` is about to handle its next block: timing
mode, blocks of `2^k` bytes, no event queued, the buffer in use with its own index as id,
bytes left to transfer that do not wrap around the 64-bit address space and fit into the
buffer behind the cursor, and an event that can be finished. -/
def LoopReady (k : Nat) (x : XferUnit) (b : Nat) (buf : Buffer) : Prop :=
  x.atomicMode = false ∧ x.blockSize = 2 ^ k ∧ x.events = [] ∧ x.bufs[b]? = some buf ∧
  buf.id = b ∧ buf.free = false ∧ 0 < buf.event.size ∧
  buf.event.localAddr + buf.event.size ≤ 2 ^ 64 ∧
  buf.offset + buf.event.size ≤ x.bufSize ∧ CanFinish buf.event

/-- The length of the next block request of the transfer of `buf` with blocks of `2^k`
bytes. -/
def blockLen (k : Nat) (buf : Buffer) : Nat :=
  min buf.event.size (2 ^ k - buf.event.localAddr % 2 ^ k)

/-- The buffer `buf` after the block request of `translateDone` at the physical address
`pa` and the delivery of its response in the state `x`: the event has moved on to the next
block and the cursor behind the bytes of this one. -/
def Buffer.afterBlock (k : Nat) (x : XferUnit) (buf : Buffer) (pa : Nat) : Buffer :=
  XferUnit.Buffer.receive
    { XferUnit.Buffer.advance buf
        (decide (buf.event.type = TransferType.REMOTE_WRITE ∨
          buf.event.type = TransferType.LOCAL_WRITE)) (blockLen k buf) with
      event := { buf.event with
        localAddr := (buf.event.localAddr + blockLen k buf) % 2 ^ 64
        size := buf.event.size - blockLen k buf } }
    (decide (buf.event.type = TransferType.LOCAL_READ ∨
      buf.event.type = TransferType.REMOTE_READ))
    (XferUnit.responseData x (XferUnit.nextRequest buf pa (blockLen k buf)))
    (blockLen k buf)

/-- The state `x` after the block request of the transfer of buffer `b` at the physical
address `pa` and the delivery of its response. -/
def XferUnit.afterBlock (k : Nat) (x : XferUnit) (b : Nat) (buf : Buffer) (pa : Nat) :
    XferUnit :=
  { x with
    bufs := x.bufs.set b (Buffer.afterBlock k x buf pa)
    memReqs := x.memReqs ++ [XferUnit.nextRequest buf pa (blockLen k buf)]
    events := [] }

/-! ## system.cc: the boot modules -/

namespace M3X86System

/-- The C library function `isspace` in the C locale: the space and the characters 9 to 13
(tab, line feed, vertical tab, form feed, carriage return). -/
def isspace (c : Char) : Bool :=
  c.toNat == 32 || (decide (9 ≤ c.toNat) && decide (c.toNat ≤ 13))

/-- The C string behind `c_str()`: the characters before the first NUL. -/
def cstr (s : List Char) : List Char :=
  s.takeWhile (fun c => c.toNat != 0)

/-- Whether `strncmp(s1, s2, n) == 0`: the two C strings, each with its terminating NUL,
agree on the first `n` characters, or up to the NUL when both end before. -/
def strncmpEq (s1 s2 : List Char) (n : Nat) : Bool :=
  (cstr s1 ++ [Char.ofNat 0]).take n == (cstr s2 ++ [Char.ofNat 0]).take n

/-- Whether `prog.compare(0, 6, "kernel") == 0`: the first six characters of `prog` (or
all of them when there are fewer) are `kernel`. -/
def isKernel (prog : List Char) : Bool :=
  prog.take 6 == "kernel".toList

/-- `M3X86System::isKernelArg`. -/
def isKernelArg (arg : List Char) : Bool :=
  arg == "daemon".toList || "requires=".toList.isPrefixOf arg ||
    "core=".toList.isPrefixOf arg || "pes=".toList.isPrefixOf arg ||
    "repeat=".toList.isPrefixOf arg

/-- The module list: pairs of program name and argument string. -/
abbrev Mods : Type := List (List Char × List Char)

/-- The lines `only put in each module once` of `extractModules`: the pair is appended
when no entry of the list has the name `prog` and `prog` is not empty. -/
def addModule (mods : Mods) (prog argstr : List Char) : Mods :=
  if !(mods.any (fun m => prog == m.1)) && !prog.isEmpty then mods ++ [(prog, argstr)]
  else mods

/-- The statements `if (!argstr.empty()) argstr += ' '; argstr += singleArg;`. -/
def appendArg (argstr singleArg : List Char) : List Char :=
  (if argstr.isEmpty then argstr else argstr ++ [' ']) ++ singleArg

/-- The variables of one call of `extractModules` that its loop changes: `prog`, `argstr`,
the module list, and the count `i` of arguments written. The kernel path and the memory
written by `writeArg` are not kept. -/
structure ArgState where
  prog : List Char := []
  argstr : List Char := []
  mods : Mods := []
  i : Nat := 0
deriving DecidableEq, Repr

/-- The statement `if (lvl == 0) writeArg(argsAddr, i, argv, arg, begin);`, of which the
count `i` is kept. -/
def countArg (lvl : Nat) (st : ArgState) : ArgState :=
  if lvl = 0 then { st with i := st.i + 1 } else st

/-- The nested call for the modules of another kernel and the entry for `prog`, as done at
a separator and at the end of the command line. -/
def closeModule (recurse : List Char → Mods → Except Stop Mods) (st : ArgState) :
    Except Stop Mods :=
  match (if isKernel st.prog then recurse st.argstr st.mods else Except.ok st.mods) with
  | Except.error e => Except.error e
  | Except.ok mods1 => Except.ok (addModule mods1 st.prog st.argstr)

/-- The body of `if (arg > begin)` inside the loop of `extractModules`, for the argument
`tok` that starts at `begin` (`begin` is the command line from there on). `modOffset`
tells whether the member `modOffset` is not zero, `recurse` is the call of
`extractModules` for the next level. -/
def handleArg (modOffset : Bool) (separator : List Char) (lvl : Nat)
    (recurse : List Char → Mods → Except Stop Mods) (begin tok : List Char)
    (st : ArgState) : Except Stop ArgState :=
  if lvl = 0 ∧ st.i = 0 then Except.ok (countArg lvl st)
  else if modOffset then
    if strncmpEq begin separator separator.length then
      match closeModule recurse st with
      | Except.error e => Except.error e
      | Except.ok mods1 => Except.ok (countArg lvl { st with mods := mods1, prog := [], argstr := [] })
    else if strncmpEq begin "pes=".toList 4 then
      if st.prog.isEmpty ∧ lvl = 0 then Except.error Stop.assertion
      else Except.ok (countArg lvl { st with argstr := appendArg st.argstr tok })
    else if strncmpEq begin "repeat=".toList 7 && isKernel st.prog then
      Except.ok (countArg lvl { st with argstr := appendArg st.argstr tok })
    else if st.prog.isEmpty then Except.ok (countArg lvl { st with prog := tok })
    else if !isKernelArg tok then
      Except.ok (countArg lvl { st with argstr := appendArg st.argstr tok })
    else Except.ok (countArg lvl st)
  else Except.ok (countArg lvl st)

/-- The loop `while (*arg)` of `extractModules`: the first argument is the command line
from `arg` on, `begin` the command line from `begin` on. The result is the state after
the loop and the last argument, not yet handled (empty when `arg == begin`). -/
def scanArgs (modOffset : Bool) (separator : List Char) (lvl : Nat)
    (recurse : List Char → Mods → Except Stop Mods) :
    List Char → List Char → ArgState → Except Stop (ArgState × List Char)
  | [], begin, st => Except.ok (st, begin)
  | c :: rest, begin, st =>
    if isspace c then
      if (c :: rest).length < begin.length then
        match handleArg modOffset separator lvl recurse begin
            (begin.take (begin.length - (c :: rest).length)) st with
        | Except.error e => Except.error e
        | Except.ok st1 => scanArgs modOffset separator lvl recurse rest rest st1
      else scanArgs modOffset separator lvl recurse rest rest st
    else scanArgs modOffset separator lvl recurse rest begin st

/-- The part of `extractModules` after the loop, for the last argument `tok` of the
command line when it is not followed by a space. -/
def lastArg (lvl : Nat) (recurse : List Char → Mods → Except Stop Mods) (tok : List Char)
    (st : ArgState) : Except Stop ArgState :=
  let st1 : ArgState :=
    if st.prog.isEmpty && !strncmpEq tok "pes=".toList 4 then { st with prog := tok }
    else if !isKernelArg tok then { st with argstr := appendArg st.argstr tok }
    else st
  match closeModule recurse st1 with
  | Except.error e => Except.error e
  | Except.ok mods1 =>
    Except.ok (countArg lvl { st1 with mods := mods1 })

/-- `M3X86System::extractModules`: the module list after the call for the command line
`args` at level `lvl`, started with the list `mods`. The first argument bounds the depth
of the nested calls. Reading `sep[lvl]` beyond the separator list is undefined and ends
the call like a failed assertion. -/
def extractModules (modOffset : Bool) (sep : List (List Char)) :
    Nat → List Char → Nat → Mods → Except Stop Mods
  | 0, _, _, _ => Except.error Stop.fuel
  | fuel + 1, args, lvl, mods =>
    match sep[lvl]? with
    | none => Except.error Stop.assertion
    | some separator =>
      let recurse : List Char → Mods → Except Stop Mods :=
        fun a m => extractModules modOffset sep fuel a (lvl + 1) m
      match scanArgs modOffset separator lvl recurse (cstr args) (cstr args)
          { mods := mods } with
      | Except.error e => Except.error e
      | Except.ok (st, tok) =>
        if tok.isEmpty then Except.ok st.mods
        else
          match lastArg lvl recurse tok st with
          | Except.error e => Except.error e
          | Except.ok st1 => Except.ok st1.mods

end M3X86System

/-- A call for the next level keeps the names of the module list distinct. -/
def KeepsDistinct (recurse : List Char → M3X86System.Mods → Except Stop M3X86System.Mods) :
    Prop :=
  ∀ a m m1, recurse a m = Except.ok m1 → (m.map Prod.fst).Nodup → (m1.map Prod.fst).Nodup

/-- A call for the next level does not run out of fuel on a command line that is at least
six characters shorter than `N`. -/
def EnoughFuel (N : Nat)
    (recurse : List Char → M3X86System.Mods → Except Stop M3X86System.Mods) : Prop :=
  ∀ a m, a.length + 6 ≤ N → recurse a m ≠ Except.error Stop.fuel

/-- The bound that the loop of `extractModules` keeps: `prog`, `argstr`, a space after a
non-empty `argstr`, and the command line from `begin` on have together at most `N`
characters. -/
def ArgBound (N : Nat) (st : M3X86System.ArgState) (begin : List Char) : Prop :=
  st.prog.length + st.argstr.length + (if st.argstr = [] then 0 else 1) + begin.length ≤ N

/-! ## pt_unit.cc: pagefault messages -/

namespace PtUnit

/-- The value `Status::PAGEFAULTS` of regfile.hh. -/
def PAGEFAULTS : Nat := 1 <<< 1

/-- The constant `Dtu::SYSCALL_EP`. -/
def SYSCALL_EP : Nat := 0

/-- Modelled from the spec: `sizeof(PagefaultMessage)`; the struct is declared in
pt_unit.hh, which is not among the sources. Spec §4.6 gives the message body as
`{opcode, virt, access}`; the three fields are taken as 64-bit words. -/
def sizeofPagefaultMessage : Nat := 24

/-- Modelled from the spec: `PagefaultMessage::OPCODE_PF` (pt_unit.hh), which the
pagefault scenario of the specification gives as 0. -/
def OPCODE_PF : Nat := 0

/-- Modelled from the spec: `TranslateEvent::finish` is defined in pt_unit.hh, which is
not among the sources. Spec §4.6: the waiters of the event are notified; each
`Translation` of `trans` is recorded with the success flag and the physical address. -/
def finish (d : Dtu) (ev : TranslateEvent) (success : Bool) (phys : NocAddr) : Dtu :=
  { d with ptUnit := { d.ptUnit with
      notified := d.ptUnit.notified ++ ev.trans.map (fun t => (t, success, phys)) } }

/-- The call `dtu.tlb->block(virt, flag)`, recorded. -/
def block (d : Dtu) (virt : Nat) (flag : Bool) : Dtu :=
  { d with ptUnit := { d.ptUnit with blocked := d.ptUnit.blocked ++ [(virt, flag)] } }

/-- The loop `can we merge the requests?` of `PtUnit::sendPagefaultMsg` over the queue:
the first queued event with the same access and the same page as `page` gets the waiter
appended to its `trans`; `none` when no queued event matches. The argument `page` is the
local variable `uint page`. -/
def mergeInto (page access waiter : Nat) : List TranslateEvent → Option (List TranslateEvent)
  | [] => none
  | qev :: rest =>
    if access = qev.access ∧ page = qev.virt >>> DtuTlb.PAGE_BITS then
      some ({ qev with trans := qev.trans ++ [waiter] } :: rest)
    else
      match mergeInto page access waiter rest with
      | none => none
      | some rest1 => some (qev :: rest1)

/-- `PtUnit::sendPagefaultMsg`: the returned flag and the state afterwards. The result is
`none` when an assertion fails, when the endpoint read is not a SEND endpoint, or when the
event to merge has no waiter (`*ev->trans.begin()` of an empty list). The field `senderVpeId` of the header is not assigned by
the code and is kept 0. -/
def sendPagefaultMsg (d : Dtu) (ev : TranslateEvent) (virt access : Nat) :
    Option (Bool × Dtu) :=
  if d.regFile.STATUS &&& PAGEFAULTS = 0 then
    let d1 := d.ptUnit.pfqueue.foldl (fun d0 qev => finish d0 qev false (NocAddr.ofAddr 0)) d
    some (false, { d1 with ptUnit := { d1.ptUnit with pfqueue := [] } })
  else
    let d1 := block d virt true
    let pfep := if ev.toKernel then SYSCALL_EP else d.regFile.PF_EP % 2 ^ 32
    if ¬ pfep < d.numEndpoints then none
    else
      match d.regFile.getSendEp pfep with
      | none => none
      | some ep0 =>
        let fallback := decide (ep0.maxMsgSize = 0)
        let ev1 : TranslateEvent := if fallback then { ev with toKernel := true } else ev
        let pfep1 := if fallback then SYSCALL_EP else pfep
        match (if fallback then d.regFile.getSendEp SYSCALL_EP else some ep0) with
        | none => none
        | some ep =>
          let size := sizeofMessageHeader + sizeofPagefaultMessage
          if ¬ size ≤ ep.maxMsgSize then none
          else
            let send : List TranslateEvent → Option (Bool × Dtu) := fun queue =>
              match (NocAddr.ofTuple ep.targetCore ep.vpeId ep.targetEp).getAddr with
              | none => none
              | some addr =>
                let header : MessageHeader :=
                  { length := sizeofPagefaultMessage
                    flags := PAGEFAULT ||| REPLY_ENABLED
                    label := ep.label
                    senderEpId := pfep1 % 2 ^ 8
                    senderCoreId := d.coreId % 2 ^ 16
                    replyLabel := ev.id
                    replyEpId := 0 }
                some (true, { d1 with ptUnit := { d1.ptUnit with
                  pfqueue := queue
                  sent := d1.ptUnit.sent ++
                    [{ addr := addr, size := size, header := header, opcode := OPCODE_PF,
                       virt := virt, access := access }] } })
            match d1.ptUnit.pfqueue with
            | [] => send [ev1]
            | front :: rest =>
              if front.id ≠ ev.id then
                let page := (virt >>> DtuTlb.PAGE_BITS) % 2 ^ 32
                match mergeInto page access (ev1.trans.head?.getD 0) (front :: rest) with
                | some queue =>
                  if ev1.trans = [] then none
                  else some (true, { d1 with ptUnit := { d1.ptUnit with pfqueue := queue } })
                | none =>
                  some (true, { d1 with ptUnit := { d1.ptUnit with
                    pfqueue := (front :: rest) ++ [{ ev1 with pf := true }] } })
              else send (ev1 :: rest)

/-- `PtUnit::mkTlbEntry`: the entry for the page of `virt` is recorded; `PAGE_MASK` (tlb.hh)
is taken as the mask of the `PAGE_BITS` offset bits. -/
def mkTlbEntry (d : Dtu) (virt : Nat) (phys : NocAddr) (flags : Nat) : Dtu :=
  { d with ptUnit := { d.ptUnit with
      tlbEntries := d.ptUnit.tlbEntries ++
        [(virt / 2 ^ DtuTlb.PAGE_BITS * 2 ^ DtuTlb.PAGE_BITS, phys, flags)] } }

/-- `PtUnit::nextPagefault` for the event with the address `id`. -/
def nextPagefault (d : Dtu) (id : Nat) : Option Dtu :=
  match d.ptUnit.pfqueue with
  | [] => none
  | front :: rest =>
    if front.id ≠ id then none
    else
      some { d with ptUnit := { d.ptUnit with
        pfqueue := rest
        scheduled := d.ptUnit.scheduled ++ rest.head?.toList } }

/-- `PtUnit::finishPagefault` for the reply `pkt`, of which `errorWord` is the 64-bit word
behind the header. The event named by the label of the header is the front of the queue,
or the assertion of `nextPagefault` fails. -/
def finishPagefault (d : Dtu) (pkt : Packet) (errorWord : Nat) : Option Dtu :=
  let expSize := sizeofMessageHeader + 8
  let error : Nat := if pkt.size = expSize then errorWord % 2 ^ 32 else 2 ^ 32 - 1
  match d.ptUnit.pfqueue with
  | [] => none
  | ev :: _ =>
    match nextPagefault d pkt.header.label with
    | none => none
    | some d1 =>
      let d2 : Dtu :=
        if d1.atomicMode then d1 else { d1 with nocResponses := d1.nocResponses ++ [pkt] }
      if error ≠ 0 then
        let d3 : Dtu :=
          if error = Error.NO_MAPPING.toNat then mkTlbEntry d2 ev.virt (NocAddr.ofAddr 0) 0
          else block d2 ev.virt false
        some (finish d3 ev false (NocAddr.ofAddr 0))
      else
        some { d2 with ptUnit := { d2.ptUnit with
          scheduled := d2.ptUnit.scheduled ++ [{ ev with pf := false, toKernel := false }] } }

/-- The branch of `TranslateEvent::recvFromMem` for a page-table entry that does not give
the access: the pagefault message is sent, and the waiters are told of the failure when
it is not. -/
def walkFailed (d : Dtu) (ev : TranslateEvent) : Option Dtu :=
  match sendPagefaultMsg d ev ev.virt ev.access with
  | none => none
  | some (true, d1) => some d1
  | some (false, d1) => some (finish d1 ev false (NocAddr.ofAddr 0))

end PtUnit

namespace Ring

/-- The rings reached from the empty ring by the callers of the ring operations, with the
slots handed out by `allocSlot` whose receive has not completed, each with the size of its
packet (`pending`), and the slots returned by `fetchMessage` that have not been
acknowledged (`fetched`). `recvFromNoc` calls `allocSlot` with the size `m` of the packet
(at most `maxPkt` bytes) and starts the transfer of the packet at the address of the slot;
when the transfer is done, `XferUnit::recvMemResponse` calls `finishMsgReceive` with
`buf->event.localAddr`, which `translateDone` has moved on by the `m` bytes transferred (a
transfer of no bytes fails the assertion `size > 0`). `ackMessage` is called with the
address of a fetched slot. An `allocSlot` that finds no free slot and a `fetchMessage` on
a ring with `msgCount == 0` write nothing and leave the state as it is. -/
inductive Tracked (bufAddr msgSize size maxPkt : Nat) :
    RecvEp → List (Nat × Nat) → List Nat → Prop where
  | empty : Tracked bufAddr msgSize size maxPkt
      { bufAddr := bufAddr, msgSize := msgSize, size := size } [] []
  | allocSlot {ep : RecvEp} {pending : List (Nat × Nat)} {fetched : List Nat} (m i : Nat)
      (ep1 : RecvEp) :
      Tracked bufAddr msgSize size maxPkt ep pending fetched → m ≤ maxPkt →
      Ring.allocSlot m ep = some (i, some ep1) →
      Tracked bufAddr msgSize size maxPkt ep1 ((i, m) :: pending) fetched
  | finishMsgReceive {ep : RecvEp} {pending : List (Nat × Nat)} {fetched : List Nat}
      (i m : Nat) (w : Option RecvEp) :
      Tracked bufAddr msgSize size maxPkt ep pending fetched → (i, m) ∈ pending → 0 < m →
      Ring.finishMsgReceive ep ((ep.bufAddr + i * ep.msgSize + m) % 2 ^ 64) = some w →
      Tracked bufAddr msgSize size maxPkt (w.getD ep) (pending.erase (i, m)) fetched
  | fetchMessage {ep : RecvEp} {pending : List (Nat × Nat)} {fetched : List Nat} (i : Nat)
      (ep1 : RecvEp) :
      Tracked bufAddr msgSize size maxPkt ep pending fetched → i < ep.size →
      Ring.fetchMessage ep = some ((ep.bufAddr + i * ep.msgSize) % 2 ^ 64, some ep1) →
      Tracked bufAddr msgSize size maxPkt ep1 pending (i :: fetched)
  | ackMessage {ep : RecvEp} {pending : List (Nat × Nat)} {fetched : List Nat} (i : Nat)
      (ep1 : RecvEp) :
      Tracked bufAddr msgSize size maxPkt ep pending fetched → i ∈ fetched →
      Ring.ackMessage ep ((ep.bufAddr + i * ep.msgSize) % 2 ^ 64) = some ep1 →
      Tracked bufAddr msgSize size maxPkt ep1 pending (fetched.erase i)

end Ring

/-- What holds of a tracked ring whose packets are shorter than a slot: the positions stay
within the ring, the set bits lie below `size`, unread slots are occupied, pending and
fetched slots are occupied and not unread, a slot is pending once, and `msgCount` counts
the unread bits. -/
structure RingInv (bufAddr msgSize size : Nat) (ep : RecvEp) (pending : List (Nat × Nat))
    (fetched : List Nat) : Prop where
  bufAddr_eq : ep.bufAddr = bufAddr
  msgSize_eq : ep.msgSize = msgSize
  size_eq : ep.size = size
  rdPos_le : ep.rdPos ≤ size
  wrPos_le : ep.wrPos ≤ size
  occupied_lt : ∀ j : Nat, ep.occupied.testBit j = true → j < size
  unread_occupied : ∀ j : Nat, ep.unread.testBit j = true → ep.occupied.testBit j = true
  pending_bits : ∀ j m : Nat, (j, m) ∈ pending →
    ep.occupied.testBit j = true ∧ ep.unread.testBit j = false ∧ j ∉ fetched ∧ m < msgSize
  fetched_bits : ∀ j : Nat, j ∈ fetched →
    ep.occupied.testBit j = true ∧ ep.unread.testBit j = false
  pending_nodup : (pending.map Prod.fst).Nodup
  fetched_nodup : fetched.Nodup
  count_eq : ep.msgCount = popcount ep.unread

/-! ## pt_unit.cc: the check of one page-table entry -/

/-- Modelled from the spec: `PtUnit::PageTableEntry` is declared in pt_unit.hh, which is
not among the sources. Spec §3 gives it as 64 bits packed from `base` (the physical page
number) and the permission bits `IXWR`; the two fields are kept apart here. -/
structure PageTableEntry where
  base : Nat := 0
  ixwr : Nat := 0
deriving DecidableEq, Repr

namespace PtUnit

/-- `PtUnit::finishTranslate` on the entry `e` that the packet carries: the returned flag,
and the values of `*access` (a `uint`) and `*phys` (an `Addr`) after the call. -/
def finishTranslate (e : PageTableEntry) (level : Int) (access phys : Nat) :
    Bool × Nat × Nat :=
  let required := if level = 0 then access else access &&& notBits 32 DtuTlb.INTERN
  if e.ixwr &&& required ≠ required then (false, access, phys)
  else (true, e.ixwr % 2 ^ 32, (e.base <<< DtuTlb.PAGE_BITS) % 2 ^ 64)

end PtUnit

/-! ## dtu.cc: requests to the register file -/

namespace RegFile

/-- `RegFile::WROTE_NONE` (regfile.hh). -/
def WROTE_NONE : Nat := 0

/-- `RegFile::WROTE_CMD` (regfile.hh). -/
def WROTE_CMD : Nat := 1

/-- `RegFile::WROTE_EXT_CMD` (regfile.hh). -/
def WROTE_EXT_CMD : Nat := 2

end RegFile

/-- The calls that `Dtu::forwardRequestToRegFile` makes after the register file has handled
the request. -/
inductive RegAction where
  | updateSuspendablePin
  | schedNocRequestFinished
  | schedCpuResponse
  | schedNocResponse
  | scheduleExecuteCommandEvent
  | scheduleExecExternCmdEvent
  | executeCommand
  | executeExternCommand
deriving DecidableEq, Repr

/-- `Dtu::forwardRequestToRegFile`, with `result` the value that `RegFile::handleRequest`
returned (regfile.cc is not among the sources): the calls made after it, in their order.
`~result & WROTE_EXT_CMD` is taken in 32 bits. -/
def Dtu.forwardRequestToRegFile (atomicMode : Bool) (result : Nat) (isCpuRequest : Bool) :
    List RegAction :=
  [RegAction.updateSuspendablePin] ++
  if !atomicMode then
    (if !isCpuRequest then [RegAction.schedNocRequestFinished] else []) ++
    (if notBits 32 result &&& RegFile.WROTE_EXT_CMD ≠ 0 then
      [if isCpuRequest then RegAction.schedCpuResponse else RegAction.schedNocResponse] ++
      (if result &&& RegFile.WROTE_CMD ≠ 0 then [RegAction.scheduleExecuteCommandEvent]
       else [])
    else [RegAction.scheduleExecExternCmdEvent])
  else
    (if result &&& RegFile.WROTE_CMD ≠ 0 then [RegAction.executeCommand] else []) ++
    (if result &&& RegFile.WROTE_EXT_CMD ≠ 0 then [RegAction.executeExternCommand] else [])

/-! ## system.cc: the PE array of the kernel environment -/

namespace M3X86System

/-- `M3X86System::MAX_PES` (system.hh). -/
def MAX_PES : Nat := 1024

/-- `M3X86System::MAX_MEM_MODS` (system.hh). -/
def MAX_MEM_MODS : Nat := 4

/-- `M3X86System::MemPEDesc` (system.hh). -/
structure MemPEDesc where
  pe : Nat := 0
  offs : Nat := 0
  size : Nat := 0
deriving DecidableEq, Repr

namespace KernelEnv

/-- `KernelEnv::TYPE_IMEM` (system.hh). -/
def TYPE_IMEM : Nat := 0

/-- `KernelEnv::TYPE_EMEM` (system.hh). -/
def TYPE_EMEM : Nat := 1

/-- `KernelEnv::TYPE_MEM` (system.hh). -/
def TYPE_MEM : Nat := 2

end KernelEnv

/-- What the loop `build PE array` of `initState` writes: `pes` holds `kenv.pes[i]` for the
indices `i` visited so far, `memWrites` the writes `kenv.mem_mods[j] = desc` as pairs
`(j, desc)` in their order (the array `mem_mods` has `MAX_MEM_MODS` elements), and `j` is
the local counter. -/
structure PeArray where
  pes : List Nat := []
  memWrites : List (Nat × MemPEDesc) := []
  j : Nat := 0
deriving DecidableEq, Repr

/-- The two `panic` calls of `initState` that concern the PE array. -/
inductive PeFatal where
  | tooManyPEs
  | tooManyMemoryModules
deriving DecidableEq, Repr

/-- The value of `kenv.pes[i]` at the end of one pass through the loop body: the type, then
`|= i << 54`, then `|= pes[i] & ~1`, in 64 bits. -/
def peEntry (i pe : Nat) : Nat :=
  let t := if pe &&& 1 ≠ 0 then KernelEnv.TYPE_MEM
    else if pe &&& notBits 64 1 ≠ 0 then KernelEnv.TYPE_IMEM
    else KernelEnv.TYPE_EMEM
  (t ||| (i <<< 54) % 2 ^ 64) ||| (pe &&& notBits 64 1)

/-- One pass through the body of the loop `for (size_t i = 0; i < pes.size(); ++i)` of
`initState`, for the descriptor `pe = pes[i]`. When `panic` is called, `kenv.pes[i]` holds
`TYPE_MEM`. -/
def buildPe (k : PeArray) (i pe : Nat) : PeArray × Option PeFatal :=
  if pe &&& 1 ≠ 0 then
    if k.j > MAX_MEM_MODS then
      ({ k with pes := k.pes ++ [KernelEnv.TYPE_MEM] }, some PeFatal.tooManyMemoryModules)
    else
      ({ pes := k.pes ++ [peEntry i pe]
         memWrites := k.memWrites ++
           [(k.j, { pe := i, offs := 0, size := pe &&& notBits 64 0x7 })]
         j := k.j + 1 }, none)
  else ({ k with pes := k.pes ++ [peEntry i pe] }, none)

/-- The loop `for (size_t i = 0; i < pes.size(); ++i)` of `initState` from index `i` on,
over the remaining descriptors. -/
def peLoop : List Nat → Nat → PeArray → PeArray × Option PeFatal
  | [], _, k => (k, none)
  | pe :: rest, i, k =>
    match buildPe k i pe with
    | (k1, some f) => (k1, some f)
    | (k1, none) => peLoop rest (i + 1) k1

/-- The PE array part of `initState` for the descriptors `pes` (with module loading, the
loop is inside `if (modOffset)`): the check `pes.size() > MAX_PES`, then the loop over the
zeroed arrays. -/
def buildPeArray (pes : List Nat) : PeArray × Option PeFatal :=
  if pes.length > MAX_PES then ({}, some PeFatal.tooManyPEs)
  else peLoop pes 0 {}

/-- The number of memory PEs among the descriptors: those with bit 0 set. -/
def memPeCount (pes : List Nat) : Nat := pes.countP (fun pe => pe &&& 1 != 0)

end M3X86System

/-! ## tlb.hh: the layout of the page tables -/

namespace DtuTlb

/-- Modelled from the spec: `DtuTlb::PAGE_SIZE` (tlb.hh, not among the sources), the size
of a page with `PAGE_BITS` offset bits. -/
def PAGE_SIZE : Nat := 1 <<< PAGE_BITS

/-- Modelled from the spec: `DtuTlb::PAGE_MASK`, the mask of the offset bits of an address,
as `virt & PAGE_MASK` is added to the physical page in pt_unit.cc. -/
def PAGE_MASK : Nat := PAGE_SIZE - 1

/-- Modelled from the spec: `DtuTlb::RWX`, the permission bits READ, WRITE and EXEC. -/
def RWX : Nat := READ ||| WRITE ||| EXEC

/-- Modelled from the spec: the constants `LEVEL_CNT`, `LEVEL_BITS` and `PTE_BITS` of
`DtuTlb` are declared in tlb.hh, which is not among the sources. Spec §3 calls them fixed
by the implementation (`LEVEL_CNT` typically 2 or 4, `LEVEL_BITS` index bits per level, the
size of an entry fixed by `PTE_BITS`); they are kept as parameters. -/
structure Layout where
  LEVEL_CNT : Nat
  LEVEL_BITS : Nat
  PTE_BITS : Nat
deriving DecidableEq, Repr

namespace Layout

/-- Modelled from the spec: `DtuTlb::LEVEL_MASK`, the mask of the `LEVEL_BITS` index bits
of one level. -/
def LEVEL_MASK (c : Layout) : Nat := (1 <<< c.LEVEL_BITS) - 1

/-- The index of `virt` into the table of `level`, as `mapPage` and `createPacket` compute
it: `idx = virt >> (PAGE_BITS + level * LEVEL_BITS); idx &= LEVEL_MASK`. -/
def idx (c : Layout) (virt level : Nat) : Nat :=
  (virt >>> (PAGE_BITS + level * c.LEVEL_BITS)) &&& c.LEVEL_MASK

/-- The address of the entry for `virt` in the table at `ptAddr`: `ptAddr + (idx <<
PTE_BITS)` in 64 bits. -/
def pteAddr (c : Layout) (ptAddr virt level : Nat) : Nat :=
  (ptAddr + (c.idx virt level <<< c.PTE_BITS) % 2 ^ 64) % 2 ^ 64

/-- The layouts in which at least one level exists, the entries of a table (8 bytes each,
the size of the 64-bit `PageTableEntry`) do not overlap and fill at most one page, and the
shifts of the index computation stay below 64 bits. -/
def WellFormed (c : Layout) : Prop :=
  0 < c.LEVEL_CNT ∧ 3 ≤ c.PTE_BITS ∧ c.LEVEL_BITS + c.PTE_BITS ≤ PAGE_BITS ∧
  PAGE_BITS + c.LEVEL_CNT * c.LEVEL_BITS ≤ 64

end Layout

end DtuTlb

/-- The physical memory as far as it holds page-table entries: the entry that a read of
`sizeof(PageTableEntry)` bytes at an address returns. -/
abbrev PteMem : Type := Nat → PageTableEntry

/-- `physProxy.write(pteAddr, entry)`. -/
def pteWrite (m : PteMem) (addr : Nat) (e : PageTableEntry) : PteMem :=
  fun p => if p = addr then e else m p

/-- `physProxy.memsetBlob(addr, 0, size)`: every entry that starts in the range is zero
afterwards. -/
def pteMemset (m : PteMem) (addr size : Nat) : PteMem :=
  fun p => if addr ≤ p ∧ p < addr + size then {} else m p

/-! ## system.cc: the page tables -/

namespace M3X86System

/-- `M3X86System::RT_START` (system.hh). -/
def RT_START : Nat := 0x3000

/-- `M3X86System::RT_SIZE` (system.hh). -/
def RT_SIZE : Nat := 0x20000

/-- `M3X86System::STACK_SIZE` (system.hh). -/
def STACK_SIZE : Nat := 0x1000

/-- `M3X86System::STACK_AREA` (system.hh). -/
def STACK_AREA : Nat := RT_START + RT_SIZE

/-- `M3X86System::RES_PAGES` (system.cc), the first value of `nextFrame`. -/
def RES_PAGES : Nat := (STACK_AREA + STACK_SIZE) >>> DtuTlb.PAGE_BITS

/-- The constant members `memPe` and `memOffset` of `M3X86System`, with the layout of the
page tables. -/
structure PtEnv where
  layout : DtuTlb.Layout
  memPe : Nat
  memOffset : Nat
deriving DecidableEq, Repr

/-- What `mapPage` reads and writes: the page-table entries in memory and the member
`nextFrame` (an `unsigned`). -/
structure PageTables where
  mem : PteMem
  nextFrame : Nat

/-- `M3X86System::getRootPt` (system.hh). -/
def getRootPt (s : PtEnv) : NocAddr := NocAddr.ofTuple s.memPe 0 s.memOffset

/-- One pass through the loop body of `M3X86System::mapPage` for level `i`, with `ptAddr`
the table of that level: the state and the new `ptAddr`. The result is `none` when
`assert(i > 0 || entry.ixwr == 0)` or an assertion of `NocAddr::getAddr` fails.
`nextFrame++ << PAGE_BITS` is an `unsigned` expression of 32 bits; the field `ixwr` holds
the four permission bits. -/
def mapLevel (s : PtEnv) (virt phys access i : Nat) (st : PageTables) (ptAddr : Nat) :
    Option (PageTables × Nat) :=
  let pteAddr := s.layout.pteAddr ptAddr virt i
  let entry := st.mem pteAddr
  if i = 0 ∧ entry.ixwr ≠ 0 then none
  else if entry.ixwr = 0 then
    let offset :=
      if i = 0 then (s.memOffset + phys) % 2 ^ 64
      else (s.memOffset + (st.nextFrame <<< DtuTlb.PAGE_BITS) % 2 ^ 32) % 2 ^ 64
    let nextFrame := if i = 0 then st.nextFrame else (st.nextFrame + 1) % 2 ^ 32
    match (NocAddr.ofTuple s.memPe 0 offset).getAddr with
    | none => none
    | some a =>
      let mem1 := if i > 0 then pteMemset st.mem a DtuTlb.PAGE_SIZE else st.mem
      let entry1 : PageTableEntry :=
        { base := a >>> DtuTlb.PAGE_BITS
          ixwr := (if i = 0 then access else DtuTlb.RWX) % 2 ^ 4 }
      some ({ mem := pteWrite mem1 pteAddr entry1, nextFrame := nextFrame },
        (entry1.base <<< DtuTlb.PAGE_BITS) % 2 ^ 64)
  else some (st, (entry.base <<< DtuTlb.PAGE_BITS) % 2 ^ 64)

/-- The loop `for (int i = LEVEL_CNT - 1; i >= 0; --i)` of `mapPage` with `n` levels left:
the levels `n - 1, ..., 0`. -/
def mapLevels (s : PtEnv) (virt phys access : Nat) :
    Nat → PageTables → Nat → Option PageTables
  | 0, st, _ => some st
  | n + 1, st, ptAddr =>
    match mapLevel s virt phys access n st ptAddr with
    | none => none
    | some (st1, ptAddr1) => mapLevels s virt phys access n st1 ptAddr1

/-- `M3X86System::mapPage`. -/
def mapPage (s : PtEnv) (st : PageTables) (virt phys access : Nat) : Option PageTables :=
  match (getRootPt s).getAddr with
  | none => none
  | some root => mapLevels s virt phys access s.layout.LEVEL_CNT st root

/-- A sequence of calls `mapPage(virt, phys, access)`, in their order. -/
def mapPages (s : PtEnv) : List (Nat × Nat × Nat) → PageTables → Option PageTables
  | [], st => some st
  | (virt, phys, access) :: rest, st =>
    match mapPage s st virt phys access with
    | none => none
    | some st1 => mapPages s rest st1

end M3X86System

/-! ## pt_unit.cc: the functional walk -/

namespace PtUnit

/-- `PtUnit::createPacket`: the address of the read request for the entry of `virt` at
`level` in the table at `ptAddr`, `none` when an assertion of `NocAddr::getAddr` fails. -/
def createPacket (c : DtuTlb.Layout) (virt ptAddr level : Nat) : Option Nat :=
  (NocAddr.ofAddr (c.pteAddr ptAddr virt level)).getAddr

/-- The loop of `PtUnit::translateFunctional` with `n` levels left, on the memory `mem`:
`none` when an assertion fails, `some none` when the function returns false, and the last
`ptePhys` when the loop runs to its end. -/
def walkLevels (c : DtuTlb.Layout) (mem : PteMem) (virt access : Nat) :
    Nat → Nat → Option (Option Nat)
  | 0, ptAddr => some (some ptAddr)
  | n + 1, ptAddr =>
    match createPacket c virt ptAddr n with
    | none => none
    | some a =>
      match finishTranslate (mem a) (n : Int) access 0 with
      | (false, _, _) => some none
      | (true, _, ptePhys) => walkLevels c mem virt access n ptePhys

/-- `PtUnit::translateFunctional` with `rootPt` the value of the register `ROOT_PT`:
`some none` when it returns false, and the value of `*phys` when it returns true. -/
def translateFunctional (c : DtuTlb.Layout) (rootPt : Nat) (mem : PteMem)
    (virt access : Nat) : Option (Option NocAddr) :=
  match walkLevels c mem virt access c.LEVEL_CNT rootPt with
  | none => none
  | some none => some none
  | some (some ptePhys) =>
    some (some (NocAddr.ofAddr ((ptePhys + (virt &&& DtuTlb.PAGE_MASK)) % 2 ^ 64)))

end PtUnit

/-! ## Words used to state the properties of the page tables -/

namespace M3X86System

/-- The address of the page frame `f` of the memory PE: `NocAddr(memPe, 0, memOffset +
(f << PAGE_BITS)).getAddr()`. Frame 0 holds the root table. -/
def PtEnv.frameAddr (s : PtEnv) (f : Nat) : Nat :=
  2 ^ 59 + s.memPe * 2 ^ 49 + (s.memOffset + f * 2 ^ 12)

/-- The frames that hold page tables when `nextFrame` is `nf` and was `n0` at the start:
frame 0 and the frames handed out since. -/
def IsTable (n0 nf f : Nat) : Prop := f = 0 ∨ (n0 ≤ f ∧ f < nf)

/-- What holds of the page tables built by `mapPage`: the frames handed out lie within
the offset range of a `NocAddr`, every table has a level (`lvl`), the root the highest,
and a used entry of a table above level 0 has the rights `RWX` and points to a table of
the next lower level. -/
structure PtInv (s : PtEnv) (n0 : Nat) (st : PageTables) (lvl : Nat → Nat) : Prop where
  n0_pos : 0 < n0
  n0_le : n0 ≤ st.nextFrame
  bound : ∀ f : Nat, IsTable n0 st.nextFrame f → s.memOffset + f * 2 ^ 12 + 2 ^ 12 ≤ 2 ^ 37
  root_lvl : lvl 0 + 1 = s.layout.LEVEL_CNT
  entries : ∀ f i : Nat, IsTable n0 st.nextFrame f → i < 2 ^ s.layout.LEVEL_BITS →
    0 < lvl f →
    (st.mem (s.frameAddr f + i * 2 ^ s.layout.PTE_BITS)).ixwr ≠ 0 →
    (st.mem (s.frameAddr f + i * 2 ^ s.layout.PTE_BITS)).ixwr = DtuTlb.RWX ∧
    ∃ g : Nat, n0 ≤ g ∧ g < st.nextFrame ∧
      ((st.mem (s.frameAddr f + i * 2 ^ s.layout.PTE_BITS)).base <<< DtuTlb.PAGE_BITS)
        % 2 ^ 64 = s.frameAddr g ∧
      lvl g + 1 = lvl f

/-- The entries that the walk for `virt` reads from the table at `t` with `n` levels left:
each lies in a table frame, the entries above level 0 have the rights `RWX`, the entry of
level 0 has the rights `rights`, and the last entry points to `target`. -/
def WalkPath (s : PtEnv) (n0 nf : Nat) (mem : PteMem) (virt target rights : Nat) :
    Nat → Nat → Prop
  | 0, t => t = target
  | n + 1, t =>
    ∃ f : Nat, IsTable n0 nf f ∧ t = s.frameAddr f ∧
      (mem (s.layout.pteAddr t virt n)).ixwr = (if n = 0 then rights else DtuTlb.RWX) ∧
      WalkPath s n0 nf mem virt target rights n
        (((mem (s.layout.pteAddr t virt n)).base <<< DtuTlb.PAGE_BITS) % 2 ^ 64)

/-- The entries that `mapPage` leaves as they are between two states: those in use whose
address is outside the frames handed out in between. -/
def KeepsEntries (s : PtEnv) (st st1 : PageTables) : Prop :=
  ∀ p : Nat, (st.mem p).ixwr ≠ 0 →
    (∀ g : Nat, st.nextFrame ≤ g → g < st1.nextFrame →
      ¬(s.frameAddr g ≤ p ∧ p < s.frameAddr g + 2 ^ 12)) →
    st1.mem p = st.mem p

end M3X86System

/-! ## Concrete states used by the examples -/

/-- A DTU whose endpoint 3 is the SEND endpoint of the first scenario of the specification
(`targetCore = 7, targetEp = 4, maxMsgSize = 64, credits = 128, label = 0xAA`) and whose
endpoint 4 is an empty RECEIVE ring (`bufAddr = 0x1000, msgSize = 64, size = 4`); the
local VPE id is 5 and a command is in progress. -/
def exampleDtu : Dtu :=
  { regFile :=
      { VPE_ID := 5
        DATA_ADDR := 0x500
        DATA_SIZE := 16
        epRegs := [Ep.INVALID, Ep.INVALID, Ep.INVALID,
          Ep.SEND { targetCore := 7, targetEp := 4, maxMsgSize := 64, credits := 128,
                    label := 0xAA },
          Ep.RECEIVE { bufAddr := 0x1000, msgSize := 64, size := 4 }] }
    cmdInProgress := true
    maxNocPacketSize := 512 }

/-- A message of 41 bytes for endpoint 4 of core 0 whose NoC address carries VPE id 6. -/
def otherVpePacket : Packet :=
  { addr := 2 ^ 59 + 6 * 2 ^ 38 + 4, size := 41, header := { flags := REPLY_ENABLED } }

/-- A DTU with local VPE id 5 whose endpoint 4 is the RECEIVE ring of the fourth scenario
of the specification: `size = 2` and both occupied bits set (one message read, one not). -/
def fullRingDtu : Dtu :=
  { regFile :=
      { VPE_ID := 5
        epRegs := [Ep.INVALID, Ep.INVALID, Ep.INVALID, Ep.INVALID,
          Ep.RECEIVE { bufAddr := 0x1000, msgSize := 64, size := 2, wrPos := 2, rdPos := 1,
                       msgCount := 1, occupied := 3, unread := 2 }] } }

/-- A message of 41 bytes for endpoint 4 whose NoC address carries VPE id 5. -/
def localVpePacket : Packet :=
  { addr := 2 ^ 59 + 5 * 2 ^ 38 + 4, size := 41, header := { flags := REPLY_ENABLED } }

/-- A DTU whose RECEIVE endpoint 4 (`bufAddr = 0x1000, msgSize = 64, size = 4`) holds one
fetched message in slot 3, and whose `OFFSET` register holds `0x1000 + 64 * (2^32 + 3)`,
an address far outside the ring. -/
def farOffsetDtu : Dtu :=
  { regFile :=
      { OFFSET := 0x1000 + 64 * (2 ^ 32 + 3)
        epRegs := [Ep.INVALID, Ep.INVALID, Ep.INVALID, Ep.INVALID,
          Ep.RECEIVE { bufAddr := 0x1000, msgSize := 64, size := 4, occupied := 8 }] } }

/-- A DTU whose RECEIVE endpoint 4 has `size = 2` while bit 5 of `occupied` is set, and
whose `OFFSET` register holds the address of slot 5. -/
def smallRingDtu : Dtu :=
  { regFile :=
      { OFFSET := 0x1000 + 5 * 64
        epRegs := [Ep.INVALID, Ep.INVALID, Ep.INVALID, Ep.INVALID,
          Ep.RECEIVE { bufAddr := 0x1000, msgSize := 64, size := 2, msgCount := 0,
                       occupied := 32 }] } }

/-- A DTU whose RECEIVE endpoint 4 holds one fetched message in slot 1, and whose `OFFSET`
register holds the address of that slot. -/
def ackDtu : Dtu :=
  { regFile :=
      { OFFSET := 0x1000 + 64
        epRegs := [Ep.INVALID, Ep.INVALID, Ep.INVALID, Ep.INVALID,
          Ep.RECEIVE { bufAddr := 0x1000, msgSize := 64, size := 4, rdPos := 2, wrPos := 2,
                       occupied := 3, unread := 1, msgCount := 1 }] } }

/-- A ring of three slots in which `msgCount = 1` although no unread bit is set; it is
reached from the empty ring by the operations of `staleCountOps`. -/
def staleCountRing : RecvEp :=
  { bufAddr := 0x1000, msgSize := 64, size := 3, rdPos := 1, wrPos := 1, msgCount := 1,
    occupied := 7, unread := 0 }

/-- A message is received into slot 0 and acknowledged without having been fetched; three
more slots are allocated (1, 2 and again 0), the receive into slot 0 completes, and the
message is fetched. -/
def staleCountOps : List RingOp :=
  [RingOp.allocSlot 41, RingOp.finishMsgReceive 0x1000, RingOp.ackMessage 0x1000,
   RingOp.allocSlot 41, RingOp.allocSlot 41, RingOp.allocSlot 41,
   RingOp.finishMsgReceive 0x1000, RingOp.fetchMessage]

/-- A DTU whose endpoint 4 is `staleCountRing`. -/
def staleCountDtu : Dtu :=
  { regFile :=
      { epRegs := [Ep.INVALID, Ep.INVALID, Ep.INVALID, Ep.INVALID, Ep.RECEIVE staleCountRing] } }

/-- A DTU whose RECEIVE endpoint 4 holds unread messages in slots 0 and 2 and a fetched
message in slot 1, with `rdPos = 2`. -/
def twoUnreadDtu : Dtu :=
  { regFile :=
      { epRegs := [Ep.INVALID, Ep.INVALID, Ep.INVALID, Ep.INVALID,
          Ep.RECEIVE { bufAddr := 0x1000, msgSize := 64, size := 4, rdPos := 2, wrPos := 3,
                       msgCount := 2, occupied := 7, unread := 5 }] } }

/-- A DTU whose RECEIVE endpoint 4 holds one message in slot 0 that has not been fetched,
and whose `OFFSET` register holds the address of that slot. -/
def unfetchedDtu : Dtu :=
  { regFile :=
      { OFFSET := 0x1000
        epRegs := [Ep.INVALID, Ep.INVALID, Ep.INVALID, Ep.INVALID,
          Ep.RECEIVE { bufAddr := 0x1000, msgSize := 64, size := 4, wrPos := 1,
                       occupied := 1, unread := 1, msgCount := 1 }] } }

/-- The RECEIVE endpoint of `ackDtu`: slot 0 unread, slot 1 fetched. -/
def ackRing : RecvEp :=
  { bufAddr := 0x1000, msgSize := 64, size := 4, rdPos := 2, wrPos := 2,
    occupied := 3, unread := 1, msgCount := 1 }

/-- The ring `ackRing` after slot 1 has been acknowledged. -/
def ackedRing : RecvEp :=
  { bufAddr := 0x1000, msgSize := 64, size := 4, rdPos := 2, wrPos := 2,
    occupied := 1, unread := 1, msgCount := 1 }

/-- The ring of `exampleDtu` after `allocSlot` has handed out slot 0. -/
def allocatedRing : RecvEp :=
  { bufAddr := 0x1000, msgSize := 64, size := 4, wrPos := 1, occupied := 1 }

/-- The ring `allocatedRing` after the receive into slot 0 has completed. -/
def oneMessageRing : RecvEp :=
  { bufAddr := 0x1000, msgSize := 64, size := 4, wrPos := 1, occupied := 1, unread := 1,
    msgCount := 1 }

/-- The ring `oneMessageRing` after its message has been fetched (and not yet
acknowledged). -/
def fetchedRing : RecvEp :=
  { bufAddr := 0x1000, msgSize := 64, size := 4, rdPos := 1, wrPos := 1, occupied := 1,
    unread := 0, msgCount := 0 }

/-- A DTU whose RECEIVE endpoint 4 has its buffer at address 0 and holds one unread message
in slot 0. -/
def zeroBufDtu : Dtu :=
  { regFile :=
      { epRegs := [Ep.INVALID, Ep.INVALID, Ep.INVALID, Ep.INVALID,
          Ep.RECEIVE { bufAddr := 0, msgSize := 64, size := 4, wrPos := 1,
                       occupied := 1, unread := 1, msgCount := 1 }] } }

/-- A DTU whose RECEIVE endpoint 4 is the ring reached by `staleCountOps` without the
final fetch: `msgCount = 2` with one unread bit. -/
def overCountDtu : Dtu :=
  { regFile :=
      { epRegs := [Ep.INVALID, Ep.INVALID, Ep.INVALID, Ep.INVALID,
          Ep.RECEIVE { bufAddr := 0x1000, msgSize := 64, size := 3, wrPos := 1,
                       occupied := 7, unread := 1, msgCount := 2 }] } }

/-- A DTU whose endpoint 4 is `oneMessageRing`. -/
def oneMessageDtu : Dtu :=
  { regFile :=
      { epRegs := [Ep.INVALID, Ep.INVALID, Ep.INVALID, Ep.INVALID, Ep.RECEIVE oneMessageRing] } }

/-- The RECEIVE endpoint of `twoUnreadDtu`. -/
def twoUnreadRing : RecvEp :=
  { bufAddr := 0x1000, msgSize := 64, size := 4, rdPos := 2, wrPos := 3,
    msgCount := 2, occupied := 7, unread := 5 }

/-- The SEND command of the first scenario of the specification: endpoint 3. -/
def sendCmd : Command := { opcode := Opcode.SEND, arg := 3 }

/-- The state after `sendCmd` has been started on `exampleDtu`. -/
def sentDtu : Dtu :=
  (MessageUnit.startTransmission exampleDtu sendCmd).getD exampleDtu

/-- A reply of 33 bytes for RECEIVE endpoint 4 and VPE 5 that grants credits to endpoint 3. -/
def grantPacket : Packet :=
  { addr := 2 ^ 59 + 5 * 2 ^ 38 + 4, size := 33,
    header := { flags := REPLY_FLAG ||| GRANT_CREDITS_FLAG, replyEpId := 3 } }

/-- The state after `grantPacket` has been received by `sentDtu`. -/
def grantedDtu : Dtu :=
  ((MessageUnit.recvFromNoc sentDtu grantPacket).map (fun r => r.2)).getD sentDtu

/-- The state after `sendCmd` has been started a second time, on `grantedDtu`. -/
def resentDtu : Dtu :=
  (MessageUnit.startTransmission grantedDtu sendCmd).getD grantedDtu

/-- A DTU with 8 endpoint-id bits in `COMMAND`, whose `COMMAND` register holds `2049`:
opcode field 1 (SEND), endpoint field 0, error field 1. -/
def errorFieldDtu : Dtu :=
  { regFile := { COMMAND := 2 ^ 11 + 1 }, numCmdEpidBits := 8 }

/-- A DTU with 8 endpoint-id bits in `COMMAND`, whose `COMMAND` register holds `2^43`. -/
def wideErrorDtu : Dtu :=
  { regFile := { COMMAND := 2 ^ 43 }, numCmdEpidBits := 8 }

/-- A DTU built with 61 endpoint-id bits in `COMMAND`. -/
def fullWidthDtu : Dtu :=
  { regFile := { COMMAND := 1 }, numCmdEpidBits := 61 }

/-- A DTU with 8 endpoint-id bits whose `COMMAND` register holds a SEND on endpoint 3. -/
def sendOnThreeDtu : Dtu :=
  { regFile := { COMMAND := 3 * 8 + 1 }, numCmdEpidBits := 8 }

/-- The header stored in slot 0 of the ring of core 7 by the SEND of the first scenario:
sent by endpoint 3 of VPE 5 on core 0, replies enabled, reply endpoint 2. -/
def storedHeader : MessageHeader :=
  { flags := REPLY_ENABLED, senderCoreId := 0, senderEpId := 3, replyEpId := 2, length := 16,
    senderVpeId := 5, label := 0xAA, replyLabel := 0xBB }

/-- The DTU of core 7 in the third scenario of the specification: RECEIVE endpoint 4 holds
the fetched message in slot 0, `OFFSET = 0x1000`, `DATA_SIZE = 8`, and `COMMAND` holds a
REPLY on endpoint 4 (8 endpoint-id bits). -/
def replyDtu : Dtu :=
  { regFile :=
      { VPE_ID := 6
        COMMAND := 4 * 8 + 2
        OFFSET := 0x1000
        DATA_ADDR := 0x600
        DATA_SIZE := 8
        epRegs := [Ep.INVALID, Ep.INVALID, Ep.INVALID, Ep.INVALID, Ep.RECEIVE fetchedRing] }
    coreId := 7
    numCmdEpidBits := 8
    maxNocPacketSize := 512 }

/-- The REPLY command held by `replyDtu`. -/
def replyCmd : Command := { opcode := Opcode.REPLY, arg := 4, epid := 4 }

/-- The state after `executeCommand` has started the REPLY of `replyDtu`. -/
def replyStartedDtu : Dtu := (replyDtu.executeCommand).getD replyDtu

/-- The response to the header read of the REPLY: the 25 bytes of `storedHeader`, read at
the physical address `0x81000`. -/
def headerPacket : MemPacket := { addr := 0x81000, data := storedHeader.toBytes }

/-- The state after the header has come back: the reply is being transferred. -/
def replySentDtu : Dtu :=
  (MessageUnit.recvFromMem replyStartedDtu replyCmd headerPacket).getD replyStartedDtu

/-- The state after the REPLY has been finished with error `NONE`. -/
def replyDoneDtu : Dtu := (replySentDtu.finishCommand Error.NONE).getD replySentDtu

/-- The DTU of core 0 in the first scenario of the specification, VPE 5: endpoint 3 is the
SEND endpoint (towards endpoint 4 of VPE 6 on core 7), `DATA_ADDR = 0x500`,
`DATA_SIZE = 16`, replies are to go to endpoint 2 with label `0xBB`. -/
def senderDtu : Dtu :=
  { regFile :=
      { VPE_ID := 5
        DATA_ADDR := 0x500
        DATA_SIZE := 16
        REPLY_EPID := 2
        REPLY_LABEL := 0xBB
        epRegs := [Ep.INVALID, Ep.INVALID, Ep.INVALID,
          Ep.SEND { vpeId := 6, targetCore := 7, targetEp := 4, maxMsgSize := 64,
                    credits := 128, label := 0xAA }] }
    cmdInProgress := true
    maxNocPacketSize := 512 }

/-- The DTU `senderDtu` built with `maxNocPacketSize = 48`, below the `maxMsgSize = 64` of
its SEND endpoint 3. -/
def smallPacketDtu : Dtu := { senderDtu with maxNocPacketSize := 48 }

/-- The DTU `smallPacketDtu` with `DATA_SIZE = 32` and no credits left on endpoint 3: the
message with its header (57 bytes) fits `maxMsgSize` but not `maxNocPacketSize`. -/
def noCreditsDtu : Dtu :=
  { regFile :=
      { VPE_ID := 5
        DATA_ADDR := 0x500
        DATA_SIZE := 32
        epRegs := [Ep.INVALID, Ep.INVALID, Ep.INVALID,
          Ep.SEND { vpeId := 6, targetCore := 7, targetEp := 4, maxMsgSize := 64,
                    credits := 0, label := 0xAA }] }
    cmdInProgress := true
    maxNocPacketSize := 48 }

/-- The state `replyDoneDtu` after software has written the same REPLY command to
`COMMAND` again, with `OFFSET` still `0x1000`. -/
def secondReplyDtu : Dtu :=
  { replyDoneDtu with regFile := { replyDoneDtu.regFile with COMMAND := 4 * 8 + 2 } }

/-- A DTU with local VPE id 5 whose RECEIVE endpoint 4 has four slots, slots 0, 1 and 3
occupied, and `wrPos = 3`: the cyclic scan from `wrPos` meets slot 3, 0, 1 and then the
free slot 2. -/
def wrapRingDtu : Dtu :=
  { regFile :=
      { VPE_ID := 5
        epRegs := [Ep.INVALID, Ep.INVALID, Ep.INVALID, Ep.INVALID,
          Ep.RECEIVE { bufAddr := 0x1000, msgSize := 64, size := 4, wrPos := 3, rdPos := 0,
                       msgCount := 1, occupied := 11, unread := 8 }] } }

/-- A DTU with local VPE id 5 whose RECEIVE endpoint 4 has four slots of which only the
last is free, with `wrPos = 3`. -/
def lastSlotDtu : Dtu :=
  { regFile :=
      { VPE_ID := 5
        epRegs := [Ep.INVALID, Ep.INVALID, Ep.INVALID, Ep.INVALID,
          Ep.RECEIVE { bufAddr := 0x1000, msgSize := 64, size := 4, wrPos := 3, rdPos := 3,
                       msgCount := 0, occupied := 7, unread := 0 }] } }

/-- The RECEIVE endpoint of `lastSlotDtu`: four slots, only slot 3 free, `wrPos = 3`. -/
def lastSlotRing : RecvEp :=
  { bufAddr := 0x1000, msgSize := 64, size := 4, wrPos := 3, rdPos := 3,
    msgCount := 0, occupied := 7, unread := 0 }

/-- A ring of four slots whose only unread message is in slot 3, with `rdPos = 3`. -/
def lastUnreadRing : RecvEp :=
  { bufAddr := 0x1000, msgSize := 64, size := 4, wrPos := 4, rdPos := 3,
    msgCount := 1, occupied := 8, unread := 8 }

/-- A DTU with local VPE id 5 whose SEND endpoint 3 has `maxMsgSize = 64` and bounded
credits `65471 = 2^16 - 1 - 64`, and whose endpoint 4 is an empty RECEIVE ring. -/
def nearFullDtu : Dtu :=
  { regFile :=
      { VPE_ID := 5
        epRegs := [Ep.INVALID, Ep.INVALID, Ep.INVALID,
          Ep.SEND { targetCore := 7, targetEp := 4, maxMsgSize := 64, credits := 65471,
                    label := 0xAA },
          Ep.RECEIVE { bufAddr := 0x1000, msgSize := 64, size := 4 }] } }

/-- One hundred failing addresses with different offsets within the page `0x4000`. -/
def samePageAddrs : List Nat := (List.range 100).map (fun i => 0x4000 + 8 * i)

/-- A page-table unit whose last failure was on another address than `0x4000`. -/
def freshPfDtu : Dtu := { ptUnit := { lastPfAddr := 0x9000, lastPfCnt := 3 } }

/-- A DTU whose `RW_BARRIER` is `0x8000`. -/
def barrierDtu : Dtu := { regFile := { RW_BARRIER := 0x8000 } }

/-- An environment without TLB and with the register window at `0xF0000000`. -/
def noTlbEnv : CpuEnv := { regFileBaseAddr := 0xF0000000 }

/-- A transfer engine with two free buffers of 64 bytes and blocks of 64 bytes. -/
def freePool : XferUnit :=
  { blockSize := 64, bufSize := 64, bufs := (List.range 2).map (fun i => { id := i }) }

/-- The transfer that `recvFromNoc` starts for a message of 33 bytes to the slot at
`0x1000`. -/
def msgrecvTransfer : Transfer :=
  { type := TransferType.REMOTE_WRITE, targetAddr := NocAddr.ofAddr 0, sourceAddr := 0x1000,
    size := 33, pkt := some { addr := 4, size := 33 }, flags := [XferFlag.MSGRECV] }

/-- The pool `freePool` after `startTransfer` of `msgrecvTransfer`: buffer 0 is in use
with `MSGRECV`. -/
def msgrecvPool : XferUnit :=
  { blockSize := 64, bufSize := 64,
    bufs := [
      { id := 0, free := false, offset := 0,
        event := { type := TransferType.REMOTE_WRITE, remoteAddr := NocAddr.ofAddr 0,
                   localAddr := 0x1000, size := 33, pkt := some { addr := 4, size := 33 },
                   flags := [XferFlag.MSGRECV] },
        bytes := List.replicate 33 0 },
      { id := 1 }],
    events := [XferEvent.process 0],
    actions := [XferAction.schedNocRequestFinished] }

/-- A page-table unit that resolves every address to the physical address 0. -/
def zeroWalk : Nat → Nat → NocAddr := fun _ _ => NocAddr.ofAddr 0

/-- The transfer that `startXfer` starts for a message with 8 bytes of payload at the local
address `0x500`: a `LOCAL_READ` with a header for the buffer. -/
def headerTransfer : Transfer :=
  { type := TransferType.LOCAL_READ, targetAddr := NocAddr.ofTuple 3 0 5, sourceAddr := 0x500,
    size := 8, header := some {} }

/-- The pool `freePool` after `startTransfer` of `headerTransfer`: buffer 0 holds the
header, its event is scheduled. -/
def headerPool : XferUnit :=
  { blockSize := 64, bufSize := 64,
    bufs := [
      { id := 0, free := false, offset := 25,
        event := { type := TransferType.LOCAL_READ, remoteAddr := NocAddr.ofTuple 3 0 5,
                   localAddr := 0x500, size := 8, flags := [XferFlag.MESSAGE] },
        bytes := List.replicate 25 0 },
      { id := 1 }],
    events := [XferEvent.process 0] }

/-- The state in which the transfer of `headerPool` ends in timing mode: one memory
request of 8 bytes, one NoC message of 33 bytes, buffer 0 free. -/
def headerDonePool : XferUnit :=
  { blockSize := 64, bufSize := 64,
    bufs := [
      { id := 0, free := true, offset := 33,
        event := { type := TransferType.LOCAL_READ, remoteAddr := NocAddr.ofTuple 3 0 5,
                   localAddr := 0x508, size := 0, flags := [XferFlag.MESSAGE] },
        bytes := List.replicate 33 0 },
      { id := 1 }],
    memReqs := [{ virt := 0x500, addr := 0x500, size := 8, writing := false, bufId := 0 }],
    actions := [XferAction.sendNocRequest true (2 ^ 59 + 3 * 2 ^ 49 + 5) 33
      (List.replicate 33 0)] }

/-- A DTU on core 7 with pagefault sending enabled, `PF_EP = 1`, the SEND endpoints 0 and 1
with room for a pagefault message, and an empty pagefault queue. -/
def pfBaseDtu : Dtu :=
  { coreId := 7
    regFile :=
      { STATUS := 2, PF_EP := 1,
        epRegs := [Ep.SEND { targetCore := 0, targetEp := 0, maxMsgSize := 64, label := 9 },
                   Ep.SEND { targetCore := 2, targetEp := 3, maxMsgSize := 64, label := 5 }] } }

/-- A translation of the address `0x7ffff0000000` for an internal write, with the waiter 1.
The page number of the address is `0x7ffff0000`, above `2^32`. -/
def highEventA : TranslateEvent :=
  { id := 100, virt := 0x7ffff0000000, access := 10, trans := [1] }

/-- A second translation for the same page and access, with the waiter 2. -/
def highEventB : TranslateEvent :=
  { id := 200, virt := 0x7ffff0000008, access := 10, trans := [2] }

/-- A third translation for the same page and access, with the waiter 3. -/
def highEventC : TranslateEvent :=
  { id := 300, virt := 0x7ffff0000010, access := 10, trans := [3] }

/-- The state after the walk of `highEventA` has failed: its pagefault message is sent and
the event is the front of the queue. -/
def pfSentDtu : Dtu := (PtUnit.walkFailed pfBaseDtu highEventA).getD pfBaseDtu

/-- The state after the walks of `highEventB` and `highEventC` have failed as well. -/
def pfQueuedDtu : Dtu :=
  ((PtUnit.walkFailed pfSentDtu highEventB).bind
    (fun d => PtUnit.walkFailed d highEventC)).getD pfSentDtu

/-- The reply to the pagefault message of `highEventA`: a header and one 64-bit word. -/
def pfReply : Packet := { size := 33, header := { label := 100 } }

/-- The state after the reply with the error `NO_MAPPING` is processed. -/
def pfRepliedDtu : Dtu :=
  (PtUnit.finishPagefault pfQueuedDtu pfReply Error.NO_MAPPING.toNat).getD pfQueuedDtu

/-- The state after the scheduled `highEventB` has failed its walk again. -/
def pfSecondDtu : Dtu :=
  (PtUnit.walkFailed pfRepliedDtu { highEventB with pf := true }).getD pfRepliedDtu

/-- The same three translations on the page of `0x4000`. -/
def lowEventA : TranslateEvent := { highEventA with virt := 0x4000 }

/-- The second translation on the page of `0x4000`. -/
def lowEventB : TranslateEvent := { highEventB with virt := 0x4008 }

/-- The third translation on the page of `0x4000`. -/
def lowEventC : TranslateEvent := { highEventC with virt := 0x4010 }

/-- A ring of four slots of 64 bytes whose buffer starts 64 bytes below `2^64`: the
address of slot 1 wraps around to 0. -/
def topRing : RecvEp :=
  { bufAddr := 2 ^ 64 - 64, msgSize := 64, size := 4, wrPos := 2, occupied := 2 }

/-- A transfer engine in timing mode with two free buffers of 128 bytes, blocks of 64
bytes, and a local memory that holds the bytes 1 to 70 from the address `0x530` on. -/
def memPool : XferUnit :=
  { blockSize := 64, bufSize := 128, bufs := (List.range 2).map (fun i => { id := i }),
    localMem := (List.range 70).map (fun i => (0x530 + i, i + 1)) }

/-- The header of a message of 70 bytes sent by endpoint 3 of VPE 5 on core 0. -/
def memHeader : MessageHeader :=
  { flags := REPLY_ENABLED, senderCoreId := 0, senderEpId := 3, replyEpId := 2, length := 70,
    senderVpeId := 5, label := 0xAA, replyLabel := 0xBB }

/-- The transfer of a message with the header `memHeader` and 70 bytes of payload at the
local address `0x530`, for endpoint 4 on core 7. -/
def memTransfer : Transfer :=
  { type := TransferType.LOCAL_READ, targetAddr := NocAddr.ofTuple 7 0 4, sourceAddr := 0x530,
    size := 70, header := some memHeader }

/-- The state in which the transfer `memTransfer` on `memPool` ends. -/
def memDonePool : XferUnit :=
  { memPool with
    bufs := [
      { id := 0, free := true, offset := 95,
        event := { type := TransferType.LOCAL_READ, remoteAddr := NocAddr.ofTuple 7 0 4,
                   localAddr := 0x576, size := 0, flags := [XferFlag.MESSAGE] },
        bytes := memHeader.toBytes ++ (List.range 70).map (fun i => i + 1) },
      { id := 1 }],
    memReqs := [
      { virt := 0x530, addr := 0x530, size := 16, writing := false, bufId := 0 },
      { virt := 0x540, addr := 0x540, size := 54, writing := false, bufId := 0 }],
    actions := [XferAction.sendNocRequest true (2 ^ 59 + 7 * 2 ^ 49 + 4) 95
      (memHeader.toBytes ++ (List.range 70).map (fun i => i + 1))] }

/-- A memory PE for page tables of two levels with 9 index bits and entries of 8 bytes:
the fifth scenario of the specification, with the root table at offset `0x10000` of PE 3. -/
def ptEnv : M3X86System.PtEnv :=
  { layout := { LEVEL_CNT := 2, LEVEL_BITS := 9, PTE_BITS := 3 }, memPe := 3,
    memOffset := 0x10000 }

/-- The page tables before the first `mapPage`: all entries zero, `nextFrame = RES_PAGES`. -/
def ptEmpty : M3X86System.PageTables :=
  { mem := fun _ => {}, nextFrame := M3X86System.RES_PAGES }

/-- The page tables after `mapPage(0x1000, 0x20000, 3)`. -/
def ptBefore : M3X86System.PageTables :=
  (M3X86System.mapPages ptEnv [(0x1000, 0x20000, 3)] ptEmpty).getD ptEmpty

/-- The page tables after the further call `mapPage(0x4000, 0x70000, 9)`. -/
def ptMapped : M3X86System.PageTables :=
  (M3X86System.mapPage ptEnv ptBefore 0x4000 0x70000 9).getD ptEmpty

/-- The page tables after the further calls `mapPage(0x8000, 0x90000, 9)` and
`mapPage(0x40000000, 0xA0000, 3)`. -/
def ptAfter : M3X86System.PageTables :=
  (M3X86System.mapPages ptEnv [(0x8000, 0x90000, 9), (0x40000000, 0xA0000, 3)] ptMapped).getD
    ptEmpty

/-- A DTU with local VPE id 5 whose endpoint 4 is an empty RECEIVE ring of one slot of 64
bytes at `0x1000`. -/
def oneSlotDtu : Dtu :=
  { regFile :=
      { VPE_ID := 5
        epRegs := [Ep.INVALID, Ep.INVALID, Ep.INVALID, Ep.INVALID,
          Ep.RECEIVE { bufAddr := 0x1000, msgSize := 64, size := 1 }] } }

/-- A message of 64 bytes, the size of a slot of `oneSlotDtu`, for endpoint 4 of core 0
whose NoC address carries VPE id 5. -/
def fullSlotPacket : Packet :=
  { addr := 2 ^ 59 + 5 * 2 ^ 38 + 4, size := 64 }

/-- The transfer that `recvFromNoc` starts for `fullSlotPacket`: 64 bytes to slot 0 of the
ring, at `0x1000`. -/
def fullSlotTransfer : Transfer :=
  { type := TransferType.REMOTE_WRITE, targetAddr := NocAddr.ofTuple 0 0 0,
    sourceAddr := 0x1000, size := 64, pkt := some fullSlotPacket, header := none,
    flags := [XferFlag.MSGRECV] }

/-- The ring of `oneSlotDtu` after slot 0 has been handed out for `fullSlotPacket`. -/
def oneSlotAllocated : RecvEp :=
  { bufAddr := 0x1000, msgSize := 64, size := 1, wrPos := 1, occupied := 1 }

/-- The ring of `oneSlotDtu` after `finishMsgReceive` with the address `0x1040`: slot 0 is
occupied, the unread bit 1 is set and `msgCount` is 1. -/
def nextSlotRing : RecvEp :=
  { bufAddr := 0x1000, msgSize := 64, size := 1, wrPos := 1, occupied := 1, unread := 2,
    msgCount := 1 }

/-! ## Facts about bit operations -/

theorem and_notBits_eq_zero_of_lt (w k x : Nat) (hk : k ≤ w) (hx : x < 2 ^ k) :
    x &&& notBits w ((1 <<< k) - 1) = 0 := by
  apply Nat.eq_of_testBit_eq
  intro i
  have hle : 2 ^ k ≤ 2 ^ w := Nat.pow_le_pow_right (by decide) hk
  have hpos : 0 < 2 ^ k := Nat.pow_pos (by decide)
  have hmod : (2 ^ k - 1) % 2 ^ w = 2 ^ k - 1 := Nat.mod_eq_of_lt (by omega)
  have hsub : 2 ^ w - 1 - (2 ^ k - 1) = 2 ^ w - (2 ^ k - 1 + 1) := by omega
  simp only [notBits, Nat.one_shiftLeft, hmod, hsub, Nat.testBit_and, Nat.zero_testBit]
  rw [Nat.testBit_two_pow_sub_succ (by omega)]
  by_cases hik : i < k
  · simp [hik]
  · have : x.testBit i = false :=
      Nat.testBit_lt_two_pow (lt_of_lt_of_le hx (Nat.pow_le_pow_right (by decide) (by omega)))
    simp [this]

theorem and_one_shiftLeft_bne (x i : Nat) : (x &&& (1 <<< i) != 0) = x.testBit i := by
  rw [Nat.one_shiftLeft]
  cases hb : x.testBit i
  · have hz : x &&& 2 ^ i = 0 := by
      apply Nat.eq_of_testBit_eq
      intro j
      rw [Nat.testBit_and, Nat.testBit_two_pow, Nat.zero_testBit]
      by_cases hij : i = j
      · subst hij; simp [hb]
      · simp [hij]
    simp [hz]
  · have hne : x &&& 2 ^ i ≠ 0 := by
      intro hz
      have : (x &&& 2 ^ i).testBit i = true := by
        rw [Nat.testBit_and, hb, Nat.testBit_two_pow_self]; rfl
      rw [hz, Nat.zero_testBit] at this
      exact Bool.false_ne_true this
    simp [hne]

theorem testBit_or_one_shiftLeft (x i j : Nat) :
    (x ||| (1 <<< i)).testBit j = (x.testBit j || decide (i = j)) := by
  rw [Nat.testBit_or, Nat.one_shiftLeft, Nat.testBit_two_pow]

theorem testBit_and_notBits (x i j : Nat) (hi : i < 32) :
    (x &&& notBits 32 (1 <<< i)).testBit j
      = (x.testBit j && (decide (j < 32) && !decide (i = j))) := by
  have hlt : 2 ^ i < 2 ^ 32 := Nat.pow_lt_pow_right (by decide) hi
  have hmod : 2 ^ i % 2 ^ 32 = 2 ^ i := Nat.mod_eq_of_lt hlt
  have hsub : 2 ^ 32 - 1 - 2 ^ i = 2 ^ 32 - (2 ^ i + 1) := by omega
  rw [Nat.testBit_and]
  unfold notBits
  rw [Nat.one_shiftLeft, hmod, hsub, Nat.testBit_two_pow_sub_succ hlt, Nat.testBit_two_pow]

/-! ## Facts about the endpoint records -/

theorem isUnread_eq (ep : RecvEp) (i : Nat) (h : i < 32) :
    ep.isUnread i = some (ep.unread.testBit i) := by
  simp only [RecvEp.isUnread, h, if_true, and_one_shiftLeft_bne]

theorem isOccupied_eq (ep : RecvEp) (i : Nat) (h : i < 32) :
    ep.isOccupied i = some (ep.occupied.testBit i) := by
  simp only [RecvEp.isOccupied, h, if_true, and_one_shiftLeft_bne]

theorem scanLoop_eq (p : Nat → Option Bool) (q : Nat → Bool) :
    ∀ (n lo : Nat), (∀ i, lo ≤ i → i < lo + n → p i = some (q i)) →
      scanLoop p lo n = some ((List.range' lo n).find? q) := by
  intro n
  induction n with
  | zero => intro lo _; rfl
  | succ n ih =>
    intro lo h
    have h0 : p lo = some (q lo) := h lo (Nat.le_refl _) (by omega)
    rw [List.range'_succ, List.find?_cons]
    unfold scanLoop
    rw [h0]
    cases hq : q lo
    · exact ih (lo + 1) (fun i h1 h2 => h i (by omega) (by omega))
    · rfl

theorem scanRing_eq (p : Nat → Option Bool) (q : Nat → Bool) (pos size : Nat)
    (h : ∀ i, i < max pos size → p i = some (q i)) :
    scanRing p pos size = some ((cyclicOrder pos size).find? q) := by
  have h1 : scan p pos size = some ((List.range' pos (size - pos)).find? q) :=
    scanLoop_eq p q _ _ (fun i _ h2 => h i (by omega))
  have h2 : scan p 0 pos = some ((List.range' 0 pos).find? q) :=
    scanLoop_eq p q _ _ (fun i _ h2 => h i (by omega))
  unfold scanRing cyclicOrder
  rw [h1, List.find?_append]
  cases hf : (List.range' pos (size - pos)).find? q
  · simpa using h2
  · rfl

theorem mem_cyclicOrder (pos size i : Nat) (hpos : pos ≤ size) :
    i ∈ cyclicOrder pos size ↔ i < size := by
  unfold cyclicOrder
  rw [List.mem_append, List.mem_range'_1, List.mem_range'_1]
  omega

/-! ## NocAddr round trip -/

theorem NocAddr.getAddr_ofTuple (c v o : Nat) (hc : c < 2 ^ 10) (hv : v < 2 ^ 11)
    (ho : o < 2 ^ 37) :
    (NocAddr.ofTuple c v o).getAddr = some (2 ^ 59 + c * 2 ^ 49 + v * 2 ^ 38 + o) := by
  have h1 : c &&& notBits 32 ((1 <<< CORE_BITS) - 1) = 0 :=
    and_notBits_eq_zero_of_lt 32 10 c (by decide) hc
  have h2 : v &&& notBits 32 ((1 <<< VPE_BITS) - 1) = 0 :=
    and_notBits_eq_zero_of_lt 32 11 v (by decide) hv
  have h3 : o &&& notBits 64 ((1 <<< OFFSET_BITS) - 1) = 0 :=
    and_notBits_eq_zero_of_lt 64 37 o (by decide) ho
  simp only [NocAddr.getAddr, NocAddr.ofTuple, h1, h2, h3, ne_eq, not_true_eq_false,
    if_false, if_true]
  have e1 : (1 <<< VALID_SHIFT) % 2 ^ 64 = 2 ^ 59 := by decide
  have e2 : (c <<< CORE_SHIFT) % 2 ^ 64 = 2 ^ 49 * c := by
    have : CORE_SHIFT = 49 := by decide
    rw [this, Nat.shiftLeft_eq]; omega
  have e3 : (v <<< VPE_SHIFT) % 2 ^ 64 = 2 ^ 38 * v := by
    have : VPE_SHIFT = 38 := by decide
    rw [this, Nat.shiftLeft_eq]; omega
  rw [e1, e2, e3]
  have b1 : 2 ^ 38 * v ||| o = 2 ^ 38 * v + o :=
    (Nat.mul_add_lt_is_or (by omega) v).symm
  have b2 : 2 ^ 49 * c ||| (2 ^ 38 * v + o) = 2 ^ 49 * c + (2 ^ 38 * v + o) :=
    (Nat.mul_add_lt_is_or (by omega) c).symm
  have b3 : 2 ^ 59 * 1 ||| (2 ^ 49 * c + (2 ^ 38 * v + o))
      = 2 ^ 59 * 1 + (2 ^ 49 * c + (2 ^ 38 * v + o)) :=
    (Nat.mul_add_lt_is_or (by omega) 1).symm
  have e0 : (2 : Nat) ^ 59 = 2 ^ 59 * 1 := by omega
  rw [Nat.or_assoc, Nat.or_assoc, b1, b2, e0, b3]
  apply congrArg some
  omega

theorem NocAddr.ofAddr_packed (c v o : Nat) (hc : c < 2 ^ 10) (hv : v < 2 ^ 11)
    (ho : o < 2 ^ 37) :
    NocAddr.ofAddr (2 ^ 59 + c * 2 ^ 49 + v * 2 ^ 38 + o)
      = { valid := true, coreId := c, vpeId := v, offset := o } := by
  have s1 : VALID_SHIFT = 59 := by decide
  have s2 : CORE_SHIFT = 49 := by decide
  have s3 : VPE_SHIFT = 38 := by decide
  have m1 : (1 <<< CORE_BITS) - 1 = 2 ^ 10 - 1 := by decide
  have m2 : (1 <<< VPE_BITS) - 1 = 2 ^ 11 - 1 := by decide
  have m3 : (1 <<< OFFSET_BITS) - 1 = 2 ^ 37 - 1 := by decide
  simp only [NocAddr.ofAddr, s1, s2, s3, m1, m2, m3, Nat.shiftRight_eq_div_pow,
    Nat.and_pow_two_sub_one_eq_mod]
  have d1 : (2 ^ 59 + c * 2 ^ 49 + v * 2 ^ 38 + o) / 2 ^ 59 = 1 := by omega
  have d2 : (2 ^ 59 + c * 2 ^ 49 + v * 2 ^ 38 + o) / 2 ^ 49 % 2 ^ 10 = c := by omega
  have d3 : (2 ^ 59 + c * 2 ^ 49 + v * 2 ^ 38 + o) / 2 ^ 38 % 2 ^ 11 = v := by omega
  have d4 : (2 ^ 59 + c * 2 ^ 49 + v * 2 ^ 38 + o) % 2 ^ 37 = o := by omega
  rw [d1, d2, d3, d4]
  rfl

/-- C10. For every coreId `c < 2^10`, vpeId `v < 2^11` and offset `o < 2^37`, encoding the
tuple with `getAddr` succeeds and decoding the encoded address with `NocAddr(Addr)` gives
back `valid = true`, `coreId = c`, `vpeId = v` and `offset = o`. -/
theorem nocAddr_roundtrip (c v o : Nat) (hc : c < 2 ^ 10) (hv : v < 2 ^ 11)
    (ho : o < 2 ^ 37) :
    ∃ a, (NocAddr.ofTuple c v o).getAddr = some a ∧
      (NocAddr.ofAddr a).valid = true ∧ (NocAddr.ofAddr a).coreId = c ∧
      (NocAddr.ofAddr a).vpeId = v ∧ (NocAddr.ofAddr a).offset = o := by
  refine ⟨_, NocAddr.getAddr_ofTuple c v o hc hv ho, ?_⟩
  rw [NocAddr.ofAddr_packed c v o hc hv ho]
  exact ⟨rfl, rfl, rfl, rfl⟩

theorem nocAddr_roundtrip_witness :
    ∃ a, (NocAddr.ofTuple 7 5 4).getAddr = some a ∧
      (NocAddr.ofAddr a).valid = true ∧ (NocAddr.ofAddr a).coreId = 7 ∧
      (NocAddr.ofAddr a).vpeId = 5 ∧ (NocAddr.ofAddr a).offset = 4 :=
  nocAddr_roundtrip 7 5 4 (by decide) (by decide) (by decide)

/-! ## Sending: the credit check -/

theorem scheduleFinishOp_regFile (d : Dtu) (e : Error) :
    (d.scheduleFinishOp e).regFile = d.regFile := by
  unfold Dtu.scheduleFinishOp
  split <;> rfl

theorem startXfer_eq (d : Dtu) (cmd : Command) (hready : d.msgUnit.info.ready = true)
    (hnoc : (d.regFile.DATA_SIZE + sizeofMessageHeader) % 2 ^ 64 ≤ d.maxNocPacketSize) :
    ∃ t d', MessageUnit.startXfer d cmd = some d' ∧ d'.transfers = d.transfers ++ [t] ∧
      d'.regFile = d.regFile ∧ d'.finishEvents = d.finishEvents ∧
      t.type = TransferType.LOCAL_READ ∧ t.sourceAddr = d.regFile.DATA_ADDR ∧
      t.size = d.regFile.DATA_SIZE := by
  have h2 : ¬ ((d.regFile.DATA_SIZE + sizeofMessageHeader) % 2 ^ 64 > d.maxNocPacketSize) :=
    Nat.not_lt.mpr hnoc
  simp only [MessageUnit.startXfer, hready, Bool.true_eq_false, if_false, h2]
  exact ⟨_, _, rfl, rfl, rfl, rfl, rfl, rfl, rfl⟩

theorem fillInfoAndStart_eq (d : Dtu) (cmd : Command) (ep : SendEp)
    (hnoc : (d.regFile.DATA_SIZE + sizeofMessageHeader) % 2 ^ 64 ≤ d.maxNocPacketSize) :
    ∃ t d', MessageUnit.fillInfoAndStart d cmd ep = some d' ∧
      d'.transfers = d.transfers ++ [t] ∧ d'.regFile = d.regFile ∧
      d'.finishEvents = d.finishEvents ∧
      t.type = TransferType.LOCAL_READ ∧ t.sourceAddr = d.regFile.DATA_ADDR ∧
      t.size = d.regFile.DATA_SIZE := by
  unfold MessageUnit.fillInfoAndStart
  exact startXfer_eq _ cmd rfl hnoc

theorem getSendEp_setSendEp (rf : RegFile) (e : Nat) (ep ep1 : SendEp)
    (h : rf.getSendEp e = some ep) : (rf.setSendEp e ep1).getSendEp e = some ep1 := by
  have hlt : e < rf.epRegs.length := by
    by_contra hge
    have : rf.epRegs[e]? = none := List.getElem?_eq_none (Nat.le_of_not_lt hge)
    simp [RegFile.getSendEp, this] at h
  simp [RegFile.getSendEp, RegFile.setSendEp, List.getElem?_set, hlt]

/-- C2. For a SEND command on a SEND endpoint `ep` whose size assertion
`DATA_SIZE + sizeof(MessageHeader) <= maxMsgSize` passes, issued while the command is in
progress: `startTransmission` schedules the finish of the command with `MISS_CREDITS` and
leaves the register file unchanged if and only if `credits != CREDITS_UNLIM` and
`credits < maxMsgSize`; in that case nothing else happens. Otherwise (the size assertion
of `startXfer` passing as well) it starts one transfer, schedules no finish, and the
endpoint becomes `ep` with `credits - maxMsgSize` when bounded and `ep` itself when
unlimited. -/
theorem startTransmission_send_credits (d : Dtu) (cmd : Command) (ep : SendEp)
    (hop : cmd.opcode = Opcode.SEND) (hprog : d.cmdInProgress = true)
    (hep : d.regFile.getSendEp cmd.arg = some ep)
    (hsize : (d.regFile.DATA_SIZE + sizeofMessageHeader) % 2 ^ 64 ≤ ep.maxMsgSize)
    (hnoc : ¬ (ep.credits ≠ CREDITS_UNLIM ∧ ep.credits < ep.maxMsgSize) →
      (d.regFile.DATA_SIZE + sizeofMessageHeader) % 2 ^ 64 ≤ d.maxNocPacketSize) :
    ∃ d', MessageUnit.startTransmission d cmd = some d' ∧
      ((d'.finishEvents = d.finishEvents ++ [Error.MISS_CREDITS] ∧ d'.regFile = d.regFile)
        ↔ (ep.credits ≠ CREDITS_UNLIM ∧ ep.credits < ep.maxMsgSize)) ∧
      ((ep.credits ≠ CREDITS_UNLIM ∧ ep.credits < ep.maxMsgSize) →
        d' = { d with finishEvents := d.finishEvents ++ [Error.MISS_CREDITS] }) ∧
      (¬ (ep.credits ≠ CREDITS_UNLIM ∧ ep.credits < ep.maxMsgSize) →
        (∃ t, d'.transfers = d.transfers ++ [t] ∧ t.type = TransferType.LOCAL_READ) ∧
        d'.finishEvents = d.finishEvents ∧
        d'.regFile.getSendEp cmd.arg = some
          { ep with credits :=
              if ep.credits = CREDITS_UNLIM then ep.credits
              else ep.credits - ep.maxMsgSize }) := by
  have hop2 : ¬ cmd.opcode = Opcode.REPLY := by rw [hop]; decide
  have hsz : ¬ ((d.regFile.DATA_SIZE + sizeofMessageHeader) % 2 ^ 64 > ep.maxMsgSize) :=
    Nat.not_lt.mpr hsize
  by_cases hb : ep.credits = CREDITS_UNLIM
  · -- unlimited credits
    have hcond : ¬ (ep.credits ≠ CREDITS_UNLIM ∧ ep.credits < ep.maxMsgSize) :=
      fun h => h.1 hb
    obtain ⟨t, d', h1, h2, h3, h4, h5, _, _⟩ := fillInfoAndStart_eq d cmd ep (hnoc hcond)
    refine ⟨d', ?_, ?_, ?_, ?_⟩
    · simp only [MessageUnit.startTransmission, hop2, if_false, hep, hsz, hb, ne_eq,
        not_true_eq_false]
      exact h1
    · constructor
      · intro h
        rw [h4] at h
        exact absurd h.1 (by simp)
      · intro h; exact absurd h hcond
    · intro h; exact absurd h hcond
    · intro _
      refine ⟨⟨t, h2, h5⟩, h4, ?_⟩
      rw [h3, hep, if_pos hb]
  · by_cases hlt : ep.credits < ep.maxMsgSize
    · -- not enough credits
      refine ⟨{ d with finishEvents := d.finishEvents ++ [Error.MISS_CREDITS] }, ?_, ?_, ?_, ?_⟩
      · simp only [MessageUnit.startTransmission, hop2, if_false, hep, hsz, hb, ne_eq,
          not_false_eq_true, if_true, hlt, Dtu.scheduleFinishOp, hprog]
      · exact ⟨fun _ => ⟨hb, hlt⟩, fun _ => ⟨rfl, rfl⟩⟩
      · intro _; rfl
      · intro h; exact absurd ⟨hb, hlt⟩ h
    · -- the credits are paid
      have hcond : ¬ (ep.credits ≠ CREDITS_UNLIM ∧ ep.credits < ep.maxMsgSize) :=
        fun h => hlt h.2
      obtain ⟨t, d', h1, h2, h3, h4, h5, _, _⟩ :=
        fillInfoAndStart_eq
          { d with regFile :=
              d.regFile.setSendEp cmd.arg ({ ep with credits := ep.credits - ep.maxMsgSize }) }
          cmd { ep with credits := ep.credits - ep.maxMsgSize } (hnoc hcond)
      refine ⟨d', ?_, ?_, ?_, ?_⟩
      · simp only [MessageUnit.startTransmission, hop2, if_false, hep, hsz, hb, ne_eq,
          not_false_eq_true, if_true, hlt]
        exact h1
      · constructor
        · intro h
          rw [h4] at h
          exact absurd h.1 (by simp)
        · intro h; exact absurd h hcond
      · intro h; exact absurd h hcond
      · intro _
        refine ⟨⟨t, h2, h5⟩, h4, ?_⟩
        rw [h3, if_neg hb]
        exact getSendEp_setSendEp d.regFile cmd.arg ep _ hep

theorem startTransmission_send_credits_witness :
    ∃ d', MessageUnit.startTransmission exampleDtu { opcode := Opcode.SEND, arg := 3 } = some d' ∧
      d'.regFile.getSendEp 3 = some
        { targetCore := 7, targetEp := 4, maxMsgSize := 64, credits := 64, label := 0xAA } := by
  obtain ⟨d', h1, _, _, h4⟩ :=
    startTransmission_send_credits exampleDtu { opcode := Opcode.SEND, arg := 3 }
      { targetCore := 7, targetEp := 4, maxMsgSize := 64, credits := 128, label := 0xAA }
      rfl rfl rfl (by decide) (fun _ => by decide)
  exact ⟨d', h1, (h4 (by decide)).2.2⟩

/-! ## Receiving: VPE check and ring space -/

/-- C3 (what the code does at the failing input). With local `VPE_ID = 5`, a message whose
NoC address carries VPE id 6 for the empty RECEIVE endpoint 4 is answered with `VPE_GONE`
and starts no transfer, but `allocSlot` has run before the VPE check: the endpoint is
written back with `occupied[0] = 1` and `wrPos = 1`. -/
theorem recvFromNoc_other_vpe_allocates :
    ∃ d', MessageUnit.recvFromNoc exampleDtu otherVpePacket = some (Error.VPE_GONE, d') ∧
      d'.transfers = exampleDtu.transfers ∧
      (NocAddr.ofAddr otherVpePacket.addr).vpeId = 6 ∧ exampleDtu.regFile.VPE_ID = 5 ∧
      exampleDtu.regFile.getRecvEp 4 = some { bufAddr := 0x1000, msgSize := 64, size := 4 } ∧
      d'.regFile.getRecvEp 4 =
        some { bufAddr := 0x1000, msgSize := 64, size := 4, occupied := 1, wrPos := 1 } :=
  ⟨_, rfl, rfl, rfl, rfl, rfl, rfl⟩

theorem allocSlot_full (msgSize : Nat) (ep : RecvEp) (hsz : msgSize ≤ ep.msgSize)
    (hwr : ep.wrPos ≤ ep.size) (hfull : ∀ i, i < ep.size → ep.isOccupied i = some true) :
    Ring.allocSlot msgSize ep = some (ep.size, none) := by
  have hs : scanRing (fun i => (ep.isOccupied i).map not) ep.wrPos ep.size
      = some ((cyclicOrder ep.wrPos ep.size).find? (fun _ => false)) := by
    apply scanRing_eq
    intro i hi
    rw [hfull i (by rw [Nat.max_eq_right hwr] at hi; exact hi)]
    rfl
  have hn : (cyclicOrder ep.wrPos ep.size).find? (fun _ => false) = none := by
    rw [List.find?_eq_none]; intro x _; simp
  unfold Ring.allocSlot
  rw [if_neg (Nat.not_lt.mpr hsz), hs, hn]

/-- C4. For a RECEIVE endpoint `ep` (with `wrPos <= size`) in which all `size` slots have
their occupied bit set, an inbound message that is not a page-fault reply, fits a slot
and carries the local VPE id makes `recvFromNoc` return `NO_RING_SPACE`; it starts no
transfer, answers the packet, and leaves the register file, hence `occupied`, `unread`,
`msgCount`, `rdPos` and `wrPos` of the endpoint, unchanged. -/
theorem recvFromNoc_ring_full (d : Dtu) (pkt : Packet) (ep : RecvEp)
    (hpf : pkt.header.flags &&& (REPLY_FLAG ||| PAGEFAULT) ≠ REPLY_FLAG ||| PAGEFAULT)
    (hep : d.regFile.getRecvEp ((NocAddr.ofAddr pkt.addr).offset % 2 ^ 32) = some ep)
    (hvpe : (NocAddr.ofAddr pkt.addr).vpeId = d.regFile.VPE_ID % 2 ^ 16)
    (hsz : pkt.size ≤ ep.msgSize) (hwr : ep.wrPos ≤ ep.size)
    (hfull : ∀ i, i < ep.size → ep.isOccupied i = some true) :
    ∃ d', MessageUnit.recvFromNoc d pkt = some (Error.NO_RING_SPACE, d') ∧
      d'.transfers = d.transfers ∧ d'.regFile = d.regFile ∧
      d'.regFile.getRecvEp ((NocAddr.ofAddr pkt.addr).offset % 2 ^ 32) = some ep ∧
      d'.nocResponses = d.nocResponses ++ [pkt] := by
  refine ⟨d.sendNocResponse pkt, ?_, rfl, rfl, hep, rfl⟩
  have ha : MessageUnit.allocSlot d pkt.size ((NocAddr.ofAddr pkt.addr).offset % 2 ^ 32) ep
      = some (ep.size, ep, d) := by
    unfold MessageUnit.allocSlot
    rw [allocSlot_full pkt.size ep hsz hwr hfull]
    rfl
  unfold MessageUnit.recvFromNoc
  simp only [hpf, if_false, hep, ha, hvpe, ne_eq, not_true_eq_false, and_false]

theorem recvFromNoc_ring_full_witness :
    ∃ d', MessageUnit.recvFromNoc fullRingDtu localVpePacket
        = some (Error.NO_RING_SPACE, d') ∧
      d'.transfers = fullRingDtu.transfers ∧ d'.regFile = fullRingDtu.regFile ∧
      d'.regFile.getRecvEp ((NocAddr.ofAddr localVpePacket.addr).offset % 2 ^ 32)
        = some { bufAddr := 0x1000, msgSize := 64, size := 2, wrPos := 2, rdPos := 1,
                 msgCount := 1, occupied := 3, unread := 2 } ∧
      d'.nocResponses = fullRingDtu.nocResponses ++ [localVpePacket] :=
  recvFromNoc_ring_full fullRingDtu localVpePacket
    { bufAddr := 0x1000, msgSize := 64, size := 2, wrPos := 2, rdPos := 1,
      msgCount := 1, occupied := 3, unread := 2 }
    (by decide) (by decide) (by decide) (by decide) (by decide) (by decide)

/-! ## Acknowledging a message -/

theorem getRecvEp_lt (rf : RegFile) (e : Nat) (ep : RecvEp) (h : rf.getRecvEp e = some ep) :
    e < rf.epRegs.length := by
  by_contra hge
  have : rf.epRegs[e]? = none := List.getElem?_eq_none (Nat.le_of_not_lt hge)
  simp [RegFile.getRecvEp, this] at h

theorem getRecvEp_setRecvEp (rf : RegFile) (e : Nat) (ep ep1 : RecvEp)
    (h : rf.getRecvEp e = some ep) : (rf.setRecvEp e ep1).getRecvEp e = some ep1 := by
  have hlt := getRecvEp_lt rf e ep h
  simp [RegFile.getRecvEp, RegFile.setRecvEp, List.getElem?_set, hlt]

theorem ackMessage_eq (d : Dtu) (epId : Nat) (ep : RecvEp)
    (hep : d.regFile.getRecvEp epId = some ep) :
    MessageUnit.ackMessage d epId
      = (Ring.ackMessage ep d.regFile.OFFSET).map (fun ep1 => d.writeRecvEp epId (some ep1)) := by
  simp only [MessageUnit.ackMessage, hep]
  cases Ring.ackMessage ep d.regFile.OFFSET <;> rfl

theorem fetchMessage_eq (d : Dtu) (epid : Nat) (ep : RecvEp)
    (hep : d.regFile.getRecvEp epid = some ep) :
    MessageUnit.fetchMessage d epid
      = (Ring.fetchMessage ep).map (fun r => (r.1, d.writeRecvEp epid r.2)) := by
  simp only [MessageUnit.fetchMessage, hep]
  cases Ring.fetchMessage ep <;> rfl

theorem finishMsgReceive_eq (d : Dtu) (epId msgAddr : Nat) (ep : RecvEp)
    (hep : d.regFile.getRecvEp epId = some ep) :
    MessageUnit.finishMsgReceive d epId msgAddr
      = (Ring.finishMsgReceive ep msgAddr).map (fun w =>
          match w with
          | none => d
          | some ep1 => (d.writeRecvEp epId (some ep1)).wakeupCore) := by
  simp only [MessageUnit.finishMsgReceive, hep]
  cases h : Ring.finishMsgReceive ep msgAddr with
  | none => rfl
  | some w => cases w <;> rfl

theorem toInt_of_lt (q : Nat) (h : q < 2 ^ 31) : toInt q = (q : Int) := by
  have h1 : q % 2 ^ 32 = q := Nat.mod_eq_of_lt (by omega)
  unfold toInt
  rw [h1, if_pos h]

theorem msgToIdx_of_lt (ep : RecvEp) (msg : Nat) (hms : 0 < ep.msgSize)
    (hq : ep.slotQuot msg < 2 ^ 31) :
    ep.msgToIdx msg
      = some (if ep.slotQuot msg < RecvEp.MAX_MSGS then ep.slotQuot msg else RecvEp.MAX_MSGS) := by
  unfold RecvEp.msgToIdx
  rw [if_neg (by omega), toInt_of_lt _ hq]
  by_cases h : ep.slotQuot msg < RecvEp.MAX_MSGS
  · have h2 : (0 : Int) ≤ (ep.slotQuot msg : Int) ∧
        (ep.slotQuot msg : Int) < (RecvEp.MAX_MSGS : Int) :=
      ⟨Int.ofNat_nonneg _, Int.ofNat_lt.mpr h⟩
    simp only [h2, h, and_self, if_true, Int.toNat_ofNat]
  · have h2 : ¬ ((0 : Int) ≤ (ep.slotQuot msg : Int) ∧
        (ep.slotQuot msg : Int) < (RecvEp.MAX_MSGS : Int)) :=
      fun hc => h (Int.ofNat_lt.mp hc.2)
    simp only [h2, h, if_false]

theorem Ring.ackMessage_of_lt (ep : RecvEp) (msg : Nat) (hms : 0 < ep.msgSize)
    (hq : ep.slotQuot msg < 2 ^ 31) :
    Ring.ackMessage ep msg =
      if ep.slotQuot msg < RecvEp.MAX_MSGS ∧ ep.occupied.testBit (ep.slotQuot msg) = true then
        some { ep with occupied := ep.occupied &&& notBits 32 (1 <<< ep.slotQuot msg) }
      else none := by
  unfold Ring.ackMessage
  rw [msgToIdx_of_lt ep msg hms hq]
  by_cases h : ep.slotQuot msg < RecvEp.MAX_MSGS
  · have h32 : ep.slotQuot msg < 32 := h
    simp only [h, if_true, Nat.ne_of_lt h, if_false, isOccupied_eq ep _ h32, true_and]
    cases hb : ep.occupied.testBit (ep.slotQuot msg)
    · simp
    · simp [RecvEp.setOccupied, h32]
  · simp [h]

/-- C9, as amended. For every RECEIVE endpoint with `msgSize > 0` and every `OFFSET` whose
quotient `idx = (OFFSET - bufAddr) / msgSize` (64-bit unsigned arithmetic) is below
`2^31`, `ackMessage` is a fatal error unless `idx < MAX_MSGS = 32` and `occupied[idx]` is
set; otherwise it writes the endpoint back with exactly the bit `occupied[idx]` cleared:
every other occupied bit, `unread`, `msgCount`, `rdPos`, `wrPos` and the rest of the
record are unchanged. -/
theorem ackMessage_amended (d : Dtu) (epId : Nat) (ep : RecvEp)
    (hep : d.regFile.getRecvEp epId = some ep) (hms : 0 < ep.msgSize)
    (hq : ep.slotQuot d.regFile.OFFSET < 2 ^ 31) :
    (MessageUnit.ackMessage d epId = none ↔
      ¬ (ep.slotQuot d.regFile.OFFSET < RecvEp.MAX_MSGS ∧
          ep.occupied.testBit (ep.slotQuot d.regFile.OFFSET) = true)) ∧
    (ep.slotQuot d.regFile.OFFSET < RecvEp.MAX_MSGS →
      ep.occupied.testBit (ep.slotQuot d.regFile.OFFSET) = true →
      ∃ d' ep', MessageUnit.ackMessage d epId = some d' ∧
        d'.regFile.getRecvEp epId = some ep' ∧
        ep'.occupied.testBit (ep.slotQuot d.regFile.OFFSET) = false ∧
        (∀ j, j < 32 → j ≠ ep.slotQuot d.regFile.OFFSET →
          ep'.occupied.testBit j = ep.occupied.testBit j) ∧
        ep' = { ep with occupied := ep'.occupied }) := by
  have hr := Ring.ackMessage_of_lt ep d.regFile.OFFSET hms hq
  constructor
  · rw [ackMessage_eq d epId ep hep, hr]
    by_cases h : ep.slotQuot d.regFile.OFFSET < RecvEp.MAX_MSGS ∧
        ep.occupied.testBit (ep.slotQuot d.regFile.OFFSET) = true
    · simp [h]
    · simp [h]
  · intro h1 h2
    have h32 : ep.slotQuot d.regFile.OFFSET < 32 := h1
    have hex : ∃ ep1 : RecvEp, ep1 =
        { ep with occupied := ep.occupied &&& notBits 32 (1 <<< ep.slotQuot d.regFile.OFFSET) } :=
      ⟨_, rfl⟩
    obtain ⟨ep1, hep1⟩ := hex
    rw [← hep1] at hr
    refine ⟨d.writeRecvEp epId (some ep1), ep1, ?_, ?_, ?_, ?_, ?_⟩
    rotate_left 4
    · rw [hep1]
    · rw [ackMessage_eq d epId ep hep, hr, if_pos ⟨h1, h2⟩]
      rfl
    · exact getRecvEp_setRecvEp d.regFile epId ep _ hep
    · rw [hep1]
      show (ep.occupied &&& notBits 32 (1 <<< ep.slotQuot d.regFile.OFFSET)).testBit _ = false
      rw [testBit_and_notBits _ _ _ h32]; simp
    · intro j hj hne
      rw [hep1]
      show (ep.occupied &&& notBits 32 (1 <<< ep.slotQuot d.regFile.OFFSET)).testBit j = _
      rw [testBit_and_notBits _ _ _ h32]
      simp [hj, Ne.symm hne]

theorem ackMessage_amended_witness :
    ∃ d' ep', MessageUnit.ackMessage ackDtu 4 = some d' ∧
      d'.regFile.getRecvEp 4 = some ep' ∧ ep'.occupied.testBit 1 = false ∧
      (∀ j, j < 32 → j ≠ 1 → ep'.occupied.testBit j = (3 : Nat).testBit j) ∧
      ep' = { bufAddr := 0x1000, msgSize := 64, size := 4, rdPos := 2, wrPos := 2,
              occupied := ep'.occupied, unread := 1, msgCount := 1 } :=
  (ackMessage_amended ackDtu 4
    { bufAddr := 0x1000, msgSize := 64, size := 4, rdPos := 2, wrPos := 2,
      occupied := 3, unread := 1, msgCount := 1 }
    rfl (by decide) (by decide)).2 (by decide) (by decide)

/-- C9, counterexample. (a) On a ring of `size = 2` with bit 5 of `occupied` set and
`OFFSET` the address of slot 5, `idx = 5` is not below `size`, yet `ackMessage` is no
fatal error and clears bit 5. (b) On a ring of four slots with slot 3 occupied and
`OFFSET = bufAddr + 64 * (2^32 + 3)`, the quotient `2^32 + 3` is not below `size`, yet
`ackMessage` is no fatal error and clears bit 3, the quotient narrowed to `int`. -/
theorem ackMessage_not_fatal_beyond_size :
    (smallRingDtu.regFile.getRecvEp 4
        = some { bufAddr := 0x1000, msgSize := 64, size := 2, occupied := 32 } ∧
      (0x1000 + 5 * 64 - 0x1000) / 64 = 5 ∧ ¬ (5 < 2) ∧
      (MessageUnit.ackMessage smallRingDtu 4).map (fun d => d.regFile.getRecvEp 4)
        = some (some { bufAddr := 0x1000, msgSize := 64, size := 2, occupied := 0 })) ∧
    (farOffsetDtu.regFile.getRecvEp 4
        = some { bufAddr := 0x1000, msgSize := 64, size := 4, occupied := 8 } ∧
      (farOffsetDtu.regFile.OFFSET - 0x1000) / 64 = 2 ^ 32 + 3 ∧ ¬ (2 ^ 32 + 3 < 4) ∧
      (MessageUnit.ackMessage farOffsetDtu 4).map (fun d => d.regFile.getRecvEp 4)
        = some (some { bufAddr := 0x1000, msgSize := 64, size := 4, occupied := 0 })) := by
  refine ⟨⟨rfl, by decide, by decide, by decide⟩, ⟨rfl, by decide, by decide, by decide⟩⟩

/-! ## Fetching a message -/

theorem scanRing_isUnread (ep : RecvEp) (hsize : ep.size ≤ 32) (hrd : ep.rdPos ≤ ep.size) :
    scanRing ep.isUnread ep.rdPos ep.size
      = some ((cyclicOrder ep.rdPos ep.size).find? (fun i => ep.unread.testBit i)) := by
  apply scanRing_eq
  intro i hi
  rw [Nat.max_eq_right hrd] at hi
  exact isUnread_eq ep i (by omega)

theorem Ring.fetchMessage_found (ep : RecvEp) (idx : Nat) (hsize : ep.size ≤ 32)
    (hrd : ep.rdPos ≤ ep.size) (hcnt : ep.msgCount ≠ 0)
    (hfind : (cyclicOrder ep.rdPos ep.size).find? (fun i => ep.unread.testBit i) = some idx) :
    idx < ep.size ∧ ep.unread.testBit idx = true ∧
    Ring.fetchMessage ep =
      if ep.occupied.testBit idx = true then
        some ((ep.bufAddr + idx * ep.msgSize) % 2 ^ 64,
          some { ep with unread := ep.unread &&& notBits 32 (1 <<< idx),
                         msgCount := ep.msgCount - 1, rdPos := idx + 1 })
      else none := by
  have hmem : idx ∈ cyclicOrder ep.rdPos ep.size := List.mem_of_find?_eq_some hfind
  have hlt : idx < ep.size := (mem_cyclicOrder _ _ _ hrd).mp hmem
  have h32 : idx < 32 := by omega
  have hbit : ep.unread.testBit idx = true := List.find?_some hfind
  refine ⟨hlt, hbit, ?_⟩
  unfold Ring.fetchMessage
  rw [if_neg hcnt, scanRing_isUnread ep hsize hrd, hfind]
  simp only [isOccupied_eq ep idx h32]
  cases hocc : ep.occupied.testBit idx
  · simp
  · have h256 : idx + 1 < 256 := by omega
    simp [RecvEp.setUnread, h32, Nat.mod_eq_of_lt h256]

/-- C5, as amended. For every RECEIVE endpoint with `rdPos <= size <= 32`:
`fetchMessage` returns 0 and changes nothing when `msgCount == 0`. When `msgCount != 0`
and no index below `size` has its unread bit set, it stops in `assert(false)`. When
`msgCount != 0` and `idx` is the first index with its unread bit set in the cyclic order
`rdPos, ..., size-1, 0, ..., rdPos-1`, it stops in an assertion if `occupied[idx]` is
clear, and otherwise clears `unread[idx]` and no other unread bit, decrements `msgCount`
by one, sets `rdPos = idx + 1`, leaves every other field (`occupied`, `wrPos`, ...)
unchanged and returns `bufAddr + idx * msgSize` (modulo `2^64`). -/
theorem fetchMessage_amended (d : Dtu) (epid : Nat) (ep : RecvEp)
    (hep : d.regFile.getRecvEp epid = some ep)
    (hsize : ep.size ≤ 32) (hrd : ep.rdPos ≤ ep.size) :
    (ep.msgCount = 0 → MessageUnit.fetchMessage d epid = some (0, d)) ∧
    (ep.msgCount ≠ 0 → (∀ i, i < ep.size → ep.unread.testBit i = false) →
      MessageUnit.fetchMessage d epid = none) ∧
    (ep.msgCount ≠ 0 → ∀ idx l1 l2, cyclicOrder ep.rdPos ep.size = l1 ++ idx :: l2 →
      (∀ j, j ∈ l1 → ep.unread.testBit j = false) → ep.unread.testBit idx = true →
      (ep.occupied.testBit idx = false → MessageUnit.fetchMessage d epid = none) ∧
      (ep.occupied.testBit idx = true →
        ∃ d' ep', MessageUnit.fetchMessage d epid
            = some ((ep.bufAddr + idx * ep.msgSize) % 2 ^ 64, d') ∧
          d'.regFile.getRecvEp epid = some ep' ∧
          ep'.unread.testBit idx = false ∧
          (∀ j, j < 32 → j ≠ idx → ep'.unread.testBit j = ep.unread.testBit j) ∧
          ep'.msgCount = ep.msgCount - 1 ∧
          ep' = { ep with unread := ep'.unread, msgCount := ep'.msgCount,
                          rdPos := idx + 1 })) := by
  refine ⟨?_, ?_, ?_⟩
  · intro h0
    rw [fetchMessage_eq d epid ep hep]
    simp [Ring.fetchMessage, h0, Dtu.writeRecvEp]
  · intro hcnt hnone
    have hfind : (cyclicOrder ep.rdPos ep.size).find? (fun i => ep.unread.testBit i) = none := by
      rw [List.find?_eq_none]
      intro x hx
      rw [hnone x ((mem_cyclicOrder _ _ _ hrd).mp hx)]
      exact Bool.false_ne_true
    rw [fetchMessage_eq d epid ep hep]
    unfold Ring.fetchMessage
    rw [if_neg hcnt, scanRing_isUnread ep hsize hrd, hfind]
    rfl
  · intro hcnt idx l1 l2 hsplit hbefore hbit
    have hfind : (cyclicOrder ep.rdPos ep.size).find? (fun i => ep.unread.testBit i)
        = some idx := by
      rw [List.find?_eq_some]
      exact ⟨hbit, l1, l2, hsplit, fun a ha => by rw [hbefore a ha]; rfl⟩
    obtain ⟨hlt, _, hf⟩ := Ring.fetchMessage_found ep idx hsize hrd hcnt hfind
    have h32 : idx < 32 := by omega
    constructor
    · intro hocc
      rw [fetchMessage_eq d epid ep hep, hf, hocc]
      rfl
    · intro hocc
      have hex : ∃ ep1 : RecvEp, ep1 =
          { ep with unread := ep.unread &&& notBits 32 (1 <<< idx),
                    msgCount := ep.msgCount - 1, rdPos := idx + 1 } := ⟨_, rfl⟩
      obtain ⟨ep1, hep1⟩ := hex
      rw [if_pos hocc, ← hep1] at hf
      refine ⟨d.writeRecvEp epid (some ep1), ep1, ?_, ?_, ?_, ?_, ?_, ?_⟩
      · rw [fetchMessage_eq d epid ep hep, hf]
        rfl
      · exact getRecvEp_setRecvEp d.regFile epid ep _ hep
      · rw [hep1]
        show (ep.unread &&& notBits 32 (1 <<< idx)).testBit idx = false
        rw [testBit_and_notBits _ _ _ h32]; simp
      · intro j hj hne
        rw [hep1]
        show (ep.unread &&& notBits 32 (1 <<< idx)).testBit j = _
        rw [testBit_and_notBits _ _ _ h32]
        simp [hj, Ne.symm hne]
      · rw [hep1]
      · rw [hep1]

theorem fetchMessage_amended_witness :
    ∃ d' ep', MessageUnit.fetchMessage twoUnreadDtu 4 = some ((0x1000 + 2 * 64) % 2 ^ 64, d') ∧
      d'.regFile.getRecvEp 4 = some ep' ∧
      ep'.unread.testBit 2 = false ∧
      (∀ j, j < 32 → j ≠ 2 → ep'.unread.testBit j = (5 : Nat).testBit j) ∧
      ep'.msgCount = 2 - 1 ∧
      ep' = { bufAddr := 0x1000, msgSize := 64, size := 4, wrPos := 3, occupied := 7,
              unread := ep'.unread, msgCount := ep'.msgCount, rdPos := 2 + 1 } :=
  ((fetchMessage_amended twoUnreadDtu 4
    { bufAddr := 0x1000, msgSize := 64, size := 4, rdPos := 2, wrPos := 3,
      msgCount := 2, occupied := 7, unread := 5 }
    rfl (by decide) (by decide)).2.2 (by decide) 2 [] [3, 0, 1] (by decide)
      (by decide) (by decide)).2 (by decide)

/-- C5, counterexample. The ring `staleCountRing` is reached from the empty ring of three
slots by ring operations; none of its indices below `size` has the unread bit set, yet
`fetchMessage` does not return 0: `msgCount` is 1, both scan loops run to their end and
the call stops in `assert(false)`. -/
theorem fetchMessage_no_unread_not_zero :
    Ring.run { bufAddr := 0x1000, msgSize := 64, size := 3 } staleCountOps
      = some staleCountRing ∧
    staleCountDtu.regFile.getRecvEp 4 = some staleCountRing ∧
    (∀ i, i < staleCountRing.size → staleCountRing.unread.testBit i = false) ∧
    MessageUnit.fetchMessage staleCountDtu 4 = none := by
  refine ⟨by decide, rfl, by decide, by decide⟩

/-! ## What a successful ring operation writes -/

theorem scanLoop_some (p : Nat → Option Bool) :
    ∀ (n lo i : Nat), scanLoop p lo n = some (some i) → p i = some true := by
  intro n
  induction n with
  | zero => intro lo i h; simp [scanLoop] at h
  | succ n ih =>
    intro lo i h
    unfold scanLoop at h
    cases hp : p lo with
    | none => rw [hp] at h; simp at h
    | some b =>
      rw [hp] at h
      cases b
      · exact ih (lo + 1) i h
      · simp at h; rw [← h]; exact hp

theorem scanRing_some (p : Nat → Option Bool) (pos size i : Nat)
    (h : scanRing p pos size = some (some i)) : p i = some true := by
  unfold scanRing at h
  cases h1 : scan p pos size with
  | none => rw [h1] at h; simp at h
  | some r =>
    rw [h1] at h
    cases r with
    | none => exact scanLoop_some p _ _ i h
    | some j =>
      simp at h
      rw [← h]
      exact scanLoop_some p _ _ j h1

theorem isUnread_some_true (ep : RecvEp) (i : Nat) (h : ep.isUnread i = some true) :
    i < 32 ∧ ep.unread.testBit i = true := by
  by_cases h32 : i < 32
  · rw [isUnread_eq ep i h32] at h
    exact ⟨h32, by simpa using h⟩
  · simp [RecvEp.isUnread, h32] at h

theorem isOccupied_some (ep : RecvEp) (i : Nat) (b : Bool) (h : ep.isOccupied i = some b) :
    i < 32 ∧ ep.occupied.testBit i = b := by
  by_cases h32 : i < 32
  · rw [isOccupied_eq ep i h32] at h
    exact ⟨h32, by simpa using h⟩
  · simp [RecvEp.isOccupied, h32] at h

theorem Ring.allocSlot_some (msgSize : Nat) (ep : RecvEp) (r : Nat × Option RecvEp)
    (h : Ring.allocSlot msgSize ep = some r) :
    r.2 = none ∨ ∃ i, i < 32 ∧ ep.occupied.testBit i = false ∧ r.1 = i ∧
      r.2 = some { ep with occupied := ep.occupied ||| (1 <<< i), wrPos := (i + 1) % 2 ^ 8 } := by
  unfold Ring.allocSlot at h
  split at h
  · simp at h
  · split at h
    · simp at h
    · simp at h; left; rw [← h]
    · rename_i i hscan
      have hp := scanRing_some _ _ _ i hscan
      have hocc : ep.isOccupied i = some false := by
        cases ho : ep.isOccupied i with
        | none => rw [ho] at hp; simp at hp
        | some b => rw [ho] at hp; cases b <;> simp_all
      obtain ⟨h32, hbit⟩ := isOccupied_some ep i false hocc
      right
      refine ⟨i, h32, hbit, ?_⟩
      simp [RecvEp.setOccupied, h32] at h
      rw [← h]
      exact ⟨rfl, rfl⟩

theorem Ring.fetchMessage_some (ep : RecvEp) (r : Nat × Option RecvEp)
    (h : Ring.fetchMessage ep = some r) :
    (ep.msgCount = 0 ∧ r.2 = none) ∨ ∃ i, i < 32 ∧ ep.msgCount ≠ 0 ∧
      ep.unread.testBit i = true ∧ ep.occupied.testBit i = true ∧
      r.1 = (ep.bufAddr + i * ep.msgSize) % 2 ^ 64 ∧
      r.2 = some { ep with unread := ep.unread &&& notBits 32 (1 <<< i),
                           msgCount := ep.msgCount - 1, rdPos := (i + 1) % 2 ^ 8 } := by
  unfold Ring.fetchMessage at h
  split at h
  · rename_i h0
    simp at h; left; rw [← h]; exact ⟨h0, rfl⟩
  · rename_i hcnt
    split at h
    · simp at h
    · simp at h
    · rename_i i hscan
      obtain ⟨h32, hbit⟩ := isUnread_some_true ep i (scanRing_some _ _ _ i hscan)
      right
      rw [isOccupied_eq ep i h32] at h
      cases hocc : ep.occupied.testBit i
      · rw [hocc] at h; simp at h
      · rw [hocc] at h
        simp [RecvEp.setUnread, h32] at h
        refine ⟨i, h32, hcnt, hbit, hocc, ?_⟩
        rw [← h]
        exact ⟨rfl, rfl⟩

theorem Ring.finishMsgReceive_some (ep : RecvEp) (msgAddr : Nat) (w : Option RecvEp)
    (h : Ring.finishMsgReceive ep msgAddr = some w) :
    (ep.msgCount = ep.size ∧ w = none) ∨ ∃ i, i < 32 ∧ ep.msgCount ≠ ep.size ∧
      (toInt (ep.slotQuot msgAddr)).toNat = i ∧
      w = some { ep with msgCount := (ep.msgCount + 1) % 2 ^ 16,
                         unread := ep.unread ||| (1 <<< i) } := by
  unfold Ring.finishMsgReceive at h
  split at h
  · simp at h
  · simp only at h
    split at h
    · rename_i hfull
      simp at h; left; exact ⟨hfull, h.symm⟩
    · rename_i hnf
      split at h
      · simp at h
      · right
        by_cases h32 : (toInt (ep.slotQuot msgAddr)).toNat < 32
        · refine ⟨_, h32, hnf, rfl, ?_⟩
          simp [RecvEp.setUnread, h32] at h
          rw [← h]
          norm_num
        · simp [RecvEp.setUnread, h32] at h

theorem Ring.ackMessage_some (ep : RecvEp) (msg : Nat) (ep1 : RecvEp)
    (h : Ring.ackMessage ep msg = some ep1) :
    ∃ i, i < 32 ∧ ep.msgToIdx msg = some i ∧ ep.occupied.testBit i = true ∧
      ep1 = { ep with occupied := ep.occupied &&& notBits 32 (1 <<< i) } := by
  unfold Ring.ackMessage at h
  split at h
  · simp at h
  · rename_i i hidx
    split at h
    · simp at h
    · split at h
      · simp at h
      · simp at h
      · rename_i hocc
        obtain ⟨h32, hbit⟩ := isOccupied_some ep i true hocc
        refine ⟨i, h32, hidx, hbit, ?_⟩
        simp [RecvEp.setOccupied, h32] at h
        rw [← h]

/-! ## The invariant `unread & ~occupied == 0` -/

theorem testBit_notBits (y i : Nat) :
    (notBits 32 y).testBit i = (decide (i < 32) && !y.testBit i) := by
  have hlt : y % 2 ^ 32 < 2 ^ 32 := Nat.mod_lt _ (by decide)
  have hsub : 2 ^ 32 - 1 - y % 2 ^ 32 = 2 ^ 32 - (y % 2 ^ 32 + 1) := by omega
  unfold notBits
  rw [hsub, Nat.testBit_two_pow_sub_succ hlt, Nat.testBit_mod_two_pow]
  by_cases h : i < 32 <;> simp [h]

theorem and_notBits_eq_zero_iff (x y : Nat) :
    x &&& notBits 32 y = 0 ↔ ∀ i, i < 32 → x.testBit i = true → y.testBit i = true := by
  constructor
  · intro h i hi hx
    have := congrArg (fun n => n.testBit i) h
    simp only [Nat.testBit_and, testBit_notBits, hx, hi, Nat.zero_testBit] at this
    simpa using this
  · intro h
    apply Nat.eq_of_testBit_eq
    intro i
    rw [Nat.testBit_and, testBit_notBits, Nat.zero_testBit]
    by_cases hi : i < 32
    · cases hx : x.testBit i
      · simp
      · simp [h i hi hx]
    · simp [hi]

/-- C8, as amended. For every RECEIVE endpoint record satisfying `unread & ~occupied == 0`,
the record after `allocSlot`, after `fetchMessage`, after `finishMsgReceive` for a slot
whose occupied bit is set, and after `ackMessage` of a slot whose unread bit is clear
again satisfies `unread & ~occupied == 0`. -/
theorem unread_within_occupied_amended (ep : RecvEp)
    (hinv : ep.unread &&& notBits 32 ep.occupied = 0) :
    (∀ msgSize r, Ring.allocSlot msgSize ep = some r →
      (r.2.getD ep).unread &&& notBits 32 (r.2.getD ep).occupied = 0) ∧
    (∀ r, Ring.fetchMessage ep = some r →
      (r.2.getD ep).unread &&& notBits 32 (r.2.getD ep).occupied = 0) ∧
    (∀ msgAddr w, Ring.finishMsgReceive ep msgAddr = some w →
      ep.occupied.testBit (toInt (ep.slotQuot msgAddr)).toNat = true →
      (w.getD ep).unread &&& notBits 32 (w.getD ep).occupied = 0) ∧
    (∀ offset idx ep1, Ring.ackMessage ep offset = some ep1 →
      ep.msgToIdx offset = some idx → ep.unread.testBit idx = false →
      ep1.unread &&& notBits 32 ep1.occupied = 0) := by
  have hb := (and_notBits_eq_zero_iff _ _).mp hinv
  refine ⟨?_, ?_, ?_, ?_⟩
  · intro msgSize r h
    rcases Ring.allocSlot_some msgSize ep r h with hn | ⟨i, _, _, _, hw⟩
    · rw [hn]; exact hinv
    · rw [hw]
      apply (and_notBits_eq_zero_iff _ _).mpr
      intro j hj hx
      show (ep.occupied ||| (1 <<< i)).testBit j = true
      rw [testBit_or_one_shiftLeft, hb j hj hx]; rfl
  · intro r h
    rcases Ring.fetchMessage_some ep r h with ⟨_, hn⟩ | ⟨i, h32, _, _, _, _, hw⟩
    · rw [hn]; exact hinv
    · rw [hw]
      apply (and_notBits_eq_zero_iff _ _).mpr
      intro j hj hx
      have hx2 : (ep.unread &&& notBits 32 (1 <<< i)).testBit j = true := hx
      rw [testBit_and_notBits _ _ _ h32] at hx2
      exact hb j hj (by simp at hx2; exact hx2.1)
  · intro msgAddr w h hocc
    rcases Ring.finishMsgReceive_some ep msgAddr w h with ⟨_, hn⟩ | ⟨i, _, _, hi, hw⟩
    · rw [hn]; exact hinv
    · rw [hw]
      apply (and_notBits_eq_zero_iff _ _).mpr
      intro j hj hx
      have hx2 : (ep.unread ||| (1 <<< i)).testBit j = true := hx
      rw [testBit_or_one_shiftLeft] at hx2
      show ep.occupied.testBit j = true
      rcases Bool.or_eq_true _ _ ▸ hx2 with h1 | h1
      · exact hb j hj h1
      · have : i = j := by simpa using h1
        rw [← this, ← hi]; exact hocc
  · intro offset idx ep1 h hidx hclear
    obtain ⟨i, h32, hidx2, _, hw⟩ := Ring.ackMessage_some ep offset ep1 h
    have hii : i = idx := by rw [hidx] at hidx2; exact (Option.some.inj hidx2).symm
    rw [hw]
    apply (and_notBits_eq_zero_iff _ _).mpr
    intro j hj hx
    show (ep.occupied &&& notBits 32 (1 <<< i)).testBit j = true
    rw [testBit_and_notBits _ _ _ h32]
    have hne : i ≠ j := by
      intro hij
      rw [← hij, hii] at hx
      have hx3 : ep.unread.testBit idx = true := hx
      rw [hclear] at hx3
      exact Bool.false_ne_true hx3
    have hx4 : ep.unread.testBit j = true := hx
    simp [hb j hj hx4, hj, hne]

theorem unread_within_occupied_amended_witness :
    Ring.ackMessage ackRing (0x1000 + 64) = some ackedRing ∧
      ackedRing.unread &&& notBits 32 ackedRing.occupied = 0 :=
  ⟨by decide, (unread_within_occupied_amended ackRing (by decide)).2.2.2
    (0x1000 + 64) 1 ackedRing (by decide) (by decide) (by decide)⟩

/-- C8, counterexample. The endpoint of `unfetchedDtu` satisfies `unread & ~occupied == 0`
(slot 0 is occupied and unread) and `OFFSET` passes the assertions of `ackMessage`; after
`ackMessage` the endpoint has `occupied = 0` and `unread = 1`, so `unread & ~occupied` is
1. -/
theorem ackMessage_breaks_unread_within_occupied :
    unfetchedDtu.regFile.getRecvEp 4
      = some { bufAddr := 0x1000, msgSize := 64, size := 4, wrPos := 1,
               occupied := 1, unread := 1, msgCount := 1 } ∧
    (1 : Nat) &&& notBits 32 1 = 0 ∧
    (MessageUnit.ackMessage unfetchedDtu 4).map (fun d => d.regFile.getRecvEp 4)
      = some (some { bufAddr := 0x1000, msgSize := 64, size := 4, wrPos := 1,
                     occupied := 0, unread := 1, msgCount := 1 }) ∧
    (1 : Nat) &&& notBits 32 0 = 1 := by
  refine ⟨rfl, by decide, by decide, by decide⟩

/-! ## The message count -/

theorem countP_range_update (p q : Nat → Bool) (i N : Nat) (hpi : p i = false)
    (hqi : q i = true) (hne : ∀ j, j < N → j ≠ i → q j = p j) :
    ∀ n, n ≤ N → i < n → (List.range n).countP q = (List.range n).countP p + 1 := by
  intro n
  induction n with
  | zero => intro _ h; omega
  | succ n ih =>
    intro hn h
    rw [List.range_succ, List.countP_append, List.countP_append, List.countP_singleton,
      List.countP_singleton]
    by_cases hin : i = n
    · subst hin
      have hc : (List.range i).countP q = (List.range i).countP p := by
        apply List.countP_congr
        intro x hx
        have hxi : x < i := List.mem_range.mp hx
        rw [hne x (by omega) (Nat.ne_of_lt hxi)]
      rw [hc, hpi, hqi]
      simp
    · rw [ih (by omega) (by omega), hne n (by omega) (Ne.symm hin)]
      omega

theorem popcount_set (x i : Nat) (hi : i < 32) (hbit : x.testBit i = false) :
    popcount (x ||| (1 <<< i)) = popcount x + 1 := by
  unfold popcount
  apply countP_range_update (fun j => x.testBit j) (fun j => (x ||| (1 <<< i)).testBit j) i 32
    hbit _ _ 32 (Nat.le_refl _) hi
  · show (x ||| (1 <<< i)).testBit i = true
    rw [testBit_or_one_shiftLeft]; simp
  · intro j _ hj
    show (x ||| (1 <<< i)).testBit j = x.testBit j
    rw [testBit_or_one_shiftLeft]
    simp [Ne.symm hj]

theorem popcount_clear (x i : Nat) (hi : i < 32) (hbit : x.testBit i = true) :
    popcount x = popcount (x &&& notBits 32 (1 <<< i)) + 1 := by
  unfold popcount
  apply countP_range_update (fun j => (x &&& notBits 32 (1 <<< i)).testBit j)
    (fun j => x.testBit j) i 32 _ hbit _ 32 (Nat.le_refl _) hi
  · show (x &&& notBits 32 (1 <<< i)).testBit i = false
    rw [testBit_and_notBits _ _ _ hi]; simp
  · intro j hj32 hj
    show x.testBit j = (x &&& notBits 32 (1 <<< i)).testBit j
    rw [testBit_and_notBits _ _ _ hi]
    simp [hj32, Ne.symm hj]

theorem popcount_le (x : Nat) : popcount x ≤ 32 := by
  unfold popcount
  have h := @List.countP_le_length _ (fun i => x.testBit i) (List.range 32)
  simpa using h

/-- C7, as amended. Starting from an empty ring, `msgCount == popcount(unread)` holds for a
RECEIVE endpoint after every ring operation: slot allocation on receive (`allocSlot`),
receive completion (`finishMsgReceive`, called for a slot whose unread bit is clear),
`fetchMessage` and `ackMessage`. -/
theorem msgCount_eq_popcount_unread (bufAddr msgSize size : Nat) (ep : RecvEp)
    (h : Ring.Reached bufAddr msgSize size ep) : ep.msgCount = popcount ep.unread := by
  induction h with
  | empty => show 0 = popcount 0; decide
  | allocSlot m r _ hs ih =>
    rcases Ring.allocSlot_some m _ r hs with hn | ⟨i, _, _, _, hw⟩
    · rw [hn]; exact ih
    · rw [hw]; exact ih
  | finishMsgReceive a w _ hs hclear ih =>
    rcases Ring.finishMsgReceive_some _ a w hs with ⟨_, hn⟩ | ⟨i, h32, _, hi, hw⟩
    · rw [hn]; exact ih
    · rw [hw]
      rw [hi] at hclear
      show (_ + 1) % 2 ^ 16 = popcount (_ ||| (1 <<< i))
      rw [popcount_set _ i h32 hclear, ih]
      have := popcount_le (‹RecvEp›).unread
      apply Nat.mod_eq_of_lt
      omega
  | fetchMessage r _ hs ih =>
    rcases Ring.fetchMessage_some _ r hs with ⟨_, hn⟩ | ⟨i, h32, _, hbit, _, _, hw⟩
    · rw [hn]; exact ih
    · rw [hw]
      show _ - 1 = popcount (_ &&& notBits 32 (1 <<< i))
      rw [ih, popcount_clear _ i h32 hbit]
      omega
  | ackMessage offset ep1 _ hs ih =>
    obtain ⟨i, _, _, _, hw⟩ := Ring.ackMessage_some _ offset ep1 hs
    rw [hw]; exact ih

theorem msgCount_eq_popcount_unread_witness :
    oneMessageRing.msgCount = popcount oneMessageRing.unread :=
  msgCount_eq_popcount_unread 0x1000 64 4 oneMessageRing
    (Ring.Reached.finishMsgReceive 0x1000 (some oneMessageRing)
      (Ring.Reached.allocSlot 41 (0, some allocatedRing) Ring.Reached.empty (by decide))
      (by decide) (by decide))

/-- C7, counterexample. Starting from the empty ring, after `allocSlot` (run by
`recvFromNoc` for a message of the local VPE) one occupied bit is set while `msgCount` is
still 0; and after the receive has completed and the message has been fetched, `msgCount`
is 0 again while the slot stays occupied until it is acknowledged. -/
theorem msgCount_ne_popcount_occupied :
    exampleDtu.regFile.getRecvEp 4 = some { bufAddr := 0x1000, msgSize := 64, size := 4 } ∧
    (MessageUnit.recvFromNoc exampleDtu localVpePacket).map
        (fun r => r.2.regFile.getRecvEp 4) = some (some allocatedRing) ∧
    allocatedRing.msgCount = 0 ∧ popcount allocatedRing.occupied = 1 ∧
    Ring.run { bufAddr := 0x1000, msgSize := 64, size := 4 }
        [RingOp.allocSlot 41, RingOp.finishMsgReceive 0x1000, RingOp.fetchMessage]
      = some fetchedRing ∧
    fetchedRing.msgCount = 0 ∧ popcount fetchedRing.occupied = 1 := by
  refine ⟨rfl, by decide, rfl, by decide, by decide, rfl, by decide⟩

/-! ## Fetching until the ring is empty -/

theorem range'_split (a m n k : Nat) (hk : k = m + n) :
    List.range' a k = List.range' a m ++ List.range' (a + m) n := by
  rw [hk, List.range'_append_1, Nat.add_comm]

theorem range'_head (a k : Nat) (hk : 0 < k) :
    List.range' a k = a :: List.range' (a + 1) (k - 1) := by
  have e : k = (k - 1) + 1 := by omega
  conv_lhs => rw [e]
  rw [List.range'_succ]

theorem cyclicOrder_split (p s idx : Nat) (hps : p ≤ s) (hs : idx < s) :
    ∃ A B, cyclicOrder p s = A ++ idx :: B ∧ cyclicOrder (idx + 1) s = B ++ (A ++ [idx]) ∧
      idx ∉ A ∧ idx ∉ B := by
  by_cases hp : p ≤ idx
  · refine ⟨List.range' p (idx - p),
      List.range' (idx + 1) (s - idx - 1) ++ List.range' 0 p, ?_, ?_, ?_, ?_⟩
    · unfold cyclicOrder
      rw [range'_split p (idx - p) (s - idx) (s - p) (by omega),
        range'_head (p + (idx - p)) (s - idx) (by omega)]
      have e1 : p + (idx - p) = idx := by omega
      rw [e1]
      simp
    · unfold cyclicOrder
      rw [range'_split 0 p (idx + 1 - p) (idx + 1) (by omega),
        range'_split (0 + p) (idx - p) 1 (idx + 1 - p) (by omega)]
      have e1 : 0 + p + (idx - p) = idx := by omega
      have e2 : 0 + p = p := by omega
      have e3 : s - (idx + 1) = s - idx - 1 := by omega
      rw [e1, e2, e3]
      simp
    · rw [List.mem_range'_1]; omega
    · rw [List.mem_append, List.mem_range'_1, List.mem_range'_1]; omega
  · refine ⟨List.range' p (s - p) ++ List.range' 0 idx,
      List.range' (idx + 1) (p - idx - 1), ?_, ?_, ?_, ?_⟩
    · unfold cyclicOrder
      rw [range'_split 0 idx (p - idx) p (by omega),
        range'_head (0 + idx) (p - idx) (by omega)]
      have e1 : 0 + idx = idx := by omega
      have e2 : p - idx - 1 = p - idx - 1 := rfl
      rw [e1]
      simp
    · unfold cyclicOrder
      rw [range'_split (idx + 1) (p - idx - 1) (s - p) (s - (idx + 1)) (by omega),
        range'_split 0 idx 1 (idx + 1) (by omega)]
      have e1 : idx + 1 + (p - idx - 1) = p := by omega
      have e2 : 0 + idx = idx := by omega
      rw [e1, e2]
      simp
    · rw [List.mem_append, List.mem_range'_1, List.mem_range'_1]; omega
    · rw [List.mem_range'_1]; omega

theorem filter_after_first (q q1 : Nat → Bool) (A B rest : List Nat) (idx : Nat)
    (hA : idx ∉ A) (hB : idx ∉ B) (hU : (A ++ idx :: B).filter q = idx :: rest)
    (hq1 : ∀ j, j ∈ A ++ idx :: B → q1 j = (q j && !decide (j = idx))) :
    q idx = true ∧ (∀ j, j ∈ A → q j = false) ∧ (B ++ (A ++ [idx])).filter q1 = rest := by
  rw [List.filter_append] at hU
  have hAnil : A.filter q = [] := by
    cases hf : A.filter q with
    | nil => rfl
    | cons h t =>
      rw [hf] at hU
      have hh : h = idx := by simpa using (List.cons.inj hU).1
      have : h ∈ A.filter q := by rw [hf]; exact List.mem_cons_self _ _
      rw [hh] at this
      exact absurd (List.mem_filter.mp this).1 hA
  rw [hAnil, List.nil_append] at hU
  have hqi : q idx = true := by
    cases hq : q idx
    · rw [List.filter_cons, hq] at hU
      simp only [Bool.false_eq_true, if_false] at hU
      have : idx ∈ B.filter q := by rw [hU]; exact List.mem_cons_self _ _
      exact absurd (List.mem_filter.mp this).1 hB
    · rfl
  have hrest : B.filter q = rest := by
    rw [List.filter_cons, hqi] at hU
    simpa using hU
  have hAf : ∀ j, j ∈ A → q j = false := by
    intro j hj
    have := (List.filter_eq_nil_iff.mp hAnil) j hj
    simpa using this
  refine ⟨hqi, hAf, ?_⟩
  have hB1 : B.filter q1 = B.filter q := by
    apply List.filter_congr
    intro x hx
    have : x ≠ idx := fun h => hB (h ▸ hx)
    rw [hq1 x (by simp [hx])]; simp [this]
  have hA1 : A.filter q1 = [] := by
    rw [List.filter_eq_nil_iff]
    intro x hx
    rw [hq1 x (by simp [hx]), hAf x hx]; simp
  have hi1 : [idx].filter q1 = [] := by
    rw [List.filter_eq_nil_iff]
    intro x hx
    have : x = idx := by simpa using hx
    rw [hq1 x (by simp [this]), this]; simp
  rw [List.filter_append, List.filter_append, hB1, hA1, hi1, hrest]
  simp

theorem fetchUntilZero_spec (epid : Nat) :
    ∀ (fuel : Nat) (d : Dtu) (ep : RecvEp),
      d.regFile.getRecvEp epid = some ep →
      ep.size ≤ 32 → ep.rdPos ≤ ep.size →
      (∀ i, i < ep.size → ep.unread.testBit i = true → ep.occupied.testBit i = true) →
      ep.msgCount = (unreadInOrder ep).length →
      (∀ i, i < ep.size → ep.unread.testBit i = true →
        (ep.bufAddr + i * ep.msgSize) % 2 ^ 64 ≠ 0) →
      ep.msgCount < fuel →
      ∃ d', fetchUntilZero epid fuel d
        = some ((unreadInOrder ep).map (fun i => (ep.bufAddr + i * ep.msgSize) % 2 ^ 64), d') := by
  intro fuel
  induction fuel with
  | zero => intro d ep _ _ _ _ _ _ h; omega
  | succ fuel ih =>
    intro d ep hep hsize hrd hsub hcnt hnz hfuel
    cases hU : unreadInOrder ep with
    | nil =>
      rw [hU] at hcnt
      have h0 : ep.msgCount = 0 := hcnt
      refine ⟨d, ?_⟩
      unfold fetchUntilZero
      rw [fetchMessage_eq d epid ep hep]
      simp [Ring.fetchMessage, h0, Dtu.writeRecvEp]
    | cons idx rest =>
      rw [hU] at hcnt
      have hcnt0 : ep.msgCount ≠ 0 := by rw [hcnt]; simp
      have hfind : (cyclicOrder ep.rdPos ep.size).find? (fun i => ep.unread.testBit i)
          = some idx := by
        rw [← List.filter_head?]
        unfold unreadInOrder at hU
        rw [hU]; rfl
      obtain ⟨hlt, hbit, hf⟩ := Ring.fetchMessage_found ep idx hsize hrd hcnt0 hfind
      have h32 : idx < 32 := by omega
      rw [if_pos (hsub idx hlt hbit)] at hf
      have hex : ∃ ep1 : RecvEp, ep1 =
          { ep with unread := ep.unread &&& notBits 32 (1 <<< idx),
                    msgCount := ep.msgCount - 1, rdPos := idx + 1 } := ⟨_, rfl⟩
      obtain ⟨ep1, hep1⟩ := hex
      rw [← hep1] at hf
      have hbits : ∀ j, ep1.unread.testBit j
          = (ep.unread.testBit j && (decide (j < 32) && !decide (idx = j))) := by
        intro j
        rw [hep1]
        exact testBit_and_notBits _ _ _ h32
      have hsz1 : ep1.size = ep.size := by rw [hep1]
      have hrd1 : ep1.rdPos = idx + 1 := by rw [hep1]
      have hba1 : ep1.bufAddr = ep.bufAddr := by rw [hep1]
      have hms1 : ep1.msgSize = ep.msgSize := by rw [hep1]
      have hoc1 : ep1.occupied = ep.occupied := by rw [hep1]
      have hmc1 : ep1.msgCount = ep.msgCount - 1 := by rw [hep1]
      have hsub1 : ∀ j, ep1.unread.testBit j = true → ep.unread.testBit j = true := by
        intro j hj
        rw [hbits j] at hj
        simp at hj
        exact hj.1
      obtain ⟨A, B, hsplit, hsplit1, hA, hB⟩ :=
        cyclicOrder_split ep.rdPos ep.size idx hrd hlt
      have hU1 : unreadInOrder ep1 = rest := by
        unfold unreadInOrder
        rw [hrd1, hsz1, hsplit1]
        unfold unreadInOrder at hU
        rw [hsplit] at hU
        refine (filter_after_first (fun i => ep.unread.testBit i)
          (fun i => ep1.unread.testBit i) A B rest idx hA hB hU ?_).2.2
        intro j hj
        have hjs : j < ep.size := by
          rw [← hsplit] at hj
          exact (mem_cyclicOrder _ _ _ hrd).mp hj
        show ep1.unread.testBit j = _
        rw [hbits j]
        have hj32 : j < 32 := by omega
        by_cases hji : j = idx
        · simp [hji]
        · simp [hj32, hji, Ne.symm hji]
      have hd1 : (d.writeRecvEp epid (some ep1)).regFile.getRecvEp epid = some ep1 :=
        getRecvEp_setRecvEp d.regFile epid ep ep1 hep
      obtain ⟨d2, hd2⟩ := ih (d.writeRecvEp epid (some ep1)) ep1 hd1
        (by rw [hsz1]; exact hsize) (by rw [hrd1, hsz1]; omega)
        (by
          intro i hi hb
          rw [hoc1]
          exact hsub i (by rw [hsz1] at hi; exact hi) (hsub1 i hb))
        (by rw [hU1, hmc1, hcnt]; simp)
        (by
          intro i hi hb
          rw [hba1, hms1]
          exact hnz i (by rw [hsz1] at hi; exact hi) (hsub1 i hb))
        (by rw [hmc1]; omega)
      refine ⟨d2, ?_⟩
      have haddr : (ep.bufAddr + idx * ep.msgSize) % 2 ^ 64 ≠ 0 := hnz idx hlt hbit
      unfold fetchUntilZero
      rw [fetchMessage_eq d epid ep hep, hf]
      simp only [Option.map_some', haddr, if_false, hd2, hU1, hba1, hms1, List.map_cons]

/-- C6, as amended. For every RECEIVE endpoint with `rdPos = p <= size <= 32` whose unread
bits below `size` are the set `U`, with `unread` within `occupied`, `msgCount = |U|` and
`bufAddr + idx * msgSize` not 0 (modulo `2^64`) for the indices of `U`: calling
`fetchMessage` repeatedly with no interleaved receive until it returns 0 (any bound above
`|U|` on the number of calls suffices) returns exactly `|U|` addresses, all non-zero,
one per index of `U`, in the order in which those indices occur in
`(p, p+1, ..., size-1, 0, ..., p-1)`. -/
theorem fetch_order_amended (d : Dtu) (epid fuel : Nat) (ep : RecvEp)
    (hep : d.regFile.getRecvEp epid = some ep)
    (hsize : ep.size ≤ 32) (hrd : ep.rdPos ≤ ep.size)
    (hsub : ∀ i, i < ep.size → ep.unread.testBit i = true → ep.occupied.testBit i = true)
    (hcnt : ep.msgCount = (unreadInOrder ep).length)
    (hnz : ∀ i, i < ep.size → ep.unread.testBit i = true →
      (ep.bufAddr + i * ep.msgSize) % 2 ^ 64 ≠ 0)
    (hfuel : ep.msgCount < fuel) :
    ∃ d', fetchUntilZero epid fuel d
        = some ((unreadInOrder ep).map (fun i => (ep.bufAddr + i * ep.msgSize) % 2 ^ 64), d') ∧
      unreadInOrder ep
        = (cyclicOrder ep.rdPos ep.size).filter (fun i => ep.unread.testBit i) ∧
      ((unreadInOrder ep).map (fun i => (ep.bufAddr + i * ep.msgSize) % 2 ^ 64)).length
        = ep.msgCount ∧
      ∀ a, a ∈ (unreadInOrder ep).map (fun i => (ep.bufAddr + i * ep.msgSize) % 2 ^ 64) →
        a ≠ 0 := by
  obtain ⟨d', hd'⟩ := fetchUntilZero_spec epid fuel d ep hep hsize hrd hsub hcnt hnz hfuel
  refine ⟨d', hd', rfl, by rw [List.length_map, hcnt], ?_⟩
  intro a ha
  obtain ⟨i, hi, hia⟩ := List.mem_map.mp ha
  have hi2 := List.mem_filter.mp hi
  rw [← hia]
  exact hnz i ((mem_cyclicOrder _ _ _ hrd).mp hi2.1) hi2.2

theorem fetch_order_amended_witness :
    (∃ d', fetchUntilZero 4 3 twoUnreadDtu = some ([0x1000 + 2 * 64, 0x1000], d')) ∧
    (∃ d', fetchUntilZero 4 2 oneMessageDtu = some ([0x1000], d')) := by
  constructor
  · obtain ⟨d', h, _⟩ := fetch_order_amended twoUnreadDtu 4 3 twoUnreadRing rfl
      (by decide) (by decide) (by decide) (by decide) (by decide) (by decide)
    exact ⟨d', h⟩
  · obtain ⟨d', h, _⟩ := fetch_order_amended oneMessageDtu 4 2 oneMessageRing rfl
      (by decide) (by decide) (by decide) (by decide) (by decide) (by decide)
    exact ⟨d', h⟩

/-- C6, counterexample. (a) The ring of `zeroBufDtu` has its buffer at address 0 and one
unread message, in slot 0: the first `fetchMessage` takes that message and returns its
address, which is 0, so fetching until 0 returns no non-zero address although `|U| = 1`.
(b) The ring of `overCountDtu`, reached from the empty ring by ring operations, has one
unread message and `msgCount = 2`: the first `fetchMessage` returns the address of slot 0
and the second stops in `assert(false)` instead of returning 0. -/
theorem fetch_until_zero_not_all_unread :
    (zeroBufDtu.regFile.getRecvEp 4
        = some { bufAddr := 0, msgSize := 64, size := 4, wrPos := 1,
                 occupied := 1, unread := 1, msgCount := 1 } ∧
      (MessageUnit.fetchMessage zeroBufDtu 4).map (fun r => (r.1, r.2.regFile.getRecvEp 4))
        = some (0, some { bufAddr := 0, msgSize := 64, size := 4, rdPos := 1, wrPos := 1,
                          occupied := 1, unread := 0, msgCount := 0 }) ∧
      (fetchUntilZero 4 2 zeroBufDtu).map (fun r => r.1) = some []) ∧
    (Ring.run { bufAddr := 0x1000, msgSize := 64, size := 3 } staleCountOps.dropLast
        = overCountDtu.regFile.getRecvEp 4 ∧
      (MessageUnit.fetchMessage overCountDtu 4).map (fun r => (r.1, r.2.regFile.getRecvEp 4))
        = some (0x1000, some staleCountRing) ∧
      MessageUnit.fetchMessage staleCountDtu 4 = none ∧
      fetchUntilZero 4 3 overCountDtu = none) := by
  refine ⟨⟨rfl, by decide, by decide⟩, ⟨by decide, by decide, by decide, by decide⟩⟩

/-! ## Credits -/

theorem startXfer_regFile (d : Dtu) (cmd : Command) (d1 : Dtu)
    (h : MessageUnit.startXfer d cmd = some d1) : d1.regFile = d.regFile := by
  unfold MessageUnit.startXfer at h
  simp only at h
  split at h
  · simp at h
  · split at h
    · simp at h
    · simp at h; rw [← h]; rfl

theorem fillInfoAndStart_regFile (d : Dtu) (cmd : Command) (ep : SendEp) (d1 : Dtu)
    (h : MessageUnit.fillInfoAndStart d cmd ep = some d1) : d1.regFile = d.regFile := by
  unfold MessageUnit.fillInfoAndStart at h
  have h2 := startXfer_regFile _ cmd d1 h
  exact h2

theorem startTransmission_send_some (d : Dtu) (cmd : Command) (ep : SendEp) (d1 : Dtu)
    (hop : cmd.opcode = Opcode.SEND) (hep : d.regFile.getSendEp cmd.arg = some ep)
    (h : MessageUnit.startTransmission d cmd = some d1)
    (ht : d1.transfers.length = d.transfers.length + 1) :
    (ep.credits = CREDITS_UNLIM ∧ d1.regFile = d.regFile) ∨
    (ep.credits ≠ CREDITS_UNLIM ∧ ep.maxMsgSize ≤ ep.credits ∧
      d1.regFile = d.regFile.setSendEp cmd.arg
        { ep with credits := ep.credits - ep.maxMsgSize }) := by
  have hop2 : ¬ cmd.opcode = Opcode.REPLY := by rw [hop]; decide
  unfold MessageUnit.startTransmission at h
  simp only [hop2, if_false, hep] at h
  split at h
  · simp at h
  · split at h
    · rename_i hb
      split at h
      · exfalso
        have hd : d1 = d.scheduleFinishOp Error.MISS_CREDITS := (Option.some.inj h).symm
        have htr : d1.transfers = d.transfers := by
          rw [hd]; unfold Dtu.scheduleFinishOp; split <;> rfl
        rw [htr] at ht
        omega
      · rename_i hlt
        right
        exact ⟨hb, Nat.le_of_not_lt hlt, fillInfoAndStart_regFile _ cmd _ d1 h⟩
    · rename_i hb
      left
      exact ⟨by simpa using hb, fillInfoAndStart_regFile _ cmd _ d1 h⟩

theorem getSendEp_lt (rf : RegFile) (e : Nat) (ep : SendEp) (h : rf.getSendEp e = some ep) :
    e < rf.epRegs.length := by
  by_contra hge
  have : rf.epRegs[e]? = none := List.getElem?_eq_none (Nat.le_of_not_lt hge)
  simp [RegFile.getSendEp, this] at h

theorem getSendEp_setRecvEp (rf : RegFile) (i e : Nat) (r r1 : RecvEp) (ep : SendEp)
    (hs : rf.getSendEp e = some ep) (hr : rf.getRecvEp i = some r) :
    (rf.setRecvEp i r1).getSendEp e = some ep := by
  have hne : i ≠ e := by
    intro hie
    rw [hie] at hr
    unfold RegFile.getSendEp at hs
    unfold RegFile.getRecvEp at hr
    cases hx : rf.epRegs[e]? with
    | none => rw [hx] at hs; simp at hs
    | some x => rw [hx] at hs hr; cases x <;> simp at hs hr
  unfold RegFile.getSendEp RegFile.setRecvEp
  simp only [List.getElem?_set_ne hne]
  exact hs

theorem getSendEp_writeRecvEp (d : Dtu) (i e : Nat) (r : RecvEp) (w : Option RecvEp)
    (ep : SendEp) (hs : d.regFile.getSendEp e = some ep)
    (hr : d.regFile.getRecvEp i = some r) :
    (d.writeRecvEp i w).regFile.getSendEp e = some ep := by
  cases w with
  | none => exact hs
  | some r1 => exact getSendEp_setRecvEp d.regFile i e r r1 ep hs hr

theorem recvFromNoc_accept (d : Dtu) (pkt : Packet) (d1 : Dtu)
    (hpf : pkt.header.flags &&& (REPLY_FLAG ||| PAGEFAULT) ≠ REPLY_FLAG ||| PAGEFAULT)
    (h : MessageUnit.recvFromNoc d pkt = some (Error.NONE, d1)) :
    ∃ epId r w t, d.regFile.getRecvEp epId = some r ∧
      d1 = (MessageUnit.grantCredits (d.writeRecvEp epId w) pkt.header).startTransfer t := by
  unfold MessageUnit.recvFromNoc at h
  simp only [hpf, if_false] at h
  split at h
  · simp at h
  · rename_i r hr
    unfold MessageUnit.allocSlot at h
    split at h
    · simp at h
    · rename_i x hx
      cases hral : Ring.allocSlot pkt.size r with
      | none => rw [hral] at hx; simp at hx
      | some iw =>
        rw [hral] at hx
        simp only [Option.some.injEq, Prod.mk.injEq] at hx
        obtain ⟨_, _, hx3⟩ := hx
        rw [← hx3] at h
        split at h
        · simp only [Option.some.injEq, Prod.mk.injEq, true_and] at h
          exact ⟨_, r, iw.2, _, hr, h.symm⟩
        · exfalso
          split at h <;> simp at h

theorem grantCredits_regFile (d : Dtu) (header : MessageHeader) (ep : SendEp)
    (h1 : header.flags &&& REPLY_FLAG ≠ 0) (h2 : header.flags &&& GRANT_CREDITS_FLAG ≠ 0)
    (hep : d.regFile.getSendEp header.replyEpId = some ep)
    (hb : ep.credits ≠ CREDITS_UNLIM) :
    (MessageUnit.grantCredits d header).regFile
      = d.regFile.setSendEp header.replyEpId
          { ep with credits := (ep.credits + ep.maxMsgSize) % 2 ^ 16 } := by
  have hlt : header.replyEpId < d.numEndpoints := getSendEp_lt d.regFile _ ep hep
  unfold MessageUnit.grantCredits
  rw [if_pos ⟨h1, h2, hlt⟩, hep]
  simp only [hb, ne_eq, not_false_eq_true, if_true]

theorem creditRun_invariant (e : Nat) (d0 d : Dtu) (s g : Nat) (ep0 : SendEp)
    (hrun : CreditRun e d0 s g d) (hep0 : d0.regFile.getSendEp e = some ep0)
    (hb : ep0.credits ≠ CREDITS_UNLIM) (hw : ep0.credits < 2 ^ 16) :
    g ≤ s ∧ ∃ ep, d.regFile.getSendEp e = some ep ∧
      ep = { ep0 with credits := ep.credits } ∧
      ep.credits + ep0.maxMsgSize * (s - g) = ep0.credits := by
  have hU : CREDITS_UNLIM = 2 ^ 16 - 1 := by decide
  induction hrun with
  | start => exact ⟨Nat.le_refl _, ep0, hep0, rfl, by simp⟩
  | send cmd d1 _ hop harg hst ht ih =>
    obtain ⟨hle, ep, hep, hrec, hcr⟩ := ih
    rw [← harg] at hep
    have hbe : ep.credits ≠ CREDITS_UNLIM := by omega
    have hm : ep.maxMsgSize = ep0.maxMsgSize := by rw [hrec]
    rcases startTransmission_send_some _ cmd ep d1 hop hep hst ht with ⟨hu, _⟩ | ⟨_, hge, hrf⟩
    · exact absurd hu hbe
    · refine ⟨by omega, { ep with credits := ep.credits - ep.maxMsgSize }, ?_, ?_, ?_⟩
      · rw [hrf, ← harg]
        exact getSendEp_setSendEp _ cmd.arg ep _ hep
      · show _ = { ep0 with credits := ep.credits - ep.maxMsgSize }
        rw [hrec]
      · show ep.credits - ep.maxMsgSize + ep0.maxMsgSize * (_ + 1 - _) = ep0.credits
        rw [hm] at hge ⊢
        have e1 : ∀ s g : Nat, g ≤ s → s + 1 - g = (s - g) + 1 := by intro s g h; omega
        rw [e1 _ _ hle, Nat.mul_add, Nat.mul_one]
        omega
  | grant pkt d1 _ hlt h1 h2 hpf hreply hrecv ih =>
    obtain ⟨hle, ep, hep, hrec, hcr⟩ := ih
    have hm : ep.maxMsgSize = ep0.maxMsgSize := by rw [hrec]
    obtain ⟨epId, r, w, t, hr, hd1⟩ := recvFromNoc_accept _ pkt d1 hpf hrecv
    have heA := getSendEp_writeRecvEp _ epId e r w ep hep hr
    rw [← hreply] at heA
    have hsplit : ∀ s g : Nat, g < s → s - g = (s - (g + 1)) + 1 := by intro s g h; omega
    rw [hsplit _ _ hlt, Nat.mul_add, Nat.mul_one] at hcr
    have hbe : ep.credits ≠ CREDITS_UNLIM := by omega
    have hrf := grantCredits_regFile _ pkt.header ep h1 h2 heA hbe
    have hmod : (ep.credits + ep.maxMsgSize) % 2 ^ 16 = ep.credits + ep.maxMsgSize := by
      apply Nat.mod_eq_of_lt
      rw [hm]; omega
    refine ⟨by omega, { ep with credits := ep.credits + ep.maxMsgSize }, ?_, ?_, ?_⟩
    · rw [hd1]
      show (MessageUnit.grantCredits _ pkt.header).regFile.getSendEp e = _
      rw [hrf, hmod, ← hreply]
      exact getSendEp_setSendEp _ _ ep _ heA
    · show _ = { ep0 with credits := ep.credits + ep.maxMsgSize }
      rw [hrec]
    · show ep.credits + ep.maxMsgSize + _ = ep0.credits
      rw [hm]; omega
  | other d1 _ hsame ih =>
    obtain ⟨hle, ep, hep, hrec, hcr⟩ := ih
    exact ⟨hle, ep, by rw [hsame]; exact hep, hrec, hcr⟩

/-- C1. For a SEND endpoint `e` with bounded initial credits `c0` (a 16-bit value other
than `CREDITS_UNLIM`) and `maxMsgSize = m`: after any run made of successful SEND commands
on `e` (`startTransmission`), matching reply-grants (`recvFromNoc` accepting a message
with `REPLY | GRANT_CREDITS` that names `e`) and steps that do not touch `e`, in which at
every prefix grants <= sends, the endpoint differs from its initial value in `credits`
only, and `credits = c0 - m * (sends - grants)`, with `m * (sends - grants) <= c0`, so
that `credits` lies in `[0, c0]`. -/
theorem credit_conservation (e : Nat) (d0 d : Dtu) (sends grants : Nat) (ep0 : SendEp)
    (hrun : CreditRun e d0 sends grants d) (hep0 : d0.regFile.getSendEp e = some ep0)
    (hb : ep0.credits ≠ CREDITS_UNLIM) (hw : ep0.credits < 2 ^ 16) :
    grants ≤ sends ∧ ∃ ep, d.regFile.getSendEp e = some ep ∧
      ep = { ep0 with credits := ep.credits } ∧
      ep.credits = ep0.credits - ep0.maxMsgSize * (sends - grants) ∧
      ep0.maxMsgSize * (sends - grants) ≤ ep0.credits ∧
      0 ≤ ep.credits ∧ ep.credits ≤ ep0.credits := by
  obtain ⟨hle, ep, hep, hrec, hcr⟩ := creditRun_invariant e d0 d sends grants ep0 hrun hep0 hb hw
  exact ⟨hle, ep, hep, hrec, by omega, by omega, Nat.zero_le _, by omega⟩

theorem credit_conservation_witness :
    (1 : Nat) ≤ 2 ∧ ∃ ep, resentDtu.regFile.getSendEp 3 = some ep ∧
      ep = { targetCore := 7, targetEp := 4, maxMsgSize := 64, credits := ep.credits,
             label := 0xAA } ∧
      ep.credits = 128 - 64 * (2 - 1) ∧ 64 * (2 - 1) ≤ 128 ∧ 0 ≤ ep.credits ∧
      ep.credits ≤ 128 :=
  credit_conservation 3 exampleDtu resentDtu 2 1
    { targetCore := 7, targetEp := 4, maxMsgSize := 64, credits := 128, label := 0xAA }
    (CreditRun.send sendCmd resentDtu
      (CreditRun.grant grantPacket grantedDtu
        (CreditRun.send sendCmd sentDtu CreditRun.start rfl rfl (by decide) (by decide))
        (by decide) (by decide) (by decide) (by decide) rfl (by decide))
      rfl rfl (by decide) (by decide))
    rfl (by decide) (by decide)

/-! ## The packing of a NoC address -/

/-- C11. For every coreId `c < 2^10`, vpeId `v < 2^11` and offset `o < 2^37`, `getAddr` of
the tuple returns `2^59 + c*2^49 + v*2^38 + o`: with `VALID_SHIFT = ID_BITS - RESERVED_BITS`
the valid bit, the coreId and the vpeId each sit one bit above their place in the layout
drawn in noc_addr.hh, and the result is never the `2^58 + c*2^48 + v*2^37 + o` of that
layout. -/
theorem getAddr_one_bit_above_layout (c v o : Nat) (hc : c < 2 ^ 10) (hv : v < 2 ^ 11)
    (ho : o < 2 ^ 37) :
    (NocAddr.ofTuple c v o).getAddr = some (2 ^ 59 + c * 2 ^ 49 + v * 2 ^ 38 + o) ∧
      (NocAddr.ofTuple c v o).getAddr ≠ some (2 ^ 58 + c * 2 ^ 48 + v * 2 ^ 37 + o) := by
  refine ⟨NocAddr.getAddr_ofTuple c v o hc hv ho, ?_⟩
  rw [NocAddr.getAddr_ofTuple c v o hc hv ho]
  intro h
  have h1 := Option.some.inj h
  omega

theorem getAddr_one_bit_above_layout_witness :
    (NocAddr.ofTuple 7 5 4).getAddr = some (2 ^ 59 + 7 * 2 ^ 49 + 5 * 2 ^ 38 + 4) ∧
      (NocAddr.ofTuple 7 5 4).getAddr ≠ some (2 ^ 58 + 7 * 2 ^ 48 + 5 * 2 ^ 37 + 4) :=
  getAddr_one_bit_above_layout 7 5 4 (by decide) (by decide) (by decide)

/-! ## The command register -/

theorem Opcode.toNat_ofValue (x : Nat) (h : x < 8) : (Opcode.ofValue x).toNat = x := by
  interval_cases x <;> rfl

theorem getCommand_eq (d : Dtu) (hn : d.numCmdEpidBits + 3 < 64) :
    d.getCommand = some
      { error := (d.regFile.COMMAND / 2 ^ (3 + d.numCmdEpidBits)) % 2 ^ 32
        opcode := Opcode.ofValue (d.regFile.COMMAND % 8)
        arg := (d.regFile.COMMAND / 8) % 2 ^ 32
        epid := ((d.regFile.COMMAND / 8) % 2 ^ 32) % 2 ^ d.numCmdEpidBits } := by
  have h1 : ¬ ¬ d.numCmdEpidBits + numCmdOpcodeBits ≤ 64 := by
    unfold numCmdOpcodeBits; omega
  have hm : (1 <<< d.numCmdEpidBits) % 2 ^ 64 - 1 = 2 ^ d.numCmdEpidBits - 1 := by
    rw [Nat.one_shiftLeft, Nat.mod_eq_of_lt]
    exact Nat.pow_lt_pow_right (by decide) (by omega)
  have hlt : ((d.regFile.COMMAND / 8) % 2 ^ 32) % 2 ^ d.numCmdEpidBits < 2 ^ 32 :=
    Nat.lt_of_le_of_lt (Nat.mod_le _ _) (Nat.mod_lt _ (by decide))
  have h3 : numCmdOpcodeBits = 3 := rfl
  have h4 : ¬ 64 ≤ 3 + d.numCmdEpidBits := by omega
  have ho3 : (1 <<< 3) % 2 ^ 64 - 1 = 2 ^ 3 - 1 := by decide
  unfold Dtu.getCommand
  rw [if_neg h1]
  simp only [h3, if_neg h4, hm, ho3, Nat.and_pow_two_sub_one_eq_mod,
    Nat.shiftRight_eq_div_pow]
  rw [Nat.mod_eq_of_lt hlt]

/-- C12 (amended). For every `COMMAND` register value `r` and every `numCmdEpidBits` with
`numCmdEpidBits + 3 < 64`, `getCommand` succeeds and decodes `opcode = r mod 8`,
`arg = (r div 8) mod 2^32` (everything above the opcode, as a 32-bit `unsigned`),
`epid = arg mod 2^numCmdEpidBits`, which is `(r div 8) mod 2^numCmdEpidBits` when
`numCmdEpidBits <= 32`, and `error = (r div 2^(3 + numCmdEpidBits)) mod 2^32`. -/
theorem getCommand_amended (d : Dtu) (hn : d.numCmdEpidBits + 3 < 64) :
    ∃ cmd, d.getCommand = some cmd ∧
      cmd.opcode.toNat = d.regFile.COMMAND % 8 ∧
      cmd.arg = (d.regFile.COMMAND / 8) % 2 ^ 32 ∧
      cmd.epid = cmd.arg % 2 ^ d.numCmdEpidBits ∧
      (d.numCmdEpidBits ≤ 32 → cmd.epid = (d.regFile.COMMAND / 8) % 2 ^ d.numCmdEpidBits) ∧
      cmd.error = (d.regFile.COMMAND / 2 ^ (3 + d.numCmdEpidBits)) % 2 ^ 32 := by
  refine ⟨_, getCommand_eq d hn, ?_, rfl, rfl, ?_, rfl⟩
  · exact Opcode.toNat_ofValue _ (Nat.mod_lt _ (by decide))
  · intro h32
    show ((d.regFile.COMMAND / 8) % 2 ^ 32) % 2 ^ d.numCmdEpidBits = _
    exact Nat.mod_mod_of_dvd _ (Nat.pow_dvd_pow 2 h32)

theorem getCommand_amended_witness :
    ∃ cmd, sendOnThreeDtu.getCommand = some cmd ∧
      cmd.opcode.toNat = sendOnThreeDtu.regFile.COMMAND % 8 ∧
      cmd.arg = (sendOnThreeDtu.regFile.COMMAND / 8) % 2 ^ 32 ∧
      cmd.epid = cmd.arg % 2 ^ sendOnThreeDtu.numCmdEpidBits ∧
      (sendOnThreeDtu.numCmdEpidBits ≤ 32 →
        cmd.epid = (sendOnThreeDtu.regFile.COMMAND / 8) % 2 ^ sendOnThreeDtu.numCmdEpidBits) ∧
      cmd.error = (sendOnThreeDtu.regFile.COMMAND / 2 ^ (3 + sendOnThreeDtu.numCmdEpidBits))
        % 2 ^ 32 :=
  getCommand_amended sendOnThreeDtu (by decide)

/-- C12 (counterexample). With 8 endpoint-id bits and `COMMAND = 2^11 + 1` (opcode SEND,
endpoint field 0, error field 1) `getCommand` succeeds with `epid = 0` but `arg = 256`,
not `(r div 8) mod 2^8 = 0`: `arg` is the register above the opcode, unmasked. With
`COMMAND = 2^43` it decodes `error = 0`, not `r div 2^11 = 2^32`. With 61 endpoint-id bits,
which the assertion admits, the shift `reg >> 64` leaves `error` without a defined
value. -/
theorem getCommand_arg_not_masked :
    errorFieldDtu.getCommand =
        some { error := 1, opcode := Opcode.SEND, arg := 256, epid := 0 } ∧
      (errorFieldDtu.regFile.COMMAND / 8) % 2 ^ errorFieldDtu.numCmdEpidBits = 0 ∧
      wideErrorDtu.getCommand =
        some { error := 0, opcode := Opcode.IDLE, arg := 0, epid := 0 } ∧
      wideErrorDtu.regFile.COMMAND / 2 ^ (3 + wideErrorDtu.numCmdEpidBits) = 2 ^ 32 ∧
      fullWidthDtu.numCmdEpidBits + 3 ≤ 64 ∧ fullWidthDtu.getCommand = none := by
  refine ⟨by decide, by decide, by decide, by decide, by decide, by decide⟩

/-! ## Finishing a command -/

/-- The state in which `finishMsgReply` calls `ackMessage`. -/
theorem finishMsgReply_eq (d : Dtu) (e : Error) (epid : Nat)
    (hphys : d.msgUnit.flagsPhys ≠ 0) :
    MessageUnit.finishMsgReply d e epid =
      MessageUnit.ackMessage
        { d with
          msgUnit :=
            { d.msgUnit with
              header :=
                { d.msgUnit.header with
                  flags := ((d.msgUnit.header.flags &&& notBits 8 REPLY_ENABLED)
                    ||| REPLY_FAILED) % 2 ^ 8 } }
          warnings := if e = Error.VPE_GONE then d.warnings + 1 else d.warnings
          funcWrites := d.funcWrites ++
            [(d.msgUnit.flagsPhys,
              ((d.msgUnit.header.flags &&& notBits 8 REPLY_ENABLED) ||| REPLY_FAILED) % 2 ^ 8)] }
        epid := by
  unfold MessageUnit.finishMsgReply
  rw [if_neg hphys]

theorem ackMessage_frame (d : Dtu) (epid : Nat) (d1 : Dtu)
    (h : MessageUnit.ackMessage d epid = some d1) :
    d1.cmdInProgress = d.cmdInProgress ∧ d1.numCmdEpidBits = d.numCmdEpidBits ∧
      d1.regFile.COMMAND = d.regFile.COMMAND ∧ d1.regFile.OFFSET = d.regFile.OFFSET ∧
      d1.msgUnit = d.msgUnit ∧ d1.funcWrites = d.funcWrites ∧ d1.transfers = d.transfers := by
  unfold MessageUnit.ackMessage at h
  split at h
  · simp at h
  · split at h
    · simp at h
    · simp only [Option.some.injEq] at h
      subst h
      exact ⟨rfl, rfl, rfl, rfl, rfl, rfl, rfl⟩

theorem finishMsgReply_frame (d : Dtu) (e : Error) (epid : Nat) (d1 : Dtu)
    (h : MessageUnit.finishMsgReply d e epid = some d1) :
    d1.cmdInProgress = d.cmdInProgress ∧ d1.numCmdEpidBits = d.numCmdEpidBits ∧
      d1.regFile.COMMAND = d.regFile.COMMAND := by
  by_cases hphys : d.msgUnit.flagsPhys = 0
  · simp [MessageUnit.finishMsgReply, hphys] at h
  · rw [finishMsgReply_eq d e epid hphys] at h
    obtain ⟨h1, h2, h3, _⟩ := ackMessage_frame _ epid d1 h
    exact ⟨h1, h2, h3⟩

theorem getCommand_after_finish (n e : Nat) (d : Dtu) (hn : n + 3 ≤ 28)
    (he : e ≤ 4) (hd : d.numCmdEpidBits = n)
    (hreg : d.regFile.COMMAND = e <<< (numCmdOpcodeBits + n)) :
    d.getCommand = some { error := e, opcode := Opcode.IDLE, arg := e * 2 ^ n, epid := 0 } := by
  have h3 : numCmdOpcodeBits = 3 := rfl
  have hpow : 2 ^ n ≤ 2 ^ 25 := Nat.pow_le_pow_right (by decide) (by omega)
  have hpos : 0 < 2 ^ n := Nat.pow_pos (by decide)
  have hr : d.regFile.COMMAND = 8 * (e * 2 ^ n) := by
    rw [hreg, h3, Nat.shiftLeft_eq, Nat.pow_add]; ring
  have hr2 : d.regFile.COMMAND = e * 2 ^ (3 + n) := by
    rw [hreg, h3, Nat.shiftLeft_eq]
  have hlt : e * 2 ^ n < 2 ^ 32 := by
    calc e * 2 ^ n ≤ 4 * 2 ^ 25 := Nat.mul_le_mul he hpow
      _ < 2 ^ 32 := by decide
  rw [getCommand_eq d (by omega), hd]
  have e1 : d.regFile.COMMAND % 8 = 0 := by rw [hr]; exact Nat.mul_mod_right _ _
  have e2 : d.regFile.COMMAND / 8 = e * 2 ^ n := by
    rw [hr]; exact Nat.mul_div_cancel_left _ (by decide)
  have e3 : d.regFile.COMMAND / 2 ^ (3 + n) = e := by
    rw [hr2]; exact Nat.mul_div_cancel _ (Nat.pow_pos (by decide))
  rw [e1, e2, e3, Nat.mod_eq_of_lt hlt, Nat.mul_mod_left,
    Nat.mod_eq_of_lt (by omega : e < 2 ^ 32)]
  rfl

theorem Error.toNat_le (e : Error) : e.toNat ≤ 4 := by
  cases e <;> decide

/-- C13. In a state whose `COMMAND` register has at most 25 endpoint-id bits (so that the
`int` shift `error << bits` stays below the sign bit), for every error code `e`:
`finishCommand(e)` with no command in progress is a fatal error; with a command in
progress (and, when that command is a REPLY, the assertions of `finishMsgReply` passing)
it succeeds, `cmdInProgress` is false afterwards, and `getCommand` then decodes opcode
IDLE, endpoint id 0 and error `e` (the unmasked `arg` is `e * 2^numCmdEpidBits`). -/
theorem finishCommand_decodes (d : Dtu) (e : Error) (cmd : Command)
    (hbits : d.numCmdEpidBits + 3 ≤ 28) (hcmd : d.getCommand = some cmd)
    (hreply : cmd.opcode = Opcode.REPLY →
      (MessageUnit.finishMsgReply d e cmd.epid).isSome = true) :
    (d.cmdInProgress = false → d.finishCommand e = none) ∧
      (d.cmdInProgress = true → ∃ d', d.finishCommand e = some d' ∧
        d'.cmdInProgress = false ∧
        d'.getCommand = some { error := e.toNat, opcode := Opcode.IDLE,
                               arg := e.toNat * 2 ^ d.numCmdEpidBits, epid := 0 }) := by
  have h3 : numCmdOpcodeBits = 3 := rfl
  have he := Error.toNat_le e
  have hshift : ∀ n, n + 3 ≤ 28 → ¬ (32 ≤ numCmdOpcodeBits + n ∨
      2 ^ 31 ≤ e.toNat <<< (numCmdOpcodeBits + n)) := by
    intro n hn
    have hpow : 2 ^ (3 + n) ≤ 2 ^ 28 := Nat.pow_le_pow_right (by decide) (by omega)
    have : e.toNat * 2 ^ (3 + n) ≤ 4 * 2 ^ 28 := Nat.mul_le_mul he hpow
    rw [h3, Nat.shiftLeft_eq]
    have h28 : 4 * 2 ^ 28 < 2 ^ 31 := by decide
    omega
  constructor
  · intro hp
    simp only [Dtu.finishCommand, hcmd, hp, if_true]
  · intro hp
    have hp2 : ¬ d.cmdInProgress = false := by rw [hp]; decide
    by_cases hop : cmd.opcode = Opcode.REPLY
    · have hsome := hreply hop
      obtain ⟨d1, hd1⟩ := Option.isSome_iff_exists.mp hsome
      obtain ⟨_, f2, _⟩ := finishMsgReply_frame d e cmd.epid d1 hd1
      refine ⟨{ d1 with
                regFile :=
                  { d1.regFile with
                    COMMAND := e.toNat <<< (numCmdOpcodeBits + d1.numCmdEpidBits) }
                cmdInProgress := false }, ?_, rfl, ?_⟩
      · simp only [Dtu.finishCommand, hcmd, if_neg hp2, if_pos hop, hd1]
        rw [if_neg (hshift _ (by rw [f2]; exact hbits))]
      · rw [← f2]
        exact getCommand_after_finish _ _ _ (by rw [f2]; exact hbits) he rfl rfl
    · refine ⟨{ d with
                regFile :=
                  { d.regFile with
                    COMMAND := e.toNat <<< (numCmdOpcodeBits + d.numCmdEpidBits) }
                cmdInProgress := false }, ?_, rfl, ?_⟩
      · simp only [Dtu.finishCommand, hcmd, if_neg hp2, if_neg hop]
        rw [if_neg (hshift _ hbits)]
      · exact getCommand_after_finish _ _ _ hbits he rfl rfl

theorem finishCommand_decodes_witness :
    ∃ d', replySentDtu.finishCommand Error.VPE_GONE = some d' ∧ d'.cmdInProgress = false ∧
      d'.getCommand = some { error := 3, opcode := Opcode.IDLE, arg := 3 * 2 ^ 8, epid := 0 } :=
  (finishCommand_decodes replySentDtu Error.VPE_GONE replyCmd (by decide) (by decide)
    (fun _ => by decide)).2 (by decide)

/-! ## At most one command -/

theorem writeRecvEp_cmdInProgress (d : Dtu) (e : Nat) (w : Option RecvEp) :
    (d.writeRecvEp e w).cmdInProgress = d.cmdInProgress := by
  cases w <;> rfl

theorem grantCredits_cmdInProgress (d : Dtu) (h : MessageHeader) :
    (MessageUnit.grantCredits d h).cmdInProgress = d.cmdInProgress := by
  unfold MessageUnit.grantCredits
  split
  · split
    · rfl
    · split <;> rfl
  · rfl

theorem requestHeader_cmdInProgress (d : Dtu) (epid : Nat) (d1 : Dtu)
    (h : MessageUnit.requestHeader d epid = some d1) :
    d1.cmdInProgress = d.cmdInProgress := by
  unfold MessageUnit.requestHeader at h
  split at h
  · simp at h
  · split at h
    · simp at h
    · split at h
      · simp at h
      · simp only at h
        split at h
        · simp at h
        · split at h
          · simp at h
          · simp at h
          · simp only [Option.some.injEq] at h
            subst h; rfl

theorem startXfer_cmdInProgress (d : Dtu) (cmd : Command) (d1 : Dtu)
    (h : MessageUnit.startXfer d cmd = some d1) :
    d1.cmdInProgress = d.cmdInProgress := by
  unfold MessageUnit.startXfer at h
  simp only at h
  split at h
  · simp at h
  · split at h
    · simp at h
    · simp only [Option.some.injEq] at h
      subst h; rfl

theorem fillInfoAndStart_cmdInProgress (d : Dtu) (cmd : Command) (ep : SendEp) (d1 : Dtu)
    (h : MessageUnit.fillInfoAndStart d cmd ep = some d1) :
    d1.cmdInProgress = d.cmdInProgress := by
  unfold MessageUnit.fillInfoAndStart at h
  have h1 := startXfer_cmdInProgress _ _ _ h
  exact h1

theorem startTransmission_cmdInProgress (d : Dtu) (cmd : Command) (d1 : Dtu)
    (h : MessageUnit.startTransmission d cmd = some d1) :
    d1.cmdInProgress = d.cmdInProgress := by
  unfold MessageUnit.startTransmission at h
  simp only at h
  split at h
  · have h1 := requestHeader_cmdInProgress _ _ _ h
    exact h1
  · split at h
    · simp at h
    · split at h
      · simp at h
      · split at h
        · split at h
          · simp only [Option.some.injEq] at h
            subst h
            unfold Dtu.scheduleFinishOp
            split <;> rfl
          · have h1 := fillInfoAndStart_cmdInProgress _ _ _ _ h
            exact h1
        · exact fillInfoAndStart_cmdInProgress _ _ _ _ h

theorem fetchMessage_cmdInProgress (d : Dtu) (epid : Nat) (r : Nat × Dtu)
    (h : MessageUnit.fetchMessage d epid = some r) :
    r.2.cmdInProgress = d.cmdInProgress ∧ r.2.numCmdEpidBits = d.numCmdEpidBits := by
  unfold MessageUnit.fetchMessage at h
  split at h
  · simp at h
  · split at h
    · simp at h
    · simp only [Option.some.injEq] at h
      subst h
      rename_i w _
      cases w <;> exact ⟨rfl, rfl⟩

theorem finishMsgReceive_cmdInProgress (d : Dtu) (epId msgAddr : Nat) (d1 : Dtu)
    (h : MessageUnit.finishMsgReceive d epId msgAddr = some d1) :
    d1.cmdInProgress = d.cmdInProgress := by
  unfold MessageUnit.finishMsgReceive at h
  split at h
  · simp at h
  · split at h
    · simp at h
    · simp only [Option.some.injEq] at h
      subst h; rfl
    · simp only [Option.some.injEq] at h
      subst h; rfl

theorem recvFromNoc_cmdInProgress (d : Dtu) (pkt : Packet) (r : Error × Dtu)
    (h : MessageUnit.recvFromNoc d pkt = some r) :
    r.2.cmdInProgress = d.cmdInProgress := by
  unfold MessageUnit.recvFromNoc at h
  simp only at h
  split at h
  · simp only [Option.some.injEq] at h
    subst h; rfl
  · split at h
    · simp at h
    · rename_i ep0 _
      unfold MessageUnit.allocSlot at h
      cases hral : Ring.allocSlot pkt.size ep0 with
      | none => rw [hral] at h; simp at h
      | some iw =>
        rw [hral] at h
        simp only at h
        split at h
        · simp only [Option.some.injEq] at h
          subst h
          show (MessageUnit.grantCredits _ _).cmdInProgress = _
          rw [grantCredits_cmdInProgress, writeRecvEp_cmdInProgress]
        · simp only [Option.some.injEq] at h
          subst h
          show (d.writeRecvEp _ _).cmdInProgress = _
          rw [writeRecvEp_cmdInProgress]

theorem recvFromMem_cmdInProgress (d : Dtu) (cmd : Command) (pkt : MemPacket) (d1 : Dtu)
    (h : MessageUnit.recvFromMem d cmd pkt = some d1) :
    d1.cmdInProgress = d.cmdInProgress := by
  unfold MessageUnit.recvFromMem at h
  simp only at h
  split at h
  · simp at h
  · split at h
    · have h1 := requestHeader_cmdInProgress _ _ _ h
      exact h1
    · split at h
      · simp at h
      · have h1 := startXfer_cmdInProgress _ _ _ h
        exact h1

theorem finishCommand_some (d : Dtu) (e : Error) (d1 : Dtu)
    (h : d.finishCommand e = some d1) :
    d.cmdInProgress = true ∧ d1.cmdInProgress = false := by
  unfold Dtu.finishCommand at h
  cases hc : d.getCommand with
  | none => rw [hc] at h; simp at h
  | some cmd =>
    rw [hc] at h
    simp only at h
    cases hp : d.cmdInProgress with
    | false => rw [hp] at h; simp at h
    | true =>
      rw [hp] at h
      simp only [Bool.true_eq_false, if_false] at h
      cases hr : (if cmd.opcode = Opcode.REPLY then MessageUnit.finishMsgReply d e cmd.epid
          else some d) with
      | none => rw [hr] at h; simp at h
      | some d2 =>
        rw [hr] at h
        simp only at h
        split at h
        · simp at h
        · simp only [Option.some.injEq] at h
          subst h
          exact ⟨rfl, rfl⟩

theorem executeCommand_idle (d : Dtu) (cmd : Command) (hcmd : d.getCommand = some cmd)
    (hop : cmd.opcode = Opcode.IDLE) : d.executeCommand = some d := by
  simp only [Dtu.executeCommand, hcmd, hop, if_true]

theorem executeCommand_busy (d : Dtu) (cmd : Command) (hcmd : d.getCommand = some cmd)
    (hop : cmd.opcode ≠ Opcode.IDLE) (hp : d.cmdInProgress = true) :
    d.executeCommand = none := by
  simp only [Dtu.executeCommand, hcmd, if_neg hop, hp, if_true]

theorem executeCommand_some (d : Dtu) (cmd : Command) (d1 : Dtu)
    (hcmd : d.getCommand = some cmd) (hop : cmd.opcode ≠ Opcode.IDLE)
    (h : d.executeCommand = some d1) :
    d.cmdInProgress = false ∧
      (finishesInline cmd.opcode = 0 → d1.cmdInProgress = true) ∧
      (finishesInline cmd.opcode = 1 → d1.cmdInProgress = false ∧
        ∃ d2 : Dtu, d2.cmdInProgress = true ∧ d2.finishCommand Error.NONE = some d1) := by
  have hp : d.cmdInProgress = false := by
    cases hb : d.cmdInProgress with
    | false => rfl
    | true => rw [executeCommand_busy d cmd hcmd hop hb] at h; simp at h
  have hp2 : ¬ d.cmdInProgress = true := by rw [hp]; decide
  refine ⟨hp, ?_⟩
  simp only [Dtu.executeCommand, hcmd, if_neg hop, if_neg hp2] at h
  split at h
  · simp at h
  · cases hc : cmd.opcode with
    | IDLE => exact absurd hc hop
    | SEND =>
      rw [hc] at h
      exact ⟨fun _ => startTransmission_cmdInProgress _ _ _ h, fun h1 => by simp [finishesInline] at h1⟩
    | REPLY =>
      rw [hc] at h
      exact ⟨fun _ => startTransmission_cmdInProgress _ _ _ h, fun h1 => by simp [finishesInline] at h1⟩
    | READ =>
      rw [hc] at h
      simp only [Option.some.injEq] at h
      subst h
      exact ⟨fun _ => rfl, fun h1 => by simp [finishesInline] at h1⟩
    | WRITE =>
      rw [hc] at h
      simp only [Option.some.injEq] at h
      subst h
      exact ⟨fun _ => rfl, fun h1 => by simp [finishesInline] at h1⟩
    | FETCH_MSG =>
      rw [hc] at h
      simp only at h
      cases hf : MessageUnit.fetchMessage { d with cmdInProgress := true } cmd.arg with
      | none => rw [hf] at h; simp at h
      | some r =>
        rw [hf] at h
        obtain ⟨addr, d2⟩ := r
        have hpres : d2.cmdInProgress = true := (fetchMessage_cmdInProgress _ _ _ hf).1
        have h2 : Dtu.finishCommand { d2 with regFile := { d2.regFile with OFFSET := addr } }
            Error.NONE = some d1 := h
        exact ⟨fun h1 => by simp [finishesInline] at h1,
          fun _ => ⟨(finishCommand_some _ _ _ h2).2,
            { d2 with regFile := { d2.regFile with OFFSET := addr } }, hpres, h2⟩⟩
    | ACK_MSG =>
      rw [hc] at h
      simp only at h
      cases hf : MessageUnit.ackMessage { d with cmdInProgress := true } cmd.arg with
      | none => rw [hf] at h; simp at h
      | some d2 =>
        rw [hf] at h
        have hpres := (ackMessage_frame _ _ _ hf).1
        exact ⟨fun h1 => by simp [finishesInline] at h1,
          fun _ => ⟨(finishCommand_some _ _ _ h).2, _, hpres, h⟩⟩
    | DEBUG_MSG =>
      rw [hc] at h
      exact ⟨fun h1 => by simp [finishesInline] at h1,
        fun _ => ⟨(finishCommand_some _ _ _ h).2, _, rfl, h⟩⟩

theorem cmdRun_invariant (s f : Nat) (d : Dtu) (hrun : CmdRun s f d) :
    f ≤ s ∧ s ≤ f + 1 ∧ (s = f + 1 ↔ d.cmdInProgress = true) := by
  induction hrun with
  | init d h => exact ⟨Nat.le_refl _, by omega, by rw [h]; simp⟩
  | @executeCommand s f d cmd d1 _ hcmd hex ih =>
    obtain ⟨i1, i2, i3⟩ := ih
    by_cases hop : cmd.opcode = Opcode.IDLE
    · have hd : d1 = d := by
        rw [executeCommand_idle d cmd hcmd hop] at hex
        exact (Option.some.inj hex).symm
      rw [hd, hop]
      exact ⟨i1, i2, i3⟩
    · obtain ⟨hp, h0, h1⟩ := executeCommand_some d cmd d1 hcmd hop hex
      have hsf : s = f := by
        by_contra hne
        have : s = f + 1 := by omega
        rw [i3.mp this] at hp
        exact absurd hp (by decide)
      have hs : startsCommand cmd.opcode = 1 := by
        unfold startsCommand; rw [if_neg hop]
      have hfi : finishesInline cmd.opcode = 0 ∨ finishesInline cmd.opcode = 1 := by
        cases cmd.opcode <;> simp [finishesInline]
      rw [hs]
      rcases hfi with hz | ho
      · rw [hz, h0 hz]
        exact ⟨by omega, by omega, by simp [hsf]⟩
      · rw [ho, (h1 ho).1]
        exact ⟨by omega, by omega, by simp [hsf]⟩
  | finishCommand e d1 _ hfin ih =>
    obtain ⟨i1, i2, i3⟩ := ih
    obtain ⟨hp, hq⟩ := finishCommand_some _ e d1 hfin
    have hsf := i3.mpr hp
    rw [hq]
    exact ⟨by omega, by omega, by simp; omega⟩
  | recvFromNoc pkt r _ hr ih =>
    rw [recvFromNoc_cmdInProgress _ pkt r hr]; exact ih
  | @completeHeaderRequest s f d pkt d1 _ hr ih =>
    have hpres : d1.cmdInProgress = d.cmdInProgress := by
      unfold Dtu.completeHeaderRequest at hr
      split at hr
      · simp at hr
      · exact recvFromMem_cmdInProgress _ _ _ _ hr
    rw [hpres]; exact ih
  | finishMsgReceive epId msgAddr d1 _ hr ih =>
    rw [finishMsgReceive_cmdInProgress _ epId msgAddr d1 hr]; exact ih
  | writeRegs rf _ ih => exact ih

/-- C14. For every state whose `COMMAND` register decodes to `cmd`: `executeCommand` with a
non-IDLE opcode is a fatal error when `cmdInProgress` is already true; when it returns,
`cmdInProgress` was false and has been set, and it is still set on return for SEND, REPLY,
READ and WRITE, while for FETCH_MSG, ACK_MSG and DEBUG_MSG the `finishCommand(NONE)` that
ends the case has cleared it again; `executeCommand` with opcode IDLE changes nothing; the
other entry points (`recvFromNoc`, the header response from memory, `finishMsgReceive`)
leave `cmdInProgress` as it is. Hence in every state reached from construction with `s`
commands started and `f` finished, `s - f` is 0 or 1, and it is 1 exactly when
`cmdInProgress` is true: two commands are never in progress. -/
theorem at_most_one_command (d0 : Dtu) (cmd : Command) (s f : Nat) (d : Dtu)
    (hcmd : d0.getCommand = some cmd) (hrun : CmdRun s f d) :
    (cmd.opcode ≠ Opcode.IDLE → d0.cmdInProgress = true → d0.executeCommand = none) ∧
      (cmd.opcode ≠ Opcode.IDLE → ∀ d1, d0.executeCommand = some d1 →
        d0.cmdInProgress = false ∧
        (finishesInline cmd.opcode = 0 → d1.cmdInProgress = true) ∧
        (finishesInline cmd.opcode = 1 → d1.cmdInProgress = false ∧
          ∃ d2 : Dtu, d2.cmdInProgress = true ∧ d2.finishCommand Error.NONE = some d1)) ∧
      (cmd.opcode = Opcode.IDLE → d0.executeCommand = some d0) ∧
      (∀ pkt r, MessageUnit.recvFromNoc d0 pkt = some r →
        r.2.cmdInProgress = d0.cmdInProgress) ∧
      (∀ pkt d1, d0.completeHeaderRequest pkt = some d1 →
        d1.cmdInProgress = d0.cmdInProgress) ∧
      (∀ epId msgAddr d1, MessageUnit.finishMsgReceive d0 epId msgAddr = some d1 →
        d1.cmdInProgress = d0.cmdInProgress) ∧
      (∀ e d1, d0.finishCommand e = some d1 →
        d0.cmdInProgress = true ∧ d1.cmdInProgress = false) ∧
      f ≤ s ∧ s ≤ f + 1 ∧ (s = f + 1 ↔ d.cmdInProgress = true) := by
  refine ⟨executeCommand_busy d0 cmd hcmd, ?_, executeCommand_idle d0 cmd hcmd, ?_, ?_, ?_, ?_,
    cmdRun_invariant s f d hrun⟩
  · intro hop d1 h
    exact executeCommand_some d0 cmd d1 hcmd hop h
  · intro pkt r h
    exact recvFromNoc_cmdInProgress d0 pkt r h
  · intro pkt d1 h
    simp only [Dtu.completeHeaderRequest, hcmd] at h
    exact recvFromMem_cmdInProgress _ _ _ _ h
  · intro epId msgAddr d1 h
    exact finishMsgReceive_cmdInProgress d0 epId msgAddr d1 h
  · intro e d1 h
    exact finishCommand_some d0 e d1 h

theorem at_most_one_command_witness :
    replyDtu.executeCommand = some replyStartedDtu ∧ replyStartedDtu.cmdInProgress = true ∧
      replyStartedDtu.executeCommand = none ∧ replyDoneDtu.cmdInProgress = false ∧
      (1 : Nat) ≤ 1 ∧ 1 ≤ 1 + 1 ∧ ((1 : Nat) = 1 + 1 ↔ replyDoneDtu.cmdInProgress = true) := by
  have hrun : CmdRun 1 1 replyDoneDtu :=
    CmdRun.finishCommand Error.NONE replyDoneDtu
      (CmdRun.completeHeaderRequest headerPacket replySentDtu
        (CmdRun.executeCommand replyCmd replyStartedDtu (CmdRun.init replyDtu rfl) rfl rfl)
        rfl)
      rfl
  have h := at_most_one_command replyStartedDtu replyCmd 1 1 replyDoneDtu rfl hrun
  exact ⟨rfl, rfl, h.1 (by decide) rfl, rfl, h.2.2.2.2.2.2.2⟩

/-! ## The header of a SEND -/

/-- The transfer started by `startXfer`, in terms of `info` and the registers. -/
theorem startXfer_transfer (d : Dtu) (cmd : Command) (hready : d.msgUnit.info.ready = true)
    (hnoc : (d.regFile.DATA_SIZE + sizeofMessageHeader) % 2 ^ 64 ≤ d.maxNocPacketSize) :
    ∃ d', MessageUnit.startXfer d cmd = some d' ∧
      d'.regFile = d.regFile ∧ d'.funcWrites = d.funcWrites ∧
      d'.transfers = d.transfers ++
        [{ type := TransferType.LOCAL_READ
           targetAddr := NocAddr.ofTuple d.msgUnit.info.targetCoreId
             d.msgUnit.info.targetVpeId d.msgUnit.info.targetEpId
           sourceAddr := d.regFile.DATA_ADDR
           size := d.regFile.DATA_SIZE
           pkt := none
           header := some
             { flags := ((if cmd.opcode = Opcode.REPLY then REPLY_FLAG ||| GRANT_CREDITS_FLAG
                          else REPLY_ENABLED) ||| d.msgUnit.info.flags) % 2 ^ 8
               senderCoreId := d.coreId % 2 ^ 16
               senderVpeId := d.regFile.VPE_ID % 2 ^ 16
               senderEpId :=
                 (if d.msgUnit.info.unlimcred = true then d.numEndpoints else cmd.arg) % 2 ^ 8
               replyEpId := d.msgUnit.info.replyEpId % 2 ^ 8
               length := d.regFile.DATA_SIZE % 2 ^ 16
               label := d.msgUnit.info.label
               replyLabel := d.msgUnit.info.replyLabel }
           flags := [] }] := by
  have h2 : ¬ ((d.regFile.DATA_SIZE + sizeofMessageHeader) % 2 ^ 64 > d.maxNocPacketSize) :=
    Nat.not_lt.mpr hnoc
  simp only [MessageUnit.startXfer, hready, Bool.true_eq_false, if_false, h2]
  exact ⟨_, rfl, rfl, rfl, rfl⟩

/-- The transfer started by `fillInfoAndStart` for the endpoint record `ep`. -/
theorem fillInfoAndStart_transfer (d : Dtu) (cmd : Command) (ep : SendEp)
    (hop : cmd.opcode ≠ Opcode.REPLY)
    (hnoc : (d.regFile.DATA_SIZE + sizeofMessageHeader) % 2 ^ 64 ≤ d.maxNocPacketSize) :
    ∃ d', MessageUnit.fillInfoAndStart d cmd ep = some d' ∧
      d'.transfers = d.transfers ++
        [{ type := TransferType.LOCAL_READ
           targetAddr := NocAddr.ofTuple ep.targetCore (ep.vpeId % 2 ^ 16) ep.targetEp
           sourceAddr := d.regFile.DATA_ADDR
           size := d.regFile.DATA_SIZE
           pkt := none
           header := some
             { flags := REPLY_ENABLED
               senderCoreId := d.coreId % 2 ^ 16
               senderVpeId := d.regFile.VPE_ID % 2 ^ 16
               senderEpId :=
                 (if ep.credits = CREDITS_UNLIM then d.numEndpoints else cmd.arg) % 2 ^ 8
               replyEpId := d.regFile.REPLY_EPID % 2 ^ 32 % 2 ^ 8
               length := d.regFile.DATA_SIZE % 2 ^ 16
               label := ep.label
               replyLabel := d.regFile.REPLY_LABEL }
           flags := [] }] := by
  unfold MessageUnit.fillInfoAndStart
  obtain ⟨d', h1, _, _, h4⟩ := startXfer_transfer
    { d with msgUnit :=
        { d.msgUnit with info :=
            { d.msgUnit.info with
              targetCoreId := ep.targetCore, targetVpeId := ep.vpeId % 2 ^ 16,
              targetEpId := ep.targetEp, label := ep.label,
              replyLabel := d.regFile.REPLY_LABEL,
              replyEpId := d.regFile.REPLY_EPID % 2 ^ 32,
              flags := 0, ready := true,
              unlimcred := decide (ep.credits = CREDITS_UNLIM) } } } cmd rfl hnoc
  refine ⟨d', h1, ?_⟩
  rw [h4]
  have m7 : (REPLY_ENABLED ||| 0) % 2 ^ 8 = REPLY_ENABLED := by decide
  simp only [if_neg hop, m7, decide_eq_true_eq]
  rfl

/-- C15. For a SEND command on endpoint `e = cmd.arg` whose two size assertions pass and
which passes the credit check (credits unlimited, or at least `maxMsgSize`), with register
values that fit the header fields they are stored in (core id, `VPE_ID`, the endpoint's
`vpeId` and `DATA_SIZE` below `2^16`; `e`, `REPLY_EPID`, and `numEndpoints` when it is
used, below `2^8`): `startTransmission` starts exactly one transfer, a `LOCAL_READ` of
`DATA_SIZE` bytes from `DATA_ADDR` to `NocAddr(targetCore, vpeId, targetEp)`, whose header
has `flags = REPLY_ENABLED`, `senderCoreId` the local core id, `senderVpeId = VPE_ID`,
`senderEpId = e` (`numEndpoints` when the credits are unlimited), `replyEpId = REPLY_EPID`,
`replyLabel = REPLY_LABEL`, `label` the endpoint's label and `length = DATA_SIZE`. -/
theorem startTransmission_send_header (d : Dtu) (cmd : Command) (ep : SendEp)
    (hop : cmd.opcode = Opcode.SEND) (hep : d.regFile.getSendEp cmd.arg = some ep)
    (hsize : (d.regFile.DATA_SIZE + sizeofMessageHeader) % 2 ^ 64 ≤ ep.maxMsgSize)
    (hnoc : (d.regFile.DATA_SIZE + sizeofMessageHeader) % 2 ^ 64 ≤ d.maxNocPacketSize)
    (hcred : ep.credits = CREDITS_UNLIM ∨ ep.maxMsgSize ≤ ep.credits)
    (hcw : ep.credits < 2 ^ 16) (hcore : d.coreId < 2 ^ 16)
    (hvpe : d.regFile.VPE_ID < 2 ^ 16) (htv : ep.vpeId < 2 ^ 16)
    (hlen : d.regFile.DATA_SIZE < 2 ^ 16) (harg : cmd.arg < 2 ^ 8)
    (hrep : d.regFile.REPLY_EPID < 2 ^ 8)
    (hnum : ep.credits = CREDITS_UNLIM → d.numEndpoints < 2 ^ 8) :
    ∃ d', MessageUnit.startTransmission d cmd = some d' ∧
      d'.transfers = d.transfers ++
        [{ type := TransferType.LOCAL_READ
           targetAddr := NocAddr.ofTuple ep.targetCore ep.vpeId ep.targetEp
           sourceAddr := d.regFile.DATA_ADDR
           size := d.regFile.DATA_SIZE
           pkt := none
           header := some
             { flags := REPLY_ENABLED
               senderCoreId := d.coreId
               senderVpeId := d.regFile.VPE_ID
               senderEpId := if ep.credits = CREDITS_UNLIM then d.numEndpoints else cmd.arg
               replyEpId := d.regFile.REPLY_EPID
               length := d.regFile.DATA_SIZE
               label := ep.label
               replyLabel := d.regFile.REPLY_LABEL }
           flags := [] }] := by
  have hop2 : ¬ cmd.opcode = Opcode.REPLY := by rw [hop]; decide
  have hsz : ¬ ((d.regFile.DATA_SIZE + sizeofMessageHeader) % 2 ^ 64 > ep.maxMsgSize) :=
    Nat.not_lt.mpr hsize
  have m1 : d.coreId % 2 ^ 16 = d.coreId := Nat.mod_eq_of_lt hcore
  have m2 : d.regFile.VPE_ID % 2 ^ 16 = d.regFile.VPE_ID := Nat.mod_eq_of_lt hvpe
  have m3 : ep.vpeId % 2 ^ 16 = ep.vpeId := Nat.mod_eq_of_lt htv
  have m4 : d.regFile.DATA_SIZE % 2 ^ 16 = d.regFile.DATA_SIZE := Nat.mod_eq_of_lt hlen
  have m5 : cmd.arg % 2 ^ 8 = cmd.arg := Nat.mod_eq_of_lt harg
  have m6 : d.regFile.REPLY_EPID % 2 ^ 32 % 2 ^ 8 = d.regFile.REPLY_EPID := by omega
  by_cases hb : ep.credits = CREDITS_UNLIM
  · have m8 : d.numEndpoints % 2 ^ 8 = d.numEndpoints := Nat.mod_eq_of_lt (hnum hb)
    have hst : MessageUnit.startTransmission d cmd = MessageUnit.fillInfoAndStart d cmd ep := by
      simp only [MessageUnit.startTransmission, hop2, if_false, hep, hsz, hb, ne_eq,
        not_true_eq_false]
    obtain ⟨d', h1, h4⟩ := fillInfoAndStart_transfer d cmd ep hop2 hnoc
    refine ⟨d', by rw [hst]; exact h1, ?_⟩
    simp only [h4, if_pos hb, m1, m2, m3, m4, m6, m8]
  · have hge : ¬ ep.credits < ep.maxMsgSize := by
      rcases hcred with h | h
      · exact absurd h hb
      · omega
    have hb2 : ¬ ep.credits - ep.maxMsgSize = CREDITS_UNLIM := by
      have : CREDITS_UNLIM = 2 ^ 16 - 1 := by decide
      omega
    obtain ⟨ep1, hep1⟩ : ∃ ep1 : SendEp, ep1 = { ep with credits := ep.credits - ep.maxMsgSize } :=
      ⟨_, rfl⟩
    have hst : MessageUnit.startTransmission d cmd = MessageUnit.fillInfoAndStart
        { d with regFile := d.regFile.setSendEp cmd.arg ep1 } cmd ep1 := by
      simp only [MessageUnit.startTransmission, hop2, if_false, hep, hsz, hb, ne_eq,
        not_false_eq_true, if_true, hge, hep1]
    obtain ⟨d', h1, h4⟩ := fillInfoAndStart_transfer
      { d with regFile := d.regFile.setSendEp cmd.arg ep1 } cmd ep1 hop2 hnoc
    refine ⟨d', by rw [hst]; exact h1, ?_⟩
    have hc1 : ¬ ep1.credits = CREDITS_UNLIM := by rw [hep1]; exact hb2
    rw [h4]
    show d.transfers ++ _ = _
    have e1 : ep1.targetCore = ep.targetCore := by rw [hep1]
    have e2 : ep1.vpeId = ep.vpeId := by rw [hep1]
    have e3 : ep1.targetEp = ep.targetEp := by rw [hep1]
    have e4 : ep1.label = ep.label := by rw [hep1]
    have r1 : (d.regFile.setSendEp cmd.arg ep1).DATA_ADDR = d.regFile.DATA_ADDR := rfl
    have r2 : (d.regFile.setSendEp cmd.arg ep1).DATA_SIZE = d.regFile.DATA_SIZE := rfl
    have r3 : (d.regFile.setSendEp cmd.arg ep1).VPE_ID = d.regFile.VPE_ID := rfl
    have r4 : (d.regFile.setSendEp cmd.arg ep1).REPLY_EPID = d.regFile.REPLY_EPID := rfl
    have r5 : (d.regFile.setSendEp cmd.arg ep1).REPLY_LABEL = d.regFile.REPLY_LABEL := rfl
    simp only [if_neg hc1, if_neg hb, e1, e2, e3, e4, r1, r2, r3, r4, r5, m1, m2, m3, m4, m5, m6]

theorem startTransmission_send_header_witness :
    ∃ d', MessageUnit.startTransmission senderDtu sendCmd = some d' ∧
      d'.transfers =
        [{ type := TransferType.LOCAL_READ
           targetAddr := NocAddr.ofTuple 7 6 4
           sourceAddr := 0x500
           size := 16
           pkt := none
           header := some storedHeader
           flags := [] }] :=
  startTransmission_send_header senderDtu sendCmd
    { vpeId := 6, targetCore := 7, targetEp := 4, maxMsgSize := 64, credits := 128,
      label := 0xAA }
    rfl rfl (by decide) (by decide) (Or.inr (by decide)) (by decide) (by decide) (by decide)
    (by decide) (by decide) (by decide) (by decide) (fun h => absurd h (by decide))

/-! ## The size checks of a SEND -/

theorem startXfer_too_big (d : Dtu) (cmd : Command)
    (hnoc : ¬ (d.regFile.DATA_SIZE + sizeofMessageHeader) % 2 ^ 64 ≤ d.maxNocPacketSize) :
    MessageUnit.startXfer d cmd = none := by
  have h2 : (d.regFile.DATA_SIZE + sizeofMessageHeader) % 2 ^ 64 > d.maxNocPacketSize :=
    Nat.lt_of_not_le hnoc
  unfold MessageUnit.startXfer
  simp only [h2, if_true]
  split <;> rfl

theorem fillInfoAndStart_too_big (d : Dtu) (cmd : Command) (ep : SendEp)
    (hnoc : ¬ (d.regFile.DATA_SIZE + sizeofMessageHeader) % 2 ^ 64 ≤ d.maxNocPacketSize) :
    MessageUnit.fillInfoAndStart d cmd ep = none := by
  unfold MessageUnit.fillInfoAndStart
  exact startXfer_too_big _ cmd hnoc

/-- C16 (amended). For a SEND command on the SEND endpoint `ep`, with `S` the 64-bit sum
`DATA_SIZE + sizeof(MessageHeader)`: a transfer is started only if `S <= ep.maxMsgSize`
and `S <= maxNocPacketSize`; a SEND with `S > ep.maxMsgSize` is a fatal error; a SEND
that fits `maxMsgSize`, passes the credit check and has `S > maxNocPacketSize` is a fatal
error; a SEND that fits `maxMsgSize` and fails the credit check finishes with MISS_CREDITS
whatever `maxNocPacketSize` is, without a transfer; and when both inequalities hold and
the credit check passes, one transfer is started. -/
theorem send_size_checks (d : Dtu) (cmd : Command) (ep : SendEp)
    (hop : cmd.opcode = Opcode.SEND) (hep : d.regFile.getSendEp cmd.arg = some ep) :
    (∀ d', MessageUnit.startTransmission d cmd = some d' → d'.transfers ≠ d.transfers →
        (d.regFile.DATA_SIZE + sizeofMessageHeader) % 2 ^ 64 ≤ ep.maxMsgSize ∧
        (d.regFile.DATA_SIZE + sizeofMessageHeader) % 2 ^ 64 ≤ d.maxNocPacketSize) ∧
      (¬ (d.regFile.DATA_SIZE + sizeofMessageHeader) % 2 ^ 64 ≤ ep.maxMsgSize →
        MessageUnit.startTransmission d cmd = none) ∧
      ((d.regFile.DATA_SIZE + sizeofMessageHeader) % 2 ^ 64 ≤ ep.maxMsgSize →
        ¬ (ep.credits ≠ CREDITS_UNLIM ∧ ep.credits < ep.maxMsgSize) →
        ¬ (d.regFile.DATA_SIZE + sizeofMessageHeader) % 2 ^ 64 ≤ d.maxNocPacketSize →
        MessageUnit.startTransmission d cmd = none) ∧
      ((d.regFile.DATA_SIZE + sizeofMessageHeader) % 2 ^ 64 ≤ ep.maxMsgSize →
        (ep.credits ≠ CREDITS_UNLIM ∧ ep.credits < ep.maxMsgSize) →
        MessageUnit.startTransmission d cmd = some (d.scheduleFinishOp Error.MISS_CREDITS) ∧
        (d.scheduleFinishOp Error.MISS_CREDITS).transfers = d.transfers) ∧
      ((d.regFile.DATA_SIZE + sizeofMessageHeader) % 2 ^ 64 ≤ ep.maxMsgSize →
        ¬ (ep.credits ≠ CREDITS_UNLIM ∧ ep.credits < ep.maxMsgSize) →
        (d.regFile.DATA_SIZE + sizeofMessageHeader) % 2 ^ 64 ≤ d.maxNocPacketSize →
        ∃ d' t, MessageUnit.startTransmission d cmd = some d' ∧
          d'.transfers = d.transfers ++ [t]) := by
  have hop2 : ¬ cmd.opcode = Opcode.REPLY := by rw [hop]; decide
  have hsched : (d.scheduleFinishOp Error.MISS_CREDITS).transfers = d.transfers := by
    unfold Dtu.scheduleFinishOp; split <;> rfl
  -- a SEND that does not fit maxMsgSize
  have hA : ¬ (d.regFile.DATA_SIZE + sizeofMessageHeader) % 2 ^ 64 ≤ ep.maxMsgSize →
      MessageUnit.startTransmission d cmd = none := by
    intro h
    have h2 : (d.regFile.DATA_SIZE + sizeofMessageHeader) % 2 ^ 64 > ep.maxMsgSize :=
      Nat.lt_of_not_le h
    simp only [MessageUnit.startTransmission, hop2, if_false, hep, h2, if_true]
  -- a SEND that fails the credit check
  have hB : (d.regFile.DATA_SIZE + sizeofMessageHeader) % 2 ^ 64 ≤ ep.maxMsgSize →
      (ep.credits ≠ CREDITS_UNLIM ∧ ep.credits < ep.maxMsgSize) →
      MessageUnit.startTransmission d cmd = some (d.scheduleFinishOp Error.MISS_CREDITS) := by
    intro h hc
    have h2 : ¬ (d.regFile.DATA_SIZE + sizeofMessageHeader) % 2 ^ 64 > ep.maxMsgSize :=
      Nat.not_lt.mpr h
    simp only [MessageUnit.startTransmission, hop2, if_false, hep, h2, hc.1, ne_eq,
      not_false_eq_true, if_true, hc.2]
  -- a SEND that passes the credit check
  have hC : (d.regFile.DATA_SIZE + sizeofMessageHeader) % 2 ^ 64 ≤ ep.maxMsgSize →
      ¬ (ep.credits ≠ CREDITS_UNLIM ∧ ep.credits < ep.maxMsgSize) →
      ∃ (d1 : Dtu) (ep1 : SendEp), d1.regFile.DATA_SIZE = d.regFile.DATA_SIZE ∧
        d1.maxNocPacketSize = d.maxNocPacketSize ∧ d1.transfers = d.transfers ∧
        MessageUnit.startTransmission d cmd = MessageUnit.fillInfoAndStart d1 cmd ep1 := by
    intro h hc
    have h2 : ¬ (d.regFile.DATA_SIZE + sizeofMessageHeader) % 2 ^ 64 > ep.maxMsgSize :=
      Nat.not_lt.mpr h
    by_cases hb : ep.credits = CREDITS_UNLIM
    · refine ⟨d, ep, rfl, rfl, rfl, ?_⟩
      simp only [MessageUnit.startTransmission, hop2, if_false, hep, h2, hb, ne_eq,
        not_true_eq_false]
    · have hge : ¬ ep.credits < ep.maxMsgSize := fun hlt => hc ⟨hb, hlt⟩
      obtain ⟨ep1, hep1⟩ :
          ∃ ep1 : SendEp, ep1 = { ep with credits := ep.credits - ep.maxMsgSize } := ⟨_, rfl⟩
      refine ⟨{ d with regFile := d.regFile.setSendEp cmd.arg ep1 }, ep1, rfl, rfl, rfl, ?_⟩
      simp only [MessageUnit.startTransmission, hop2, if_false, hep, h2, hb, ne_eq,
        not_false_eq_true, if_true, hge, hep1]
  refine ⟨?_, hA, ?_, fun h hc => ⟨hB h hc, hsched⟩, ?_⟩
  · intro d' hd' hne
    by_cases h1 : (d.regFile.DATA_SIZE + sizeofMessageHeader) % 2 ^ 64 ≤ ep.maxMsgSize
    · refine ⟨h1, ?_⟩
      by_cases hc : ep.credits ≠ CREDITS_UNLIM ∧ ep.credits < ep.maxMsgSize
      · rw [hB h1 hc] at hd'
        rw [← Option.some.inj hd'] at hne
        exact absurd hsched hne
      · obtain ⟨d1, ep1, e1, e2, _, e5⟩ := hC h1 hc
        by_contra hn
        rw [e5, fillInfoAndStart_too_big d1 cmd ep1 (by rw [e1, e2]; exact hn)] at hd'
        simp at hd'
    · rw [hA h1] at hd'
      simp at hd'
  · intro h1 hc hn
    obtain ⟨d1, ep1, e1, e2, _, e5⟩ := hC h1 hc
    rw [e5]
    exact fillInfoAndStart_too_big d1 cmd ep1 (by rw [e1, e2]; exact hn)
  · intro h1 hc h2
    obtain ⟨d1, ep1, e1, e2, e3, e5⟩ := hC h1 hc
    obtain ⟨t, d', g1, g2, _⟩ := fillInfoAndStart_eq d1 cmd ep1 (by rw [e1, e2]; exact h2)
    exact ⟨d', t, by rw [e5]; exact g1, by rw [g2, e3]⟩

theorem send_size_checks_witness :
    ∃ d' t, MessageUnit.startTransmission senderDtu sendCmd = some d' ∧
      d'.transfers = senderDtu.transfers ++ [t] :=
  (send_size_checks senderDtu sendCmd
    { vpeId := 6, targetCore := 7, targetEp := 4, maxMsgSize := 64, credits := 128,
      label := 0xAA } rfl rfl).2.2.2.2 (by decide) (by decide) (by decide)

/-- C16 (counterexample). With `maxNocPacketSize = 48` below the endpoint's
`maxMsgSize = 64`, a SEND of 16 bytes (41 with its header) is no fatal error: it starts
its transfer. With no credits left, a SEND of 32 bytes (57 with its header, above
`maxNocPacketSize`) is no fatal error either: it finishes with MISS_CREDITS. -/
theorem send_not_fatal_above_packet_size :
    smallPacketDtu.regFile.getSendEp 3 = some
        { vpeId := 6, targetCore := 7, targetEp := 4, maxMsgSize := 64, credits := 128,
          label := 0xAA } ∧
      smallPacketDtu.maxNocPacketSize = 48 ∧
      (MessageUnit.startTransmission smallPacketDtu sendCmd).map
        (fun d => d.transfers.map (fun t => (t.type, t.size))) =
        some [(TransferType.LOCAL_READ, 16)] ∧
      noCreditsDtu.regFile.DATA_SIZE + sizeofMessageHeader = 57 ∧
      noCreditsDtu.maxNocPacketSize = 48 ∧
      MessageUnit.startTransmission noCreditsDtu sendCmd =
        some { noCreditsDtu with finishEvents := [Error.MISS_CREDITS] } := by
  refine ⟨rfl, rfl, by decide, rfl, rfl, by decide⟩

/-! ## Replies -/

theorem ofLeBytes_lt (bs : List Nat) : ofLeBytes bs < 256 ^ bs.length := by
  induction bs with
  | nil => simp [ofLeBytes]
  | cons b bs ih =>
    have hb : b % 256 < 256 := Nat.mod_lt _ (by decide)
    simp only [ofLeBytes, List.length_cons, Nat.pow_succ]
    omega

theorem ofLeBytes_take_one_lt (bs : List Nat) : ofLeBytes (bs.take 1) < 2 ^ 8 := by
  cases bs with
  | nil => simp [ofLeBytes]
  | cons b bs =>
    have hb : b % 256 < 256 := Nat.mod_lt _ (by decide)
    simp only [List.take_succ_cons, List.take_zero, ofLeBytes]
    omega

/-- The state in which `recvFromMem` calls `startXfer` once the header is complete and has
`REPLY_ENABLED` set. -/
theorem recvFromMem_complete (d : Dtu) (cmd : Command) (pkt : MemPacket)
    (hfull : d.msgUnit.offset + pkt.data.length = sizeofMessageHeader)
    (hen : (MessageUnit.headerAfter d pkt).flags &&& REPLY_ENABLED ≠ 0) :
    MessageUnit.recvFromMem d cmd pkt =
      MessageUnit.startXfer
        { d with
          msgUnit :=
            { info :=
                { d.msgUnit.info with
                  targetCoreId := (MessageUnit.headerAfter d pkt).senderCoreId
                  targetVpeId := (MessageUnit.headerAfter d pkt).senderVpeId
                  targetEpId := (MessageUnit.headerAfter d pkt).replyEpId
                  replyEpId := (MessageUnit.headerAfter d pkt).senderEpId
                  label := (MessageUnit.headerAfter d pkt).replyLabel
                  replyLabel := 0
                  flags := (MessageUnit.headerAfter d pkt).flags &&& PAGEFAULT
                  ready := true
                  unlimcred := false }
              header :=
                { MessageUnit.headerAfter d pkt with
                  flags := (MessageUnit.headerAfter d pkt).flags &&& notBits 8 REPLY_ENABLED }
              flagsPhys := if d.msgUnit.offset = 0 then pkt.addr else d.msgUnit.flagsPhys
              offset := d.msgUnit.offset + pkt.data.length }
          funcWrites := d.funcWrites ++
            [(if d.msgUnit.offset = 0 then pkt.addr else d.msgUnit.flagsPhys,
              (MessageUnit.headerAfter d pkt).flags &&& notBits 8 REPLY_ENABLED)] }
        cmd := by
  have h1 : ¬ ¬ d.msgUnit.offset + pkt.data.length ≤ sizeofMessageHeader := by omega
  have h2 : ¬ d.msgUnit.offset + pkt.data.length < sizeofMessageHeader := by omega
  unfold MessageUnit.recvFromMem
  rw [if_neg h1]
  simp only [if_neg h2, if_neg hen]

theorem recvFromMem_complete_ex (d : Dtu) (cmd : Command) (pkt : MemPacket)
    (hfull : d.msgUnit.offset + pkt.data.length = sizeofMessageHeader)
    (hen : (MessageUnit.headerAfter d pkt).flags &&& REPLY_ENABLED ≠ 0) :
    ∃ d1 : Dtu, MessageUnit.recvFromMem d cmd pkt = MessageUnit.startXfer d1 cmd ∧
      d1.msgUnit.info =
        { d.msgUnit.info with
          targetCoreId := (MessageUnit.headerAfter d pkt).senderCoreId
          targetVpeId := (MessageUnit.headerAfter d pkt).senderVpeId
          targetEpId := (MessageUnit.headerAfter d pkt).replyEpId
          replyEpId := (MessageUnit.headerAfter d pkt).senderEpId
          label := (MessageUnit.headerAfter d pkt).replyLabel
          replyLabel := 0
          flags := (MessageUnit.headerAfter d pkt).flags &&& PAGEFAULT
          ready := true
          unlimcred := false } ∧
      d1.regFile = d.regFile ∧ d1.coreId = d.coreId ∧
      d1.maxNocPacketSize = d.maxNocPacketSize ∧ d1.transfers = d.transfers ∧
      d1.funcWrites = d.funcWrites ++
        [(if d.msgUnit.offset = 0 then pkt.addr else d.msgUnit.flagsPhys,
          (MessageUnit.headerAfter d pkt).flags &&& notBits 8 REPLY_ENABLED)] :=
  ⟨_, recvFromMem_complete d cmd pkt hfull hen, rfl, rfl, rfl, rfl, rfl, rfl⟩

/-- C17. For a REPLY command on endpoint `e = cmd.arg`, when the response from memory
completes the stored header `h` (the member `header` after the copy) and `h` has
`REPLY_ENABLED` set, with the size assertion of `startXfer` passing and register values
that fit the header fields (core id, `VPE_ID` and `DATA_SIZE` below `2^16`, `e` below
`2^8`): `recvFromMem` starts one transfer, a `LOCAL_READ` of `DATA_SIZE` bytes from
`DATA_ADDR` to `NocAddr(h.senderCoreId, h.senderVpeId, h.replyEpId)`, whose header has
`flags = REPLY | GRANT_CREDITS | (h.flags & PAGEFAULT)`, `label = h.replyLabel`,
`replyLabel = 0`, `replyEpId = h.senderEpId`, `senderEpId = e`, `length = DATA_SIZE`, and
the local core id and `VPE_ID` as sender. -/
theorem recvFromMem_reply_header (d : Dtu) (cmd : Command) (pkt : MemPacket)
    (hop : cmd.opcode = Opcode.REPLY)
    (hfull : d.msgUnit.offset + pkt.data.length = sizeofMessageHeader)
    (hen : (MessageUnit.headerAfter d pkt).flags &&& REPLY_ENABLED ≠ 0)
    (hnoc : (d.regFile.DATA_SIZE + sizeofMessageHeader) % 2 ^ 64 ≤ d.maxNocPacketSize)
    (hcore : d.coreId < 2 ^ 16) (hvpe : d.regFile.VPE_ID < 2 ^ 16)
    (hlen : d.regFile.DATA_SIZE < 2 ^ 16) (harg : cmd.arg < 2 ^ 8) :
    ∃ d', MessageUnit.recvFromMem d cmd pkt = some d' ∧
      d'.transfers = d.transfers ++
        [{ type := TransferType.LOCAL_READ
           targetAddr := NocAddr.ofTuple (MessageUnit.headerAfter d pkt).senderCoreId
             (MessageUnit.headerAfter d pkt).senderVpeId
             (MessageUnit.headerAfter d pkt).replyEpId
           sourceAddr := d.regFile.DATA_ADDR
           size := d.regFile.DATA_SIZE
           pkt := none
           header := some
             { flags := REPLY_FLAG ||| GRANT_CREDITS_FLAG |||
                 ((MessageUnit.headerAfter d pkt).flags &&& PAGEFAULT)
               senderCoreId := d.coreId
               senderVpeId := d.regFile.VPE_ID
               senderEpId := cmd.arg
               replyEpId := (MessageUnit.headerAfter d pkt).senderEpId
               length := d.regFile.DATA_SIZE
               label := (MessageUnit.headerAfter d pkt).replyLabel
               replyLabel := 0 }
           flags := [] }] := by
  have m1 : d.coreId % 2 ^ 16 = d.coreId := Nat.mod_eq_of_lt hcore
  have m2 : d.regFile.VPE_ID % 2 ^ 16 = d.regFile.VPE_ID := Nat.mod_eq_of_lt hvpe
  have m4 : d.regFile.DATA_SIZE % 2 ^ 16 = d.regFile.DATA_SIZE := Nat.mod_eq_of_lt hlen
  have m5 : cmd.arg % 2 ^ 8 = cmd.arg := Nat.mod_eq_of_lt harg
  have m6 : (MessageUnit.headerAfter d pkt).senderEpId % 2 ^ 8
      = (MessageUnit.headerAfter d pkt).senderEpId :=
    Nat.mod_eq_of_lt (ofLeBytes_take_one_lt _)
  have m7 : (REPLY_FLAG ||| GRANT_CREDITS_FLAG |||
      ((MessageUnit.headerAfter d pkt).flags &&& PAGEFAULT)) % 2 ^ 8
      = REPLY_FLAG ||| GRANT_CREDITS_FLAG |||
        ((MessageUnit.headerAfter d pkt).flags &&& PAGEFAULT) := by
    apply Nat.mod_eq_of_lt
    apply Nat.or_lt_two_pow
    · decide
    · exact Nat.and_lt_two_pow _ (by decide)
  obtain ⟨d1, e0, e1, e2, e3, e4, e5, _⟩ := recvFromMem_complete_ex d cmd pkt hfull hen
  obtain ⟨d', h1, _, _, h4⟩ := startXfer_transfer d1 cmd (by rw [e1])
    (by rw [e2, e4]; exact hnoc)
  refine ⟨d', by rw [e0]; exact h1, ?_⟩
  rw [h4, e1, e2, e3, e5]
  simp only [if_pos hop, Bool.false_eq_true, if_false, m1, m2, m4, m5, m6, m7]

theorem recvFromMem_reply_header_witness :
    ∃ d', MessageUnit.recvFromMem replyStartedDtu replyCmd headerPacket = some d' ∧
      d'.transfers =
        [{ type := TransferType.LOCAL_READ
           targetAddr := NocAddr.ofTuple 0 5 2
           sourceAddr := 0x600
           size := 8
           pkt := none
           header := some
             { flags := 3, senderCoreId := 7, senderVpeId := 6, senderEpId := 4,
               replyEpId := 3, length := 8, label := 0xBB, replyLabel := 0 }
           flags := [] }] :=
  recvFromMem_reply_header replyStartedDtu replyCmd headerPacket rfl rfl (by decide)
    (by decide) (by decide) (by decide) (by decide) (by decide)

/-! ## Replies: REPLY_ENABLED is used up -/

theorem testBit_clear_replyEnabled (x j : Nat) :
    (x &&& notBits 8 REPLY_ENABLED).testBit j
      = (x.testBit j && (decide (j < 8) && !decide (2 = j))) := by
  have h : notBits 8 REPLY_ENABLED = 2 ^ 8 - (2 ^ 2 + 1) := by decide
  have hlt : 2 ^ 2 < 2 ^ 8 := by decide
  rw [Nat.testBit_and, h, Nat.testBit_two_pow_sub_succ hlt, Nat.testBit_two_pow]

theorem clear_replyEnabled_and (x : Nat) :
    (x &&& notBits 8 REPLY_ENABLED) &&& REPLY_ENABLED = 0 := by
  apply Nat.eq_of_testBit_eq
  intro j
  have h4 : REPLY_ENABLED = 2 ^ 2 := by decide
  rw [Nat.testBit_and, testBit_clear_replyEnabled, h4, Nat.testBit_two_pow, Nat.zero_testBit]
  by_cases h : 2 = j <;> simp [h]

theorem or_replyFailed_and (x : Nat) (h : x &&& REPLY_ENABLED = 0) :
    ((x ||| REPLY_FAILED) % 2 ^ 8) &&& REPLY_ENABLED = 0 := by
  apply Nat.eq_of_testBit_eq
  intro j
  have h4 : REPLY_ENABLED = 2 ^ 2 := by decide
  have h16 : REPLY_FAILED = 2 ^ 4 := by decide
  have hx := congrArg (fun n => n.testBit j) h
  simp only [Nat.testBit_and, h4, Nat.testBit_two_pow, Nat.zero_testBit] at hx
  rw [Nat.testBit_and, Nat.testBit_mod_two_pow, Nat.testBit_or, h4, h16, Nat.testBit_two_pow,
    Nat.testBit_two_pow, Nat.zero_testBit]
  by_cases hj : 2 = j
  · subst hj
    simp at hx
    simp [hx]
  · simp [hj]

theorem recvFromMem_not_enabled (d : Dtu) (cmd : Command) (pkt : MemPacket)
    (hfull : d.msgUnit.offset + pkt.data.length = sizeofMessageHeader)
    (hen : (MessageUnit.headerAfter d pkt).flags &&& REPLY_ENABLED = 0) :
    MessageUnit.recvFromMem d cmd pkt = none := by
  have h1 : ¬ ¬ d.msgUnit.offset + pkt.data.length ≤ sizeofMessageHeader := by omega
  have h2 : ¬ d.msgUnit.offset + pkt.data.length < sizeofMessageHeader := by omega
  unfold MessageUnit.recvFromMem
  rw [if_neg h1]
  simp only [if_neg h2, if_pos hen]

theorem startXfer_funcWrites (d : Dtu) (cmd : Command) (d1 : Dtu)
    (h : MessageUnit.startXfer d cmd = some d1) :
    d1.funcWrites = d.funcWrites ∧ d1.msgUnit.header = d.msgUnit.header ∧
      d1.msgUnit.flagsPhys = d.msgUnit.flagsPhys := by
  unfold MessageUnit.startXfer at h
  simp only at h
  split at h
  · simp at h
  · split at h
    · simp at h
    · simp only [Option.some.injEq] at h
      subst h; exact ⟨rfl, rfl, rfl⟩

theorem finishCommand_reply_some (d : Dtu) (e : Error) (cmd : Command) (d' : Dtu)
    (hcmd : d.getCommand = some cmd) (hop : cmd.opcode = Opcode.REPLY)
    (h : d.finishCommand e = some d') :
    ∃ d1, MessageUnit.finishMsgReply d e cmd.epid = some d1 ∧
      d' = { d1 with
             regFile :=
               { d1.regFile with
                 COMMAND := e.toNat <<< (numCmdOpcodeBits + d1.numCmdEpidBits) }
             cmdInProgress := false } := by
  unfold Dtu.finishCommand at h
  rw [hcmd] at h
  simp only [if_pos hop] at h
  split at h
  · simp at h
  · cases hr : MessageUnit.finishMsgReply d e cmd.epid with
    | none => rw [hr] at h; simp at h
    | some d1 =>
      rw [hr] at h
      simp only at h
      split at h
      · simp at h
      · exact ⟨d1, rfl, (Option.some.inj h).symm⟩

theorem ackMessage_freed (d : Dtu) (epid : Nat) (d1 : Dtu)
    (h : MessageUnit.ackMessage d epid = some d1) :
    ∃ ep i, d.regFile.getRecvEp epid = some ep ∧ i < 32 ∧
      ep.msgToIdx d.regFile.OFFSET = some i ∧ ep.occupied.testBit i = true ∧
      d1.regFile = d.regFile.setRecvEp epid
        { ep with occupied := ep.occupied &&& notBits 32 (1 <<< i) } := by
  cases hep : d.regFile.getRecvEp epid with
  | none =>
    simp only [MessageUnit.ackMessage] at h
    rw [hep] at h
    simp at h
  | some ep =>
    rw [ackMessage_eq d epid ep hep] at h
    cases hr : Ring.ackMessage ep d.regFile.OFFSET with
    | none =>
      rw [hr] at h
      simp at h
    | some ep1 =>
      obtain ⟨i, hi, hidx, hbit, hep1⟩ := Ring.ackMessage_some ep _ ep1 hr
      rw [hr] at h
      simp only [Option.map_some', Option.some.injEq] at h
      refine ⟨ep, i, rfl, hi, hidx, hbit, ?_⟩
      rw [← h, hep1]
      rfl

/-- What a successful `finishMsgReply` has done: the flag byte written, and the slot named
by `OFFSET` freed. -/
theorem finishMsgReply_some (d : Dtu) (e : Error) (epid : Nat) (d1 : Dtu)
    (h : MessageUnit.finishMsgReply d e epid = some d1) :
    d.msgUnit.flagsPhys ≠ 0 ∧
      d1.funcWrites = d.funcWrites ++
        [(d.msgUnit.flagsPhys,
          ((d.msgUnit.header.flags &&& notBits 8 REPLY_ENABLED) ||| REPLY_FAILED) % 2 ^ 8)] ∧
      d1.regFile.OFFSET = d.regFile.OFFSET ∧
      ∃ ep i, d.regFile.getRecvEp epid = some ep ∧ i < 32 ∧
        ep.msgToIdx d.regFile.OFFSET = some i ∧ ep.occupied.testBit i = true ∧
        d1.regFile = d.regFile.setRecvEp epid
          { ep with occupied := ep.occupied &&& notBits 32 (1 <<< i) } := by
  have hphys : d.msgUnit.flagsPhys ≠ 0 := by
    intro h0
    simp [MessageUnit.finishMsgReply, h0] at h
  rw [finishMsgReply_eq d e epid hphys] at h
  obtain ⟨_, _, _, f4, _, f6, _⟩ := ackMessage_frame _ epid d1 h
  obtain ⟨ep, i, g1, g2, g3, g4, g5⟩ := ackMessage_freed _ epid d1 h
  exact ⟨hphys, f6, f4, ep, i, g1, g2, g3, g4, g5⟩

theorem requestHeader_free_slot (d : Dtu) (epid : Nat) (ep : RecvEp) (i : Nat)
    (hep : d.regFile.getRecvEp epid = some ep) (hi : i < 32)
    (hidx : ep.msgToIdx d.regFile.OFFSET = some i) (hbit : ep.occupied.testBit i = false) :
    MessageUnit.requestHeader d epid = none := by
  have hne : ¬ i = RecvEp.MAX_MSGS := by
    have : RecvEp.MAX_MSGS = 32 := rfl
    omega
  unfold MessageUnit.requestHeader
  split
  · rfl
  · simp only [hep, hidx, if_neg hne, isOccupied_eq ep i hi, hbit]

theorem headerAfter_flags_lt (d : Dtu) (pkt : MemPacket) :
    (MessageUnit.headerAfter d pkt).flags < 2 ^ 8 :=
  ofLeBytes_take_one_lt _

/-- C18. When a response from memory completes the stored header `h` of a REPLY:
if `h` lacks `REPLY_ENABLED`, `recvFromMem` is a fatal error; if `h` has it, the flag byte
`h.flags` with `REPLY_ENABLED` cleared and every other bit unchanged is written to
`flagsPhys` (the address of the first header byte) in the state in which `startXfer` is
then called, before any transfer is started. Consequently a second REPLY naming the same
stored message is a fatal error: a header read that returns the byte written back (or
the byte that `finishMsgReply` writes afterwards) fails the `REPLY_ENABLED` assertion, and
once the first REPLY has been finished by `finishCommand` the slot is free, so that a REPLY
on the same endpoint with the same `OFFSET` fails the assertion of `requestHeader`. -/
theorem reply_enabled_used_up (d : Dtu) (cmd : Command) (pkt : MemPacket)
    (hfull : d.msgUnit.offset + pkt.data.length = sizeofMessageHeader) :
    ((MessageUnit.headerAfter d pkt).flags &&& REPLY_ENABLED = 0 →
        MessageUnit.recvFromMem d cmd pkt = none) ∧
      ((MessageUnit.headerAfter d pkt).flags &&& REPLY_ENABLED ≠ 0 →
        ∃ d1 : Dtu, MessageUnit.recvFromMem d cmd pkt = MessageUnit.startXfer d1 cmd ∧
          d1.transfers = d.transfers ∧
          d1.funcWrites = d.funcWrites ++
            [(if d.msgUnit.offset = 0 then pkt.addr else d.msgUnit.flagsPhys,
              (MessageUnit.headerAfter d pkt).flags &&& notBits 8 REPLY_ENABLED)] ∧
          ∀ d', MessageUnit.startXfer d1 cmd = some d' → d'.funcWrites = d1.funcWrites) ∧
      ((MessageUnit.headerAfter d pkt).flags &&& notBits 8 REPLY_ENABLED) &&& REPLY_ENABLED = 0 ∧
      (∀ j, j ≠ 2 →
        ((MessageUnit.headerAfter d pkt).flags &&& notBits 8 REPLY_ENABLED).testBit j
          = (MessageUnit.headerAfter d pkt).flags.testBit j) ∧
      (∀ (d2 : Dtu) (cmd2 : Command) (pkt2 : MemPacket),
        d2.msgUnit.offset + pkt2.data.length = sizeofMessageHeader →
        ((MessageUnit.headerAfter d2 pkt2).flags
            = (MessageUnit.headerAfter d pkt).flags &&& notBits 8 REPLY_ENABLED ∨
          (MessageUnit.headerAfter d2 pkt2).flags
            = ((((MessageUnit.headerAfter d pkt).flags &&& notBits 8 REPLY_ENABLED)
                &&& notBits 8 REPLY_ENABLED) ||| REPLY_FAILED) % 2 ^ 8) →
        MessageUnit.recvFromMem d2 cmd2 pkt2 = none) ∧
      (∀ (dF dF' d2 : Dtu) (e : Error) (cmdF cmd2 : Command),
        dF.getCommand = some cmdF → cmdF.opcode = Opcode.REPLY →
        dF.finishCommand e = some dF' →
        cmd2.opcode = Opcode.REPLY → cmd2.arg = cmdF.epid →
        d2.regFile.epRegs = dF'.regFile.epRegs → d2.regFile.OFFSET = dF.regFile.OFFSET →
        MessageUnit.startTransmission d2 cmd2 = none) := by
  refine ⟨recvFromMem_not_enabled d cmd pkt hfull, ?_, clear_replyEnabled_and _, ?_, ?_, ?_⟩
  · intro hen
    obtain ⟨d1, e0, _, _, _, _, e5, e6⟩ := recvFromMem_complete_ex d cmd pkt hfull hen
    exact ⟨d1, e0, e5, e6, fun d' hd' => (startXfer_funcWrites d1 cmd d' hd').1⟩
  · intro j hj
    rw [testBit_clear_replyEnabled]
    by_cases h8 : j < 8
    · have h2 : ¬ 2 = j := fun h => hj h.symm
      simp [h8, h2]
    · have hlt : (MessageUnit.headerAfter d pkt).flags < 2 ^ j :=
        Nat.lt_of_lt_of_le (headerAfter_flags_lt d pkt)
          (Nat.pow_le_pow_right (by decide) (by omega))
      rw [Nat.testBit_lt_two_pow hlt]
      simp
  · intro d2 cmd2 pkt2 hfull2 hfl
    apply recvFromMem_not_enabled d2 cmd2 pkt2 hfull2
    rcases hfl with h | h
    · rw [h]; exact clear_replyEnabled_and _
    · rw [h]; exact or_replyFailed_and _ (clear_replyEnabled_and _)
  · intro dF dF' d2 e cmdF cmd2 hcmd hop hfin hop2 harg hregs hoff
    obtain ⟨d1, hd1, hdF'⟩ := finishCommand_reply_some dF e cmdF dF' hcmd hop hfin
    obtain ⟨_, _, _, ep, i, g1, g2, g3, g4, g5⟩ := finishMsgReply_some dF e cmdF.epid d1 hd1
    have hget : d2.regFile.getRecvEp cmd2.arg
        = some { ep with occupied := ep.occupied &&& notBits 32 (1 <<< i) } := by
      have h1 : d2.regFile.getRecvEp cmd2.arg = d1.regFile.getRecvEp cmdF.epid := by
        unfold RegFile.getRecvEp
        rw [hregs, hdF', harg]
      rw [h1, g5]
      exact getRecvEp_setRecvEp dF.regFile cmdF.epid ep _ g1
    have hbit : (ep.occupied &&& notBits 32 (1 <<< i)).testBit i = false := by
      rw [testBit_and_notBits _ _ _ g2]; simp
    have hreq := requestHeader_free_slot
      { d2 with msgUnit := { d2.msgUnit with offset := 0, flagsPhys := 0 } } cmd2.arg
      { ep with occupied := ep.occupied &&& notBits 32 (1 <<< i) } i hget g2
      (by rw [← g3]; show RecvEp.msgToIdx _ d2.regFile.OFFSET = _; rw [hoff]; rfl) hbit
    simp only [MessageUnit.startTransmission, if_pos hop2]
    exact hreq

theorem reply_enabled_used_up_witness :
    (∃ d1 : Dtu, MessageUnit.recvFromMem replyStartedDtu replyCmd headerPacket
          = MessageUnit.startXfer d1 replyCmd ∧
        d1.transfers = [] ∧ d1.funcWrites = [(0x81000, 0)] ∧
        ∀ d', MessageUnit.startXfer d1 replyCmd = some d' → d'.funcWrites = d1.funcWrites) ∧
      MessageUnit.startTransmission secondReplyDtu replyCmd = none :=
  ⟨(reply_enabled_used_up replyStartedDtu replyCmd headerPacket rfl).2.1 (by decide),
    (reply_enabled_used_up replyStartedDtu replyCmd headerPacket rfl).2.2.2.2.2
      replySentDtu replyDoneDtu secondReplyDtu Error.NONE replyCmd replyCmd
      rfl rfl rfl rfl rfl rfl rfl⟩

/-! ## Finishing a reply -/

/-- C19 (what the code does at the failing input). The REPLY of the third scenario,
finished with error `NONE`: `finishMsgReply` writes the flag byte `REPLY_FAILED` (16) to
the stored header, after the byte 0 written by `recvFromMem`; the same byte is written
for every error, since `header.flags |= REPLY_FAILED` is not under the
`if (error == VPE_GONE)`; the `warn` alone is. -/
theorem finishMsgReply_marks_failed_on_none :
    replySentDtu.msgUnit.header.flags = 0 ∧
      (MessageUnit.finishMsgReply replySentDtu Error.NONE 4).map
        (fun d => (d.funcWrites, d.warnings)) =
        some ([(0x81000, 0), (0x81000, REPLY_FAILED)], 0) ∧
      (replySentDtu.finishCommand Error.NONE).map (fun d => d.funcWrites) =
        some [(0x81000, 0), (0x81000, REPLY_FAILED)] ∧
      ∀ e : Error, (MessageUnit.finishMsgReply replySentDtu e 4).map (fun d => d.funcWrites) =
        some [(0x81000, 0), (0x81000, REPLY_FAILED)] := by
  refine ⟨by decide, by decide, by decide, ?_⟩
  intro e
  cases e <;> decide

theorem finishMsgReply_of_ack (d : Dtu) (e : Error) (epid : Nat) (ep ep1 : RecvEp)
    (hphys : d.msgUnit.flagsPhys ≠ 0) (hep : d.regFile.getRecvEp epid = some ep)
    (hack : Ring.ackMessage ep d.regFile.OFFSET = some ep1) :
    ∃ d1, MessageUnit.finishMsgReply d e epid = some d1 ∧
      d1.regFile = d.regFile.setRecvEp epid ep1 ∧
      d1.numCmdEpidBits = d.numCmdEpidBits := by
  obtain ⟨X, hX, hXreg, hXn⟩ : ∃ X : Dtu,
      MessageUnit.finishMsgReply d e epid = MessageUnit.ackMessage X epid ∧
      X.regFile = d.regFile ∧ X.numCmdEpidBits = d.numCmdEpidBits :=
    ⟨_, finishMsgReply_eq d e epid hphys, rfl, rfl⟩
  rw [hX, ackMessage_eq X epid ep (by rw [hXreg]; exact hep), hXreg, hack]
  refine ⟨_, rfl, ?_, ?_⟩
  · show X.regFile.setRecvEp epid ep1 = _
    rw [hXreg]
  · exact hXn

/-- C20. For a REPLY command in progress on endpoint `epid` (the endpoint field of
`COMMAND`), with at most 25 endpoint-id bits, `flagsPhys` set by the header read, and
`OFFSET` addressing an occupied slot of the RECEIVE endpoint `ep`
(`idx = (OFFSET - bufAddr) / msgSize < 32` in 64-bit arithmetic, `occupied[idx]` set):
`finishCommand(e)` succeeds for every error `e`, `VPE_GONE` included, and the endpoint
afterwards is `ep` with `occupied[idx]` cleared: that bit is clear, every other occupied
bit is as before, and `unread`, `msgCount`, `rdPos`, `wrPos` are unchanged. -/
theorem finishCommand_reply_frees_slot (d : Dtu) (e : Error) (cmd : Command) (ep : RecvEp)
    (hcmd : d.getCommand = some cmd) (hop : cmd.opcode = Opcode.REPLY)
    (hprog : d.cmdInProgress = true) (hbits : d.numCmdEpidBits + 3 ≤ 28)
    (hphys : d.msgUnit.flagsPhys ≠ 0)
    (hep : d.regFile.getRecvEp cmd.epid = some ep) (hms : 0 < ep.msgSize)
    (hq : ep.slotQuot d.regFile.OFFSET < 32)
    (hocc : ep.occupied.testBit (ep.slotQuot d.regFile.OFFSET) = true) :
    ∃ d', d.finishCommand e = some d' ∧
      d'.regFile.getRecvEp cmd.epid = some
        { ep with occupied :=
            ep.occupied &&& notBits 32 (1 <<< ep.slotQuot d.regFile.OFFSET) } ∧
      (ep.occupied &&& notBits 32 (1 <<< ep.slotQuot d.regFile.OFFSET)).testBit
        (ep.slotQuot d.regFile.OFFSET) = false ∧
      ∀ j, j < 32 → j ≠ ep.slotQuot d.regFile.OFFSET →
        (ep.occupied &&& notBits 32 (1 <<< ep.slotQuot d.regFile.OFFSET)).testBit j
          = ep.occupied.testBit j := by
  have hq31 : ep.slotQuot d.regFile.OFFSET < 2 ^ 31 := by omega
  have hack : Ring.ackMessage ep d.regFile.OFFSET = some
      { ep with occupied :=
          ep.occupied &&& notBits 32 (1 <<< ep.slotQuot d.regFile.OFFSET) } := by
    rw [Ring.ackMessage_of_lt ep _ hms hq31, if_pos ⟨hq, hocc⟩]
  obtain ⟨d1, h1, h2, h3⟩ := finishMsgReply_of_ack d e cmd.epid ep _ hphys hep hack
  have hp2 : ¬ d.cmdInProgress = false := by rw [hprog]; decide
  have he := Error.toNat_le e
  have hshift : ¬ (32 ≤ numCmdOpcodeBits + d1.numCmdEpidBits ∨
      2 ^ 31 ≤ e.toNat <<< (numCmdOpcodeBits + d1.numCmdEpidBits)) := by
    have h3' : numCmdOpcodeBits = 3 := rfl
    have hpow : 2 ^ (3 + d.numCmdEpidBits) ≤ 2 ^ 28 :=
      Nat.pow_le_pow_right (by decide) (by omega)
    have : e.toNat * 2 ^ (3 + d.numCmdEpidBits) ≤ 4 * 2 ^ 28 := Nat.mul_le_mul he hpow
    rw [h3, h3', Nat.shiftLeft_eq]
    have h28 : 4 * 2 ^ 28 < 2 ^ 31 := by decide
    omega
  refine ⟨{ d1 with
            regFile :=
              { d1.regFile with
                COMMAND := e.toNat <<< (numCmdOpcodeBits + d1.numCmdEpidBits) }
            cmdInProgress := false }, ?_, ?_, ?_, ?_⟩
  · simp only [Dtu.finishCommand, hcmd, if_neg hp2, if_pos hop, h1]
    rw [if_neg hshift]
  · show d1.regFile.getRecvEp cmd.epid = _
    rw [h2]
    exact getRecvEp_setRecvEp d.regFile cmd.epid ep _ hep
  · rw [testBit_and_notBits _ _ _ hq]; simp
  · intro j hj hne
    rw [testBit_and_notBits _ _ _ hq]
    simp [hj, Ne.symm hne]

theorem finishCommand_reply_frees_slot_witness :
    ∃ d', replySentDtu.finishCommand Error.VPE_GONE = some d' ∧
      d'.regFile.getRecvEp 4 = some
        { bufAddr := 0x1000, msgSize := 64, size := 4, rdPos := 1, wrPos := 1, occupied := 0,
          unread := 0, msgCount := 0 } := by
  obtain ⟨d', h1, h2, _⟩ :=
    finishCommand_reply_frees_slot replySentDtu Error.VPE_GONE replyCmd fetchedRing
      rfl rfl rfl (by decide) (by decide) rfl (by decide) (by decide) (by decide)
  exact ⟨d', h1, h2⟩

/-! ## Allocating a slot -/

theorem scanRing_isFree (ep : RecvEp) (hsize : ep.size ≤ 32) (hwr : ep.wrPos ≤ ep.size) :
    scanRing (fun i => (ep.isOccupied i).map not) ep.wrPos ep.size
      = some ((cyclicOrder ep.wrPos ep.size).find? (fun i => !ep.occupied.testBit i)) := by
  apply scanRing_eq
  intro i hi
  rw [Nat.max_eq_right hwr] at hi
  rw [isOccupied_eq ep i (by omega)]
  rfl

theorem Ring.allocSlot_found (msgSize : Nat) (ep : RecvEp) (idx : Nat)
    (hsz : msgSize ≤ ep.msgSize) (hsize : ep.size ≤ 32) (hwr : ep.wrPos ≤ ep.size)
    (hfind : (cyclicOrder ep.wrPos ep.size).find? (fun i => !ep.occupied.testBit i)
      = some idx) :
    idx < ep.size ∧ ep.occupied.testBit idx = false ∧
      Ring.allocSlot msgSize ep = some (idx,
        some { ep with occupied := ep.occupied ||| (1 <<< idx), wrPos := idx + 1 }) := by
  have hmem : idx ∈ cyclicOrder ep.wrPos ep.size := List.mem_of_find?_eq_some hfind
  have hlt : idx < ep.size := (mem_cyclicOrder _ _ _ hwr).mp hmem
  have h32 : idx < 32 := by omega
  have hbit : ep.occupied.testBit idx = false := by
    have := List.find?_some hfind
    simpa using this
  refine ⟨hlt, hbit, ?_⟩
  have h256 : idx + 1 < 256 := by omega
  unfold Ring.allocSlot
  rw [if_neg (Nat.not_lt.mpr hsz), scanRing_isFree ep hsize hwr, hfind]
  simp [RecvEp.setOccupied, h32, Nat.mod_eq_of_lt h256]

theorem grantCredits_transfers (d : Dtu) (h : MessageHeader) :
    (MessageUnit.grantCredits d h).transfers = d.transfers := by
  unfold MessageUnit.grantCredits
  split
  · split
    · rfl
    · split <;> rfl
  · rfl

theorem writeRecvEp_transfers (d : Dtu) (e : Nat) (w : Option RecvEp) :
    (d.writeRecvEp e w).transfers = d.transfers := by
  cases w <;> rfl

theorem writeRecvEp_VPE_ID (d : Dtu) (e : Nat) (w : Option RecvEp) :
    (d.writeRecvEp e w).regFile.VPE_ID = d.regFile.VPE_ID := by
  cases w <;> rfl

/-- C27. For a RECEIVE endpoint `ep` with `wrPos <= size <= 32` in which some occupied bit
below `size` is clear, and an inbound message (no page-fault reply) that fits a slot:
`allocSlot` returns the first index `idx` whose occupied bit is clear in the cyclic order
`wrPos, ..., size-1, 0, ..., wrPos-1`; the endpoint it writes back is `ep` with
`occupied[idx]` set (every other occupied bit, `unread`, `msgCount`, `rdPos` unchanged) and
`wrPos = idx + 1`; and when the message carries the local VPE id, `recvFromNoc` starts one
`REMOTE_WRITE` transfer with flag `MSGRECV` for the whole packet at the local address
`bufAddr + idx * msgSize` (modulo `2^64`). -/
theorem recvFromNoc_first_free_slot (d : Dtu) (pkt : Packet) (ep : RecvEp)
    (hpf : pkt.header.flags &&& (REPLY_FLAG ||| PAGEFAULT) ≠ REPLY_FLAG ||| PAGEFAULT)
    (hep : d.regFile.getRecvEp ((NocAddr.ofAddr pkt.addr).offset % 2 ^ 32) = some ep)
    (hvpe : (NocAddr.ofAddr pkt.addr).vpeId = d.regFile.VPE_ID % 2 ^ 16)
    (hsz : pkt.size ≤ ep.msgSize) (hsize : ep.size ≤ 32) (hwr : ep.wrPos ≤ ep.size)
    (hfree : ∃ i, i < ep.size ∧ ep.occupied.testBit i = false) :
    ∃ idx l1 l2, cyclicOrder ep.wrPos ep.size = l1 ++ idx :: l2 ∧
      (∀ j, j ∈ l1 → ep.occupied.testBit j = true) ∧ ep.occupied.testBit idx = false ∧
      idx < ep.size ∧
      MessageUnit.allocSlot d pkt.size ((NocAddr.ofAddr pkt.addr).offset % 2 ^ 32) ep =
        some (idx, { ep with occupied := ep.occupied ||| (1 <<< idx), wrPos := idx + 1 },
          d.writeRecvEp ((NocAddr.ofAddr pkt.addr).offset % 2 ^ 32)
            (some { ep with occupied := ep.occupied ||| (1 <<< idx), wrPos := idx + 1 })) ∧
      (ep.occupied ||| (1 <<< idx)).testBit idx = true ∧
      (∀ j, j ≠ idx → (ep.occupied ||| (1 <<< idx)).testBit j = ep.occupied.testBit j) ∧
      ∃ d', MessageUnit.recvFromNoc d pkt = some (Error.NONE, d') ∧
        d'.transfers = d.transfers ++
          [{ type := TransferType.REMOTE_WRITE
             targetAddr := NocAddr.ofTuple 0 0 0
             sourceAddr := (ep.bufAddr + idx * ep.msgSize) % 2 ^ 64
             size := pkt.size
             pkt := some pkt
             header := none
             flags := [XferFlag.MSGRECV] }] := by
  obtain ⟨i0, hi0, hb0⟩ := hfree
  have hsome : ((cyclicOrder ep.wrPos ep.size).find? (fun i => !ep.occupied.testBit i)).isSome := by
    rw [List.find?_isSome]
    exact ⟨i0, (mem_cyclicOrder _ _ _ hwr).mpr hi0, by simp [hb0]⟩
  obtain ⟨idx, hfind⟩ := Option.isSome_iff_exists.mp hsome
  obtain ⟨hlt, hbit, hring⟩ := Ring.allocSlot_found pkt.size ep idx hsz hsize hwr hfind
  obtain ⟨_, l1, l2, hsplit, hbefore⟩ := List.find?_eq_some.mp hfind
  have ha : MessageUnit.allocSlot d pkt.size ((NocAddr.ofAddr pkt.addr).offset % 2 ^ 32) ep =
      some (idx, { ep with occupied := ep.occupied ||| (1 <<< idx), wrPos := idx + 1 },
        d.writeRecvEp ((NocAddr.ofAddr pkt.addr).offset % 2 ^ 32)
          (some { ep with occupied := ep.occupied ||| (1 <<< idx), wrPos := idx + 1 })) := by
    unfold MessageUnit.allocSlot
    rw [hring]
    rfl
  refine ⟨idx, l1, l2, hsplit, ?_, hbit, hlt, ha, ?_, ?_, ?_⟩
  · intro j hj
    have := hbefore j hj
    simpa using this
  · rw [testBit_or_one_shiftLeft]; simp
  · intro j hj
    rw [testBit_or_one_shiftLeft]
    simp [Ne.symm hj]
  · have hne : ¬ idx = ep.size := by omega
    unfold MessageUnit.recvFromNoc
    simp only [hpf, if_false, hep, ha]
    have hv : (NocAddr.ofAddr pkt.addr).vpeId
        = (d.writeRecvEp ((NocAddr.ofAddr pkt.addr).offset % 2 ^ 32)
            (some { ep with occupied := ep.occupied ||| (1 <<< idx),
                            wrPos := idx + 1 })).regFile.VPE_ID % 2 ^ 16 := by
      rw [writeRecvEp_VPE_ID]; exact hvpe
    rw [if_pos ⟨hv, hne⟩]
    refine ⟨_, rfl, ?_⟩
    show (MessageUnit.grantCredits _ _).transfers ++ _ = _
    rw [grantCredits_transfers, writeRecvEp_transfers]

theorem recvFromNoc_first_free_slot_witness :
    ∃ d', MessageUnit.recvFromNoc wrapRingDtu localVpePacket = some (Error.NONE, d') ∧
      d'.transfers =
        [{ type := TransferType.REMOTE_WRITE
           targetAddr := NocAddr.ofTuple 0 0 0
           sourceAddr := 0x1000 + 2 * 64
           size := 41
           pkt := some localVpePacket
           header := none
           flags := [XferFlag.MSGRECV] }] := by
  obtain ⟨idx, _, _, _, _, _, _, ha, _, _, d', h1, h2⟩ :=
    recvFromNoc_first_free_slot wrapRingDtu localVpePacket
      { bufAddr := 0x1000, msgSize := 64, size := 4, wrPos := 3, rdPos := 0,
        msgCount := 1, occupied := 11, unread := 8 }
      (by decide) (by decide) (by decide) (by decide) (by decide) (by decide)
      ⟨2, by decide, by decide⟩
  have hidx : idx = 2 := by
    have h0 : MessageUnit.allocSlot wrapRingDtu localVpePacket.size
        ((NocAddr.ofAddr localVpePacket.addr).offset % 2 ^ 32)
        { bufAddr := 0x1000, msgSize := 64, size := 4, wrPos := 3, rdPos := 0,
          msgCount := 1, occupied := 11, unread := 8 }
        = some (2, { bufAddr := 0x1000, msgSize := 64, size := 4, wrPos := 3, rdPos := 0,
                     msgCount := 1, occupied := 15, unread := 8 },
            wrapRingDtu.writeRecvEp 4
              (some { bufAddr := 0x1000, msgSize := 64, size := 4, wrPos := 3, rdPos := 0,
                      msgCount := 1, occupied := 15, unread := 8 })) := by decide
    rw [h0] at ha
    have := congrArg (fun o => o.map (fun r => r.1)) ha
    simpa using this.symm
  subst hidx
  exact ⟨d', h1, h2⟩

/-! ## The positions of a ring -/

/-- C28 (amended). For a RECEIVE endpoint with `rdPos <= size`, `wrPos <= size` and
`size <= 32`: an `allocSlot` that picks index `idx` has `idx < size` and writes
`wrPos = idx + 1`; a `fetchMessage` that picks index `idx` (returning
`bufAddr + idx * msgSize`) has `idx < size` and writes `rdPos = idx + 1`; neither value is
reduced modulo `size`, and `rdPos <= size` and `wrPos <= size` hold afterwards. -/
theorem ring_positions_amended (ep : RecvEp) (msgSize : Nat) (hsize : ep.size ≤ 32)
    (hwr : ep.wrPos ≤ ep.size) (hrd : ep.rdPos ≤ ep.size) :
    (∀ idx w, Ring.allocSlot msgSize ep = some (idx, some w) →
        idx < ep.size ∧ w.wrPos = idx + 1 ∧ w.size = ep.size ∧ w.rdPos = ep.rdPos ∧
        w.wrPos ≤ w.size ∧ w.rdPos ≤ w.size) ∧
      (∀ a w, Ring.fetchMessage ep = some (a, some w) →
        ∃ idx, idx < ep.size ∧ a = (ep.bufAddr + idx * ep.msgSize) % 2 ^ 64 ∧
          w.rdPos = idx + 1 ∧ w.size = ep.size ∧ w.wrPos = ep.wrPos ∧
          w.rdPos ≤ w.size ∧ w.wrPos ≤ w.size) := by
  constructor
  · intro idx w h
    have hsz : msgSize ≤ ep.msgSize := by
      by_contra hn
      unfold Ring.allocSlot at h
      rw [if_pos (Nat.lt_of_not_le hn)] at h
      simp at h
    cases hfind : (cyclicOrder ep.wrPos ep.size).find? (fun i => !ep.occupied.testBit i) with
    | none =>
      unfold Ring.allocSlot at h
      rw [if_neg (Nat.not_lt.mpr hsz), scanRing_isFree ep hsize hwr, hfind] at h
      simp at h
    | some i =>
      obtain ⟨hlt, _, heq⟩ := Ring.allocSlot_found msgSize ep i hsz hsize hwr hfind
      rw [heq] at h
      simp only [Option.some.injEq, Prod.mk.injEq] at h
      obtain ⟨h1, h2⟩ := h
      subst h1
      subst h2
      exact ⟨hlt, rfl, rfl, rfl, by show i + 1 ≤ ep.size; omega, hrd⟩
  · intro a w h
    have hcnt : ep.msgCount ≠ 0 := by
      intro h0
      unfold Ring.fetchMessage at h
      rw [if_pos h0] at h
      simp at h
    cases hfind : (cyclicOrder ep.rdPos ep.size).find? (fun i => ep.unread.testBit i) with
    | none =>
      unfold Ring.fetchMessage at h
      rw [if_neg hcnt, scanRing_isUnread ep hsize hrd, hfind] at h
      simp at h
    | some i =>
      obtain ⟨hlt, _, heq⟩ := Ring.fetchMessage_found ep i hsize hrd hcnt hfind
      rw [heq] at h
      by_cases hocc : ep.occupied.testBit i = true
      · rw [if_pos hocc] at h
        simp only [Option.some.injEq, Prod.mk.injEq] at h
        obtain ⟨h1, h2⟩ := h
        subst h1
        subst h2
        exact ⟨i, hlt, rfl, rfl, rfl, rfl, by show i + 1 ≤ ep.size; omega, hwr⟩
      · rw [if_neg hocc] at h
        simp at h

theorem ring_positions_amended_witness :
    (∀ idx w, Ring.allocSlot 41 twoUnreadRing = some (idx, some w) →
        idx < twoUnreadRing.size ∧ w.wrPos = idx + 1 ∧ w.size = twoUnreadRing.size ∧
        w.rdPos = twoUnreadRing.rdPos ∧ w.wrPos ≤ w.size ∧ w.rdPos ≤ w.size) ∧
      Ring.allocSlot 41 twoUnreadRing = some (3,
        some { bufAddr := 0x1000, msgSize := 64, size := 4, rdPos := 2, wrPos := 4,
               msgCount := 2, occupied := 15, unread := 5 }) :=
  ⟨(ring_positions_amended twoUnreadRing 41 (by decide) (by decide) (by decide)).1,
    by decide⟩

/-- C28 (counterexample). In a ring of four slots, `allocSlot` picking the last slot
writes `wrPos = 4 = size`, not `(3 + 1) mod 4 = 0`, and `fetchMessage` picking the last
slot writes `rdPos = 4 = size`: `wrPos < size` and `rdPos < size` do not hold
afterwards. -/
theorem ring_positions_reach_size :
    Ring.allocSlot 41 lastSlotRing = some (3,
        some { bufAddr := 0x1000, msgSize := 64, size := 4, wrPos := 4, rdPos := 3,
               msgCount := 0, occupied := 15, unread := 0 }) ∧
      Ring.fetchMessage lastUnreadRing = some (0x1000 + 3 * 64,
        some { bufAddr := 0x1000, msgSize := 64, size := 4, wrPos := 4, rdPos := 4,
               msgCount := 0, occupied := 8, unread := 0 }) ∧
      (3 + 1) % lastSlotRing.size = 0 := by
  refine ⟨by decide, by decide, by decide⟩

/-! ## Granting credits -/

theorem grantCredits_unlimited (d : Dtu) (header : MessageHeader) (ep : SendEp)
    (hep : d.regFile.getSendEp header.replyEpId = some ep)
    (hb : ep.credits = CREDITS_UNLIM) :
    MessageUnit.grantCredits d header = d := by
  unfold MessageUnit.grantCredits
  split
  · rw [hep]
    simp only [hb, ne_eq, not_true_eq_false, if_false]
  · rfl

/-- C21 (amended). When `recvFromNoc` accepts a message (no page-fault reply) whose header
has both REPLY and GRANT_CREDITS set and whose `replyEpId` names a SEND endpoint with
credits `c` and `maxMsgSize = m`: for bounded credits the endpoint's credits become
`(c + m) mod 2^16` and nothing else in the endpoint changes; when `c + m <= 2^16 - 2` this
is exactly `c + m` and the endpoint stays bounded; an endpoint with unlimited credits is
left unchanged. -/
theorem recvFromNoc_grant_amended (d : Dtu) (pkt : Packet) (d1 : Dtu) (sep : SendEp)
    (hpf : pkt.header.flags &&& (REPLY_FLAG ||| PAGEFAULT) ≠ REPLY_FLAG ||| PAGEFAULT)
    (hacc : MessageUnit.recvFromNoc d pkt = some (Error.NONE, d1))
    (h1 : pkt.header.flags &&& REPLY_FLAG ≠ 0)
    (h2 : pkt.header.flags &&& GRANT_CREDITS_FLAG ≠ 0)
    (hsep : d.regFile.getSendEp pkt.header.replyEpId = some sep) :
    (sep.credits ≠ CREDITS_UNLIM →
        d1.regFile.getSendEp pkt.header.replyEpId = some
          { sep with credits := (sep.credits + sep.maxMsgSize) % 2 ^ 16 } ∧
        (sep.credits + sep.maxMsgSize ≤ 2 ^ 16 - 2 →
          (sep.credits + sep.maxMsgSize) % 2 ^ 16 = sep.credits + sep.maxMsgSize ∧
          (sep.credits + sep.maxMsgSize) % 2 ^ 16 ≠ CREDITS_UNLIM)) ∧
      (sep.credits = CREDITS_UNLIM →
        d1.regFile.getSendEp pkt.header.replyEpId = some sep) := by
  obtain ⟨epId, r, w, t, hr, hd1⟩ := recvFromNoc_accept d pkt d1 hpf hacc
  have hX : (d.writeRecvEp epId w).regFile.getSendEp pkt.header.replyEpId = some sep :=
    getSendEp_writeRecvEp d epId _ r w sep hsep hr
  have hreg : d1.regFile = (MessageUnit.grantCredits (d.writeRecvEp epId w) pkt.header).regFile := by
    rw [hd1]; rfl
  constructor
  · intro hb
    constructor
    · rw [hreg, grantCredits_regFile _ pkt.header sep h1 h2 hX hb]
      exact getSendEp_setSendEp _ _ sep _ hX
    · intro hle
      have hu : CREDITS_UNLIM = 2 ^ 16 - 1 := by decide
      have hm : (sep.credits + sep.maxMsgSize) % 2 ^ 16 = sep.credits + sep.maxMsgSize :=
        Nat.mod_eq_of_lt (by omega)
      exact ⟨hm, by rw [hm, hu]; omega⟩
  · intro hb
    rw [hreg, grantCredits_unlimited _ pkt.header sep hX hb]
    exact hX

theorem recvFromNoc_grant_amended_witness :
    grantedDtu.regFile.getSendEp 3 = some
      { targetCore := 7, targetEp := 4, maxMsgSize := 64, credits := 128, label := 0xAA } :=
  ((recvFromNoc_grant_amended sentDtu grantPacket grantedDtu
    { targetCore := 7, targetEp := 4, maxMsgSize := 64, credits := 64, label := 0xAA }
    (by decide) (by decide) (by decide) (by decide) (by decide)).1 (by decide)).1

/-- C21 (counterexample). A SEND endpoint with bounded credits `65471` and
`maxMsgSize = 64` that is named by an accepted REPLY with GRANT_CREDITS ends with
credits `65535`, the `CREDITS_UNLIM` sentinel: the 16-bit addition is not checked, and the
endpoint is unlimited from then on. -/
theorem grant_reaches_unlimited :
    nearFullDtu.regFile.getSendEp 3 = some
        { targetCore := 7, targetEp := 4, maxMsgSize := 64, credits := 65471,
          label := 0xAA } ∧
      (MessageUnit.recvFromNoc nearFullDtu grantPacket).map
          (fun r => (r.1, r.2.regFile.getSendEp 3)) =
        some (Error.NONE, some
          { targetCore := 7, targetEp := 4, maxMsgSize := 64, credits := 65535,
            label := 0xAA }) ∧
      CREDITS_UNLIM = 65535 := by
  refine ⟨by decide, by decide, by decide⟩

/-! ## C24: repeated failure detection -/

theorem resolveFailed_first (d : Dtu) (v : Nat) (hne : d.ptUnit.lastPfAddr ≠ v) :
    PtUnit.resolveFailed d v =
      { d with ptUnit := { d.ptUnit with lastPfAddr := v, lastPfCnt := 1 } } := by
  unfold PtUnit.resolveFailed
  rw [if_neg (fun h => hne h.symm)]

theorem resolveFailedAll_snoc (d : Dtu) (l : List Nat) (v : Nat) :
    PtUnit.resolveFailedAll d (l ++ [v]) =
      PtUnit.resolveFailed (PtUnit.resolveFailedAll d l) v := by
  simp [PtUnit.resolveFailedAll, List.foldl_append]

/-- The state after `k + 1` consecutive failures on the address `v`, the first of which
follows a failure on another address, while the count stays below 100. -/
theorem resolveFailedAll_below (d : Dtu) (v : Nat) (hne : d.ptUnit.lastPfAddr ≠ v) :
    ∀ k, k + 1 < 100 →
      PtUnit.resolveFailedAll d (List.replicate (k + 1) v) =
        { d with ptUnit := { d.ptUnit with lastPfAddr := v, lastPfCnt := k + 1 } } := by
  intro k
  induction k with
  | zero =>
    intro _
    simp only [List.replicate, PtUnit.resolveFailedAll, List.foldl]
    exact resolveFailed_first d v hne
  | succ k ih =>
    intro hk
    have h1 : List.replicate (k + 1 + 1) v = List.replicate (k + 1) v ++ [v] := by
      rw [List.replicate_succ' ]
    rw [h1, resolveFailedAll_snoc, ih (by omega)]
    unfold PtUnit.resolveFailed
    simp only [if_true]
    rw [if_neg (by omega)]

/-- C24 (amended). Of consecutive `PtUnit::resolveFailed` calls with one virtual address
`v`, the first of which follows a failure on another address, the 100th writes `v` to
`LAST_PF` and injects the IRQ vector `0x41`, and none of the 99 calls before it writes
`LAST_PF` or injects an IRQ. -/
theorem resolveFailed_hundredth (d : Dtu) (v k : Nat) (hne : d.ptUnit.lastPfAddr ≠ v)
    (hk : k ≤ 100) :
    (k < 100 →
      (PtUnit.resolveFailedAll d (List.replicate k v)).irqs = d.irqs ∧
      (PtUnit.resolveFailedAll d (List.replicate k v)).regFile = d.regFile) ∧
    (k = 100 →
      (PtUnit.resolveFailedAll d (List.replicate k v)).irqs = d.irqs ++ [0x41] ∧
      (PtUnit.resolveFailedAll d (List.replicate k v)).regFile =
        { d.regFile with LAST_PF := v }) := by
  refine ⟨fun hlt => ?_, fun heq => ?_⟩
  · cases k with
    | zero => simp [PtUnit.resolveFailedAll]
    | succ k =>
      rw [resolveFailedAll_below d v hne k hlt]
      exact ⟨rfl, rfl⟩
  · subst heq
    have h1 : List.replicate 100 v = List.replicate (98 + 1) v ++ [v] := by
      rw [← List.replicate_succ' ]
    rw [h1, resolveFailedAll_snoc, resolveFailedAll_below d v hne 98 (by omega)]
    unfold PtUnit.resolveFailed
    simp [Dtu.injectIRQ]

theorem resolveFailed_hundredth_witness :
    (PtUnit.resolveFailedAll freshPfDtu (List.replicate 100 0x4000)).irqs = [0x41] ∧
    (PtUnit.resolveFailedAll freshPfDtu (List.replicate 100 0x4000)).regFile.LAST_PF
      = 0x4000 := by
  have h := (resolveFailed_hundredth freshPfDtu 0x4000 100 (by decide) (by decide)).2 rfl
  rw [h.1, h.2]
  exact ⟨rfl, rfl⟩

set_option maxRecDepth 8000 in
/-- C24 (counterexample). One hundred consecutive `PtUnit::resolveFailed` calls on the
virtual page `0x4000`, with the offsets `0, 8, 16, ...` within the page, inject no IRQ
and leave `LAST_PF` as it was: the code compares whole addresses, not pages. -/
theorem resolveFailed_same_page_no_irq :
    samePageAddrs.length = 100 ∧
    (∀ a ∈ samePageAddrs, a >>> DtuTlb.PAGE_BITS = 4) ∧
    (PtUnit.resolveFailedAll freshPfDtu samePageAddrs).irqs = [] ∧
    (PtUnit.resolveFailedAll freshPfDtu samePageAddrs).regFile.LAST_PF = 0 ∧
    (PtUnit.resolveFailedAll freshPfDtu samePageAddrs).ptUnit.lastPfCnt = 1 := by
  refine ⟨by decide, by decide, ?_, ?_, ?_⟩ <;> rfl

/-! ## C25: writes at or above `RW_BARRIER` -/

/-- C25. A CPU write request whose address is below the register window and at or above
`RW_BARRIER` makes `Dtu::handleCpuRequest` return false with no call made: the request is
neither translated nor forwarded. A request that is not a write is not subject to the
rule: at the same address its outcome does not depend on `RW_BARRIER`, and without TLB it
is passed to the memory port with result true. -/
theorem handleCpuRequest_rw_barrier (d : Dtu) (env : CpuEnv) (pkt : CpuPacket)
    (icache functional : Bool) (hbase : pkt.addr < env.regFileBaseAddr)
    (hbar : d.regFile.RW_BARRIER ≤ pkt.addr) :
    (pkt.isWrite = true →
      d.handleCpuRequest env pkt icache functional = some (false, [])) ∧
    (pkt.isWrite = false →
      (∀ b : Nat, d.handleCpuRequest env pkt icache functional =
        Dtu.handleCpuRequest { d with regFile := { d.regFile with RW_BARRIER := b } }
          env pkt icache functional) ∧
      (env.tlb = none →
        d.handleCpuRequest env pkt icache functional =
          some (true, [CpuAction.regWatchRange pkt.addr,
            if functional then CpuAction.sendFunctional pkt.addr
            else CpuAction.schedTimingReq pkt.addr]))) := by
  refine ⟨fun hw => ?_, fun hw => ⟨fun b => ?_, fun ht => ?_⟩⟩
  · unfold Dtu.handleCpuRequest
    rw [if_neg (by omega)]
    simp [hw, hbar]
  · unfold Dtu.handleCpuRequest
    simp [hw]
  · unfold Dtu.handleCpuRequest Dtu.translate
    rw [if_neg (by omega)]
    simp [hw, ht]

theorem handleCpuRequest_rw_barrier_witness :
    barrierDtu.handleCpuRequest noTlbEnv { addr := 0x9000, isWrite := true } false false
      = some (false, []) ∧
    barrierDtu.handleCpuRequest noTlbEnv { addr := 0x9000, isRead := true } false false
      = some (true, [CpuAction.regWatchRange 0x9000, CpuAction.schedTimingReq 0x9000]) :=
  ⟨(handleCpuRequest_rw_barrier barrierDtu noTlbEnv { addr := 0x9000, isWrite := true }
      false false (by decide) (by decide)).1 rfl,
   ((handleCpuRequest_rw_barrier barrierDtu noTlbEnv { addr := 0x9000, isRead := true }
      false false (by decide) (by decide)).2 rfl).2 rfl⟩

/-! ## C30: the buffer pool and the `MSGRECV` flag -/

theorem Shrinks.refl (l : List Buffer) : Shrinks l l :=
  fun _ b1 h hr => ⟨b1, h, hr⟩

theorem Shrinks.trans {l l1 l2 : List Buffer} (h1 : Shrinks l l1) (h2 : Shrinks l1 l2) :
    Shrinks l l2 := by
  intro i b2 hb2 hr2
  obtain ⟨b1, hb1, hr1⟩ := h2 i b2 hb2 hr2
  exact h1 i b1 hb1 hr1

theorem Shrinks.set {l : List Buffer} {i : Nat} {b b1 : Buffer} (hb : l[i]? = some b)
    (h : XferUnit.Buffer.receiving b1 = true → XferUnit.Buffer.receiving b = true) :
    Shrinks l (l.set i b1) := by
  intro j c hc hr
  rw [List.getElem?_set] at hc
  by_cases hij : i = j
  · subst hij
    rw [if_pos rfl] at hc
    split at hc
    · cases hc
      exact ⟨b, hb, h hr⟩
    · cases hc
  · rw [if_neg hij] at hc
    exact ⟨c, hc, hr⟩

theorem AtMostOneReceiving.shrinks {l l1 : List Buffer} (h : AtMostOneReceiving l)
    (hs : Shrinks l l1) : AtMostOneReceiving l1 := by
  intro i j bi bj hi hj hri hrj
  obtain ⟨ci, hci, hci2⟩ := hs i bi hi hri
  obtain ⟨cj, hcj, hcj2⟩ := hs j bj hj hrj
  exact h i j ci cj hci hcj hci2 hcj2

theorem Buffer.advance_event (b : Buffer) (c : Bool) (n : Nat) :
    (XferUnit.Buffer.advance b c n).event = b.event := by
  unfold XferUnit.Buffer.advance
  split <;> rfl

theorem Buffer.advance_free (b : Buffer) (c : Bool) (n : Nat) :
    (XferUnit.Buffer.advance b c n).free = b.free := by
  unfold XferUnit.Buffer.advance
  split <;> rfl

theorem Buffer.advance_id (b : Buffer) (c : Bool) (n : Nat) :
    (XferUnit.Buffer.advance b c n).id = b.id := by
  unfold XferUnit.Buffer.advance
  split <;> rfl

theorem Buffer.advance_offset (b : Buffer) (c : Bool) (n : Nat) :
    (XferUnit.Buffer.advance b c n).offset = if c then b.offset + n else b.offset := by
  unfold XferUnit.Buffer.advance
  split <;> rfl

theorem Buffer.receiving_advance (b : Buffer) (c : Bool) (n : Nat) :
    XferUnit.Buffer.receiving (XferUnit.Buffer.advance b c n) =
      XferUnit.Buffer.receiving b := by
  unfold XferUnit.Buffer.receiving
  rw [Buffer.advance_event, Buffer.advance_free]

theorem Buffer.receive_event (b : Buffer) (c : Bool) (data : List Nat) (n : Nat) :
    (XferUnit.Buffer.receive b c data n).event = b.event := by
  unfold XferUnit.Buffer.receive
  split <;> rfl

theorem Buffer.receive_free (b : Buffer) (c : Bool) (data : List Nat) (n : Nat) :
    (XferUnit.Buffer.receive b c data n).free = b.free := by
  unfold XferUnit.Buffer.receive
  split <;> rfl

theorem Buffer.receive_id (b : Buffer) (c : Bool) (data : List Nat) (n : Nat) :
    (XferUnit.Buffer.receive b c data n).id = b.id := by
  unfold XferUnit.Buffer.receive
  split <;> rfl

theorem Buffer.receive_offset (b : Buffer) (c : Bool) (data : List Nat) (n : Nat) :
    (XferUnit.Buffer.receive b c data n).offset = if c then b.offset + n else b.offset := by
  unfold XferUnit.Buffer.receive
  split <;> rfl

theorem Buffer.receive_bytes (b : Buffer) (c : Bool) (data : List Nat) (n : Nat) :
    (XferUnit.Buffer.receive b c data n).bytes =
      if c then pokeBytes b.bytes b.offset data n else b.bytes := by
  unfold XferUnit.Buffer.receive
  split <;> rfl

theorem Buffer.advance_bytes (b : Buffer) (c : Bool) (n : Nat) :
    (XferUnit.Buffer.advance b c n).bytes = b.bytes := by
  unfold XferUnit.Buffer.advance
  split <;> rfl

theorem Buffer.receiving_receive (b : Buffer) (c : Bool) (data : List Nat) (n : Nat) :
    XferUnit.Buffer.receiving (XferUnit.Buffer.receive b c data n) =
      XferUnit.Buffer.receiving b := by
  unfold XferUnit.Buffer.receiving
  rw [Buffer.receive_event, Buffer.receive_free]

theorem getElem?_lt_of_some {α : Type} {l : List α} {i : Nat} {a : α}
    (h : l[i]? = some a) : i < l.length := by
  rcases Nat.lt_or_ge i l.length with hlt | hge
  · exact hlt
  · rw [List.getElem?_eq_none hge] at h
    cases h

theorem finishTransfer_shrinks (x x1 : XferUnit) (b : Nat) (buf buf0 : Buffer)
    (hb : x.bufs[b]? = some buf0)
    (h : XferUnit.finishTransfer x b buf = Except.ok x1) : Shrinks x.bufs x1.bufs := by
  have hset : Shrinks x.bufs (x.bufs.set b { buf with free := true }) :=
    Shrinks.set hb (by simp [XferUnit.Buffer.receiving])
  unfold XferUnit.finishTransfer at h
  split at h
  · split at h
    · cases h
    · simp only [Except.ok.injEq] at h
      subst h
      exact hset
  · simp only [Except.ok.injEq] at h
    subst h
    exact hset
  · split at h
    · cases h
    · simp only [Except.ok.injEq] at h
      subst h
      exact hset

theorem translateDone_shrinks (send : XferUnit → MemRequest → Except Stop XferUnit)
    (hsend : ∀ x req x1, send x req = Except.ok x1 → Shrinks x.bufs x1.bufs)
    (x x1 : XferUnit) (b : Nat) (success : Bool) (phys : NocAddr)
    (h : XferUnit.translateDone send x b success phys = Except.ok x1) :
    Shrinks x.bufs x1.bufs := by
  unfold XferUnit.translateDone at h
  cases hb : x.bufs[b]? with
  | none => simp [hb] at h
  | some buf =>
    simp only [hb] at h
    split at h
    · cases h
    · split at h
      · cases h
      · split at h
        · cases h
        · split at h
          · cases h
          · split at h
            · cases h
            · rename_i x2 hs
              have h1 := hsend _ _ _ hs
              split at h
              · cases h
              · rename_i buf2 hb2
                simp only [Except.ok.injEq] at h
                subst h
                refine Shrinks.trans (Shrinks.trans ?_ h1) (Shrinks.set hb2 ?_)
                · refine Shrinks.set hb ?_
                  rw [Buffer.receiving_advance]
                  exact id
                · simp [XferUnit.Buffer.receiving]

theorem process_shrinks (send : XferUnit → MemRequest → Except Stop XferUnit)
    (hsend : ∀ x req x1, send x req = Except.ok x1 → Shrinks x.bufs x1.bufs)
    (tlb : XferUnit.Tlb) (x x1 : XferUnit) (b : Nat)
    (h : XferUnit.process send tlb x b = Except.ok x1) : Shrinks x.bufs x1.bufs := by
  unfold XferUnit.process at h
  split at h
  · cases h
  · split at h
    · exact translateDone_shrinks send hsend _ _ _ _ _ h
    · rename_i lookup
      simp only at h
      generalize lookup _ _ = r at h
      obtain ⟨res, phys⟩ := r
      cases res
      · exact translateDone_shrinks send hsend _ _ _ _ _ h
      · simp only [Except.ok.injEq] at h
        subst h
        exact Shrinks.refl _
      · simp only [Except.ok.injEq] at h
        subst h
        exact Shrinks.refl _
      · cases h

theorem recvMemResponse_shrinks (send : XferUnit → MemRequest → Except Stop XferUnit)
    (hsend : ∀ x req x1, send x req = Except.ok x1 → Shrinks x.bufs x1.bufs)
    (tlb : XferUnit.Tlb) (x x1 : XferUnit) (b : Nat) (data : List Nat) (size : Nat)
    (h : XferUnit.recvMemResponse send tlb x b data size = Except.ok x1) :
    Shrinks x.bufs x1.bufs := by
  unfold XferUnit.recvMemResponse at h
  cases hb : x.bufs[b]? with
  | none => simp [hb] at h
  | some buf =>
    simp only [hb] at h
    have hlt : b < x.bufs.length := getElem?_lt_of_some hb
    have hset : Shrinks x.bufs (x.bufs.set b (XferUnit.Buffer.receive buf
        (decide (buf.event.type = TransferType.LOCAL_READ ∨
          buf.event.type = TransferType.REMOTE_READ)) data size)) := by
      refine Shrinks.set hb ?_
      rw [Buffer.receiving_receive]
      exact id
    split at h
    · cases h
    · split at h
      · cases h
      · split at h
        · exact Shrinks.trans hset (finishTransfer_shrinks _ _ _ _ _
            (List.getElem?_set_self hlt) h)
        · exact Shrinks.trans hset (process_shrinks send hsend tlb _ _ _ h)

theorem sendMemRequest_shrinks (tlb : XferUnit.Tlb) (fuel : Nat) :
    ∀ x req x1, XferUnit.sendMemRequest tlb fuel x req = Except.ok x1 →
      Shrinks x.bufs x1.bufs := by
  induction fuel with
  | zero =>
    intro x req x1 h
    simp only [XferUnit.sendMemRequest] at h
    split at h
    · cases h
    · simp only [Except.ok.injEq] at h
      subst h
      exact Shrinks.refl _
  | succ f ih =>
    intro x req x1 h
    simp only [XferUnit.sendMemRequest] at h
    split at h
    · have h1 := recvMemResponse_shrinks _ ih tlb _ _ _ _ _ h
      exact h1
    · simp only [Except.ok.injEq] at h
      subst h
      exact Shrinks.refl _

theorem allocateBuf_receiving (x : XferUnit) (h : x.bufs.any XferUnit.Buffer.receiving = true) :
    x.allocateBuf true = (none, x) := by
  unfold XferUnit.allocateBuf
  rw [h]
  rfl

theorem allocateBuf_none (x : XferUnit) (recvmsg : Bool)
    (h : ∀ b ∈ x.bufs, b.free = false) : x.allocateBuf recvmsg = (none, x) := by
  unfold XferUnit.allocateBuf
  have h1 : x.bufs.findIdx? (fun b => b.free) = none := by
    rw [List.findIdx?_eq_none_iff]
    exact h
  rw [h1]
  split <;> rfl

theorem allocateBuf_first_free (x : XferUnit) (recvmsg : Bool) (i : Nat) (buf : Buffer)
    (hr : recvmsg = true → x.bufs.any XferUnit.Buffer.receiving = false)
    (hi : x.bufs[i]? = some buf) (hfree : buf.free = true)
    (hlow : ∀ j bj, j < i → x.bufs[j]? = some bj → bj.free = false) :
    x.allocateBuf recvmsg =
      (some i, { x with bufs := x.bufs.set i { buf with free := false, offset := 0 } }) := by
  have hlt : i < x.bufs.length := getElem?_lt_of_some hi
  have hget : x.bufs[i] = buf := by
    rw [List.getElem?_eq_getElem hlt] at hi
    exact Option.some.inj hi
  have h1 : x.bufs.findIdx? (fun b => b.free) = some i := by
    rw [List.findIdx?_eq_some_iff_getElem]
    refine ⟨hlt, ?_, ?_⟩
    · rw [hget]
      exact hfree
    · intro j hji
      have hj : j < x.bufs.length := Nat.lt_trans hji hlt
      have := hlow j x.bufs[j] hji (List.getElem?_eq_getElem hj)
      simp [this]
  have h2 : (recvmsg && x.bufs.any XferUnit.Buffer.receiving) = false := by
    cases recvmsg
    · rfl
    · rw [hr rfl]
      rfl
  unfold XferUnit.allocateBuf
  rw [h2, h1]
  simp only [Bool.false_eq_true, if_false]
  rw [List.modify_eq_set_get _ hlt]
  simp only [List.get_eq_getElem, hget]

theorem any_receiving_false {l : List Buffer} (h : l.any XferUnit.Buffer.receiving = false)
    {i : Nat} {b : Buffer} (hb : l[i]? = some b) : XferUnit.Buffer.receiving b = false := by
  rw [List.any_eq_false] at h
  have hmem : b ∈ l := List.getElem?_mem hb
  simpa using h b hmem

theorem startTransfer_bufs (x x1 : XferUnit) (t : Transfer) (r : Bool)
    (h : x.startTransfer t = Except.ok (r, x1)) :
    x1.bufs = x.bufs ∨
    ∃ i buf1, x1.bufs = (x.bufs.modify (fun b => { b with free := false, offset := 0 }) i).set
        i buf1 ∧
      XferUnit.Buffer.receiving buf1 = t.flags.contains XferFlag.MSGRECV ∧
      (t.flags.contains XferFlag.MSGRECV = true →
        x.bufs.any XferUnit.Buffer.receiving = false) := by
  unfold XferUnit.startTransfer XferUnit.allocateBuf at h
  by_cases hc : (t.flags.contains XferFlag.MSGRECV &&
      x.bufs.any XferUnit.Buffer.receiving) = true
  · rw [if_pos hc] at h
    simp only [Except.ok.injEq, Prod.mk.injEq] at h
    left
    rw [← h.2]
  · rw [if_neg hc] at h
    cases hf : x.bufs.findIdx? (fun b => b.free) with
    | none =>
      simp only [hf, Except.ok.injEq, Prod.mk.injEq] at h
      left
      rw [← h.2]
    | some i =>
      simp only [hf] at h
      right
      have hany : t.flags.contains XferFlag.MSGRECV = true →
          x.bufs.any XferUnit.Buffer.receiving = false := by
        intro ht
        rw [ht] at hc
        simpa using hc
      split at h
      · cases h
      · rename_i buf hbuf
        have hfree : buf.free = false := by
          rw [List.getElem?_modify_eq] at hbuf
          cases hx : x.bufs[i]? with
          | none => simp [hx] at hbuf
          | some b0 =>
            simp only [hx, Option.map_eq_map, Option.map_some', Option.some.injEq] at hbuf
            rw [← hbuf]
        split at h
        · cases h
        · simp only [Except.ok.injEq, Prod.mk.injEq] at h
          obtain ⟨_, hx1⟩ := h
          subst hx1
          refine ⟨i, _, rfl, ?_, hany⟩
          · split <;> simp [XferUnit.Buffer.receiving, hfree, List.mem_insert_iff]

theorem startTransfer_atMostOne (x x1 : XferUnit) (t : Transfer) (r : Bool)
    (hinv : AtMostOneReceiving x.bufs) (h : x.startTransfer t = Except.ok (r, x1)) :
    AtMostOneReceiving x1.bufs := by
  rcases startTransfer_bufs x x1 t r h with heq | ⟨i, buf1, heq, hrecv, hany⟩
  · rw [heq]
    exact hinv
  · rw [heq]
    have hother : ∀ (j : Nat) (bj : Buffer), j ≠ i →
        ((x.bufs.modify (fun b => { b with free := false, offset := 0 }) i).set i buf1)[j]?
          = some bj → x.bufs[j]? = some bj := by
      intro j bj hji hj
      rw [List.getElem?_set_ne (Ne.symm hji), List.getElem?_modify_ne _ _ (Ne.symm hji)] at hj
      exact hj
    have hat : ∀ (bj : Buffer),
        ((x.bufs.modify (fun b => { b with free := false, offset := 0 }) i).set i buf1)[i]?
          = some bj → bj = buf1 := by
      intro bj hj
      rw [List.getElem?_set] at hj
      simp only [if_true] at hj
      split at hj
      · exact (Option.some.inj hj).symm
      · cases hj
    intro j k bj bk hj hk hrj hrk
    cases hm : t.flags.contains XferFlag.MSGRECV with
    | true =>
      have hnone := hany hm
      by_cases hji : j = i
      · by_cases hki : k = i
        · rw [hji, hki]
        · have := any_receiving_false hnone (hother k bk hki hk)
          rw [this] at hrk
          cases hrk
      · have := any_receiving_false hnone (hother j bj hji hj)
        rw [this] at hrj
        cases hrj
    | false =>
      rw [hm] at hrecv
      by_cases hji : j = i
      · subst hji
        rw [hat bj hj, hrecv] at hrj
        cases hrj
      · by_cases hki : k = i
        · subst hki
          rw [hat bk hk, hrecv] at hrk
          cases hrk
        · exact hinv j k bj bk (hother j bj hji hj) (hother k bk hki hk) hrj hrk

theorem reachable_atMostOne (tlb : XferUnit.Tlb) (x : XferUnit)
    (h : XferUnit.Reachable tlb x) : AtMostOneReceiving x.bufs := by
  induction h with
  | init blockSize bufSize bufCount atomicMode localMem =>
    intro i j bi bj hi _ hri _
    have hmem := List.getElem?_mem hi
    simp only [List.mem_map, List.mem_range] at hmem
    obtain ⟨k, _, hk⟩ := hmem
    rw [← hk] at hri
    simp [XferUnit.Buffer.receiving] at hri
  | startTransfer t r _ hs ih => exact startTransfer_atMostOne _ _ t r ih hs
  | step walk depth e _ hs ih =>
    cases e with
    | process b =>
      exact ih.shrinks (process_shrinks _ (sendMemRequest_shrinks tlb depth) tlb _ _ _ hs)
    | memResponse b size data =>
      exact ih.shrinks
        (recvMemResponse_shrinks _ (sendMemRequest_shrinks tlb depth) tlb _ _ _ _ _ hs)
    | translation b virt access pf =>
      exact ih.shrinks
        (translateDone_shrinks _ (sendMemRequest_shrinks tlb depth) _ _ _ _ _ hs)
    | start t =>
      simp only [XferUnit.step] at hs
      split at hs
      · cases hs
      · rename_i r x2 hst
        simp only [Except.ok.injEq] at hs
        subst hs
        exact startTransfer_atMostOne _ _ t _ ih hst
  | dequeue _ ih => exact ih

/-- C30. In every state of the transfer engine reachable from a pool of free buffers
through `startTransfer`, `recvMemResponse` and the events they schedule, at most one
buffer in use carries `MSGRECV`. `allocateBuf(true)` returns no buffer when a buffer in
use carries `MSGRECV`. Otherwise (`recvmsg` false, or no buffer in use carries `MSGRECV`)
`allocateBuf` returns no buffer when none is free, and else returns the free buffer of
lowest index, marked as in use with offset 0. -/
theorem buffer_pool_msgrecv (tlb : XferUnit.Tlb) (x : XferUnit)
    (h : XferUnit.Reachable tlb x) :
    AtMostOneReceiving x.bufs ∧
    ((∃ b ∈ x.bufs, b.free = false ∧ XferFlag.MSGRECV ∈ b.event.flags) →
      x.allocateBuf true = (none, x)) ∧
    (∀ recvmsg : Bool,
      (recvmsg = true → ∀ b ∈ x.bufs, b.free = false → XferFlag.MSGRECV ∉ b.event.flags) →
      ((∀ b ∈ x.bufs, b.free = false) → x.allocateBuf recvmsg = (none, x)) ∧
      (∀ (i : Nat) (buf : Buffer), x.bufs[i]? = some buf → buf.free = true →
        (∀ j bj, j < i → x.bufs[j]? = some bj → bj.free = false) →
        x.allocateBuf recvmsg =
          (some i,
            { x with bufs := x.bufs.set i { buf with free := false, offset := 0 } }))) := by
  refine ⟨reachable_atMostOne tlb x h, ?_, ?_⟩
  · rintro ⟨b, hb, hfree, hflag⟩
    apply allocateBuf_receiving
    rw [List.any_eq_true]
    exact ⟨b, hb, by simp [XferUnit.Buffer.receiving, hfree, hflag]⟩
  · intro recvmsg hr
    refine ⟨allocateBuf_none x recvmsg, ?_⟩
    intro i buf hi hfree hlow
    apply allocateBuf_first_free x recvmsg i buf _ hi hfree hlow
    intro hrt
    rw [List.any_eq_false]
    intro b hb
    have := hr hrt b hb
    cases hbf : b.free with
    | true => simp [XferUnit.Buffer.receiving, hbf]
    | false => simpa [XferUnit.Buffer.receiving, hbf] using this hbf

theorem buffer_pool_msgrecv_witness :
    XferUnit.Reachable none msgrecvPool ∧
    AtMostOneReceiving msgrecvPool.bufs ∧
    msgrecvPool.allocateBuf true = (none, msgrecvPool) ∧
    msgrecvPool.allocateBuf false =
      (some 1, { msgrecvPool with
        bufs := msgrecvPool.bufs.set 1 { id := 1, free := false, offset := 0 } }) :=
  have hr : XferUnit.Reachable none msgrecvPool :=
    XferUnit.Reachable.startTransfer msgrecvTransfer true
      (XferUnit.Reachable.init 64 64 2 false []) rfl
  ⟨hr, (buffer_pool_msgrecv none msgrecvPool hr).1,
    (buffer_pool_msgrecv none msgrecvPool hr).2.1 ⟨_, List.mem_cons_self _ _, rfl, by decide⟩,
    ((buffer_pool_msgrecv none msgrecvPool hr).2.2 false (fun h => by cases h)).2 1
      { id := 1 } rfl rfl (by
        intro j bj hj hbj
        have hj0 : j = 0 := by omega
        subst hj0
        cases hbj
        rfl)⟩

/-! ## C29: the per-block loop -/

theorem NocAddr.getAddr_ofAddr_isSome (a : Nat) :
    ((NocAddr.ofAddr a).getAddr).isSome = true := by
  have m1 : (1 <<< CORE_BITS) - 1 = 2 ^ 10 - 1 := by decide
  have m2 : (1 <<< VPE_BITS) - 1 = 2 ^ 11 - 1 := by decide
  have m3 : (1 <<< OFFSET_BITS) - 1 = 2 ^ 37 - 1 := by decide
  have h1 : (NocAddr.ofAddr a).coreId &&& notBits 32 ((1 <<< CORE_BITS) - 1) = 0 := by
    apply and_notBits_eq_zero_of_lt 32 10 _ (by decide)
    simp only [NocAddr.ofAddr, m1, Nat.and_pow_two_sub_one_eq_mod]
    exact Nat.mod_lt _ (by decide)
  have h2 : (NocAddr.ofAddr a).vpeId &&& notBits 32 ((1 <<< VPE_BITS) - 1) = 0 := by
    apply and_notBits_eq_zero_of_lt 32 11 _ (by decide)
    simp only [NocAddr.ofAddr, m2, Nat.and_pow_two_sub_one_eq_mod]
    exact Nat.mod_lt _ (by decide)
  have h3 : (NocAddr.ofAddr a).offset &&& notBits 64 ((1 <<< OFFSET_BITS) - 1) = 0 := by
    apply and_notBits_eq_zero_of_lt 64 37 _ (by decide)
    simp only [NocAddr.ofAddr, m3, Nat.and_pow_two_sub_one_eq_mod]
    exact Nat.mod_lt _ (by decide)
  simp only [NocAddr.getAddr, h1, h2, h3, ne_eq, not_true_eq_false, if_false,
    Option.isSome_some]

/-- The length of a block request: it is at least 1, at most the remaining size, and the
request ends within the block of its first byte. -/
theorem block_length (k a s : Nat) (hs : 0 < s) :
    1 ≤ min s (2 ^ k - a % 2 ^ k) ∧ min s (2 ^ k - a % 2 ^ k) ≤ s ∧
    a / 2 ^ k = (a + min s (2 ^ k - a % 2 ^ k) - 1) / 2 ^ k := by
  have hpos : 0 < 2 ^ k := Nat.pow_pos (by decide)
  have hm : a % 2 ^ k < 2 ^ k := Nat.mod_lt _ hpos
  refine ⟨by omega, by omega, ?_⟩
  have hdm := Nat.div_add_mod a (2 ^ k)
  symm
  apply Nat.div_eq_of_lt_le
  · have : a / 2 ^ k * 2 ^ k = 2 ^ k * (a / 2 ^ k) := Nat.mul_comm _ _
    omega
  · have : (a / 2 ^ k + 1) * 2 ^ k = 2 ^ k * (a / 2 ^ k) + 2 ^ k := by
      rw [Nat.add_mul, Nat.one_mul, Nat.mul_comm]
    omega

/-- The block offset and the request size as `translateDone` computes them in 64-bit
arithmetic, for a block size that is a power of two. -/
theorem translateDone_reqSize (k a s : Nat) (hk : k < 64) :
    min s ((2 ^ k + 2 ^ 64 - (a &&& ((2 ^ k + 2 ^ 64 - 1) % 2 ^ 64))) % 2 ^ 64) =
      min s (2 ^ k - a % 2 ^ k) := by
  have hpos : 0 < 2 ^ k := Nat.pow_pos (by decide)
  have hlt : 2 ^ k < 2 ^ 64 := Nat.pow_lt_pow_right (by decide) hk
  have h1 : (2 ^ k + 2 ^ 64 - 1) % 2 ^ 64 = 2 ^ k - 1 := by omega
  have hm : a % 2 ^ k < 2 ^ k := Nat.mod_lt _ hpos
  rw [h1, Nat.and_pow_two_sub_one_eq_mod]
  have h2 : (2 ^ k + 2 ^ 64 - a % 2 ^ k) % 2 ^ 64 = 2 ^ k - a % 2 ^ k := by omega
  rw [h2]

theorem nextRequest_bufId (buf : Buffer) (pa n : Nat) :
    (XferUnit.nextRequest buf pa n).bufId = buf.id := rfl

theorem nextRequest_size (buf : Buffer) (pa n : Nat) :
    (XferUnit.nextRequest buf pa n).size = n := rfl

theorem nextRequest_virt (buf : Buffer) (pa n : Nat) :
    (XferUnit.nextRequest buf pa n).virt = buf.event.localAddr := rfl

theorem nextRequest_addr (buf : Buffer) (pa n : Nat) :
    (XferUnit.nextRequest buf pa n).addr = pa := rfl

theorem sendMemRequest_timing (tlb : XferUnit.Tlb) (depth : Nat) (x : XferUnit)
    (req : MemRequest) (hmode : x.atomicMode = false) :
    XferUnit.sendMemRequest tlb depth x req =
      Except.ok { x with
        memReqs := x.memReqs ++ [req]
        events := x.events ++
          [XferEvent.memResponse req.bufId req.size (XferUnit.responseData x req)] } := by
  cases depth <;> simp [XferUnit.sendMemRequest, hmode]

/-- One call of `translateDone` in timing mode: the request for the next block is issued
and scheduled, the cursor of a writing transfer advances, and the event moves on to the
next block. -/
theorem translateDone_timing (tlb : XferUnit.Tlb) (depth : Nat) (x : XferUnit) (b k pa : Nat)
    (buf : Buffer) (phys : NocAddr) (hmode : x.atomicMode = false)
    (hb : x.bufs[b]? = some buf) (hs : 0 < buf.event.size) (hs64 : buf.event.size ≤ 2 ^ 64)
    (hB : x.blockSize = 2 ^ k) (hk : k < 64) (hpa : phys.getAddr = some pa)
    (hcap : buf.offset + buf.event.size ≤ x.bufSize) :
    XferUnit.translateDone (XferUnit.sendMemRequest tlb depth) x b true phys =
      Except.ok { x with
        bufs := x.bufs.set b
          { XferUnit.Buffer.advance buf
              (decide (buf.event.type = TransferType.REMOTE_WRITE ∨
                buf.event.type = TransferType.LOCAL_WRITE))
              (min buf.event.size (2 ^ k - buf.event.localAddr % 2 ^ k)) with
            event := { buf.event with
              localAddr :=
                (buf.event.localAddr + min buf.event.size (2 ^ k - buf.event.localAddr % 2 ^ k))
                  % 2 ^ 64
              size := buf.event.size - min buf.event.size (2 ^ k - buf.event.localAddr % 2 ^ k) } }
        memReqs := x.memReqs ++
          [XferUnit.nextRequest buf pa
            (min buf.event.size (2 ^ k - buf.event.localAddr % 2 ^ k))]
        events := x.events ++
          [XferEvent.memResponse buf.id
            (min buf.event.size (2 ^ k - buf.event.localAddr % 2 ^ k))
            (XferUnit.responseData x (XferUnit.nextRequest buf pa
              (min buf.event.size (2 ^ k - buf.event.localAddr % 2 ^ k))))] } := by
  have hlt : b < x.bufs.length := getElem?_lt_of_some hb
  have hr := block_length k buf.event.localAddr buf.event.size hs
  have hne : buf.event.size ≠ 0 := by omega
  unfold XferUnit.translateDone
  simp only [hb, hB, translateDone_reqSize k _ _ hk, hpa, Bool.not_true, Bool.false_eq_true,
    if_false, hne]
  have hassert : ¬((decide (buf.event.type = TransferType.REMOTE_WRITE ∨
      buf.event.type = TransferType.LOCAL_WRITE) &&
      decide (x.bufSize <
        buf.offset + min buf.event.size (2 ^ k - buf.event.localAddr % 2 ^ k))) = true) := by
    simp only [Bool.and_eq_true, decide_eq_true_eq, not_and, Nat.not_lt]
    intro _
    omega
  rw [if_neg hassert, sendMemRequest_timing tlb depth _ _ (by exact hmode)]
  simp only [List.getElem?_set_self hlt, List.set_set, Buffer.advance_event]
  have hsz : (buf.event.size + 2 ^ 64 -
      min buf.event.size (2 ^ k - buf.event.localAddr % 2 ^ k)) % 2 ^ 64 =
      buf.event.size - min buf.event.size (2 ^ k - buf.event.localAddr % 2 ^ k) := by
    omega
  rw [hsz]
  rfl

theorem run_nil (tlb : XferUnit.Tlb) (walk : Nat → Nat → NocAddr) (depth fuel : Nat)
    (x : XferUnit) (h : x.events = []) : XferUnit.run tlb walk depth fuel x = Except.ok x := by
  cases fuel <;> simp [XferUnit.run, h]

theorem run_cons (tlb : XferUnit.Tlb) (walk : Nat → Nat → NocAddr) (depth fuel : Nat)
    (x : XferUnit) (e : XferEvent) (rest : List XferEvent) (h : x.events = e :: rest) :
    XferUnit.run tlb walk depth (fuel + 1) x =
      (XferUnit.step tlb walk depth { x with events := rest } e).bind
        (XferUnit.run tlb walk depth fuel) := by
  simp only [XferUnit.run, h]
  cases XferUnit.step tlb walk depth { x with events := rest } e <;> rfl

theorem recvMemResponse_eq (send : XferUnit → MemRequest → Except Stop XferUnit)
    (tlb : XferUnit.Tlb) (x : XferUnit) (b : Nat) (data : List Nat) (size : Nat)
    (buf : Buffer) (hb : x.bufs[b]? = some buf) (hfree : buf.free = false)
    (hcap : buf.event.type = TransferType.LOCAL_READ ∨
      buf.event.type = TransferType.REMOTE_READ → buf.offset + size ≤ x.bufSize) :
    XferUnit.recvMemResponse send tlb x b data size =
      if buf.event.size = 0 then
        XferUnit.finishTransfer
          { x with bufs := x.bufs.set b (XferUnit.Buffer.receive buf
            (decide (buf.event.type = TransferType.LOCAL_READ ∨
              buf.event.type = TransferType.REMOTE_READ)) data size) } b
          (XferUnit.Buffer.receive buf
            (decide (buf.event.type = TransferType.LOCAL_READ ∨
              buf.event.type = TransferType.REMOTE_READ)) data size)
      else
        XferUnit.process send tlb
          { x with bufs := x.bufs.set b (XferUnit.Buffer.receive buf
            (decide (buf.event.type = TransferType.LOCAL_READ ∨
              buf.event.type = TransferType.REMOTE_READ)) data size) } b := by
  unfold XferUnit.recvMemResponse
  simp only [hb, hfree, Bool.false_eq_true, if_false]
  have hassert : ¬((decide (buf.event.type = TransferType.LOCAL_READ ∨
      buf.event.type = TransferType.REMOTE_READ) &&
      decide (x.bufSize < buf.offset + size)) = true) := by
    simp only [Bool.and_eq_true, decide_eq_true_eq, not_and, Nat.not_lt]
    exact hcap
  rw [if_neg hassert]

theorem Buffer.afterBlock_event (k : Nat) (x : XferUnit) (buf : Buffer) (pa : Nat) :
    (Buffer.afterBlock k x buf pa).event =
      { buf.event with
        localAddr := (buf.event.localAddr + blockLen k buf) % 2 ^ 64
        size := buf.event.size - blockLen k buf } := by
  unfold Buffer.afterBlock
  rw [Buffer.receive_event]

theorem Buffer.afterBlock_id (k : Nat) (x : XferUnit) (buf : Buffer) (pa : Nat) :
    (Buffer.afterBlock k x buf pa).id = buf.id := by
  unfold Buffer.afterBlock
  rw [Buffer.receive_id]
  show (XferUnit.Buffer.advance buf _ _).id = _
  rw [Buffer.advance_id]

theorem Buffer.afterBlock_free (k : Nat) (x : XferUnit) (buf : Buffer) (pa : Nat) :
    (Buffer.afterBlock k x buf pa).free = buf.free := by
  unfold Buffer.afterBlock
  rw [Buffer.receive_free]
  show (XferUnit.Buffer.advance buf _ _).free = _
  rw [Buffer.advance_free]

theorem Buffer.afterBlock_offset (k : Nat) (x : XferUnit) (buf : Buffer) (pa : Nat) :
    (Buffer.afterBlock k x buf pa).offset = buf.offset + blockLen k buf := by
  unfold Buffer.afterBlock
  rw [Buffer.receive_offset]
  show (if _ then (XferUnit.Buffer.advance buf _ _).offset + _
    else (XferUnit.Buffer.advance buf _ _).offset) = _
  rw [Buffer.advance_offset]
  cases ht : buf.event.type <;> simp

theorem Buffer.afterBlock_bytes_read (k : Nat) (x : XferUnit) (buf : Buffer) (pa : Nat)
    (ht : buf.event.type = TransferType.LOCAL_READ) :
    (Buffer.afterBlock k x buf pa).bytes =
      pokeBytes buf.bytes buf.offset
        (XferUnit.readMem x.localMem pa (blockLen k buf)) (blockLen k buf) := by
  unfold Buffer.afterBlock
  rw [Buffer.receive_bytes]
  simp only [ht, true_or, decide_True, if_true]
  show pokeBytes (XferUnit.Buffer.advance buf _ _).bytes
    (XferUnit.Buffer.advance buf _ _).offset _ _ = _
  rw [Buffer.advance_bytes, Buffer.advance_offset]
  simp [XferUnit.responseData, XferUnit.nextRequest, ht]

/-- One block of a transfer in timing mode: `translateDone` issues the request, the event
loop delivers the response, and `recvMemResponse` either finishes the transfer or
processes the event again. -/
theorem block_step (tlb : XferUnit.Tlb) (walk : Nat → Nat → NocAddr) (depth k : Nat)
    (hk : k < 64) (x : XferUnit) (b : Nat) (buf : Buffer) (hready : LoopReady k x b buf)
    (phys : NocAddr) (pa : Nat) (hpa : phys.getAddr = some pa) (f : Nat) :
    (XferUnit.translateDone (XferUnit.sendMemRequest tlb depth) x b true phys).bind
        (XferUnit.run tlb walk depth (f + 1)) =
      (if buf.event.size - blockLen k buf = 0 then
        XferUnit.finishTransfer (XferUnit.afterBlock k x b buf pa) b
          (Buffer.afterBlock k x buf pa)
       else
        XferUnit.process (XferUnit.sendMemRequest tlb depth) tlb
          (XferUnit.afterBlock k x b buf pa) b).bind (XferUnit.run tlb walk depth f) := by
  obtain ⟨hmode, hB, hev, hb, hid, hfree, hs, hwrap, hcap, hfin⟩ := hready
  have hlt : b < x.bufs.length := getElem?_lt_of_some hb
  have hr := block_length k buf.event.localAddr buf.event.size hs
  rw [translateDone_timing tlb depth x b k pa buf phys hmode hb hs (by omega) hB hk hpa hcap]
  simp only [Except.bind]
  rw [run_cons tlb walk depth f _ (XferEvent.memResponse b
    (min buf.event.size (2 ^ k - buf.event.localAddr % 2 ^ k))
    (XferUnit.responseData x (XferUnit.nextRequest buf pa
      (min buf.event.size (2 ^ k - buf.event.localAddr % 2 ^ k))))) [] (by simp [hev, hid])]
  simp only [XferUnit.step]
  rw [recvMemResponse_eq _ tlb _ b _ _ _ (List.getElem?_set_self hlt)
    (by simp [Buffer.advance_free, hfree])
    (by
      simp only [Buffer.advance_offset]
      intro ht
      have hw : ¬(buf.event.type = TransferType.REMOTE_WRITE ∨
          buf.event.type = TransferType.LOCAL_WRITE) := by
        rcases ht with ht | ht <;> simp [ht]
      simp only [hw, decide_False, Bool.false_eq_true, if_false]
      omega)]
  simp only [List.set_set]
  rfl

/-- The translation of the block address: `process` reaches `translateDone` at once, or
after the event of the page-table unit. -/
theorem process_translate (tlb : XferUnit.Tlb) (walk : Nat → Nat → NocAddr) (depth k : Nat)
    (htr : TranslatesAll tlb walk) (x : XferUnit) (b : Nat) (buf : Buffer)
    (hready : LoopReady k x b buf) :
    ∃ (phys : NocAddr) (pa c : Nat), phys.getAddr = some pa ∧ c ≤ 1 ∧
      ∀ f, (XferUnit.process (XferUnit.sendMemRequest tlb depth) tlb x b).bind
          (XferUnit.run tlb walk depth (f + c)) =
        (XferUnit.translateDone (XferUnit.sendMemRequest tlb depth) x b true phys).bind
          (XferUnit.run tlb walk depth f) := by
  have hb := hready.2.2.2.1
  have hev := hready.2.2.1
  have hx : { x with events := [] } = x := by
    cases x
    simp only [XferUnit.mk.injEq, true_and] at hev ⊢
    simp [hev]
  unfold XferUnit.process
  simp only [hb]
  cases htlb : tlb with
  | none =>
    obtain ⟨pa, hpa⟩ := Option.isSome_iff_exists.mp
      (NocAddr.getAddr_ofAddr_isSome buf.event.localAddr)
    exact ⟨_, pa, 0, hpa, by omega, fun f => rfl⟩
  | some lookup =>
    simp only
    have hl := htr.2 lookup htlb buf.event.localAddr
      ((if buf.event.type = TransferType.REMOTE_WRITE ∨
          buf.event.type = TransferType.LOCAL_WRITE then DtuTlb.WRITE else DtuTlb.READ) |||
        (if buf.event.type = TransferType.REMOTE_WRITE ∨
          buf.event.type = TransferType.REMOTE_READ then 0 else DtuTlb.INTERN))
    generalize lookup buf.event.localAddr _ = r at hl ⊢
    obtain ⟨res, phys⟩ := r
    have hwalk : ∀ (acc : Nat) (pf : Bool),
        ∃ (phys : NocAddr) (pa c : Nat), phys.getAddr = some pa ∧ c ≤ 1 ∧
        ∀ f, ((Except.ok { x with
              events := x.events ++ [XferEvent.translation b buf.event.localAddr acc pf] } :
            Except Stop XferUnit).bind (XferUnit.run (some lookup) walk depth (f + c))) =
          (XferUnit.translateDone (XferUnit.sendMemRequest (some lookup) depth) x b true
            phys).bind (XferUnit.run (some lookup) walk depth f) := by
      intro acc pf
      obtain ⟨pa, hpa⟩ := Option.isSome_iff_exists.mp (htr.1 buf.event.localAddr acc)
      refine ⟨walk buf.event.localAddr acc, pa, 1, hpa, Nat.le_refl _, ?_⟩
      intro f
      simp only [Except.bind]
      rw [run_cons _ walk depth f _ (XferEvent.translation b buf.event.localAddr acc pf) []
        (by simp [hev])]
      simp only [XferUnit.step]
      rw [hx]
      rfl
    cases res with
    | HIT =>
      obtain ⟨pa, hpa⟩ := Option.isSome_iff_exists.mp hl.2
      exact ⟨phys, pa, 0, hpa, by omega, fun f => rfl⟩
    | MISS => exact hwalk _ _
    | PAGEFAULT => exact hwalk _ _
    | NOMAP => exact absurd rfl hl.1

theorem afterBlock_ready (k : Nat) (x : XferUnit) (b : Nat) (buf : Buffer) (pa : Nat)
    (hready : LoopReady k x b buf) (hmore : buf.event.size - blockLen k buf ≠ 0) :
    LoopReady k (XferUnit.afterBlock k x b buf pa) b (Buffer.afterBlock k x buf pa) := by
  obtain ⟨hmode, hB, hev, hb, hid, hfree, hs, hwrap, hcap, hfin⟩ := hready
  have hlt : b < x.bufs.length := getElem?_lt_of_some hb
  have hr := block_length k buf.event.localAddr buf.event.size hs
  have hl : blockLen k buf = min buf.event.size (2 ^ k - buf.event.localAddr % 2 ^ k) := rfl
  refine ⟨hmode, hB, rfl, List.getElem?_set_self hlt, ?_, ?_, ?_, ?_, ?_, ?_⟩
  · rw [Buffer.afterBlock_id]; exact hid
  · rw [Buffer.afterBlock_free]; exact hfree
  · rw [Buffer.afterBlock_event]
    show 0 < buf.event.size - _
    omega
  · rw [Buffer.afterBlock_event]
    show (buf.event.localAddr + _) % 2 ^ 64 + (buf.event.size - _) ≤ 2 ^ 64
    rw [Nat.mod_eq_of_lt (by omega)]
    omega
  · rw [Buffer.afterBlock_event, Buffer.afterBlock_offset]
    show buf.offset + blockLen k buf + (buf.event.size - blockLen k buf) ≤ x.bufSize
    omega
  · rw [Buffer.afterBlock_event]
    exact hfin

theorem recvMemResponse_unfold (send : XferUnit → MemRequest → Except Stop XferUnit)
    (tlb : XferUnit.Tlb) (x : XferUnit) (b : Nat) (data : List Nat) (size : Nat)
    (buf : Buffer) (hb : x.bufs[b]? = some buf) :
    XferUnit.recvMemResponse send tlb x b data size =
      if buf.free then Except.error Stop.assertion
      else if (decide (buf.event.type = TransferType.LOCAL_READ ∨
          buf.event.type = TransferType.REMOTE_READ) &&
          decide (x.bufSize < buf.offset + size)) = true then Except.error Stop.assertion
      else if buf.event.size = 0 then
        XferUnit.finishTransfer
          { x with bufs := x.bufs.set b (XferUnit.Buffer.receive buf
            (decide (buf.event.type = TransferType.LOCAL_READ ∨
              buf.event.type = TransferType.REMOTE_READ)) data size) } b
          (XferUnit.Buffer.receive buf
            (decide (buf.event.type = TransferType.LOCAL_READ ∨
              buf.event.type = TransferType.REMOTE_READ)) data size)
      else
        XferUnit.process send tlb
          { x with bufs := x.bufs.set b (XferUnit.Buffer.receive buf
            (decide (buf.event.type = TransferType.LOCAL_READ ∨
              buf.event.type = TransferType.REMOTE_READ)) data size) } b := by
  unfold XferUnit.recvMemResponse
  simp only [hb]

/-! ## C22: atomic mode -/

/-- In atomic mode without TLB, processing the event of a buffer never returns: the memory
response is delivered inside `translateDone` before the event has moved to the next
block, so `recvMemResponse` finds the old size and processes the event again; the nesting
ends with a failed assertion (or with the fuel of the model). -/
theorem atomic_process_not_ok (depth : Nat) :
    ∀ (x x1 : XferUnit) (b : Nat) (buf : Buffer), x.atomicMode = true →
      x.bufs[b]? = some buf → buf.id = b →
      XferUnit.process (XferUnit.sendMemRequest none depth) none x b ≠ Except.ok x1 := by
  induction depth with
  | zero =>
    intro x x1 b buf hmode hb hid h
    unfold XferUnit.process XferUnit.translateDone at h
    simp only [hb] at h
    split at h
    · cases h
    · split at h
      · cases h
      · split at h
        · cases h
        · split at h
          · cases h
          · simp only [XferUnit.sendMemRequest, hmode, if_true] at h
            cases h
  | succ f ih =>
    intro x x1 b buf hmode hb hid h
    have hlt : b < x.bufs.length := getElem?_lt_of_some hb
    unfold XferUnit.process XferUnit.translateDone at h
    simp only [hb] at h
    split at h
    · cases h
    · split at h
      · cases h
      · rename_i hsize
        split at h
        · cases h
        · split at h
          · cases h
          · simp only [XferUnit.sendMemRequest, nextRequest_bufId, nextRequest_size, hmode,
              if_true, hid] at h
            rw [recvMemResponse_unfold _ _ _ _ _ _ _ (List.getElem?_set_self hlt)] at h
            simp only [Buffer.advance_event, Buffer.advance_free] at h
            split at h
            · cases h
            · rename_i x2 hx2
              split at hx2
              · cases hx2
              · split at hx2
                · cases hx2
                · exact ih _ x2 b _ rfl (List.getElem?_set_self (by simpa using hlt))
                    (by simp only [Buffer.receive_id, Buffer.advance_id]; exact hid) hx2

/-- C22 (divergence). The transfer of a message with 8 bytes of payload, started on a pool
of two free buffers of 64 bytes: in timing mode it issues one memory request of 8 bytes at
`0x500`, sends one NoC message of 33 bytes and frees its buffer. In atomic mode
`startTransfer` leaves the same buffer state, but the event loop never returns a state,
whatever the bounds of the model: with room for five nested memory responses it stops at
the assertion `buf->offset + size <= bufSize` of `recvMemResponse`, after the cursor has
been advanced four times for the same block. -/
theorem atomic_transfer_never_completes :
    freePool.startTransfer headerTransfer = Except.ok (true, headerPool) ∧
    XferUnit.run none zeroWalk 0 2 headerPool = Except.ok headerDonePool ∧
    XferUnit.startTransfer { freePool with atomicMode := true } headerTransfer =
      Except.ok (true, { headerPool with atomicMode := true }) ∧
    (∀ (depth fuel : Nat) (x1 : XferUnit),
      XferUnit.run none zeroWalk depth fuel { headerPool with atomicMode := true }
        ≠ Except.ok x1) ∧
    XferUnit.run none zeroWalk 5 1 { headerPool with atomicMode := true } =
      Except.error Stop.assertion ∧
    XferUnit.run none zeroWalk 4 1 { headerPool with atomicMode := true } =
      Except.error Stop.fuel := by
  refine ⟨rfl, rfl, rfl, ?_, rfl, rfl⟩
  intro depth fuel x1 h
  cases fuel with
  | zero => simp [XferUnit.run, headerPool] at h
  | succ f =>
    rw [run_cons none zeroWalk depth f _ (XferEvent.process 0) [] rfl] at h
    simp only [XferUnit.step] at h
    cases hp : XferUnit.process (XferUnit.sendMemRequest none depth) none
        { headerPool with atomicMode := true, events := [] } 0 with
    | error e =>
      rw [hp] at h
      cases h
    | ok x2 =>
      exact atomic_process_not_ok depth
        { headerPool with atomicMode := true, events := [] } x2 0
        { id := 0, free := false, offset := 25,
          event := { type := TransferType.LOCAL_READ, remoteAddr := NocAddr.ofTuple 3 0 5,
                     localAddr := 0x500, size := 8, flags := [XferFlag.MESSAGE] },
          bytes := List.replicate 25 0 }
        rfl rfl rfl hp

/-! ## C26: no module name twice -/

theorem addModule_nodup (mods : M3X86System.Mods) (prog argstr : List Char)
    (h : (mods.map Prod.fst).Nodup) :
    ((M3X86System.addModule mods prog argstr).map Prod.fst).Nodup := by
  unfold M3X86System.addModule
  split
  · rename_i hc
    simp only [Bool.and_eq_true, Bool.not_eq_true', List.any_eq_false, beq_iff_eq] at hc
    rw [List.map_append, List.nodup_append]
    refine ⟨h, List.nodup_singleton _, ?_⟩
    intro a ha hb
    simp only [List.map_cons, List.map_nil, List.mem_singleton] at hb
    subst hb
    obtain ⟨m, hm, rfl⟩ := List.mem_map.mp ha
    exact hc.1 m hm rfl
  · exact h

theorem closeModule_nodup
    (recurse : List Char → M3X86System.Mods → Except Stop M3X86System.Mods)
    (hrec : KeepsDistinct recurse) (st : M3X86System.ArgState) (m1 : M3X86System.Mods)
    (h : M3X86System.closeModule recurse st = Except.ok m1)
    (hd : (st.mods.map Prod.fst).Nodup) : (m1.map Prod.fst).Nodup := by
  unfold M3X86System.closeModule at h
  split at h
  · cases h
  · rename_i mods1 hm
    simp only [Except.ok.injEq] at h
    subst h
    apply addModule_nodup
    split at hm
    · exact hrec _ _ _ hm hd
    · simp only [Except.ok.injEq] at hm
      subst hm
      exact hd

theorem countArg_mods (lvl : Nat) (st : M3X86System.ArgState) :
    (M3X86System.countArg lvl st).mods = st.mods := by
  unfold M3X86System.countArg
  split <;> rfl

theorem countArg_prog (lvl : Nat) (st : M3X86System.ArgState) :
    (M3X86System.countArg lvl st).prog = st.prog := by
  unfold M3X86System.countArg
  split <;> rfl

theorem countArg_argstr (lvl : Nat) (st : M3X86System.ArgState) :
    (M3X86System.countArg lvl st).argstr = st.argstr := by
  unfold M3X86System.countArg
  split <;> rfl

theorem handleArg_nodup (modOffset : Bool) (separator : List Char) (lvl : Nat)
    (recurse : List Char → M3X86System.Mods → Except Stop M3X86System.Mods)
    (hrec : KeepsDistinct recurse) (begin tok : List Char) (st st1 : M3X86System.ArgState)
    (h : M3X86System.handleArg modOffset separator lvl recurse begin tok st = Except.ok st1)
    (hd : (st.mods.map Prod.fst).Nodup) : (st1.mods.map Prod.fst).Nodup := by
  unfold M3X86System.handleArg at h
  repeat' split at h
  all_goals first
    | (cases h; done)
    | (simp only [Except.ok.injEq] at h
       subst h
       rw [countArg_mods]
       first
         | exact hd
         | exact closeModule_nodup recurse hrec _ _ (by assumption) hd)

theorem scanArgs_nodup (modOffset : Bool) (separator : List Char) (lvl : Nat)
    (recurse : List Char → M3X86System.Mods → Except Stop M3X86System.Mods)
    (hrec : KeepsDistinct recurse) :
    ∀ (rest begin : List Char) (st st1 : M3X86System.ArgState) (tok : List Char),
      M3X86System.scanArgs modOffset separator lvl recurse rest begin st = Except.ok (st1, tok) →
      (st.mods.map Prod.fst).Nodup → (st1.mods.map Prod.fst).Nodup := by
  intro rest
  induction rest with
  | nil =>
    intro begin st st1 tok h hd
    simp only [M3X86System.scanArgs, Except.ok.injEq, Prod.mk.injEq] at h
    rw [← h.1]
    exact hd
  | cons c rest ih =>
    intro begin st st1 tok h hd
    simp only [M3X86System.scanArgs] at h
    split at h
    · split at h
      · split at h
        · cases h
        · rename_i st2 hst2
          exact ih _ _ _ _ h (handleArg_nodup _ _ _ _ hrec _ _ _ _ hst2 hd)
      · exact ih _ _ _ _ h hd
    · exact ih _ _ _ _ h hd

theorem lastArg_nodup (lvl : Nat)
    (recurse : List Char → M3X86System.Mods → Except Stop M3X86System.Mods)
    (hrec : KeepsDistinct recurse) (tok : List Char) (st st1 : M3X86System.ArgState)
    (h : M3X86System.lastArg lvl recurse tok st = Except.ok st1)
    (hd : (st.mods.map Prod.fst).Nodup) : (st1.mods.map Prod.fst).Nodup := by
  unfold M3X86System.lastArg at h
  simp only at h
  split at h
  · cases h
  · rename_i mods1 hm
    simp only [Except.ok.injEq] at h
    subst h
    rw [countArg_mods]
    exact closeModule_nodup recurse hrec _ _ hm (by
      split
      · exact hd
      · split <;> exact hd)

theorem extractModules_nodup (modOffset : Bool) (sep : List (List Char)) (fuel : Nat) :
    ∀ (args : List Char) (lvl : Nat) (mods mods1 : M3X86System.Mods),
      M3X86System.extractModules modOffset sep fuel args lvl mods = Except.ok mods1 →
      (mods.map Prod.fst).Nodup → (mods1.map Prod.fst).Nodup := by
  induction fuel with
  | zero =>
    intro args lvl mods mods1 h
    simp [M3X86System.extractModules] at h
  | succ f ih =>
    intro args lvl mods mods1 h hd
    have hrec : KeepsDistinct
        (fun a m => M3X86System.extractModules modOffset sep f a (lvl + 1) m) :=
      fun a m m1 hm hdm => ih a (lvl + 1) m m1 hm hdm
    simp only [M3X86System.extractModules] at h
    split at h
    · cases h
    · split at h
      · cases h
      · rename_i st tok hscan
        have hst := scanArgs_nodup _ _ _ _ hrec _ _ _ _ _ hscan hd
        split at h
        · simp only [Except.ok.injEq] at h
          rw [← h]
          exact hst
        · split at h
          · cases h
          · rename_i st1 hlast
            simp only [Except.ok.injEq] at h
            rw [← h]
            exact lastArg_nodup _ _ hrec _ _ _ hlast hst

theorem isKernel_length (prog : List Char) (h : M3X86System.isKernel prog = true) :
    6 ≤ prog.length := by
  unfold M3X86System.isKernel at h
  have h1 : prog.take 6 = "kernel".toList := by simpa using h
  have h2 : (prog.take 6).length = 6 := by rw [h1]; rfl
  rw [List.length_take] at h2
  omega

theorem appendArg_length (argstr tok : List Char) :
    (M3X86System.appendArg argstr tok).length =
      argstr.length + (if argstr = [] then 0 else 1) + tok.length := by
  unfold M3X86System.appendArg
  cases argstr with
  | nil => simp
  | cons c cs =>
    simp
    omega

theorem appendArg_ne_nil (argstr tok : List Char) (h : 1 ≤ tok.length) :
    M3X86System.appendArg argstr tok ≠ [] := by
  intro hnil
  have := appendArg_length argstr tok
  rw [hnil] at this
  simp only [List.length_nil] at this
  omega

theorem closeModule_fuel (N : Nat)
    (recurse : List Char → M3X86System.Mods → Except Stop M3X86System.Mods)
    (hrec : EnoughFuel N recurse) (st : M3X86System.ArgState)
    (hb : st.prog.length + st.argstr.length ≤ N) :
    M3X86System.closeModule recurse st ≠ Except.error Stop.fuel := by
  unfold M3X86System.closeModule
  intro h
  split at h
  · rename_i e he
    simp only [Except.error.injEq] at h
    subst h
    split at he
    · rename_i hk
      have := isKernel_length _ hk
      exact hrec _ _ (by omega) he
    · cases he
  · cases h

theorem handleArg_fuel (modOffset : Bool) (separator : List Char) (lvl N : Nat)
    (recurse : List Char → M3X86System.Mods → Except Stop M3X86System.Mods)
    (hrec : EnoughFuel N recurse) (begin tok : List Char) (st : M3X86System.ArgState)
    (hb : ArgBound N st begin) :
    M3X86System.handleArg modOffset separator lvl recurse begin tok st ≠
      Except.error Stop.fuel := by
  have hcl := closeModule_fuel N recurse hrec st (by unfold ArgBound at hb; omega)
  unfold M3X86System.handleArg
  intro h
  repeat' split at h
  all_goals first
    | (cases h; done)
    | (simp only [Except.error.injEq] at h
       subst h
       exact hcl (by assumption))

theorem handleArg_bound (modOffset : Bool) (separator : List Char) (lvl N : Nat)
    (recurse : List Char → M3X86System.Mods → Except Stop M3X86System.Mods)
    (begin tok rest : List Char) (st st1 : M3X86System.ArgState)
    (h : M3X86System.handleArg modOffset separator lvl recurse begin tok st = Except.ok st1)
    (hb : ArgBound N st begin) (htok : 1 ≤ tok.length)
    (hlen : tok.length + 1 + rest.length ≤ begin.length) : ArgBound N st1 rest := by
  unfold ArgBound at hb ⊢
  have happ : (if M3X86System.appendArg st.argstr tok = [] then 0 else 1) = 1 :=
    if_neg (appendArg_ne_nil _ _ htok)
  have hb1 : st.prog.length + st.argstr.length + begin.length ≤ N := by omega
  have hb2 : (if st.argstr = [] then 0 else 1) ≤ 1 := by split <;> omega
  unfold M3X86System.handleArg at h
  repeat' split at h
  all_goals first
    | (cases h; done)
    | (simp only [Except.ok.injEq] at h
       subst h
       rw [countArg_prog, countArg_argstr]
       first
         | omega
         | (simp only [List.length_nil, if_true]
            omega)
         | (simp only [appendArg_length, happ]
            omega))

theorem scanArgs_fuel (modOffset : Bool) (separator : List Char) (lvl N : Nat)
    (recurse : List Char → M3X86System.Mods → Except Stop M3X86System.Mods)
    (hrec : EnoughFuel N recurse) :
    ∀ (rest begin : List Char) (st : M3X86System.ArgState),
      rest.length ≤ begin.length → ArgBound N st begin →
      M3X86System.scanArgs modOffset separator lvl recurse rest begin st ≠
        Except.error Stop.fuel ∧
      ∀ st1 tok,
        M3X86System.scanArgs modOffset separator lvl recurse rest begin st =
          Except.ok (st1, tok) → ArgBound N st1 tok := by
  intro rest
  induction rest with
  | nil =>
    intro begin st _ hb
    constructor
    · intro h
      simp [M3X86System.scanArgs] at h
    · intro st1 tok h
      simp only [M3X86System.scanArgs, Except.ok.injEq, Prod.mk.injEq] at h
      rw [← h.1, ← h.2]
      exact hb
  | cons c rest ih =>
    intro begin st hle hb
    have hmono : ArgBound N st rest := by
      unfold ArgBound at hb ⊢
      simp only [List.length_cons] at hle
      omega
    simp only [M3X86System.scanArgs]
    split
    · split
      · rename_i hlt
        have htok : (begin.take (begin.length - (c :: rest).length)).length =
            begin.length - (c :: rest).length := by
          rw [List.length_take]
          omega
        simp only [List.length_cons] at hlt htok
        cases hh : M3X86System.handleArg modOffset separator lvl recurse begin
            (begin.take (begin.length - (c :: rest).length)) st with
        | error e =>
          simp only
          refine ⟨?_, fun st1 tok h => by cases h⟩
          intro h
          simp only [Except.error.injEq] at h
          subst h
          exact handleArg_fuel _ _ _ N _ hrec _ _ _ hb hh
        | ok st2 =>
          simp only
          exact ih rest st2 (Nat.le_refl _)
            (handleArg_bound _ _ _ N _ _ _ rest _ _ hh hb
              (by simp only [List.length_cons]; omega)
              (by simp only [List.length_cons]; omega))
      · exact ih rest st (Nat.le_refl _) hmono
    · exact ih begin st (by simp only [List.length_cons] at hle; omega) hb

theorem lastArg_fuel (lvl N : Nat)
    (recurse : List Char → M3X86System.Mods → Except Stop M3X86System.Mods)
    (hrec : EnoughFuel N recurse) (tok : List Char) (st : M3X86System.ArgState)
    (hb : ArgBound N st tok) :
    M3X86System.lastArg lvl recurse tok st ≠ Except.error Stop.fuel := by
  unfold ArgBound at hb
  unfold M3X86System.lastArg
  simp only
  intro h
  split at h
  · rename_i e he
    simp only [Except.error.injEq] at h
    subst h
    refine closeModule_fuel N recurse hrec _ ?_ he
    split
    · rename_i hc
      simp only [Bool.and_eq_true, List.isEmpty_iff] at hc
      simp only [hc.1, List.length_nil] at hb ⊢
      split at hb <;> omega
    · split
      · simp only [appendArg_length]
        omega
      · omega
  · cases h

theorem cstr_length_le (s : List Char) : (M3X86System.cstr s).length ≤ s.length := by
  unfold M3X86System.cstr
  induction s with
  | nil => simp
  | cons c cs ih =>
    simp only [List.takeWhile_cons]
    split
    · simp only [List.length_cons]
      omega
    · simp

theorem extractModules_fuel (modOffset : Bool) (sep : List (List Char)) (fuel : Nat) :
    ∀ (args : List Char) (lvl : Nat) (mods : M3X86System.Mods), args.length < fuel →
      M3X86System.extractModules modOffset sep fuel args lvl mods ≠
        Except.error Stop.fuel := by
  induction fuel with
  | zero =>
    intro args lvl mods h
    omega
  | succ f ih =>
    intro args lvl mods hlen h
    have hc := cstr_length_le args
    have hrec : EnoughFuel (M3X86System.cstr args).length
        (fun a m => M3X86System.extractModules modOffset sep f a (lvl + 1) m) :=
      fun a m ha => ih a (lvl + 1) m (by omega)
    simp only [M3X86System.extractModules] at h
    split at h
    · cases h
    · rename_i separator _
      have hscan := scanArgs_fuel modOffset separator lvl _ _ hrec (M3X86System.cstr args)
        (M3X86System.cstr args) { mods := mods } (Nat.le_refl _)
        (by unfold ArgBound; simp)
      split at h
      · rename_i e he
        simp only [Except.error.injEq] at h
        subst h
        exact hscan.1 he
      · rename_i st tok hst
        split at h
        · cases h
        · split at h
          · rename_i e he
            simp only [Except.error.injEq] at h
            subst h
            exact lastArg_fuel lvl _ _ hrec tok st (hscan.2 st tok hst) he
          · cases h

/-- C26. For every boot command line and separator list (and whether or not `modOffset`
is set), a module list that `extractModules` produces from the empty list, nested calls
included, has no program name twice. The call ends for every command line: with a depth
bound above the length of the command line, it either produces such a list or stops at a
failed assertion or at a separator index beyond the list. -/
theorem extractModules_distinct_names (modOffset : Bool) (sep : List (List Char))
    (args : List Char) :
    (∀ (fuel : Nat) (mods : M3X86System.Mods),
      M3X86System.extractModules modOffset sep fuel args 0 [] = Except.ok mods →
      (mods.map Prod.fst).Nodup) ∧
    (∀ fuel : Nat, args.length < fuel →
      M3X86System.extractModules modOffset sep fuel args 0 [] =
        Except.error Stop.assertion ∨
      ∃ mods : M3X86System.Mods,
        M3X86System.extractModules modOffset sep fuel args 0 [] = Except.ok mods ∧
        (mods.map Prod.fst).Nodup) := by
  have h1 : ∀ (fuel : Nat) (mods : M3X86System.Mods),
      M3X86System.extractModules modOffset sep fuel args 0 [] = Except.ok mods →
      (mods.map Prod.fst).Nodup :=
    fun fuel mods h => extractModules_nodup modOffset sep fuel args 0 [] mods h
      List.nodup_nil
  refine ⟨h1, fun fuel hf => ?_⟩
  have h2 := extractModules_fuel modOffset sep fuel args 0 [] hf
  cases hr : M3X86System.extractModules modOffset sep fuel args 0 [] with
  | error e =>
    cases e with
    | assertion => exact Or.inl rfl
    | fuel => exact absurd hr h2
  | ok mods => exact Or.inr ⟨mods, rfl, h1 fuel mods hr⟩

/-- The command line `bin/kernel -- a -- a -- b` with the separators `--` and `++` gives
the modules `a` and `b`: the second `a` is found in the list and not added again. -/
theorem extractModules_example :
    M3X86System.extractModules true ["--".toList, "++".toList] 1
      "bin/kernel -- a -- a -- b".toList 0 [] =
      Except.ok [("a".toList, []), ("b".toList, [])] := by
  rfl

theorem extractModules_distinct_names_witness :
    M3X86System.extractModules true ["--".toList, "++".toList] 26
      "bin/kernel -- a -- a -- b".toList 0 [] =
      Except.ok [("a".toList, []), ("b".toList, [])] ∧
    (([("a".toList, []), ("b".toList, [])] : M3X86System.Mods).map Prod.fst).Nodup :=
  ⟨rfl, (extractModules_distinct_names true ["--".toList, "++".toList]
    "bin/kernel -- a -- a -- b".toList).1 26 _ rfl⟩

/-! ## C23: merging of pagefaults -/

/-- C23 (divergence). The pagefault for the address `0x7ffff0000000` is in flight: its
message is sent and its event is the front of the queue. Two further translations for the
same page with the same access fail their walk. `sendPagefaultMsg` sends no message for
them, but it does not append their waiters to the queued event: the page number
`0x7ffff0000` does not fit the 32-bit variable `page` and never equals the page of a queued
event, so both events are appended to the queue. When the reply is processed, only the
waiter of the first event is notified, the second event is scheduled, and when its walk
fails again a second pagefault message for the same page and access is sent. -/
theorem sendPagefaultMsg_high_page_not_merged :
    PtUnit.walkFailed pfBaseDtu highEventA = some pfSentDtu ∧
    pfSentDtu.ptUnit.pfqueue = [highEventA] ∧
    pfSentDtu.ptUnit.sent.map (fun m => (m.virt, m.access, m.header.replyLabel)) =
      [(0x7ffff0000000, 10, 100)] ∧
    highEventB.virt >>> DtuTlb.PAGE_BITS = highEventA.virt >>> DtuTlb.PAGE_BITS ∧
    highEventC.virt >>> DtuTlb.PAGE_BITS = highEventA.virt >>> DtuTlb.PAGE_BITS ∧
    (PtUnit.walkFailed pfSentDtu highEventB).bind (fun d => PtUnit.walkFailed d highEventC) =
      some pfQueuedDtu ∧
    pfQueuedDtu.ptUnit.sent = pfSentDtu.ptUnit.sent ∧
    pfQueuedDtu.ptUnit.pfqueue =
      [highEventA, { highEventB with pf := true }, { highEventC with pf := true }] ∧
    PtUnit.finishPagefault pfQueuedDtu pfReply Error.NO_MAPPING.toNat = some pfRepliedDtu ∧
    pfRepliedDtu.ptUnit.notified = [(1, false, NocAddr.ofAddr 0)] ∧
    pfRepliedDtu.ptUnit.scheduled = [{ highEventB with pf := true }] ∧
    PtUnit.walkFailed pfRepliedDtu { highEventB with pf := true } = some pfSecondDtu ∧
    pfSecondDtu.ptUnit.sent.map (fun m => (m.virt, m.access, m.header.replyLabel)) =
      [(0x7ffff0000000, 10, 100), (0x7ffff0000008, 10, 200)] := by
  refine ⟨rfl, rfl, rfl, rfl, rfl, rfl, rfl, rfl, rfl, rfl, rfl, rfl, rfl⟩

/-- Below page `2^32` the merge works as intended: with pagefault sending enabled and a
usable pagefault endpoint, a failed translation whose page and access are those of the
front event of the queue sends no message; its first waiter is appended to the front
event. -/
theorem sendPagefaultMsg_merges (d : Dtu) (ev front : TranslateEvent)
    (rest : List TranslateEvent) (virt access w : Nat) (ws : List Nat) (ep : SendEp)
    (hst : d.regFile.STATUS &&& PtUnit.PAGEFAULTS ≠ 0)
    (hep : d.regFile.getSendEp
      (if ev.toKernel then PtUnit.SYSCALL_EP else d.regFile.PF_EP % 2 ^ 32) = some ep)
    (hsize : sizeofMessageHeader + PtUnit.sizeofPagefaultMessage ≤ ep.maxMsgSize)
    (hq : d.ptUnit.pfqueue = front :: rest) (hid : front.id ≠ ev.id)
    (hacc : access = front.access)
    (hpage : virt >>> DtuTlb.PAGE_BITS = front.virt >>> DtuTlb.PAGE_BITS)
    (hlt : virt >>> DtuTlb.PAGE_BITS < 2 ^ 32) (htrans : ev.trans = w :: ws) :
    PtUnit.sendPagefaultMsg d ev virt access =
      some (true, { d with ptUnit := { d.ptUnit with
        pfqueue := { front with trans := front.trans ++ [w] } :: rest
        blocked := d.ptUnit.blocked ++ [(virt, true)] } }) := by
  have hlen := getSendEp_lt _ _ _ hep
  have hne : ¬(ep.maxMsgSize = 0) := by
    have : 0 < sizeofMessageHeader + PtUnit.sizeofPagefaultMessage := by decide
    omega
  unfold PtUnit.sendPagefaultMsg
  rw [if_neg hst]
  simp only [Dtu.numEndpoints, hlen, not_true_eq_false, if_false, hep, hne, decide_False,
    Bool.false_eq_true, hsize, PtUnit.block, hq, ne_eq, hid, not_false_eq_true, if_true,
    htrans, List.head?_cons, Option.getD_some, PtUnit.mergeInto, Nat.mod_eq_of_lt hlt]
  rw [if_pos ⟨hacc, hpage⟩]
  simp

theorem walkFailed_merges (d : Dtu) (ev front : TranslateEvent)
    (rest : List TranslateEvent) (w : Nat) (ws : List Nat) (ep : SendEp)
    (hst : d.regFile.STATUS &&& PtUnit.PAGEFAULTS ≠ 0)
    (hep : d.regFile.getSendEp
      (if ev.toKernel then PtUnit.SYSCALL_EP else d.regFile.PF_EP % 2 ^ 32) = some ep)
    (hsize : sizeofMessageHeader + PtUnit.sizeofPagefaultMessage ≤ ep.maxMsgSize)
    (hq : d.ptUnit.pfqueue = front :: rest) (hid : front.id ≠ ev.id)
    (hacc : ev.access = front.access)
    (hpage : ev.virt >>> DtuTlb.PAGE_BITS = front.virt >>> DtuTlb.PAGE_BITS)
    (hlt : front.virt >>> DtuTlb.PAGE_BITS < 2 ^ 32) (htrans : ev.trans = w :: ws) :
    ∃ d1 : Dtu, PtUnit.walkFailed d ev = some d1 ∧ d1.regFile = d.regFile ∧
      d1.ptUnit.pfqueue = { front with trans := front.trans ++ [w] } :: rest ∧
      d1.ptUnit.sent = d.ptUnit.sent ∧ d1.ptUnit.notified = d.ptUnit.notified := by
  have h1 := sendPagefaultMsg_merges d ev front rest ev.virt ev.access w ws ep hst hep
    hsize hq hid hacc hpage (by rw [hpage]; exact hlt) htrans
  refine ⟨{ d with ptUnit := { d.ptUnit with
    pfqueue := { front with trans := front.trans ++ [w] } :: rest
    blocked := d.ptUnit.blocked ++ [(ev.virt, true)] } }, ?_, rfl, rfl, rfl, rfl⟩
  simp only [PtUnit.walkFailed, h1]

theorem finishPagefault_error (d : Dtu) (front : TranslateEvent)
    (rest : List TranslateEvent) (reply : Packet) (errorWord : Nat)
    (hq : d.ptUnit.pfqueue = front :: rest) (hlabel : reply.header.label = front.id)
    (hrsize : reply.size = sizeofMessageHeader + 8) (herr : errorWord % 2 ^ 32 ≠ 0) :
    ∃ d1 : Dtu, PtUnit.finishPagefault d reply errorWord = some d1 ∧
      d1.ptUnit.sent = d.ptUnit.sent ∧ d1.ptUnit.pfqueue = rest ∧
      d1.ptUnit.notified = d.ptUnit.notified ++
        front.trans.map (fun t => (t, false, NocAddr.ofAddr 0)) := by
  simp only [PtUnit.finishPagefault, PtUnit.nextPagefault, hq, hlabel, hrsize, ne_eq,
    not_true_eq_false, if_false, if_true, herr, not_false_eq_true]
  refine ⟨_, rfl, ?_, ?_, ?_⟩
  · split <;> split <;> rfl
  · split <;> split <;> rfl
  · split <;> split <;> rfl

/-- Below page `2^32`: when the walks of two further translations for the page and access
of the front event fail, no message is sent for them, and when the reply to the pagefault
of the front event reports an error, the waiters of the front event and of both
translations are notified of the failure. -/
theorem merged_waiters_notified (d : Dtu) (ev1 ev2 front : TranslateEvent)
    (rest : List TranslateEvent) (w1 w2 : Nat) (ws1 ws2 : List Nat) (ep1 ep2 : SendEp)
    (reply : Packet) (errorWord : Nat)
    (hst : d.regFile.STATUS &&& PtUnit.PAGEFAULTS ≠ 0)
    (hep1 : d.regFile.getSendEp
      (if ev1.toKernel then PtUnit.SYSCALL_EP else d.regFile.PF_EP % 2 ^ 32) = some ep1)
    (hep2 : d.regFile.getSendEp
      (if ev2.toKernel then PtUnit.SYSCALL_EP else d.regFile.PF_EP % 2 ^ 32) = some ep2)
    (hsize1 : sizeofMessageHeader + PtUnit.sizeofPagefaultMessage ≤ ep1.maxMsgSize)
    (hsize2 : sizeofMessageHeader + PtUnit.sizeofPagefaultMessage ≤ ep2.maxMsgSize)
    (hq : d.ptUnit.pfqueue = front :: rest)
    (hid1 : front.id ≠ ev1.id) (hid2 : front.id ≠ ev2.id)
    (hacc1 : ev1.access = front.access) (hacc2 : ev2.access = front.access)
    (hpage1 : ev1.virt >>> DtuTlb.PAGE_BITS = front.virt >>> DtuTlb.PAGE_BITS)
    (hpage2 : ev2.virt >>> DtuTlb.PAGE_BITS = front.virt >>> DtuTlb.PAGE_BITS)
    (hlt : front.virt >>> DtuTlb.PAGE_BITS < 2 ^ 32)
    (htrans1 : ev1.trans = w1 :: ws1) (htrans2 : ev2.trans = w2 :: ws2)
    (hlabel : reply.header.label = front.id)
    (hrsize : reply.size = sizeofMessageHeader + 8) (herr : errorWord % 2 ^ 32 ≠ 0) :
    ∃ d2 d3 : Dtu,
      (PtUnit.walkFailed d ev1).bind (fun d1 => PtUnit.walkFailed d1 ev2) = some d2 ∧
      d2.ptUnit.sent = d.ptUnit.sent ∧
      d2.ptUnit.pfqueue = { front with trans := front.trans ++ [w1, w2] } :: rest ∧
      PtUnit.finishPagefault d2 reply errorWord = some d3 ∧
      d3.ptUnit.sent = d.ptUnit.sent ∧
      d3.ptUnit.pfqueue = rest ∧
      d3.ptUnit.notified = d.ptUnit.notified ++
        (front.trans ++ [w1, w2]).map (fun t => (t, false, NocAddr.ofAddr 0)) := by
  obtain ⟨d1, hd1, hreg1, hq1, hsent1, hnot1⟩ := walkFailed_merges d ev1 front rest w1 ws1 ep1
    hst hep1 hsize1 hq hid1 hacc1 hpage1 hlt htrans1
  obtain ⟨d2, hd2, _, hq2, hsent2, hnot2⟩ := walkFailed_merges d1 ev2
    { front with trans := front.trans ++ [w1] } rest w2 ws2 ep2 (by rw [hreg1]; exact hst)
    (by rw [hreg1]; exact hep2) hsize2 hq1 hid2 hacc2 hpage2 hlt htrans2
  have hq2a : d2.ptUnit.pfqueue = { front with trans := front.trans ++ [w1, w2] } :: rest := by
    rw [hq2]
    simp
  obtain ⟨d3, hd3, hsent3, hq3, hnot3⟩ := finishPagefault_error d2
    { front with trans := front.trans ++ [w1, w2] } rest reply errorWord hq2a hlabel hrsize herr
  refine ⟨d2, d3, ?_, by rw [hsent2, hsent1], hq2a, hd3, by rw [hsent3, hsent2, hsent1], hq3,
    ?_⟩
  · rw [hd1]
    exact hd2
  · rw [hnot3, hnot2, hnot1]

/-! ## C38: decoding and re-encoding an address -/

theorem NocAddr.getAddr_fields (n : NocAddr) (hc : n.coreId < 2 ^ 10) (hv : n.vpeId < 2 ^ 11)
    (ho : n.offset < 2 ^ 37) :
    n.getAddr = some ((if n.valid then 2 ^ 59 else 0) + n.coreId * 2 ^ 49 +
      n.vpeId * 2 ^ 38 + n.offset) := by
  have h1 : n.coreId &&& notBits 32 ((1 <<< CORE_BITS) - 1) = 0 :=
    and_notBits_eq_zero_of_lt 32 10 n.coreId (by decide) hc
  have h2 : n.vpeId &&& notBits 32 ((1 <<< VPE_BITS) - 1) = 0 :=
    and_notBits_eq_zero_of_lt 32 11 n.vpeId (by decide) hv
  have h3 : n.offset &&& notBits 64 ((1 <<< OFFSET_BITS) - 1) = 0 :=
    and_notBits_eq_zero_of_lt 64 37 n.offset (by decide) ho
  simp only [NocAddr.getAddr, h1, h2, h3, ne_eq, not_true_eq_false, if_false]
  have e2 : (n.coreId <<< CORE_SHIFT) % 2 ^ 64 = 2 ^ 49 * n.coreId := by
    have : CORE_SHIFT = 49 := by decide
    rw [this, Nat.shiftLeft_eq]; omega
  have e3 : (n.vpeId <<< VPE_SHIFT) % 2 ^ 64 = 2 ^ 38 * n.vpeId := by
    have : VPE_SHIFT = 38 := by decide
    rw [this, Nat.shiftLeft_eq]; omega
  rw [e2, e3]
  have b1 : 2 ^ 38 * n.vpeId ||| n.offset = 2 ^ 38 * n.vpeId + n.offset :=
    (Nat.mul_add_lt_is_or (by omega) n.vpeId).symm
  have b2 : 2 ^ 49 * n.coreId ||| (2 ^ 38 * n.vpeId + n.offset) =
      2 ^ 49 * n.coreId + (2 ^ 38 * n.vpeId + n.offset) :=
    (Nat.mul_add_lt_is_or (by omega) n.coreId).symm
  cases hval : n.valid with
  | true =>
    have e1 : ((if true = true then 1 else 0) <<< VALID_SHIFT) % 2 ^ 64 = 2 ^ 59 * 1 := by
      decide
    have b3 : 2 ^ 59 * 1 ||| (2 ^ 49 * n.coreId + (2 ^ 38 * n.vpeId + n.offset))
        = 2 ^ 59 * 1 + (2 ^ 49 * n.coreId + (2 ^ 38 * n.vpeId + n.offset)) :=
      (Nat.mul_add_lt_is_or (by omega) 1).symm
    rw [e1, Nat.or_assoc, Nat.or_assoc, b1, b2, b3]
    apply congrArg some
    simp only [if_true]
    omega
  | false =>
    have e1 : ((if false = true then 1 else 0) <<< VALID_SHIFT) % 2 ^ 64 = 0 := by decide
    rw [e1, Nat.or_assoc, Nat.or_assoc, b1, b2, Nat.zero_or]
    apply congrArg some
    simp only [Bool.false_eq_true, if_false]
    omega

theorem NocAddr.ofAddr_fields (a : Nat) :
    (NocAddr.ofAddr a).valid = decide (2 ^ 59 ≤ a) ∧
    (NocAddr.ofAddr a).coreId = a / 2 ^ 49 % 2 ^ 10 ∧
    (NocAddr.ofAddr a).vpeId = a / 2 ^ 38 % 2 ^ 11 ∧
    (NocAddr.ofAddr a).offset = a % 2 ^ 37 := by
  have s1 : VALID_SHIFT = 59 := by decide
  have s2 : CORE_SHIFT = 49 := by decide
  have s3 : VPE_SHIFT = 38 := by decide
  have m1 : (1 <<< CORE_BITS) - 1 = 2 ^ 10 - 1 := by decide
  have m2 : (1 <<< VPE_BITS) - 1 = 2 ^ 11 - 1 := by decide
  have m3 : (1 <<< OFFSET_BITS) - 1 = 2 ^ 37 - 1 := by decide
  simp only [NocAddr.ofAddr, s1, s2, s3, m1, m2, m3, Nat.shiftRight_eq_div_pow,
    Nat.and_pow_two_sub_one_eq_mod]
  refine ⟨?_, trivial, trivial, trivial⟩
  by_cases h : 2 ^ 59 ≤ a
  · have h1 : a / 2 ^ 59 ≠ 0 := by omega
    rw [decide_eq_true h, bne_iff_ne]
    exact h1
  · have h1 : a / 2 ^ 59 = 0 := by omega
    rw [decide_eq_false h, h1]
    rfl

/-- C38. For every 64-bit address `a`: re-encoding the decoded address never fails an
assertion of `getAddr`; it gives back `a` if and only if the bits 60..63 of `a` are zero
(`a < 2^60`) and bit 37 of `a` is zero; and `NocAddr(a).valid` is true exactly when
`a >= 2^59`. -/
theorem nocAddr_decode_encode (a : Nat) (ha : a < 2 ^ 64) :
    ((NocAddr.ofAddr a).getAddr).isSome = true ∧
    ((NocAddr.ofAddr a).getAddr = some a ↔ a < 2 ^ 60 ∧ a.testBit 37 = false) ∧
    ((NocAddr.ofAddr a).valid = true ↔ 2 ^ 59 ≤ a) := by
  obtain ⟨f1, f2, f3, f4⟩ := NocAddr.ofAddr_fields a
  have hg := NocAddr.getAddr_fields (NocAddr.ofAddr a)
    (by rw [f2]; exact Nat.mod_lt _ (by decide))
    (by rw [f3]; exact Nat.mod_lt _ (by decide))
    (by rw [f4]; exact Nat.mod_lt _ (by decide))
  rw [f1, f2, f3, f4] at hg
  refine ⟨by rw [hg]; rfl, ?_, by rw [f1]; simp⟩
  rw [hg, Nat.testBit_to_div_mod]
  simp only [Option.some.injEq, decide_eq_true_eq, decide_eq_false_iff_not]
  by_cases h : 2 ^ 59 ≤ a
  · simp only [h, if_true]
    omega
  · simp only [h, if_false]
    omega

theorem nocAddr_decode_encode_witness :
    ((NocAddr.ofAddr (2 ^ 59 + 7 * 2 ^ 49 + 4)).getAddr = some (2 ^ 59 + 7 * 2 ^ 49 + 4)) ∧
    (NocAddr.ofAddr (2 ^ 37)).getAddr ≠ some (2 ^ 37) ∧
    (NocAddr.ofAddr (2 ^ 60)).getAddr ≠ some (2 ^ 60) :=
  ⟨(nocAddr_decode_encode _ (by decide)).2.1.mpr ⟨by decide, by decide⟩,
   fun h => absurd ((nocAddr_decode_encode (2 ^ 37) (by decide)).2.1.mp h).2 (by decide),
   fun h => absurd ((nocAddr_decode_encode (2 ^ 60) (by decide)).2.1.mp h).1 (by decide)⟩

/-! ## C37: the slot address and its index -/

theorem slotQuot_slot (ep : RecvEp) (i : Nat) (hms : 0 < ep.msgSize)
    (hk : i * ep.msgSize < 2 ^ 64) (hbuf : ep.bufAddr < 2 ^ 64) :
    ep.slotQuot ((ep.bufAddr + i * ep.msgSize) % 2 ^ 64) = i := by
  unfold RecvEp.slotQuot
  have h1 : ((ep.bufAddr + i * ep.msgSize) % 2 ^ 64 + 2 ^ 64 - ep.bufAddr) % 2 ^ 64 =
      i * ep.msgSize := by
    generalize i * ep.msgSize = k at hk
    omega
  rw [h1]
  exact Nat.mul_div_cancel i hms

theorem ackMessage_slot (ep : RecvEp) (i : Nat) (hms : 0 < ep.msgSize)
    (hms16 : ep.msgSize < 2 ^ 16) (hi : i < 32) (hbuf : ep.bufAddr < 2 ^ 64)
    (hocc : ep.occupied.testBit i = true) :
    Ring.ackMessage ep ((ep.bufAddr + i * ep.msgSize) % 2 ^ 64) =
      some { ep with occupied := ep.occupied &&& notBits 32 (1 <<< i) } := by
  have hk : i * ep.msgSize < 2 ^ 64 := by
    have : i * ep.msgSize ≤ 31 * 2 ^ 16 :=
      Nat.mul_le_mul (by omega) (by omega)
    omega
  have hq := slotQuot_slot ep i hms hk hbuf
  rw [Ring.ackMessage_of_lt ep _ hms (by rw [hq]; omega), hq]
  have : i < RecvEp.MAX_MSGS := hi
  rw [if_pos ⟨this, hocc⟩]

/-- C37. For every RECEIVE endpoint with `msgSize > 0` (a 16-bit field), `size <= 32` and
every slot index `idx < size`, `msgToIdx` of the slot address `bufAddr + idx * msgSize`,
taken modulo `2^64`, is `idx`. Hence `ackMessage` with the address that `fetchMessage`
returned for a slot clears the occupied bit of that slot and no other. -/
theorem msgToIdx_slot_address (ep : RecvEp) (idx : Nat) (hms : 0 < ep.msgSize)
    (hms16 : ep.msgSize < 2 ^ 16) (hsize : ep.size ≤ 32) (hidx : idx < ep.size)
    (hbuf : ep.bufAddr < 2 ^ 64) :
    ep.msgToIdx ((ep.bufAddr + idx * ep.msgSize) % 2 ^ 64) = some idx ∧
    (∀ (a : Nat) (w : RecvEp), Ring.fetchMessage ep = some (a, some w) →
      ∃ i, i < 32 ∧ a = (ep.bufAddr + i * ep.msgSize) % 2 ^ 64 ∧
        w.occupied = ep.occupied ∧ ep.occupied.testBit i = true ∧
        Ring.ackMessage w a = some { w with occupied := w.occupied &&& notBits 32 (1 <<< i) } ∧
        ∀ j, j < 32 →
          (w.occupied &&& notBits 32 (1 <<< i)).testBit j =
            (ep.occupied.testBit j && !decide (i = j))) := by
  have hk : ∀ i, i < 32 → i * ep.msgSize < 2 ^ 64 := by
    intro i hi
    have : i * ep.msgSize ≤ 31 * 2 ^ 16 :=
      Nat.mul_le_mul (by omega) (by omega)
    omega
  constructor
  · have hq := slotQuot_slot ep idx hms (hk idx (by omega)) hbuf
    rw [msgToIdx_of_lt ep _ hms (by rw [hq]; omega), hq]
    have : idx < RecvEp.MAX_MSGS := by
      show idx < 32
      omega
    rw [if_pos this]
  · intro a w h
    rcases Ring.fetchMessage_some ep _ h with ⟨_, h2⟩ | ⟨i, hi, _, _, hocc, ha, hw⟩
    · cases h2
    · simp only [Option.some.injEq] at hw ha
      subst hw
      subst ha
      refine ⟨i, hi, rfl, rfl, hocc, ?_, ?_⟩
      · exact ackMessage_slot _ i hms hms16 hi hbuf hocc
      · intro j hj
        rw [testBit_and_notBits _ _ _ hi]
        simp [hj]

theorem msgToIdx_slot_address_witness :
    (topRing.bufAddr + 1 * topRing.msgSize) % 2 ^ 64 = 0 ∧
    topRing.msgToIdx ((topRing.bufAddr + 1 * topRing.msgSize) % 2 ^ 64) = some 1 :=
  ⟨by decide,
   (msgToIdx_slot_address topRing 1 (by decide) (by decide) (by decide) (by decide)
    (by decide)).1⟩

/-! ## C36: the message count of a ring and the address passed to finishMsgReceive -/

theorem countP_range_below (p : Nat → Bool) (n : Nat) (hp : ∀ j, p j = true → j < n) :
    ∀ m, n ≤ m → (List.range m).countP p = (List.range n).countP p := by
  intro m
  induction m with
  | zero => intro h; have : n = 0 := by omega
            rw [this]
  | succ m ih =>
    intro h
    by_cases hn : n = m + 1
    · rw [hn]
    · rw [List.range_succ, List.countP_append, List.countP_singleton, ih (by omega)]
      have : p m = false := by
        cases hb : p m
        · rfl
        · have := hp m hb; omega
      simp [this]

theorem popcount_eq_below (x n : Nat) (hn : n ≤ 32) (hb : ∀ j, x.testBit j = true → j < n) :
    popcount x = (List.range n).countP (fun i => x.testBit i) :=
  countP_range_below (fun i => x.testBit i) n hb 32 hn

theorem popcount_lt_of_clear (x n i : Nat) (hn : n ≤ 32)
    (hb : ∀ j, x.testBit j = true → j < n) (hi : i < n) (hc : x.testBit i = false) :
    popcount x < n := by
  have h1 := popcount_set x i (by omega) hc
  have h2 : popcount (x ||| (1 <<< i)) ≤ n := by
    rw [popcount_eq_below _ n hn]
    · have := @List.countP_le_length _ (fun j => (x ||| (1 <<< i)).testBit j) (List.range n)
      simpa using this
    · intro j hj
      rw [testBit_or_one_shiftLeft] at hj
      by_cases hij : i = j
      · omega
      · simp [hij] at hj
        exact hb j hj
  omega

theorem popcount_pos_bit (x : Nat) (h : popcount x ≠ 0) : ∃ j, j < 32 ∧ x.testBit j = true := by
  unfold popcount at h
  have hpos : 0 < (List.range 32).countP (fun i => x.testBit i) := Nat.pos_of_ne_zero h
  rw [List.countP_pos_iff] at hpos
  obtain ⟨j, hj, hb⟩ := hpos
  exact ⟨j, List.mem_range.mp hj, hb⟩

theorem Ring.allocSlot_inv (m : Nat) (ep : RecvEp) (i : Nat) (ep1 : RecvEp)
    (hsize : ep.size ≤ 32) (hwr : ep.wrPos ≤ ep.size)
    (hs : Ring.allocSlot m ep = some (i, some ep1)) :
    i < ep.size ∧ ep.occupied.testBit i = false ∧
      ep1 = { ep with occupied := ep.occupied ||| (1 <<< i), wrPos := i + 1 } := by
  have hm : m ≤ ep.msgSize := by
    by_contra hc
    unfold Ring.allocSlot at hs
    rw [if_pos (by omega)] at hs
    cases hs
  cases hf : (cyclicOrder ep.wrPos ep.size).find? (fun i => !ep.occupied.testBit i) with
  | none =>
    unfold Ring.allocSlot at hs
    rw [if_neg (Nat.not_lt.mpr hm), scanRing_isFree ep hsize hwr, hf] at hs
    simp at hs
  | some idx =>
    obtain ⟨h1, h2, h3⟩ := Ring.allocSlot_found m ep idx hm hsize hwr hf
    rw [h3] at hs
    simp only [Option.some.injEq, Prod.mk.injEq] at hs
    obtain ⟨hi, he⟩ := hs
    subst hi
    exact ⟨h1, h2, he.symm⟩

theorem Ring.fetchMessage_scan (ep : RecvEp) (hsize : ep.size ≤ 32) (hrd : ep.rdPos ≤ ep.size)
    (hcnt : ep.msgCount ≠ 0) (hbit : ∃ j, j < ep.size ∧ ep.unread.testBit j = true)
    (hocc : ∀ j : Nat, ep.unread.testBit j = true → ep.occupied.testBit j = true) :
    ∃ i, i < ep.size ∧ ep.unread.testBit i = true ∧
      scanRing ep.isUnread ep.rdPos ep.size = some (some i) ∧
      Ring.fetchMessage ep = some ((ep.bufAddr + i * ep.msgSize) % 2 ^ 64,
        some { ep with unread := ep.unread &&& notBits 32 (1 <<< i),
                       msgCount := ep.msgCount - 1, rdPos := i + 1 }) := by
  cases hf : (cyclicOrder ep.rdPos ep.size).find? (fun i => ep.unread.testBit i) with
  | none =>
    obtain ⟨j, hj, hb⟩ := hbit
    rw [List.find?_eq_none] at hf
    have := hf j ((mem_cyclicOrder _ _ _ hrd).mpr hj)
    simp [hb] at this
  | some idx =>
    obtain ⟨h1, h2, h3⟩ := Ring.fetchMessage_found ep idx hsize hrd hcnt hf
    rw [if_pos (hocc idx h2)] at h3
    exact ⟨idx, h1, h2, by rw [scanRing_isUnread ep hsize hrd, hf], h3⟩

theorem slot_mul_lt (i msgSize : Nat) (hi : i < 32) (hms16 : msgSize < 2 ^ 16) :
    i * msgSize < 2 ^ 64 := by
  have : i * msgSize ≤ 31 * 2 ^ 16 := Nat.mul_le_mul (by omega) (by omega)
  omega

theorem Ring.finishMsgReceive_slot (ep : RecvEp) (i : Nat) (hms : 0 < ep.msgSize)
    (hms16 : ep.msgSize < 2 ^ 16) (hi : i < 32) (hbuf : ep.bufAddr < 2 ^ 64) :
    Ring.finishMsgReceive ep ((ep.bufAddr + i * ep.msgSize) % 2 ^ 64) =
      if ep.msgCount = ep.size then some none
      else some (some { ep with msgCount := (ep.msgCount + 1) % 2 ^ 16,
                                unread := ep.unread ||| (1 <<< i) }) := by
  have hq := slotQuot_slot ep i hms (slot_mul_lt i _ hi hms16) hbuf
  unfold Ring.finishMsgReceive
  rw [if_neg (by omega), hq, toInt_of_lt i (by omega)]
  by_cases hc : ep.msgCount = ep.size
  · simp [hc]
  · simp [hc, RecvEp.setUnread, hi]

theorem slotQuot_within (ep : RecvEp) (i n : Nat) (hms : 0 < ep.msgSize)
    (hn : n < ep.msgSize) (hk : i * ep.msgSize + n < 2 ^ 64) (hbuf : ep.bufAddr < 2 ^ 64) :
    ep.slotQuot ((ep.bufAddr + i * ep.msgSize + n) % 2 ^ 64) = i := by
  unfold RecvEp.slotQuot
  have h1 : ((ep.bufAddr + i * ep.msgSize + n) % 2 ^ 64 + 2 ^ 64 - ep.bufAddr) % 2 ^ 64 =
      n + i * ep.msgSize := by
    generalize i * ep.msgSize = k at hk
    omega
  rw [h1, Nat.add_mul_div_right n i hms, Nat.div_eq_of_lt hn, Nat.zero_add]

/-- `finishMsgReceive` with the address its caller passes for slot `i` after a packet of
`n` bytes, shorter than a slot: the unread bit `i` is set. -/
theorem Ring.finishMsgReceive_within (ep : RecvEp) (i n : Nat) (hms : 0 < ep.msgSize)
    (hms16 : ep.msgSize < 2 ^ 16) (hi : i < 32) (hbuf : ep.bufAddr < 2 ^ 64)
    (hn : n < ep.msgSize) :
    Ring.finishMsgReceive ep ((ep.bufAddr + i * ep.msgSize + n) % 2 ^ 64) =
      if ep.msgCount = ep.size then some none
      else some (some { ep with msgCount := (ep.msgCount + 1) % 2 ^ 16,
                                unread := ep.unread ||| (1 <<< i) }) := by
  have hk : i * ep.msgSize + n < 2 ^ 64 := by
    have : i * ep.msgSize ≤ 31 * 2 ^ 16 := Nat.mul_le_mul (by omega) (by omega)
    omega
  have hq := slotQuot_within ep i n hms hn hk hbuf
  unfold Ring.finishMsgReceive
  rw [if_neg (by omega), hq, toInt_of_lt i (by omega)]
  by_cases hc : ep.msgCount = ep.size
  · simp [hc]
  · simp [hc, RecvEp.setUnread, hi]

/-- `finishMsgReceive` with the address its caller passes for slot `i` after a packet that
fills the slot: the address is that of slot `i + 1`, and the unread bit `i + 1` is set. -/
theorem Ring.finishMsgReceive_full (ep : RecvEp) (i : Nat) (hms : 0 < ep.msgSize)
    (hms16 : ep.msgSize < 2 ^ 16) (hi : i + 1 < 32) (hbuf : ep.bufAddr < 2 ^ 64) :
    Ring.finishMsgReceive ep ((ep.bufAddr + i * ep.msgSize + ep.msgSize) % 2 ^ 64) =
      if ep.msgCount = ep.size then some none
      else some (some { ep with msgCount := (ep.msgCount + 1) % 2 ^ 16,
                                unread := ep.unread ||| (1 <<< (i + 1)) }) := by
  have h := Ring.finishMsgReceive_slot ep (i + 1) hms hms16 hi hbuf
  rw [Nat.add_mul, Nat.one_mul, ← Nat.add_assoc] at h
  exact h

theorem erase_fst_ne (P : List (Nat × Nat)) (i m j n : Nat)
    (hnd : (P.map Prod.fst).Nodup) (hi : (i, m) ∈ P) (hj : (j, n) ∈ P.erase (i, m)) :
    j ≠ i := by
  intro hc
  subst hc
  have hP : P.Nodup := List.Nodup.of_map _ hnd
  have hjP : (j, n) ∈ P := List.mem_of_mem_erase hj
  have heq : (j, n) = (j, m) := List.inj_on_of_nodup_map hnd hjP hi rfl
  rw [heq] at hj
  exact (List.Nodup.not_mem_erase hP) hj

theorem tracked_inv (bufAddr msgSize size maxPkt : Nat) (hms : 0 < msgSize)
    (hms16 : msgSize < 2 ^ 16) (hsize : size ≤ 32) (hbuf : bufAddr < 2 ^ 64)
    (hshort : maxPkt < msgSize) (ep : RecvEp) (pending : List (Nat × Nat))
    (fetched : List Nat)
    (h : Ring.Tracked bufAddr msgSize size maxPkt ep pending fetched) :
    RingInv bufAddr msgSize size ep pending fetched := by
  induction h with
  | empty =>
    constructor <;> first
      | rfl
      | exact Nat.zero_le _
      | (intro j hj; simp at hj)
      | (intro j m hj; simp at hj)
      | exact List.nodup_nil
      | (show 0 = popcount 0; decide)
  | @allocSlot ep P F m i ep1 _ hm hs ih =>
    obtain ⟨hi, hb, he⟩ := Ring.allocSlot_inv m ep i ep1 (by rw [ih.size_eq]; exact hsize)
      (by rw [ih.size_eq]; exact ih.wrPos_le) hs
    rw [ih.size_eq] at hi
    subst he
    have hnu : ep.unread.testBit i = false := by
      cases hu : ep.unread.testBit i
      · rfl
      · rw [ih.unread_occupied i hu] at hb; cases hb
    constructor
    · exact ih.bufAddr_eq
    · exact ih.msgSize_eq
    · exact ih.size_eq
    · exact ih.rdPos_le
    · show i + 1 ≤ size; omega
    · intro j hj
      change (ep.occupied ||| (1 <<< i)).testBit j = true at hj
      rw [testBit_or_one_shiftLeft] at hj
      by_cases hij : i = j
      · omega
      · simp [hij] at hj; exact ih.occupied_lt j hj
    · intro j hj
      show (ep.occupied ||| (1 <<< i)).testBit j = true
      rw [testBit_or_one_shiftLeft, ih.unread_occupied j hj]; rfl
    · intro j n hj
      show (ep.occupied ||| (1 <<< i)).testBit j = true ∧ ep.unread.testBit j = false ∧
        j ∉ F ∧ n < msgSize
      rw [testBit_or_one_shiftLeft]
      rcases List.mem_cons.mp hj with hji | hjP
      · simp only [Prod.mk.injEq] at hji
        obtain ⟨hji, hnm⟩ := hji
        subst hji
        subst hnm
        refine ⟨by simp, hnu, ?_, by omega⟩
        intro hF
        rw [(ih.fetched_bits j hF).1] at hb; cases hb
      · obtain ⟨h1, h2, h3, h4⟩ := ih.pending_bits j n hjP
        exact ⟨by simp [h1], h2, h3, h4⟩
    · intro j hj
      show (ep.occupied ||| (1 <<< i)).testBit j = true ∧ ep.unread.testBit j = false
      rw [testBit_or_one_shiftLeft]
      obtain ⟨h1, h2⟩ := ih.fetched_bits j hj
      exact ⟨by simp [h1], h2⟩
    · show (i :: P.map Prod.fst).Nodup
      apply List.nodup_cons.mpr
      refine ⟨?_, ih.pending_nodup⟩
      intro hP
      obtain ⟨q, hq, hqi⟩ := List.mem_map.mp hP
      obtain ⟨j, n⟩ := q
      simp only at hqi
      subst hqi
      rw [(ih.pending_bits j n hq).1] at hb; cases hb
    · exact ih.fetched_nodup
    · exact ih.count_eq
  | @finishMsgReceive ep P F i m w _ hiP _ hs ih =>
    obtain ⟨ho, hu, hnF, hm⟩ := ih.pending_bits i m hiP
    have hi : i < size := ih.occupied_lt i ho
    have hlt : popcount ep.unread < size :=
      popcount_lt_of_clear ep.unread size i hsize
        (fun j hj => ih.occupied_lt j (ih.unread_occupied j hj)) hi hu
    have hcnt : ep.msgCount ≠ ep.size := by rw [ih.count_eq, ih.size_eq]; omega
    rw [Ring.finishMsgReceive_within ep i m (by rw [ih.msgSize_eq]; exact hms)
      (by rw [ih.msgSize_eq]; exact hms16) (by omega) (by rw [ih.bufAddr_eq]; exact hbuf)
      (by rw [ih.msgSize_eq]; exact hm), if_neg hcnt] at hs
    simp only [Option.some.injEq] at hs
    subst hs
    constructor
    · exact ih.bufAddr_eq
    · exact ih.msgSize_eq
    · exact ih.size_eq
    · exact ih.rdPos_le
    · exact ih.wrPos_le
    · exact ih.occupied_lt
    · intro j hj
      change (ep.unread ||| (1 <<< i)).testBit j = true at hj
      show ep.occupied.testBit j = true
      rw [testBit_or_one_shiftLeft] at hj
      by_cases hij : i = j
      · rw [← hij]; exact ho
      · simp [hij] at hj; exact ih.unread_occupied j hj
    · intro j n hj
      show ep.occupied.testBit j = true ∧ (ep.unread ||| (1 <<< i)).testBit j = false ∧
        j ∉ F ∧ n < msgSize
      have hjP : (j, n) ∈ P := List.mem_of_mem_erase hj
      have hji : j ≠ i := erase_fst_ne P i m j n ih.pending_nodup hiP hj
      obtain ⟨h1, h2, h3, h4⟩ := ih.pending_bits j n hjP
      rw [testBit_or_one_shiftLeft]
      exact ⟨h1, by simp [h2, Ne.symm hji], h3, h4⟩
    · intro j hj
      show ep.occupied.testBit j = true ∧ (ep.unread ||| (1 <<< i)).testBit j = false
      have hji : j ≠ i := by
        intro hc; subst hc; exact hnF hj
      obtain ⟨h1, h2⟩ := ih.fetched_bits j hj
      rw [testBit_or_one_shiftLeft]
      exact ⟨h1, by simp [h2, Ne.symm hji]⟩
    · exact List.Nodup.sublist ((List.erase_sublist (i, m) P).map Prod.fst) ih.pending_nodup
    · exact ih.fetched_nodup
    · show (ep.msgCount + 1) % 2 ^ 16 = popcount (ep.unread ||| (1 <<< i))
      rw [popcount_set _ i (by omega) hu, ih.count_eq]
      apply Nat.mod_eq_of_lt
      omega
  | @fetchMessage ep P F i ep1 _ hi hs ih =>
    have hcnt : ep.msgCount ≠ 0 := by
      intro hc
      unfold Ring.fetchMessage at hs
      rw [if_pos hc] at hs
      simp at hs
    have hbit : ∃ j, j < ep.size ∧ ep.unread.testBit j = true := by
      obtain ⟨j, _, hj⟩ := popcount_pos_bit ep.unread (by rw [← ih.count_eq]; exact hcnt)
      exact ⟨j, by rw [ih.size_eq]; exact ih.occupied_lt j (ih.unread_occupied j hj), hj⟩
    obtain ⟨k, hk, hku, _, hf⟩ := Ring.fetchMessage_scan ep (by rw [ih.size_eq]; exact hsize)
      (by rw [ih.size_eq]; exact ih.rdPos_le) hcnt hbit ih.unread_occupied
    rw [hf] at hs
    simp only [Option.some.injEq, Prod.mk.injEq] at hs
    obtain ⟨ha, he⟩ := hs
    rw [ih.size_eq] at hi hk
    have hms1 : 0 < ep.msgSize := by rw [ih.msgSize_eq]; exact hms
    have hms2 : ep.msgSize < 2 ^ 16 := by rw [ih.msgSize_eq]; exact hms16
    have hbuf1 : ep.bufAddr < 2 ^ 64 := by rw [ih.bufAddr_eq]; exact hbuf
    have hik : k = i := by
      have h1 := slotQuot_slot ep k hms1 (slot_mul_lt k _ (by omega) hms2) hbuf1
      have h2 := slotQuot_slot ep i hms1 (slot_mul_lt i _ (by omega) hms2) hbuf1
      rw [ha, h2] at h1
      exact h1.symm
    subst hik
    subst he
    have hko := ih.unread_occupied k hku
    constructor
    · exact ih.bufAddr_eq
    · exact ih.msgSize_eq
    · exact ih.size_eq
    · show k + 1 ≤ size; omega
    · exact ih.wrPos_le
    · exact ih.occupied_lt
    · intro j hj
      change (ep.unread &&& notBits 32 (1 <<< k)).testBit j = true at hj
      show ep.occupied.testBit j = true
      rw [testBit_and_notBits _ _ _ (by omega)] at hj
      apply ih.unread_occupied
      simp at hj
      exact hj.1
    · intro j n hj
      show ep.occupied.testBit j = true ∧
        (ep.unread &&& notBits 32 (1 <<< k)).testBit j = false ∧ j ∉ k :: F ∧ n < msgSize
      obtain ⟨h1, h2, h3, h4⟩ := ih.pending_bits j n hj
      rw [testBit_and_notBits _ _ _ (by omega)]
      refine ⟨h1, by simp [h2], ?_, h4⟩
      intro hc
      rcases List.mem_cons.mp hc with hjk | hjF
      · subst hjk; rw [hku] at h2; cases h2
      · exact h3 hjF
    · intro j hj
      show ep.occupied.testBit j = true ∧
        (ep.unread &&& notBits 32 (1 <<< k)).testBit j = false
      rw [testBit_and_notBits _ _ _ (by omega)]
      rcases List.mem_cons.mp hj with hjk | hjF
      · subst hjk; exact ⟨hko, by simp⟩
      · obtain ⟨h1, h2⟩ := ih.fetched_bits j hjF
        exact ⟨h1, by simp [h2]⟩
    · exact ih.pending_nodup
    · apply List.nodup_cons.mpr
      refine ⟨?_, ih.fetched_nodup⟩
      intro hF
      rw [(ih.fetched_bits k hF).2] at hku; cases hku
    · show ep.msgCount - 1 = popcount (ep.unread &&& notBits 32 (1 <<< k))
      rw [ih.count_eq, popcount_clear _ k (by omega) hku]
      omega
  | @ackMessage ep P F i ep1 _ hiF hs ih =>
    obtain ⟨ho, hu⟩ := ih.fetched_bits i hiF
    have hi : i < size := ih.occupied_lt i ho
    rw [ackMessage_slot ep i (by rw [ih.msgSize_eq]; exact hms)
      (by rw [ih.msgSize_eq]; exact hms16) (by omega) (by rw [ih.bufAddr_eq]; exact hbuf) ho]
      at hs
    simp only [Option.some.injEq] at hs
    subst hs
    constructor
    · exact ih.bufAddr_eq
    · exact ih.msgSize_eq
    · exact ih.size_eq
    · exact ih.rdPos_le
    · exact ih.wrPos_le
    · intro j hj
      change (ep.occupied &&& notBits 32 (1 <<< i)).testBit j = true at hj
      rw [testBit_and_notBits _ _ _ (by omega)] at hj
      simp at hj
      exact ih.occupied_lt j hj.1
    · intro j hj
      change ep.unread.testBit j = true at hj
      show (ep.occupied &&& notBits 32 (1 <<< i)).testBit j = true
      rw [testBit_and_notBits _ _ _ (by omega)]
      have hji : i ≠ j := by
        intro hc; subst hc; rw [hu] at hj; cases hj
      have hj32 : j < 32 := by
        have := ih.occupied_lt j (ih.unread_occupied j hj); omega
      simp [ih.unread_occupied j hj, hji, hj32]
    · intro j n hj
      show (ep.occupied &&& notBits 32 (1 <<< i)).testBit j = true ∧
        ep.unread.testBit j = false ∧ j ∉ F.erase i ∧ n < msgSize
      obtain ⟨h1, h2, h3, h4⟩ := ih.pending_bits j n hj
      rw [testBit_and_notBits _ _ _ (by omega)]
      have hji : i ≠ j := by
        intro hc; subst hc; exact h3 hiF
      have hj32 : j < 32 := by
        have := ih.occupied_lt j h1; omega
      exact ⟨by simp [h1, hji, hj32], h2, fun hc => h3 (List.mem_of_mem_erase hc), h4⟩
    · intro j hj
      show (ep.occupied &&& notBits 32 (1 <<< i)).testBit j = true ∧
        ep.unread.testBit j = false
      have hjF : j ∈ F := List.mem_of_mem_erase hj
      have hji : i ≠ j := by
        intro hc; subst hc
        exact (List.Nodup.not_mem_erase ih.fetched_nodup) hj
      obtain ⟨h1, h2⟩ := ih.fetched_bits j hjF
      rw [testBit_and_notBits _ _ _ (by omega)]
      have hj32 : j < 32 := by
        have := ih.occupied_lt j h1; omega
      exact ⟨by simp [h1, hji, hj32], h2⟩
    · exact ih.pending_nodup
    · exact List.Nodup.erase i ih.fetched_nodup
    · exact ih.count_eq

/-- What holds while every packet is shorter than a slot (`maxPkt < msgSize`, with `msgSize`
a non-zero 16-bit value and `size <= 32`): in every tracked state `msgCount` is the number
of set unread bits below `size`; when `msgCount` is not 0 the scan of `fetchMessage` finds
a slot, and `fetchMessage` fails no assertion; and `finishMsgReceive`, called with the
address its caller passes for a pending slot, writes the endpoint back, so its `Buffer
full` return is not taken. -/
theorem short_packets_ring_count (bufAddr msgSize size maxPkt : Nat) (ep : RecvEp)
    (pending : List (Nat × Nat)) (fetched : List Nat) (hms : 0 < msgSize)
    (hms16 : msgSize < 2 ^ 16) (hsize : size ≤ 32) (hbuf : bufAddr < 2 ^ 64)
    (hshort : maxPkt < msgSize)
    (h : Ring.Tracked bufAddr msgSize size maxPkt ep pending fetched) :
    ep.msgCount = (List.range ep.size).countP (fun i => ep.unread.testBit i) ∧
    (ep.msgCount ≠ 0 →
      ∃ i, i < ep.size ∧ scanRing ep.isUnread ep.rdPos ep.size = some (some i)) ∧
    (Ring.fetchMessage ep).isSome = true ∧
    (∀ i m, (i, m) ∈ pending → ∃ w,
      Ring.finishMsgReceive ep ((ep.bufAddr + i * ep.msgSize + m) % 2 ^ 64) =
        some (some w)) := by
  have inv := tracked_inv bufAddr msgSize size maxPkt hms hms16 hsize hbuf hshort ep pending
    fetched h
  have hsz : ep.size ≤ 32 := by rw [inv.size_eq]; exact hsize
  have hrd : ep.rdPos ≤ ep.size := by rw [inv.size_eq]; exact inv.rdPos_le
  have hlt : ∀ j, ep.unread.testBit j = true → j < ep.size := fun j hj => by
    rw [inv.size_eq]; exact inv.occupied_lt j (inv.unread_occupied j hj)
  have hscan : ep.msgCount ≠ 0 → ∃ i, i < ep.size ∧ ep.unread.testBit i = true ∧
      scanRing ep.isUnread ep.rdPos ep.size = some (some i) ∧
      Ring.fetchMessage ep = some ((ep.bufAddr + i * ep.msgSize) % 2 ^ 64,
        some { ep with unread := ep.unread &&& notBits 32 (1 <<< i),
                       msgCount := ep.msgCount - 1, rdPos := i + 1 }) := by
    intro hcnt
    obtain ⟨j, _, hj⟩ := popcount_pos_bit ep.unread (by rw [← inv.count_eq]; exact hcnt)
    exact Ring.fetchMessage_scan ep hsz hrd hcnt ⟨j, hlt j hj, hj⟩ inv.unread_occupied
  refine ⟨?_, ?_, ?_, ?_⟩
  · rw [inv.count_eq]
    exact popcount_eq_below ep.unread ep.size hsz hlt
  · intro hcnt
    obtain ⟨i, hi, _, hs, _⟩ := hscan hcnt
    exact ⟨i, hi, hs⟩
  · by_cases hcnt : ep.msgCount = 0
    · unfold Ring.fetchMessage
      rw [if_pos hcnt]; rfl
    · obtain ⟨i, _, _, _, hf⟩ := hscan hcnt
      rw [hf]; rfl
  · intro i m hi
    obtain ⟨ho, hu, _, hm⟩ := inv.pending_bits i m hi
    have hi4 : i < size := inv.occupied_lt i ho
    have hpc : popcount ep.unread < size :=
      popcount_lt_of_clear ep.unread size i hsize
        (fun j hj => inv.occupied_lt j (inv.unread_occupied j hj)) hi4 hu
    have hcnt : ep.msgCount ≠ ep.size := by rw [inv.count_eq, inv.size_eq]; omega
    rw [Ring.finishMsgReceive_within ep i m (by rw [inv.msgSize_eq]; exact hms)
      (by rw [inv.msgSize_eq]; exact hms16) (by omega) (by rw [inv.bufAddr_eq]; exact hbuf)
      (by rw [inv.msgSize_eq]; exact hm), if_neg hcnt]
    exact ⟨_, rfl⟩

/-- The ring of four slots of 64 bytes after a message of 41 bytes has been received into
slot 0: an instance of `short_packets_ring_count` with one unread message. -/
theorem short_packets_ring_count_example :
    oneMessageRing.msgCount =
      (List.range oneMessageRing.size).countP (fun i => oneMessageRing.unread.testBit i) ∧
    (oneMessageRing.msgCount ≠ 0 → ∃ i, i < oneMessageRing.size ∧
      scanRing oneMessageRing.isUnread oneMessageRing.rdPos oneMessageRing.size =
        some (some i)) ∧
    (Ring.fetchMessage oneMessageRing).isSome = true ∧
    (∀ i m, (i, m) ∈ ([] : List (Nat × Nat)) → ∃ w, Ring.finishMsgReceive oneMessageRing
      ((oneMessageRing.bufAddr + i * oneMessageRing.msgSize + m) % 2 ^ 64) =
        some (some w)) :=
  short_packets_ring_count 0x1000 64 4 63 oneMessageRing [] [] (by decide) (by decide)
    (by decide) (by decide) (by decide)
    (Ring.Tracked.finishMsgReceive 0 41 (some oneMessageRing)
      (Ring.Tracked.allocSlot 41 0 allocatedRing Ring.Tracked.empty (by decide) (by decide))
      (by decide) (by decide) (by decide))

/-- C36, code bug. A message of 64 bytes arrives for the empty RECEIVE ring of one slot of
64 bytes at `0x1000`. `recvFromNoc` hands out slot 0 and starts the transfer of the packet
to `0x1000`. The transfer engine (timing mode) writes the 64 bytes with one request, and
`recvMemResponse` ends the transfer with `finishMsgReceive(4, buf->event.localAddr)`, where
`localAddr` has been moved on to `0x1040`. `finishMsgReceive` computes the index
`(0x1040 - 0x1000) / 64 = 1`, sets the unread bit 1 and counts the message: `msgCount` is
1 while no unread bit below `size` is set. The two scan loops of the next `fetchMessage`
run to their end, and its `assert(false)` is reached. -/
theorem full_slot_message_marks_next_slot :
    ∃ (d1 d2 : Dtu) (x1 x2 : XferUnit),
      MessageUnit.recvFromNoc oneSlotDtu fullSlotPacket = some (Error.NONE, d1) ∧
      d1.regFile.getRecvEp 4 = some oneSlotAllocated ∧
      d1.transfers = [fullSlotTransfer] ∧
      XferUnit.startTransfer freePool fullSlotTransfer = Except.ok (true, x1) ∧
      XferUnit.run none zeroWalk 0 2 x1 = Except.ok x2 ∧
      x2.memReqs.map (fun r => (r.virt, r.size, r.writing)) = [(0x1000, 64, true)] ∧
      x2.actions =
        [XferAction.schedNocRequestFinished, XferAction.finishMsgReceive 4 0x1040,
         XferAction.schedNocResponse fullSlotPacket] ∧
      MessageUnit.finishMsgReceive d1 4 0x1040 = some d2 ∧
      d2.regFile.getRecvEp 4 = some nextSlotRing ∧
      nextSlotRing.msgCount = 1 ∧
      (List.range nextSlotRing.size).countP (fun i => nextSlotRing.unread.testBit i) = 0 ∧
      scanRing nextSlotRing.isUnread nextSlotRing.rdPos nextSlotRing.size = some none ∧
      MessageUnit.fetchMessage d2 4 = none :=
  ⟨((MessageUnit.recvFromNoc oneSlotDtu fullSlotPacket).getD (Error.NONE, oneSlotDtu)).2,
   (((MessageUnit.recvFromNoc oneSlotDtu fullSlotPacket).bind
      (fun r => MessageUnit.finishMsgReceive r.2 4 0x1040)).getD oneSlotDtu),
   { blockSize := 64, bufSize := 64,
     bufs := [
       { id := 0, free := false, offset := 0,
         event := { type := TransferType.REMOTE_WRITE, remoteAddr := NocAddr.ofTuple 0 0 0,
                    localAddr := 0x1000, size := 64, pkt := some fullSlotPacket,
                    flags := [XferFlag.MSGRECV] },
         bytes := List.replicate 64 0 },
       { id := 1 }],
     events := [XferEvent.process 0],
     actions := [XferAction.schedNocRequestFinished] },
   { blockSize := 64, bufSize := 64,
     bufs := [
       { id := 0, free := true, offset := 64,
         event := { type := TransferType.REMOTE_WRITE, remoteAddr := NocAddr.ofTuple 0 0 0,
                    localAddr := 0x1040, size := 0, pkt := some fullSlotPacket,
                    flags := [XferFlag.MSGRECV] },
         bytes := List.replicate 64 0 },
       { id := 1 }],
     memReqs := [{ virt := 0x1000, addr := 0x1000, size := 64, writing := true, bufId := 0,
                   data := List.replicate 64 0 }],
     actions := [XferAction.schedNocRequestFinished, XferAction.finishMsgReceive 4 0x1040,
       XferAction.schedNocResponse fullSlotPacket] },
   by decide, by decide, by decide, rfl, rfl, by decide, by decide, by decide,
   by decide, by decide, by decide, by decide, by decide⟩

/-! ## C33: the check of one page-table entry -/

theorem and_eq_iff_subset (x r : Nat) :
    x &&& r = r ↔ ∀ i, r.testBit i = true → x.testBit i = true := by
  constructor
  · intro h i hi
    rw [← h, Nat.testBit_and] at hi
    simp at hi
    exact hi.1
  · intro h
    apply Nat.eq_of_testBit_eq
    intro i
    rw [Nat.testBit_and]
    cases hr : r.testBit i
    · simp
    · simp [h i hr]

/-- C33. For every page-table entry `e`, `level`, required access mask `access` and
previous value `phys` of the output address, `finishTranslate` returns true if and only if
every required bit is set in `e.ixwr`, where the required bits are `access` at level 0 and
`access` without the INTERN bit (bit 3) at the other levels. On success it reports
`e.ixwr` (as a `uint`) and `e.base << PAGE_BITS` (as an `Addr`), which are the exact
values when `e.ixwr` has at most 32 and `e.base` at most 52 bits; on failure the two
outputs keep their values. -/
theorem finishTranslate_spec (e : PageTableEntry) (level : Int) (access phys : Nat) :
    ((PtUnit.finishTranslate e level access phys).1 = true ↔
      ∀ i, (if level = 0 then access else access &&& notBits 32 DtuTlb.INTERN).testBit i = true →
        e.ixwr.testBit i = true) ∧
    (∀ i, i < 32 → (access &&& notBits 32 DtuTlb.INTERN).testBit i =
      (access.testBit i && !decide (i = 3))) ∧
    ((PtUnit.finishTranslate e level access phys).1 = true →
      (PtUnit.finishTranslate e level access phys).2 =
        (e.ixwr % 2 ^ 32, (e.base <<< DtuTlb.PAGE_BITS) % 2 ^ 64)) ∧
    (e.ixwr < 2 ^ 32 → e.base < 2 ^ 52 →
      e.ixwr % 2 ^ 32 = e.ixwr ∧
      (e.base <<< DtuTlb.PAGE_BITS) % 2 ^ 64 = e.base <<< DtuTlb.PAGE_BITS) ∧
    ((PtUnit.finishTranslate e level access phys).1 = false →
      (PtUnit.finishTranslate e level access phys).2 = (access, phys)) := by
  have hsub := and_eq_iff_subset e.ixwr
    (if level = 0 then access else access &&& notBits 32 DtuTlb.INTERN)
  refine ⟨?_, ?_, ?_, ?_, ?_⟩
  · rw [← hsub]
    unfold PtUnit.finishTranslate
    by_cases h : e.ixwr &&& (if level = 0 then access else access &&& notBits 32 DtuTlb.INTERN)
        = (if level = 0 then access else access &&& notBits 32 DtuTlb.INTERN)
    · simp [h]
    · simp [h]
  · intro i hi
    have := testBit_and_notBits access 3 i (by omega)
    rw [show DtuTlb.INTERN = 1 <<< 3 from rfl, this]
    by_cases h3 : i = 3
    · subst h3; simp
    · simp [hi, h3, Ne.symm h3]
  · unfold PtUnit.finishTranslate
    by_cases h : e.ixwr &&& (if level = 0 then access else access &&& notBits 32 DtuTlb.INTERN)
        = (if level = 0 then access else access &&& notBits 32 DtuTlb.INTERN)
    · simp [h]
    · simp [h]
  · intro h1 h2
    refine ⟨Nat.mod_eq_of_lt h1, Nat.mod_eq_of_lt ?_⟩
    rw [Nat.shiftLeft_eq]
    show e.base * 2 ^ 12 < 2 ^ 64
    omega
  · unfold PtUnit.finishTranslate
    by_cases h : e.ixwr &&& (if level = 0 then access else access &&& notBits 32 DtuTlb.INTERN)
        = (if level = 0 then access else access &&& notBits 32 DtuTlb.INTERN)
    · simp [h]
    · simp [h]

/-! ## C34: a write to the command register -/

theorem notBits_and_two (r : Nat) : notBits 32 r &&& 2 ≠ 0 ↔ r.testBit 1 = false := by
  have h1 := and_one_shiftLeft_bne (notBits 32 r) 1
  have h2 : (notBits 32 r).testBit 1 = !r.testBit 1 := by
    unfold notBits
    have hlt : r % 2 ^ 32 < 2 ^ 32 := Nat.mod_lt _ (by decide)
    have := Nat.testBit_two_pow_sub_succ hlt 1
    rw [show 2 ^ 32 - 1 - r % 2 ^ 32 = 2 ^ 32 - (r % 2 ^ 32 + 1) by omega, this,
      Nat.testBit_mod_two_pow]
    simp
  rw [show (1 <<< 1 : Nat) = 2 from rfl] at h1
  rw [h2] at h1
  cases hb : r.testBit 1
  · rw [hb] at h1; simp at h1; simp [h1]
  · rw [hb] at h1; simp at h1; simp [h1]

theorem and_two_ne_zero (r : Nat) : r &&& 2 ≠ 0 ↔ r.testBit 1 = true := by
  have h1 := and_one_shiftLeft_bne r 1
  rw [show (1 <<< 1 : Nat) = 2 from rfl] at h1
  cases hb : r.testBit 1
  · rw [hb] at h1; simp at h1; simp [h1]
  · rw [hb] at h1; simp at h1; simp [h1]

/-- C34, code bug. In timing mode a request for which `handleRequest` returns
`WROTE_CMD | WROTE_EXT_CMD` schedules the `ExecExternCmdEvent` only: no
`executeCommandEvent` is scheduled and `executeCommand` is not called, for a request of
the CPU and for one of the NoC, so the command written is never executed. In atomic mode
the same result calls `executeCommand` once. -/
theorem forwardRequestToRegFile_both_bits :
    (RegFile.WROTE_CMD ||| RegFile.WROTE_EXT_CMD) &&& RegFile.WROTE_CMD ≠ 0 ∧
    Dtu.forwardRequestToRegFile false (RegFile.WROTE_CMD ||| RegFile.WROTE_EXT_CMD) true =
      [RegAction.updateSuspendablePin, RegAction.scheduleExecExternCmdEvent] ∧
    (Dtu.forwardRequestToRegFile false (RegFile.WROTE_CMD ||| RegFile.WROTE_EXT_CMD)
      true).count RegAction.scheduleExecuteCommandEvent = 0 ∧
    (Dtu.forwardRequestToRegFile false (RegFile.WROTE_CMD ||| RegFile.WROTE_EXT_CMD)
      true).count RegAction.executeCommand = 0 ∧
    (Dtu.forwardRequestToRegFile false (RegFile.WROTE_CMD ||| RegFile.WROTE_EXT_CMD)
      false).count RegAction.scheduleExecuteCommandEvent = 0 ∧
    (Dtu.forwardRequestToRegFile false (RegFile.WROTE_CMD ||| RegFile.WROTE_EXT_CMD)
      false).count RegAction.executeCommand = 0 ∧
    (Dtu.forwardRequestToRegFile true (RegFile.WROTE_CMD ||| RegFile.WROTE_EXT_CMD)
      true).count RegAction.executeCommand = 1 ∧
    (Dtu.forwardRequestToRegFile true (RegFile.WROTE_CMD ||| RegFile.WROTE_EXT_CMD)
      false).count RegAction.executeCommand = 1 := by
  decide

/-- What `forwardRequestToRegFile` does for a request whose `handleRequest` result has
`WROTE_CMD` set: in timing mode it schedules the `executeCommandEvent` once when
`WROTE_EXT_CMD` is not set and not at all when it is set, and never calls `executeCommand`
inline; in atomic mode it calls `executeCommand` once inline and schedules no event. -/
theorem forwardRequestToRegFile_cmd (atomicMode : Bool) (result : Nat) (isCpuRequest : Bool)
    (hcmd : result &&& RegFile.WROTE_CMD ≠ 0) :
    (atomicMode = false →
      (Dtu.forwardRequestToRegFile atomicMode result isCpuRequest).count
        RegAction.scheduleExecuteCommandEvent =
          (if result &&& RegFile.WROTE_EXT_CMD = 0 then 1 else 0) ∧
      (Dtu.forwardRequestToRegFile atomicMode result isCpuRequest).count
        RegAction.executeCommand = 0) ∧
    (atomicMode = true →
      (Dtu.forwardRequestToRegFile atomicMode result isCpuRequest).count
        RegAction.executeCommand = 1 ∧
      (Dtu.forwardRequestToRegFile atomicMode result isCpuRequest).count
        RegAction.scheduleExecuteCommandEvent = 0) := by
  have h2 : RegFile.WROTE_EXT_CMD = 2 := rfl
  constructor
  · intro hm
    subst hm
    unfold Dtu.forwardRequestToRegFile
    rw [h2]
    cases hb : result.testBit 1
    · have hn := (notBits_and_two result).mpr hb
      have hz : result &&& 2 = 0 := by
        by_contra hc
        rw [(and_two_ne_zero result).mp hc] at hb; cases hb
      cases isCpuRequest <;> simp [hn, hz, hcmd]
    · have hn : ¬ (notBits 32 result &&& 2 ≠ 0) := by
        intro hc; rw [(notBits_and_two result).mp hc] at hb; cases hb
      have hz := (and_two_ne_zero result).mpr hb
      cases isCpuRequest <;> simp [hn, hz]
  · intro hm
    subst hm
    unfold Dtu.forwardRequestToRegFile
    rw [h2]
    by_cases hz : result &&& 2 = 0 <;> simp [hz, hcmd]

theorem forwardRequestToRegFile_cmd_witness :
    ((Dtu.forwardRequestToRegFile false 1 true).count RegAction.scheduleExecuteCommandEvent = 1 ∧
      (Dtu.forwardRequestToRegFile false 1 true).count RegAction.executeCommand = 0) ∧
    ((Dtu.forwardRequestToRegFile true 3 false).count RegAction.executeCommand = 1 ∧
      (Dtu.forwardRequestToRegFile true 3 false).count
        RegAction.scheduleExecuteCommandEvent = 0) :=
  ⟨(forwardRequestToRegFile_cmd false 1 true (by decide)).1 rfl,
   (forwardRequestToRegFile_cmd true 3 false (by decide)).2 rfl⟩

/-! ## C35, C39: the PE array of the kernel environment -/

theorem peLoop_ok (l : List Nat) : ∀ (i : Nat) (k : M3X86System.PeArray),
    k.j + M3X86System.memPeCount l ≤ M3X86System.MAX_MEM_MODS + 1 →
    ∃ k1, M3X86System.peLoop l i k = (k1, none) ∧
      k1.j = k.j + M3X86System.memPeCount l ∧
      k1.pes.length = k.pes.length + l.length ∧
      (∀ (n e : Nat), k.pes[n]? = some e → k1.pes[n]? = some e) ∧
      ∀ (n pe : Nat), l[n]? = some pe →
        k1.pes[k.pes.length + n]? = some (M3X86System.peEntry (i + n) pe) := by
  induction l with
  | nil =>
    intro i k _
    exact ⟨k, rfl, rfl, rfl, fun _ _ h => h, fun n pe h => by simp at h⟩
  | cons pe rest ih =>
    intro i k hj
    have hcount : M3X86System.memPeCount (pe :: rest) =
        M3X86System.memPeCount rest + (if pe &&& 1 ≠ 0 then 1 else 0) := by
      unfold M3X86System.memPeCount
      rw [List.countP_cons]
      by_cases h : pe &&& 1 = 0 <;> simp [h]
    have hstep : ∃ k0, M3X86System.buildPe k i pe = (k0, none) ∧
        k0.j = k.j + (if pe &&& 1 ≠ 0 then 1 else 0) ∧
        k0.pes = k.pes ++ [M3X86System.peEntry i pe] := by
      unfold M3X86System.buildPe
      by_cases h : pe &&& 1 = 0
      · rw [if_neg (not_not.mpr h)]
        exact ⟨_, rfl, by rw [if_neg (not_not.mpr h)]; rfl, rfl⟩
      · have hle : ¬ k.j > M3X86System.MAX_MEM_MODS := by
          rw [hcount, if_pos h] at hj; omega
        rw [if_pos h, if_neg hle]
        exact ⟨_, rfl, by rw [if_pos h], rfl⟩
    obtain ⟨k0, hk0, hj0, hp0⟩ := hstep
    obtain ⟨k1, hk1, hj1, hl1, hkeep, hnew⟩ := ih (i + 1) k0 (by rw [hj0]; rw [hcount] at hj; omega)
    refine ⟨k1, ?_, ?_, ?_, ?_, ?_⟩
    · show (match M3X86System.buildPe k i pe with
        | (k1, some f) => (k1, some f)
        | (k1, none) => M3X86System.peLoop rest (i + 1) k1) = _
      rw [hk0]; exact hk1
    · rw [hj1, hj0, hcount]; omega
    · rw [hl1, hp0]; simp; omega
    · intro n e hn
      apply hkeep
      rw [hp0, List.getElem?_append_left (getElem?_lt_of_some hn)]
      exact hn
    · intro n pe1 hn
      cases n with
      | zero =>
        simp at hn
        subst hn
        apply hkeep
        rw [hp0]
        simp
      | succ m =>
        simp at hn
        have := hnew m pe1 hn
        rw [hp0] at this
        simp at this
        rw [show k.pes.length + (m + 1) = k.pes.length + 1 + m by omega,
          show i + (m + 1) = i + 1 + m by omega]
        exact this

theorem peEntry_testBit (i pe n : Nat) :
    (M3X86System.peEntry i pe).testBit n =
      (((if pe &&& 1 ≠ 0 then M3X86System.KernelEnv.TYPE_MEM
          else if pe &&& notBits 64 1 ≠ 0 then M3X86System.KernelEnv.TYPE_IMEM
          else M3X86System.KernelEnv.TYPE_EMEM).testBit n ||
        (decide (n < 64) && (decide (54 ≤ n) && i.testBit (n - 54)))) ||
        (pe.testBit n && (decide (n < 64) && !decide (n = 0)))) := by
  unfold M3X86System.peEntry
  simp only [Nat.testBit_or, Nat.testBit_and, Nat.testBit_mod_two_pow, Nat.testBit_shiftLeft]
  congr 1
  unfold notBits
  have h1 : (1 : Nat) % 2 ^ 64 < 2 ^ 64 := by decide
  rw [show 2 ^ 64 - 1 - 1 % 2 ^ 64 = 2 ^ 64 - (1 % 2 ^ 64 + 1) by decide,
    Nat.testBit_two_pow_sub_succ h1]
  congr 2
  cases n with
  | zero => rfl
  | succ m =>
    simp [Nat.testBit_succ]

/-- C35, counterexample. For the one-element descriptor array `[4]` (bit 0 clear,
`pes[0] & ~1 != 0`) `initState` writes `kenv.pes[0] = 4`, whose bits 3..0 hold 4 and not
`TYPE_IMEM`; for `[5]` (bit 0 set) it writes 6 and not `TYPE_MEM`; and for `[2^54]` the
bits 63..54 of `kenv.pes[0]` hold 1 and not the index 0. -/
theorem peArray_descriptor_bits :
    M3X86System.buildPeArray [4] = ({ pes := [4] }, none) ∧
    (4 : Nat) &&& 1 = 0 ∧ (4 : Nat) &&& notBits 64 1 ≠ 0 ∧
    4 % 16 ≠ M3X86System.KernelEnv.TYPE_IMEM ∧
    (M3X86System.buildPeArray [5]).1.pes = [6] ∧ (5 : Nat).testBit 0 = true ∧
    6 % 16 ≠ M3X86System.KernelEnv.TYPE_MEM ∧
    (M3X86System.buildPeArray [2 ^ 54]).1.pes = [2 ^ 54] ∧
    2 ^ 54 / 2 ^ 54 % 2 ^ 10 ≠ 0 := by
  decide

/-- C35, as amended. For a descriptor array `pes` with at most 1024 entries and at most
`MAX_MEM_MODS` memory PEs, the loop of `initState` runs to its end, and for every index
`i` whose descriptor `pes[i]` has bits 3..1 and bits 63..54 clear, `kenv.pes[i]` carries
`i` in bits 63..54 and the PE type in bits 3..0: `TYPE_MEM` when bit 0 of `pes[i]` is
set, `TYPE_IMEM` when it is clear and `pes[i] & ~1 != 0`, `TYPE_EMEM` otherwise. -/
theorem peArray_entry (pes : List Nat) (i pe : Nat)
    (hlen : pes.length ≤ M3X86System.MAX_PES)
    (hmem : M3X86System.memPeCount pes ≤ M3X86System.MAX_MEM_MODS)
    (hi : pes[i]? = some pe)
    (hlow : ∀ b, 1 ≤ b → b < 4 → pe.testBit b = false) (hhigh : pe < 2 ^ 54) :
    ∃ e, (M3X86System.buildPeArray pes).2 = none ∧
      (M3X86System.buildPeArray pes).1.pes[i]? = some e ∧
      e / 2 ^ 54 % 2 ^ 10 = i ∧
      e % 2 ^ 4 = (if pe.testBit 0 = true then M3X86System.KernelEnv.TYPE_MEM
        else if pe &&& notBits 64 1 ≠ 0 then M3X86System.KernelEnv.TYPE_IMEM
        else M3X86System.KernelEnv.TYPE_EMEM) := by
  obtain ⟨k1, hk1, _, _, _, hnew⟩ := peLoop_ok pes 0 {} (by
    show 0 + _ ≤ _
    have : M3X86System.MAX_MEM_MODS = 4 := rfl
    omega)
  have hb : M3X86System.buildPeArray pes = (k1, none) := by
    unfold M3X86System.buildPeArray
    rw [if_neg (by omega)]
    exact hk1
  have he := hnew i pe hi
  have hi1024 : i < 2 ^ 10 := by
    have := getElem?_lt_of_some hi
    have h2 : M3X86System.MAX_PES = 1024 := rfl
    omega
  have hpe0 : (pe &&& 1 ≠ 0) ↔ pe.testBit 0 = true := by
    have := and_one_shiftLeft_bne pe 0
    rw [show (1 <<< 0 : Nat) = 1 from rfl] at this
    rw [← this]
    simp
  have htlt : (if pe &&& 1 ≠ 0 then M3X86System.KernelEnv.TYPE_MEM
      else if pe &&& notBits 64 1 ≠ 0 then M3X86System.KernelEnv.TYPE_IMEM
      else M3X86System.KernelEnv.TYPE_EMEM) < 2 ^ 2 := by
    split
    · decide
    · split <;> decide
  refine ⟨M3X86System.peEntry i pe, by rw [hb], ?_, ?_, ?_⟩
  · rw [hb]
    simpa using he
  · apply Nat.eq_of_testBit_eq
    intro b
    rw [Nat.testBit_mod_two_pow, ← Nat.shiftRight_eq_div_pow, Nat.testBit_shiftRight,
      peEntry_testBit]
    by_cases hb10 : b < 10
    · have h1 : pe.testBit (54 + b) = false :=
        Nat.testBit_lt_two_pow (Nat.lt_of_lt_of_le hhigh (Nat.pow_le_pow_right (by decide)
          (by omega)))
      have h2 := Nat.testBit_lt_two_pow (Nat.lt_of_lt_of_le htlt
        (Nat.pow_le_pow_right (by decide) (show 2 ≤ 54 + b by omega)))
      rw [h1, h2]
      have h3 : 54 + b < 64 := by omega
      have h4 : 54 ≤ 54 + b := by omega
      simp [hb10, h3]
    · have : i.testBit b = false :=
        Nat.testBit_lt_two_pow (Nat.lt_of_lt_of_le hi1024 (Nat.pow_le_pow_right (by decide)
          (by omega)))
      simp [hb10, this]
  · apply Nat.eq_of_testBit_eq
    intro b
    rw [Nat.testBit_mod_two_pow, peEntry_testBit]
    have hif : (if pe &&& 1 ≠ 0 then M3X86System.KernelEnv.TYPE_MEM
        else if pe &&& notBits 64 1 ≠ 0 then M3X86System.KernelEnv.TYPE_IMEM
        else M3X86System.KernelEnv.TYPE_EMEM) =
        (if pe.testBit 0 = true then M3X86System.KernelEnv.TYPE_MEM
        else if pe &&& notBits 64 1 ≠ 0 then M3X86System.KernelEnv.TYPE_IMEM
        else M3X86System.KernelEnv.TYPE_EMEM) := by
      by_cases h0 : pe.testBit 0 = true
      · rw [if_pos (hpe0.mpr h0), if_pos h0]
      · rw [if_neg (fun h => h0 (hpe0.mp h)), if_neg h0]
    rw [hif] at htlt ⊢
    by_cases hb4 : b < 4
    · have h54 : ¬ 54 ≤ b := by omega
      by_cases hb0 : b = 0
      · subst hb0; simp
      · have := hlow b (by omega) hb4
        simp [hb4, h54, this]
    · have h2 := Nat.testBit_lt_two_pow (Nat.lt_of_lt_of_le htlt
        (Nat.pow_le_pow_right (by decide) (show 2 ≤ b by omega)))
      rw [h2]
      simp [hb4]

theorem peArray_entry_witness :
    ∃ e, (M3X86System.buildPeArray [1, 65536, 0]).2 = none ∧
      (M3X86System.buildPeArray [1, 65536, 0]).1.pes[1]? = some e ∧
      e / 2 ^ 54 % 2 ^ 10 = 1 ∧
      e % 2 ^ 4 = (if (65536 : Nat).testBit 0 = true then M3X86System.KernelEnv.TYPE_MEM
        else if 65536 &&& notBits 64 1 ≠ 0 then M3X86System.KernelEnv.TYPE_IMEM
        else M3X86System.KernelEnv.TYPE_EMEM) :=
  peArray_entry [1, 65536, 0] 1 65536 (by decide) (by decide) (by decide)
    (fun b h1 h4 => by
      have : b = 1 ∨ b = 2 ∨ b = 3 := by omega
      rcases this with h | h | h <;> subst h <;> decide)
    (by decide)

/-- C39, divergence. With five memory PEs the loop of `initState` runs to its end without
a fatal error and its fifth write is `kenv.mem_mods[4]`, outside the `MAX_MEM_MODS = 4`
elements of the array; with six memory PEs the fatal error `Too many memory modules` is
raised only after `kenv.mem_mods[4]` has been written. -/
theorem initState_fifth_memory_module :
    (M3X86System.buildPeArray [1, 1, 1, 1, 1]).2 = none ∧
    (M3X86System.buildPeArray [1, 1, 1, 1, 1]).1.memWrites.map Prod.fst = [0, 1, 2, 3, 4] ∧
    ¬ (4 < M3X86System.MAX_MEM_MODS) ∧
    (M3X86System.buildPeArray [1, 1, 1, 1, 1, 1]).2 =
      some M3X86System.PeFatal.tooManyMemoryModules ∧
    (M3X86System.buildPeArray [1, 1, 1, 1, 1, 1]).1.memWrites.map Prod.fst =
      [0, 1, 2, 3, 4] := by
  decide

/-! ## C32: a `pes=` token at the end of the command line -/

theorem lastArg_kernelArg (lvl : Nat)
    (recurse : List Char → M3X86System.Mods → Except Stop M3X86System.Mods)
    (tok : List Char) (st : M3X86System.ArgState) (hprog : st.prog.isEmpty = false)
    (htok : M3X86System.isKernelArg tok = true) :
    M3X86System.lastArg lvl recurse tok st =
      match M3X86System.closeModule recurse st with
      | Except.error e => Except.error e
      | Except.ok mods1 => Except.ok (M3X86System.countArg lvl { st with mods := mods1 }) := by
  unfold M3X86System.lastArg
  simp [hprog, htok]

theorem handleArg_pes (separator : List Char) (lvl : Nat)
    (recurse : List Char → M3X86System.Mods → Except Stop M3X86System.Mods)
    (begin tok : List Char) (st : M3X86System.ArgState) (hprog : st.prog.isEmpty = false)
    (hi : ¬ (lvl = 0 ∧ st.i = 0))
    (hsep : M3X86System.strncmpEq begin separator separator.length = false)
    (hpes : M3X86System.strncmpEq begin "pes=".toList 4 = true) :
    M3X86System.handleArg true separator lvl recurse begin tok st =
      Except.ok (M3X86System.countArg lvl
        { st with argstr := M3X86System.appendArg st.argstr tok }) := by
  unfold M3X86System.handleArg
  rw [if_neg hi, if_pos rfl, if_neg (by rw [hsep]; simp), if_pos hpes,
    if_neg (by rw [hprog]; simp)]

/-- C32, divergence. With module loading enabled and the separators `--` and `++`: for
the command line `bin/kernel -- app pes=2 -- x` the token `pes=2` is appended to the
argument string of `app`, but for `bin/kernel -- app pes=2`, where `pes=2` is the last
token and nothing follows it, the module `app` is recorded with an empty argument string;
and for `bin/kernel -- app pes=2 ` (a space after the last token) no module is recorded
at all. -/
theorem extractModules_last_pes_dropped :
    M3X86System.extractModules true ["--".toList, "++".toList] 3
      "bin/kernel -- app pes=2 -- x".toList 0 [] =
      Except.ok [("app".toList, "pes=2".toList), ("x".toList, [])] ∧
    M3X86System.extractModules true ["--".toList, "++".toList] 3
      "bin/kernel -- app pes=2".toList 0 [] = Except.ok [("app".toList, [])] ∧
    M3X86System.extractModules true ["--".toList, "++".toList] 3
      "bin/kernel -- app pes=2 ".toList 0 [] = Except.ok [] := by
  refine ⟨?_, ?_, ?_⟩ <;> rfl

/-! ## C31: the packet of a `LOCAL_READ` transfer -/

theorem leBytes_length (w : Nat) : ∀ n, (leBytes n w).length = w := by
  induction w with
  | zero => intro n; rfl
  | succ w ih => intro n; simp [leBytes, ih]

theorem MessageHeader.toBytes_length (h : MessageHeader) :
    h.toBytes.length = sizeofMessageHeader := by
  simp [MessageHeader.toBytes, leBytes_length, sizeofMessageHeader]

theorem peekBytes_length (l : List Nat) (n : Nat) : (peekBytes l n).length = n := by
  unfold peekBytes
  rw [List.length_take, List.length_append, List.length_replicate]
  omega

theorem peekBytes_self (l : List Nat) : peekBytes l l.length = l := by
  unfold peekBytes
  simp

theorem peekBytes_zero (l : List Nat) : peekBytes l 0 = [] := by
  unfold peekBytes
  simp

theorem peekBytes_pokeBytes (dst : List Nat) (off : Nat) (src : List Nat) (n : Nat)
    (h : src.length = n) :
    peekBytes (pokeBytes dst off src n) (off + n) = peekBytes dst off ++ src := by
  subst h
  have h1 : (peekBytes dst off ++ src).length = off + src.length := by
    rw [List.length_append, peekBytes_length]
  unfold pokeBytes
  rw [peekBytes_self src]
  generalize hp : peekBytes dst off = p at h1
  unfold peekBytes
  rw [List.append_assoc (p ++ src), List.take_append_of_le_length (by omega), ← h1,
    List.take_length]

theorem readMem_length (m : List (Nat × Nat)) (a n : Nat) :
    (XferUnit.readMem m a n).length = n := by
  simp [XferUnit.readMem]

theorem readMem_append (m : List (Nat × Nat)) (a n1 n2 : Nat) :
    XferUnit.readMem m a (n1 + n2) =
      XferUnit.readMem m a n1 ++ XferUnit.readMem m (a + n1) n2 := by
  unfold XferUnit.readMem
  rw [List.range_add, List.map_append, List.map_map]
  congr 1
  apply List.map_congr_left
  intro i _
  simp [Nat.add_assoc]

/-- The bytes returned for the block requests of a transfer whose physical addresses are
its local addresses are the bytes of the local memory from the first address on. -/
theorem readMem_blocks (m : List (Nat × Nat)) (B : Nat) :
    ∀ (reqs : List MemRequest) (a s : Nat),
      IsBlockSeq B a s (reqs.map (fun r => (r.virt, r.size))) →
      (∀ r, r ∈ reqs → r.addr = r.virt) →
      reqs.flatMap (fun r => XferUnit.readMem m r.addr r.size) = XferUnit.readMem m a s := by
  intro reqs
  induction reqs with
  | nil =>
    intro a s h _
    simp only [List.map_nil, IsBlockSeq] at h
    subst h
    rfl
  | cons r rest ih =>
    intro a s h haddr
    simp only [List.map_cons, IsBlockSeq] at h
    obtain ⟨hv, hl, _, _, hrest⟩ := h
    have hr := haddr r (List.mem_cons_self _ _)
    have := ih _ _ hrest (fun r1 h1 => haddr r1 (List.mem_cons_of_mem _ h1))
    rw [List.flatMap_cons, this, hr, hv]
    have hs : s = r.size + (s - r.size) := by omega
    rw [hs, readMem_append]
    congr 2
    omega

theorem flatMap_readMem_length (m : List (Nat × Nat)) (B : Nat) :
    ∀ (reqs : List MemRequest) (a s : Nat),
      IsBlockSeq B a s (reqs.map (fun r => (r.virt, r.size))) →
      (reqs.flatMap (fun r => XferUnit.readMem m r.addr r.size)).length = s := by
  intro reqs
  induction reqs with
  | nil =>
    intro a s h
    simp only [List.map_nil, IsBlockSeq] at h
    subst h
    rfl
  | cons r rest ih =>
    intro a s h
    simp only [List.map_cons, IsBlockSeq] at h
    obtain ⟨_, hl, _, _, hrest⟩ := h
    rw [List.flatMap_cons, List.length_append, readMem_length, ih _ _ hrest]
    omega

theorem finishTransfer_localRead (x : XferUnit) (b : Nat) (buf : Buffer) (A : Nat)
    (ht : buf.event.type = TransferType.LOCAL_READ)
    (hA : buf.event.remoteAddr.getAddr = some A) :
    XferUnit.finishTransfer x b buf =
      Except.ok { x with
        bufs := x.bufs.set b { buf with free := true }
        actions := x.actions ++
          [XferAction.sendNocRequest (buf.event.flags.contains XferFlag.MESSAGE) A buf.offset
            (peekBytes buf.bytes buf.offset)] } := by
  unfold XferUnit.finishTransfer
  simp only [ht, hA]

/-- The per-block loop of a `LOCAL_READ` transfer in timing mode: it returns with one more
call `sendNocRequest`, whose packet holds the bytes of the buffer before the cursor
followed by the bytes returned for the block requests, in their order. -/
theorem read_loop (tlb : XferUnit.Tlb) (walk : Nat → Nat → NocAddr) (depth k : Nat)
    (hk : k < 64) (htr : TranslatesAll tlb walk) (A : Nat) :
    ∀ (n : Nat) (x : XferUnit) (b : Nat) (buf : Buffer), LoopReady k x b buf →
      buf.event.type = TransferType.LOCAL_READ → buf.event.remoteAddr.getAddr = some A →
      buf.event.size ≤ n → ∀ fuel, 2 * buf.event.size ≤ fuel →
      ∃ (x1 : XferUnit) (reqs : List MemRequest),
        (XferUnit.process (XferUnit.sendMemRequest tlb depth) tlb x b).bind
          (XferUnit.run tlb walk depth fuel) = Except.ok x1 ∧
        x1.memReqs = x.memReqs ++ reqs ∧
        IsBlockSeq (2 ^ k) buf.event.localAddr buf.event.size
          (reqs.map (fun r => (r.virt, r.size))) ∧
        (∀ r, r ∈ reqs → r.writing = false ∧ r.bufId = b) ∧
        x1.events = [] ∧
        x1.actions = x.actions ++
          [XferAction.sendNocRequest (buf.event.flags.contains XferFlag.MESSAGE) A
            (buf.offset + buf.event.size)
            (peekBytes buf.bytes buf.offset ++
              reqs.flatMap (fun r => XferUnit.readMem x.localMem r.addr r.size))] ∧
        ∃ bf : Buffer, x1.bufs[b]? = some bf ∧ bf.free = true := by
  intro n
  induction n with
  | zero =>
    intro x b buf hready _ _ hn
    have := hready.2.2.2.2.2.2.1
    omega
  | succ n ih =>
    intro x b buf hready ht hA hn fuel hf
    have hb := hready.2.2.2.1
    have hid := hready.2.2.2.2.1
    have hs := hready.2.2.2.2.2.2.1
    have hwrap := hready.2.2.2.2.2.2.2.1
    have hlt : b < x.bufs.length := getElem?_lt_of_some hb
    have hr := block_length k buf.event.localAddr buf.event.size hs
    have hl : blockLen k buf = min buf.event.size (2 ^ k - buf.event.localAddr % 2 ^ k) := rfl
    obtain ⟨phys, pa, c, hpa, hc, hproc⟩ := process_translate tlb walk depth k htr x b buf hready
    obtain ⟨f, rfl⟩ : ∃ f, fuel = f + 1 + c := ⟨fuel - 1 - c, by omega⟩
    rw [hproc (f + 1), block_step tlb walk depth k hk x b buf hready phys pa hpa f]
    have hev1 : (Buffer.afterBlock k x buf pa).event.type = TransferType.LOCAL_READ := by
      rw [Buffer.afterBlock_event]; exact ht
    have hA1 : (Buffer.afterBlock k x buf pa).event.remoteAddr.getAddr = some A := by
      rw [Buffer.afterBlock_event]; exact hA
    have hflags : (Buffer.afterBlock k x buf pa).event.flags = buf.event.flags := by
      rw [Buffer.afterBlock_event]
    have hbytes : peekBytes (Buffer.afterBlock k x buf pa).bytes
        (Buffer.afterBlock k x buf pa).offset =
        peekBytes buf.bytes buf.offset ++ XferUnit.readMem x.localMem pa (blockLen k buf) := by
      rw [Buffer.afterBlock_bytes_read k x buf pa ht, Buffer.afterBlock_offset,
        peekBytes_pokeBytes _ _ _ _ (readMem_length _ _ _)]
    have hreq : (XferUnit.nextRequest buf pa (blockLen k buf)).writing = false := by
      simp [XferUnit.nextRequest, ht]
    by_cases hlast : buf.event.size - blockLen k buf = 0
    · rw [if_pos hlast, finishTransfer_localRead _ b _ A hev1 hA1]
      simp only [Except.bind]
      rw [run_nil _ _ _ _ _ rfl]
      refine ⟨_, [XferUnit.nextRequest buf pa (blockLen k buf)], rfl, rfl, ?_, ?_, rfl, ?_, ?_⟩
      · simp only [List.map_cons, List.map_nil, IsBlockSeq, nextRequest_virt,
          nextRequest_size]
        exact ⟨trivial, rfl, hr.1, hr.2.2, hlast⟩
      · intro r hrm
        rw [List.mem_singleton] at hrm
        rw [hrm]
        exact ⟨hreq, hid⟩
      · show x.actions ++ _ = _
        rw [hflags, hbytes, Buffer.afterBlock_offset]
        have : buf.offset + blockLen k buf = buf.offset + buf.event.size := by omega
        rw [this]
        simp [nextRequest_addr, nextRequest_size]
      · exact ⟨_, List.getElem?_set_self (by simpa [XferUnit.afterBlock] using hlt), rfl⟩
    · rw [if_neg hlast]
      have hready1 := afterBlock_ready k x b buf pa hready hlast
      obtain ⟨x1, reqs, hres, hreqs, hseq, hall, hevs, hacts, hfree1⟩ :=
        ih (XferUnit.afterBlock k x b buf pa) b (Buffer.afterBlock k x buf pa) hready1 hev1 hA1
          (by rw [Buffer.afterBlock_event]; show buf.event.size - _ ≤ n; omega) f
          (by rw [Buffer.afterBlock_event]; show 2 * (buf.event.size - _) ≤ f; omega)
      refine ⟨x1, XferUnit.nextRequest buf pa (blockLen k buf) :: reqs, hres, ?_, ?_, ?_, hevs,
        ?_, hfree1⟩
      · rw [hreqs]
        simp [XferUnit.afterBlock]
      · rw [Buffer.afterBlock_event] at hseq
        simp only [List.map_cons, IsBlockSeq, nextRequest_virt, nextRequest_size]
        refine ⟨trivial, rfl, hr.1, hr.2.2, ?_⟩
        have hmod : (buf.event.localAddr + blockLen k buf) % 2 ^ 64 =
            buf.event.localAddr + blockLen k buf := Nat.mod_eq_of_lt (by omega)
        rw [← hmod]
        exact hseq
      · intro r hrm
        rcases List.mem_cons.mp hrm with h1 | h1
        · rw [h1]; exact ⟨hreq, hid⟩
        · exact hall r h1
      · rw [hacts, hflags, hbytes, Buffer.afterBlock_offset]
        have hsz : (Buffer.afterBlock k x buf pa).event.size =
            buf.event.size - blockLen k buf := by rw [Buffer.afterBlock_event]
        rw [hsz]
        have : buf.offset + blockLen k buf + (buf.event.size - blockLen k buf) =
            buf.offset + buf.event.size := by omega
        rw [this]
        simp [XferUnit.afterBlock, nextRequest_addr, nextRequest_size]

theorem startTransfer_localRead (x : XferUnit) (t : Transfer) (b : Nat) (buf0 : Buffer)
    (hev : x.events = []) (hb : x.bufs[b]? = some buf0) (hfree : buf0.free = true)
    (hfirst : ∀ j bj, j < b → x.bufs[j]? = some bj → bj.free = false)
    (hid : buf0.id = b) (hidle : buf0.event.size = 0)
    (htype : t.type = TransferType.LOCAL_READ)
    (hrecv : t.flags.contains XferFlag.MSGRECV = false) :
    ∃ buf1 : Buffer,
      x.startTransfer t =
        Except.ok (true, { x with bufs := x.bufs.set b buf1, events := [XferEvent.process b] }) ∧
      buf1.id = b ∧ buf1.free = false ∧ buf1.event.type = TransferType.LOCAL_READ ∧
      buf1.event.size = t.size ∧ buf1.event.localAddr = t.sourceAddr ∧
      buf1.event.remoteAddr = t.targetAddr ∧
      (∀ header, t.header = some header →
        buf1.offset = sizeofMessageHeader ∧
        peekBytes buf1.bytes sizeofMessageHeader = header.toBytes ∧
        buf1.event.flags.contains XferFlag.MESSAGE = true) ∧
      (t.header = none → buf1.offset = 0 ∧ buf1.event.flags = t.flags) := by
  have hlt : b < x.bufs.length := getElem?_lt_of_some hb
  have halloc := allocateBuf_first_free x (t.flags.contains XferFlag.MSGRECV) b buf0
    (by rw [hrecv]; intro h; cases h) hb hfree hfirst
  have hremote : ¬(t.type = TransferType.REMOTE_READ ∨ t.type = TransferType.REMOTE_WRITE) := by
    rw [htype]; intro h; rcases h with h | h <;> cases h
  unfold XferUnit.startTransfer
  rw [halloc]
  simp only [List.getElem?_set_self hlt, hidle, ne_eq, not_true_eq_false, if_false, hremote,
    List.set_set, hev, List.nil_append]
  cases hh : t.header with
  | some header =>
    refine ⟨_, rfl, hid, rfl, htype, rfl, rfl, rfl, ?_, ?_⟩
    · intro header1 h1
      cases h1
      refine ⟨by simp, ?_, by simp [List.mem_insert_iff]⟩
      have := peekBytes_pokeBytes buf0.bytes 0 header.toBytes sizeofMessageHeader
        (MessageHeader.toBytes_length header)
      rw [Nat.zero_add, peekBytes_zero, List.nil_append] at this
      exact this
    · intro h; cases h
  | none =>
    cases hp : t.pkt with
    | some pkt =>
      refine ⟨_, rfl, hid, rfl, htype, rfl, rfl, rfl, ?_, ?_⟩
      · intro header1 h1; cases h1
      · intro _; exact ⟨rfl, rfl⟩
    | none =>
      refine ⟨_, rfl, hid, rfl, htype, rfl, rfl, rfl, ?_, ?_⟩
      · intro header1 h1; cases h1
      · intro _; exact ⟨rfl, rfl⟩

/-- C31. A `LOCAL_READ` transfer of `s > 0` bytes from the local address `a`, started in
timing mode (block size `2^k`, no event pending, the first free buffer idle) with
`25 + s <= bufSize`, an address range that does not wrap, a remote address that passes
the assertions of `NocAddr::getAddr` and translations that succeed: `startTransfer` and
the event loop return without a failed assertion, and exactly one NoC request is sent. It
goes to the remote address; its payload bytes are the bytes returned for the block
requests in their order, `s` bytes in all, which are the bytes of the local memory from
`a` on in ascending order when the blocks' physical addresses are their local addresses.
Started with a header, the packet has type `MESSAGE`, length `25 + s` and holds the 25
header bytes followed by the payload; started without a header it has length `s`, holds
the payload, and has type `WRITE_REQ` unless the caller passed the `MESSAGE` flag. -/
theorem local_read_packet (tlb : XferUnit.Tlb) (walk : Nat → Nat → NocAddr) (depth k : Nat)
    (x : XferUnit) (t : Transfer) (b : Nat) (buf0 : Buffer) (A : Nat)
    (hk : k < 64) (htr : TranslatesAll tlb walk) (hmode : x.atomicMode = false)
    (hB : x.blockSize = 2 ^ k) (hev : x.events = [])
    (hb : x.bufs[b]? = some buf0) (hfree : buf0.free = true)
    (hfirst : ∀ j bj, j < b → x.bufs[j]? = some bj → bj.free = false)
    (hid : buf0.id = b) (hidle : buf0.event.size = 0)
    (htype : t.type = TransferType.LOCAL_READ)
    (hrecv : t.flags.contains XferFlag.MSGRECV = false)
    (hs : 0 < t.size) (hcap : sizeofMessageHeader + t.size ≤ x.bufSize)
    (hwrap : t.sourceAddr + t.size ≤ 2 ^ 64) (hA : t.targetAddr.getAddr = some A)
    (fuel : Nat) (hfuel : 2 * t.size + 1 ≤ fuel) :
    ∃ (x1 x2 : XferUnit) (reqs : List MemRequest),
      x.startTransfer t = Except.ok (true, x1) ∧
      XferUnit.run tlb walk depth fuel x1 = Except.ok x2 ∧
      x2.memReqs = x.memReqs ++ reqs ∧
      IsBlockSeq (2 ^ k) t.sourceAddr t.size (reqs.map (fun r => (r.virt, r.size))) ∧
      (reqs.flatMap (fun r => XferUnit.readMem x.localMem r.addr r.size)).length = t.size ∧
      ((∀ r, r ∈ reqs → r.addr = r.virt) →
        reqs.flatMap (fun r => XferUnit.readMem x.localMem r.addr r.size) =
          XferUnit.readMem x.localMem t.sourceAddr t.size) ∧
      (∀ header, t.header = some header →
        header.toBytes.length = 25 ∧
        x2.actions = x.actions ++
          [XferAction.sendNocRequest true A (25 + t.size)
            (header.toBytes ++
              reqs.flatMap (fun r => XferUnit.readMem x.localMem r.addr r.size))]) ∧
      (t.header = none →
        x2.actions = x.actions ++
          [XferAction.sendNocRequest (t.flags.contains XferFlag.MESSAGE) A t.size
            (reqs.flatMap (fun r => XferUnit.readMem x.localMem r.addr r.size))]) := by
  have hlt : b < x.bufs.length := getElem?_lt_of_some hb
  obtain ⟨buf1, hstart, hid1, hfree1, htype1, hsize1, haddr1, hrem1, hhdr, hnohdr⟩ :=
    startTransfer_localRead x t b buf0 hev hb hfree hfirst hid hidle htype hrecv
  have h25 : sizeofMessageHeader = 25 := rfl
  have hoff : buf1.offset ≤ sizeofMessageHeader := by
    cases hh : t.header with
    | some header => rw [(hhdr header hh).1]
    | none => rw [(hnohdr hh).1]; omega
  have hready : LoopReady k
      { x with bufs := x.bufs.set b buf1, events := [] } b buf1 := by
    refine ⟨hmode, hB, rfl, List.getElem?_set_self hlt, hid1, hfree1, ?_, ?_, ?_, ?_, ?_⟩
    · rw [hsize1]; exact hs
    · rw [hsize1, haddr1]; exact hwrap
    · rw [hsize1]; show buf1.offset + t.size ≤ x.bufSize; omega
    · intro _; rw [hrem1, hA]; rfl
    · intro h; rw [htype1] at h; rcases h with h | h <;> cases h
  obtain ⟨f, rfl⟩ : ∃ f, fuel = f + 1 := ⟨fuel - 1, by omega⟩
  obtain ⟨x2, reqs, hres, hreqs, hseq, _, _, hacts, _⟩ :=
    read_loop tlb walk depth k hk htr A buf1.event.size _ b buf1 hready htype1
      (by rw [hrem1]; exact hA) (Nat.le_refl _) f (by rw [hsize1]; omega)
  rw [hsize1, haddr1] at hseq
  rw [hsize1] at hacts
  refine ⟨_, x2, reqs, hstart, ?_, hreqs, hseq, flatMap_readMem_length _ _ _ _ _ hseq,
    readMem_blocks _ _ _ _ _ hseq, ?_, ?_⟩
  · rw [run_cons tlb walk depth f _ (XferEvent.process b) [] rfl]
    simp only [XferUnit.step]
    exact hres
  · intro header hh
    obtain ⟨ho, hbytes, hmsg⟩ := hhdr header hh
    refine ⟨by rw [MessageHeader.toBytes_length]; rfl, ?_⟩
    rw [hacts, hmsg, ho, hbytes]
    rfl
  · intro hh
    obtain ⟨ho, hflags⟩ := hnohdr hh
    rw [hacts, ho, hflags, peekBytes_zero, Nat.zero_add, List.nil_append]

theorem local_read_packet_witness :
    ∃ (x1 x2 : XferUnit) (reqs : List MemRequest),
      memPool.startTransfer memTransfer = Except.ok (true, x1) ∧
      XferUnit.run none zeroWalk 0 141 x1 = Except.ok x2 ∧
      x2.memReqs = memPool.memReqs ++ reqs ∧
      IsBlockSeq (2 ^ 6) memTransfer.sourceAddr memTransfer.size
        (reqs.map (fun r => (r.virt, r.size))) ∧
      (reqs.flatMap (fun r => XferUnit.readMem memPool.localMem r.addr r.size)).length =
        memTransfer.size ∧
      ((∀ r, r ∈ reqs → r.addr = r.virt) →
        reqs.flatMap (fun r => XferUnit.readMem memPool.localMem r.addr r.size) =
          XferUnit.readMem memPool.localMem memTransfer.sourceAddr memTransfer.size) ∧
      (∀ header, memTransfer.header = some header →
        header.toBytes.length = 25 ∧
        x2.actions = memPool.actions ++
          [XferAction.sendNocRequest true (2 ^ 59 + 7 * 2 ^ 49 + 4) (25 + memTransfer.size)
            (header.toBytes ++
              reqs.flatMap (fun r => XferUnit.readMem memPool.localMem r.addr r.size))]) ∧
      (memTransfer.header = none →
        x2.actions = memPool.actions ++
          [XferAction.sendNocRequest (memTransfer.flags.contains XferFlag.MESSAGE)
            (2 ^ 59 + 7 * 2 ^ 49 + 4) memTransfer.size
            (reqs.flatMap (fun r => XferUnit.readMem memPool.localMem r.addr r.size))]) :=
  local_read_packet none zeroWalk 0 6 memPool memTransfer 0 { id := 0 }
    (2 ^ 59 + 7 * 2 ^ 49 + 4) (by decide)
    ⟨fun _ _ => NocAddr.getAddr_ofAddr_isSome 0, fun _ h => by cases h⟩ rfl rfl rfl rfl rfl
    (fun j bj hj _ => by omega) rfl rfl rfl rfl (by decide) (by decide) (by decide)
    (by
      have h := NocAddr.getAddr_ofTuple 7 0 4 (by decide) (by decide) (by decide)
      rw [show memTransfer.targetAddr = NocAddr.ofTuple 7 0 4 from rfl, h]
      norm_num)
    141 (by decide)

/-- The transfer of the witness, evaluated: two block requests of 16 and 54 bytes, and one
message of 95 bytes that holds the header bytes followed by the bytes 1 to 70 of the local
memory. -/
theorem local_read_example :
    (memPool.startTransfer memTransfer).map (fun r => XferUnit.run none zeroWalk 0 141 r.2) =
      Except.ok (Except.ok memDonePool) ∧
    memDonePool.memReqs.map (fun r => (r.virt, r.size)) = [(0x530, 16), (0x540, 54)] ∧
    memDonePool.actions =
      [XferAction.sendNocRequest true (2 ^ 59 + 7 * 2 ^ 49 + 4) 95
        (memHeader.toBytes ++ (List.range 70).map (fun i => i + 1))] ∧
    memHeader.toBytes = [4, 0, 0, 3, 2, 70, 0, 5, 0, 0xAA, 0, 0, 0, 0, 0, 0, 0,
      0xBB, 0, 0, 0, 0, 0, 0, 0] := by
  refine ⟨?_, ?_, ?_, ?_⟩ <;> rfl

/-! ## C40: page tables built by `mapPage` and the functional walk -/

theorem Layout.idx_eq (c : DtuTlb.Layout) (virt level : Nat) :
    c.idx virt level = virt / 2 ^ (12 + level * c.LEVEL_BITS) % 2 ^ c.LEVEL_BITS := by
  unfold DtuTlb.Layout.idx DtuTlb.Layout.LEVEL_MASK
  rw [Nat.one_shiftLeft, Nat.and_pow_two_sub_one_eq_mod, Nat.shiftRight_eq_div_pow]
  rfl

theorem Layout.idx_lt (c : DtuTlb.Layout) (virt level : Nat) :
    c.idx virt level < 2 ^ c.LEVEL_BITS := by
  rw [Layout.idx_eq]
  exact Nat.mod_lt _ (Nat.pow_pos (by decide))

theorem Layout.idx_page (c : DtuTlb.Layout) (v virt level : Nat)
    (h : v >>> DtuTlb.PAGE_BITS = virt >>> DtuTlb.PAGE_BITS) :
    c.idx v level = c.idx virt level := by
  unfold DtuTlb.Layout.idx
  rw [Nat.shiftRight_add, Nat.shiftRight_add, h]

theorem Layout.slot_lt (c : DtuTlb.Layout) (hwf : c.WellFormed) (i : Nat)
    (hi : i < 2 ^ c.LEVEL_BITS) : i * 2 ^ c.PTE_BITS < 2 ^ 12 := by
  have h1 : i * 2 ^ c.PTE_BITS < 2 ^ c.LEVEL_BITS * 2 ^ c.PTE_BITS :=
    Nat.mul_lt_mul_of_pos_right hi (Nat.pow_pos (by decide))
  rw [← Nat.pow_add] at h1
  have h2 : 2 ^ (c.LEVEL_BITS + c.PTE_BITS) ≤ 2 ^ 12 :=
    Nat.pow_le_pow_right (by decide) hwf.2.2.1
  omega

/-- The address of an entry of the table in frame `f`. -/
theorem pteAddr_frame (s : M3X86System.PtEnv) (hwf : s.layout.WellFormed)
    (hpe : s.memPe < 2 ^ 10) (f virt n : Nat)
    (hb : s.memOffset + f * 2 ^ 12 + 2 ^ 12 ≤ 2 ^ 37) :
    s.layout.pteAddr (s.frameAddr f) virt n =
      s.frameAddr f + s.layout.idx virt n * 2 ^ s.layout.PTE_BITS := by
  have h1 := Layout.slot_lt s.layout hwf _ (Layout.idx_lt s.layout virt n)
  unfold DtuTlb.Layout.pteAddr M3X86System.PtEnv.frameAddr
  rw [Nat.shiftLeft_eq]
  generalize s.layout.idx virt n * 2 ^ s.layout.PTE_BITS = x at h1 ⊢
  omega

theorem frame_disjoint (s : M3X86System.PtEnv) (f g x p : Nat) (hfg : f ≠ g)
    (hx : x < 2 ^ 12) (hp : p = s.frameAddr f + x) :
    ¬(s.frameAddr g ≤ p ∧ p < s.frameAddr g + 2 ^ 12) := by
  unfold M3X86System.PtEnv.frameAddr at hp ⊢
  omega

theorem frame_slot_inj (s : M3X86System.PtEnv) (hwf : s.layout.WellFormed)
    (f g i j : Nat) (hi : i < 2 ^ s.layout.LEVEL_BITS) (hj : j < 2 ^ s.layout.LEVEL_BITS)
    (h : s.frameAddr f + i * 2 ^ s.layout.PTE_BITS =
      s.frameAddr g + j * 2 ^ s.layout.PTE_BITS) : f = g ∧ i = j := by
  have h1 := Layout.slot_lt s.layout hwf i hi
  have h2 := Layout.slot_lt s.layout hwf j hj
  have hfg : f = g := by
    unfold M3X86System.PtEnv.frameAddr at h
    generalize i * 2 ^ s.layout.PTE_BITS = x at h h1
    generalize j * 2 ^ s.layout.PTE_BITS = y at h h2
    omega
  subst hfg
  refine ⟨rfl, ?_⟩
  have h3 : i * 2 ^ s.layout.PTE_BITS = j * 2 ^ s.layout.PTE_BITS := by omega
  exact Nat.eq_of_mul_eq_mul_right (Nat.pow_pos (by decide)) h3

theorem frameAddr_aligned (s : M3X86System.PtEnv) (hmo : s.memOffset % 2 ^ 12 = 0) (f : Nat)
    (hb : s.memOffset + f * 2 ^ 12 + 2 ^ 12 ≤ 2 ^ 37) (hpe : s.memPe < 2 ^ 10) :
    ((s.frameAddr f >>> DtuTlb.PAGE_BITS) <<< DtuTlb.PAGE_BITS) % 2 ^ 64 = s.frameAddr f := by
  rw [Nat.shiftRight_eq_div_pow, Nat.shiftLeft_eq]
  show s.frameAddr f / 2 ^ 12 * 2 ^ 12 % 2 ^ 64 = s.frameAddr f
  unfold M3X86System.PtEnv.frameAddr
  omega

theorem testBit_notBits64 (y i : Nat) :
    (notBits 64 y).testBit i = (decide (i < 64) && !y.testBit i) := by
  have hlt : y % 2 ^ 64 < 2 ^ 64 := Nat.mod_lt _ (by decide)
  have hsub : 2 ^ 64 - 1 - y % 2 ^ 64 = 2 ^ 64 - (y % 2 ^ 64 + 1) := by omega
  unfold notBits
  rw [hsub, Nat.testBit_two_pow_sub_succ hlt, Nat.testBit_mod_two_pow]
  by_cases h : i < 64 <;> simp [h]

/-- The assertion on the offset in `NocAddr::getAddr`: it passes only for offsets of at
most 37 bits. -/
theorem getAddr_ofTuple_inv (c o a : Nat) (hc : c < 2 ^ 10) (ho : o < 2 ^ 64)
    (h : (NocAddr.ofTuple c 0 o).getAddr = some a) :
    o < 2 ^ 37 ∧ a = 2 ^ 59 + c * 2 ^ 49 + o := by
  by_cases h37 : o < 2 ^ 37
  · rw [NocAddr.getAddr_ofTuple c 0 o hc (by decide) h37] at h
    simp only [Option.some.injEq] at h
    exact ⟨h37, by omega⟩
  · exfalso
    obtain ⟨i, hi, hbit⟩ := Nat.ge_two_pow_implies_high_bit_true (Nat.le_of_not_lt h37)
    have hi64 : i < 64 := by
      by_contra hc64
      have : o < 2 ^ i := Nat.lt_of_lt_of_le ho (Nat.pow_le_pow_right (by decide) (by omega))
      rw [Nat.testBit_lt_two_pow this] at hbit
      cases hbit
    have hne : o &&& notBits 64 ((1 <<< OFFSET_BITS) - 1) ≠ 0 := by
      intro hz
      have := congrArg (fun n => n.testBit i) hz
      simp only [Nat.testBit_and, testBit_notBits64, hbit, hi64, Nat.zero_testBit,
        decide_True, Bool.true_and] at this
      have hm : ((1 <<< OFFSET_BITS) - 1 : Nat).testBit i = false := by
        apply Nat.testBit_lt_two_pow
        have : (1 <<< OFFSET_BITS) - 1 < 2 ^ 37 := by decide
        exact Nat.lt_of_lt_of_le this (Nat.pow_le_pow_right (by decide) hi)
      rw [hm] at this
      simp at this
    unfold NocAddr.getAddr at h
    simp only [NocAddr.ofTuple] at h
    rw [if_neg (by
      have := and_notBits_eq_zero_of_lt 32 10 c (by decide) hc
      simpa using this), if_neg (by decide), if_pos hne] at h
    cases h

/-- An address inside a table frame is left unchanged by `NocAddr(addr).getAddr()`. -/
theorem createPacket_frame (s : M3X86System.PtEnv) (hwf : s.layout.WellFormed)
    (hpe : s.memPe < 2 ^ 10) (f virt n : Nat)
    (hb : s.memOffset + f * 2 ^ 12 + 2 ^ 12 ≤ 2 ^ 37) :
    PtUnit.createPacket s.layout virt (s.frameAddr f) n =
      some (s.frameAddr f + s.layout.idx virt n * 2 ^ s.layout.PTE_BITS) := by
  have h1 := Layout.slot_lt s.layout hwf _ (Layout.idx_lt s.layout virt n)
  unfold PtUnit.createPacket
  rw [pteAddr_frame s hwf hpe f virt n hb]
  generalize s.layout.idx virt n * 2 ^ s.layout.PTE_BITS = x at h1 ⊢
  have ho : s.memOffset + f * 2 ^ 12 + x < 2 ^ 37 := by omega
  have ha : s.frameAddr f + x =
      2 ^ 59 + s.memPe * 2 ^ 49 + 0 * 2 ^ 38 + (s.memOffset + f * 2 ^ 12 + x) := by
    unfold M3X86System.PtEnv.frameAddr
    omega
  rw [ha, NocAddr.ofAddr_packed s.memPe 0 _ hpe (by decide) ho]
  exact NocAddr.getAddr_ofTuple s.memPe 0 _ hpe (by decide) ho

theorem mapLevel_cases (s : M3X86System.PtEnv) (hwf : s.layout.WellFormed)
    (hpe : s.memPe < 2 ^ 10) (hmo : s.memOffset % 2 ^ 12 = 0)
    (virt phys access m : Nat) (st st1 : M3X86System.PageTables) (f p pt1 : Nat)
    (hb : s.memOffset + f * 2 ^ 12 + 2 ^ 12 ≤ 2 ^ 37) (hnf : st.nextFrame < 2 ^ 20)
    (hp : p = s.frameAddr f + s.layout.idx virt m * 2 ^ s.layout.PTE_BITS)
    (h : M3X86System.mapLevel s virt phys access m st (s.frameAddr f) = some (st1, pt1)) :
    ((st.mem p).ixwr ≠ 0 ∧ 0 < m ∧ st1 = st ∧
      pt1 = ((st.mem p).base <<< DtuTlb.PAGE_BITS) % 2 ^ 64) ∨
    ((st.mem p).ixwr = 0 ∧ m = 0 ∧
      ∃ A, (NocAddr.ofTuple s.memPe 0 ((s.memOffset + phys) % 2 ^ 64)).getAddr = some A ∧
        st1 = { mem := pteWrite st.mem p
                  { base := A >>> DtuTlb.PAGE_BITS, ixwr := access % 2 ^ 4 },
                nextFrame := st.nextFrame } ∧
        pt1 = ((A >>> DtuTlb.PAGE_BITS) <<< DtuTlb.PAGE_BITS) % 2 ^ 64) ∨
    ((st.mem p).ixwr = 0 ∧ 0 < m ∧
      s.memOffset + st.nextFrame * 2 ^ 12 + 2 ^ 12 ≤ 2 ^ 37 ∧
      st1 = { mem := pteWrite (pteMemset st.mem (s.frameAddr st.nextFrame) (2 ^ 12)) p
                { base := s.frameAddr st.nextFrame >>> DtuTlb.PAGE_BITS,
                  ixwr := DtuTlb.RWX % 2 ^ 4 },
              nextFrame := st.nextFrame + 1 } ∧
      pt1 = s.frameAddr st.nextFrame) := by
  unfold M3X86System.mapLevel at h
  rw [pteAddr_frame s hwf hpe f virt m hb, ← hp] at h
  simp only at h
  by_cases hz : (st.mem p).ixwr = 0
  · by_cases hm : m = 0
    · right; left
      subst hm
      simp only [hz, ne_eq, not_true_eq_false, and_false, if_false, if_true,
        Nat.lt_irrefl] at h
      cases hg : (NocAddr.ofTuple s.memPe 0 ((s.memOffset + phys) % 2 ^ 64)).getAddr with
      | none => rw [hg] at h; cases h
      | some A =>
        rw [hg] at h
        simp only [Option.some.injEq, Prod.mk.injEq] at h
        exact ⟨hz, rfl, A, rfl, h.1.symm, h.2.symm⟩
    · right; right
      have hm0 : 0 < m := Nat.pos_of_ne_zero hm
      simp only [hz, hm, ne_eq, not_true_eq_false, and_false, false_and, if_false, if_true,
        hm0] at h
      have hsh : (st.nextFrame <<< DtuTlb.PAGE_BITS) % 2 ^ 32 = st.nextFrame * 2 ^ 12 := by
        rw [Nat.shiftLeft_eq]
        show st.nextFrame * 2 ^ 12 % 2 ^ 32 = _
        omega
      have hnext : (st.nextFrame + 1) % 2 ^ 32 = st.nextFrame + 1 := by omega
      rw [hsh, hnext] at h
      cases hg : (NocAddr.ofTuple s.memPe 0
          ((s.memOffset + st.nextFrame * 2 ^ 12) % 2 ^ 64)).getAddr with
      | none => rw [hg] at h; cases h
      | some a =>
        obtain ⟨ho, ha⟩ := getAddr_ofTuple_inv s.memPe _ a hpe (Nat.mod_lt _ (by decide)) hg
        have hmod : (s.memOffset + st.nextFrame * 2 ^ 12) % 2 ^ 64 =
            s.memOffset + st.nextFrame * 2 ^ 12 := by omega
        rw [hmod] at ho ha
        have hbn : s.memOffset + st.nextFrame * 2 ^ 12 + 2 ^ 12 ≤ 2 ^ 37 := by omega
        have hfa : a = s.frameAddr st.nextFrame := by
          rw [ha]; unfold M3X86System.PtEnv.frameAddr; omega
        rw [hg] at h
        simp only [Option.some.injEq, Prod.mk.injEq] at h
        rw [hfa] at h
        refine ⟨hz, hm0, hbn, h.1.symm, ?_⟩
        rw [← h.2]
        exact frameAddr_aligned s hmo _ hbn hpe
  · left
    have hm0 : 0 < m := by
      by_contra hc
      have : m = 0 := by omega
      subst this
      simp [hz] at h
    have hm : m ≠ 0 := by omega
    simp only [hz, hm, false_and, if_false, Option.some.injEq, Prod.mk.injEq] at h
    exact ⟨hz, hm0, h.1.symm, h.2.symm⟩

theorem IsTable.mono {n0 nf nf1 f : Nat} (h : M3X86System.IsTable n0 nf f) (hle : nf ≤ nf1) :
    M3X86System.IsTable n0 nf1 f := by
  rcases h with h | h
  · exact Or.inl h
  · exact Or.inr ⟨h.1, by omega⟩

/-- A leaf entry written into a table of level 0 keeps the invariant. -/
theorem ptInv_leaf (s : M3X86System.PtEnv) (hwf : s.layout.WellFormed) (n0 : Nat)
    (st : M3X86System.PageTables) (lvl : Nat → Nat) (inv : M3X86System.PtInv s n0 st lvl)
    (f i : Nat) (hi : i < 2 ^ s.layout.LEVEL_BITS) (hl : lvl f = 0) (e : PageTableEntry) :
    M3X86System.PtInv s n0
      { mem := pteWrite st.mem (s.frameAddr f + i * 2 ^ s.layout.PTE_BITS) e,
        nextFrame := st.nextFrame } lvl := by
  refine ⟨inv.n0_pos, inv.n0_le, inv.bound, inv.root_lvl, ?_⟩
  intro f1 i1 hf1 hi1 hl1
  have hne : s.frameAddr f1 + i1 * 2 ^ s.layout.PTE_BITS ≠
      s.frameAddr f + i * 2 ^ s.layout.PTE_BITS := by
    intro hc
    have := (frame_slot_inj s hwf f1 f i1 i hi1 hi hc).1
    rw [this] at hl1
    omega
  show (pteWrite st.mem _ e _).ixwr ≠ 0 → _
  simp only [pteWrite, hne, if_false]
  exact inv.entries f1 i1 hf1 hi1 hl1

/-- A fresh table handed out for a free entry of a table above level 0 keeps the
invariant, with the new frame one level below. -/
theorem ptInv_alloc (s : M3X86System.PtEnv) (hwf : s.layout.WellFormed)
    (hpe : s.memPe < 2 ^ 10) (hmo : s.memOffset % 2 ^ 12 = 0) (n0 : Nat)
    (st : M3X86System.PageTables) (lvl : Nat → Nat) (inv : M3X86System.PtInv s n0 st lvl)
    (f i : Nat) (hf : M3X86System.IsTable n0 st.nextFrame f)
    (hi : i < 2 ^ s.layout.LEVEL_BITS) (hl : 0 < lvl f)
    (hbn : s.memOffset + st.nextFrame * 2 ^ 12 + 2 ^ 12 ≤ 2 ^ 37) :
    M3X86System.PtInv s n0
      { mem := pteWrite (pteMemset st.mem (s.frameAddr st.nextFrame) (2 ^ 12))
                (s.frameAddr f + i * 2 ^ s.layout.PTE_BITS)
                { base := s.frameAddr st.nextFrame >>> DtuTlb.PAGE_BITS,
                  ixwr := DtuTlb.RWX % 2 ^ 4 },
        nextFrame := st.nextFrame + 1 }
      (fun g => if g = st.nextFrame then lvl f - 1 else lvl g) := by
  have hn0 := inv.n0_pos
  have hn0le := inv.n0_le
  have hfne : f ≠ st.nextFrame := by
    rcases hf with h | h <;> omega
  refine ⟨inv.n0_pos, Nat.le_succ_of_le inv.n0_le, ?_, ?_, ?_⟩
  · intro g hg
    rcases hg with h | ⟨h1, h2⟩
    · exact inv.bound g (Or.inl h)
    · by_cases hgn : g = st.nextFrame
      · rw [hgn]; exact hbn
      · exact inv.bound g (Or.inr ⟨h1, by
          show g < st.nextFrame
          have : g < st.nextFrame + 1 := h2
          omega⟩)
  · show (if 0 = st.nextFrame then lvl f - 1 else lvl 0) + 1 = _
    rw [if_neg (by omega)]
    exact inv.root_lvl
  · intro f1 i1 hf1 hi1 hl1
    show (pteWrite (pteMemset st.mem _ _) _ _ _).ixwr ≠ 0 → _
    have hx1 := Layout.slot_lt s.layout hwf i1 hi1
    by_cases hsame : s.frameAddr f1 + i1 * 2 ^ s.layout.PTE_BITS =
        s.frameAddr f + i * 2 ^ s.layout.PTE_BITS
    · obtain ⟨hff, hii⟩ := frame_slot_inj s hwf f1 f i1 i hi1 hi hsame
      subst hff
      subst hii
      intro _
      simp only [pteWrite, if_true]
      refine ⟨by decide, st.nextFrame, hn0le, Nat.lt_succ_self _, ?_, ?_⟩
      · exact frameAddr_aligned s hmo _ hbn hpe
      · show (if st.nextFrame = st.nextFrame then lvl f1 - 1 else lvl st.nextFrame) + 1 =
          (if f1 = st.nextFrame then lvl f1 - 1 else lvl f1)
        rw [if_pos rfl, if_neg hfne]
        omega
    · simp only [pteWrite, hsame, if_false]
      by_cases hnew : f1 = st.nextFrame
      · subst hnew
        intro hc
        exfalso
        apply hc
        have hin : s.frameAddr st.nextFrame ≤
            s.frameAddr st.nextFrame + i1 * 2 ^ s.layout.PTE_BITS ∧
            s.frameAddr st.nextFrame + i1 * 2 ^ s.layout.PTE_BITS <
              s.frameAddr st.nextFrame + 2 ^ 12 := by omega
        simp only [pteMemset, hin, and_self, if_true]
      · have hold : M3X86System.IsTable n0 st.nextFrame f1 := by
          rcases hf1 with h | ⟨h1, h2⟩
          · exact Or.inl h
          · exact Or.inr ⟨h1, by
              have : f1 < st.nextFrame + 1 := h2
              omega⟩
        have hout := frame_disjoint s f1 st.nextFrame _ _ hnew hx1 rfl
        have hl1' : 0 < lvl f1 := by
          have : (if f1 = st.nextFrame then lvl f - 1 else lvl f1) = lvl f1 := if_neg hnew
          rw [← this]; exact hl1
        simp only [pteMemset, hout, if_false]
        intro hnz
        obtain ⟨h1, g, hg1, hg2, hg3, hg4⟩ := inv.entries f1 i1 hold hi1 hl1' hnz
        refine ⟨h1, g, hg1, Nat.lt_succ_of_lt hg2, hg3, ?_⟩
        show (if g = st.nextFrame then lvl f - 1 else lvl g) + 1 =
          (if f1 = st.nextFrame then lvl f - 1 else lvl f1)
        rw [if_neg (by omega), if_neg hnew]
        exact hg4

theorem keepsEntries_refl (s : M3X86System.PtEnv) (st : M3X86System.PageTables) :
    M3X86System.KeepsEntries s st st := fun _ _ _ => rfl

theorem keepsEntries_trans {s : M3X86System.PtEnv} {st st1 st2 : M3X86System.PageTables}
    (h1 : M3X86System.KeepsEntries s st st1) (h2 : M3X86System.KeepsEntries s st1 st2)
    (hle1 : st.nextFrame ≤ st1.nextFrame) (hle2 : st1.nextFrame ≤ st2.nextFrame) :
    M3X86System.KeepsEntries s st st2 := by
  intro p hp hout
  have e1 : st1.mem p = st.mem p := h1 p hp (fun g hg1 hg2 => hout g hg1 (by omega))
  have e2 : st2.mem p = st1.mem p :=
    h2 p (by rw [e1]; exact hp) (fun g hg1 hg2 => hout g (by omega) hg2)
  rw [e2, e1]

theorem keepsEntries_leaf (s : M3X86System.PtEnv) (st : M3X86System.PageTables) (p : Nat)
    (e : PageTableEntry) (hz : (st.mem p).ixwr = 0) :
    M3X86System.KeepsEntries s st
      { mem := pteWrite st.mem p e, nextFrame := st.nextFrame } := by
  intro q hq _
  have hne : q ≠ p := by
    intro hc; rw [hc] at hq; exact hq hz
  show pteWrite st.mem p e q = _
  simp only [pteWrite, hne, if_false]

theorem keepsEntries_alloc (s : M3X86System.PtEnv) (st : M3X86System.PageTables) (p : Nat)
    (e : PageTableEntry) (hz : (st.mem p).ixwr = 0) :
    M3X86System.KeepsEntries s st
      { mem := pteWrite (pteMemset st.mem (s.frameAddr st.nextFrame) (2 ^ 12)) p e,
        nextFrame := st.nextFrame + 1 } := by
  intro q hq hout
  have hne : q ≠ p := by
    intro hc; rw [hc] at hq; exact hq hz
  have hfr := hout st.nextFrame (Nat.le_refl _) (Nat.lt_succ_self _)
  show pteWrite (pteMemset st.mem _ _) p e q = _
  simp only [pteWrite, hne, if_false, pteMemset, hfr]

/-- The loop of `mapPage` from a table of level `m` down: it keeps the invariant, hands out
at most `m` frames, leaves the used entries of older frames as they are, and the entries
on the way of `virt` lead to the page that the last entry names. -/
theorem mapLevels_spec (s : M3X86System.PtEnv) (hwf : s.layout.WellFormed)
    (hpe : s.memPe < 2 ^ 10) (hmo : s.memOffset % 2 ^ 12 = 0) (n0 virt phys access : Nat) :
    ∀ (m : Nat) (st st1 : M3X86System.PageTables) (lvl : Nat → Nat) (f : Nat),
      M3X86System.PtInv s n0 st lvl → M3X86System.IsTable n0 st.nextFrame f → lvl f = m →
      st.nextFrame + m < 2 ^ 20 →
      M3X86System.mapLevels s virt phys access (m + 1) st (s.frameAddr f) = some st1 →
      ∃ (lvl1 : Nat → Nat) (A : Nat), M3X86System.PtInv s n0 st1 lvl1 ∧
        st.nextFrame ≤ st1.nextFrame ∧ st1.nextFrame ≤ st.nextFrame + m ∧
        M3X86System.KeepsEntries s st st1 ∧
        (NocAddr.ofTuple s.memPe 0 ((s.memOffset + phys) % 2 ^ 64)).getAddr = some A ∧
        M3X86System.WalkPath s n0 st1.nextFrame st1.mem virt
          (((A >>> DtuTlb.PAGE_BITS) <<< DtuTlb.PAGE_BITS) % 2 ^ 64) (access % 2 ^ 4)
          (m + 1) (s.frameAddr f) := by
  intro m
  induction m with
  | zero =>
    intro st st1 lvl f inv hf hl hnf h
    have hb := inv.bound f hf
    simp only [M3X86System.mapLevels] at h
    cases hml : M3X86System.mapLevel s virt phys access 0 st (s.frameAddr f) with
    | none => rw [hml] at h; cases h
    | some r =>
      obtain ⟨st2, pt1⟩ := r
      rw [hml] at h
      simp only [Option.some.injEq] at h
      subst h
      rcases mapLevel_cases s hwf hpe hmo virt phys access 0 st st2 f _ pt1 hb (by omega) rfl
        hml with ⟨_, h0, _⟩ | ⟨hz, _, A, hA, hst, hpt⟩ | ⟨_, h0, _⟩
      · omega
      · subst hst
        refine ⟨lvl, A, ptInv_leaf s hwf n0 st lvl inv f _ (Layout.idx_lt _ _ _) hl _,
          Nat.le_refl _, Nat.le_refl _, keepsEntries_leaf s st _ _ hz, hA, ?_⟩
        refine ⟨f, hf, rfl, ?_, ?_⟩
        · rw [pteAddr_frame s hwf hpe f virt 0 hb]
          simp [pteWrite]
        · rw [pteAddr_frame s hwf hpe f virt 0 hb]
          simp [pteWrite, M3X86System.WalkPath]
      · omega
  | succ m ih =>
    intro st st1 lvl f inv hf hl hnf h
    have hb := inv.bound f hf
    have hn0 := inv.n0_pos
    have hn0le := inv.n0_le
    have hx := Layout.slot_lt s.layout hwf _ (Layout.idx_lt s.layout virt (m + 1))
    rw [M3X86System.mapLevels] at h
    cases hml : M3X86System.mapLevel s virt phys access (m + 1) st (s.frameAddr f) with
    | none => rw [hml] at h; cases h
    | some r =>
      obtain ⟨st2, pt1⟩ := r
      rw [hml] at h
      simp only at h
      have hold : ∀ g, st.nextFrame ≤ g →
          ¬(s.frameAddr g ≤ s.frameAddr f +
              s.layout.idx virt (m + 1) * 2 ^ s.layout.PTE_BITS ∧
            s.frameAddr f + s.layout.idx virt (m + 1) * 2 ^ s.layout.PTE_BITS <
              s.frameAddr g + 2 ^ 12) := by
        intro g hg
        apply frame_disjoint s f g _ _ _ hx rfl
        rcases hf with h0 | h0 <;> omega
      rcases mapLevel_cases s hwf hpe hmo virt phys access (m + 1) st st2 f _ pt1 hb
        (by omega) rfl hml with ⟨hnz, _, hst, hpt⟩ | ⟨_, h0, _⟩ | ⟨hz, _, hbn, hst, hpt⟩
      · subst hst
        obtain ⟨hrwx, g, hg1, hg2, hg3, hg4⟩ :=
          inv.entries f _ hf (Layout.idx_lt s.layout virt (m + 1)) (by omega) hnz
        rw [hg3] at hpt
        subst hpt
        obtain ⟨lvl1, A, inv1, hle1, hle2, hkeep, hA, hpath⟩ :=
          ih st2 st1 lvl g inv (Or.inr ⟨hg1, hg2⟩) (by omega) (by omega) h
        refine ⟨lvl1, A, inv1, hle1, by omega, hkeep, hA, ?_⟩
        have hsame := hkeep _ hnz (fun g1 h1 _ => hold g1 h1)
        refine ⟨f, IsTable.mono hf hle1, rfl, ?_, ?_⟩
        · rw [pteAddr_frame s hwf hpe f virt (m + 1) hb, hsame, hrwx]
          simp
        · rw [pteAddr_frame s hwf hpe f virt (m + 1) hb, hsame, hg3]
          exact hpath
      · omega
      · subst hst
        subst hpt
        have inv2 := ptInv_alloc s hwf hpe hmo n0 st lvl inv f _ hf
          (Layout.idx_lt s.layout virt (m + 1)) (by omega) hbn
        obtain ⟨lvl1, A, inv1, hle1, hle2, hkeep, hA, hpath⟩ :=
          ih _ st1 _ st.nextFrame inv2 (Or.inr ⟨hn0le, Nat.lt_succ_self _⟩)
            (by
              show (if st.nextFrame = st.nextFrame then lvl f - 1 else lvl st.nextFrame) = m
              rw [if_pos rfl]; omega)
            (by show st.nextFrame + 1 + m < 2 ^ 20; omega) h
        have hle1' : st.nextFrame + 1 ≤ st1.nextFrame := hle1
        have hle2' : st1.nextFrame ≤ st.nextFrame + 1 + m := hle2
        refine ⟨lvl1, A, inv1, by omega, by omega,
          keepsEntries_trans (keepsEntries_alloc s st _ _ hz) hkeep (Nat.le_succ _) hle1', hA, ?_⟩
        have hnew : (pteWrite (pteMemset st.mem (s.frameAddr st.nextFrame) (2 ^ 12))
            (s.frameAddr f + s.layout.idx virt (m + 1) * 2 ^ s.layout.PTE_BITS)
            { base := s.frameAddr st.nextFrame >>> DtuTlb.PAGE_BITS,
              ixwr := DtuTlb.RWX % 2 ^ 4 }
            (s.frameAddr f + s.layout.idx virt (m + 1) * 2 ^ s.layout.PTE_BITS)) =
            { base := s.frameAddr st.nextFrame >>> DtuTlb.PAGE_BITS,
              ixwr := DtuTlb.RWX % 2 ^ 4 } := by
          simp [pteWrite]
        have hsame := hkeep (s.frameAddr f + s.layout.idx virt (m + 1) * 2 ^ s.layout.PTE_BITS)
          (by
            show (pteWrite _ _ _ _).ixwr ≠ 0
            rw [hnew]
            show DtuTlb.RWX % 2 ^ 4 ≠ 0
            decide)
          (fun g1 h1 _ => hold g1 (by
            have : st.nextFrame + 1 ≤ g1 := h1
            omega))
        have hsame' : st1.mem (s.frameAddr f +
            s.layout.idx virt (m + 1) * 2 ^ s.layout.PTE_BITS) =
            { base := s.frameAddr st.nextFrame >>> DtuTlb.PAGE_BITS,
              ixwr := DtuTlb.RWX % 2 ^ 4 } := by
          rw [hsame]; exact hnew
        refine ⟨f, IsTable.mono hf (by omega), rfl, ?_, ?_⟩
        · rw [pteAddr_frame s hwf hpe f virt (m + 1) hb, hsame']
          simp
          decide
        · rw [pteAddr_frame s hwf hpe f virt (m + 1) hb, hsame']
          show M3X86System.WalkPath s n0 st1.nextFrame st1.mem virt _ _ (m + 1)
            (((s.frameAddr st.nextFrame >>> DtuTlb.PAGE_BITS) <<< DtuTlb.PAGE_BITS) % 2 ^ 64)
          rw [frameAddr_aligned s hmo _ hbn hpe]
          exact hpath

theorem getRootPt_frame (s : M3X86System.PtEnv) (hpe : s.memPe < 2 ^ 10)
    (hb : s.memOffset + 0 * 2 ^ 12 + 2 ^ 12 ≤ 2 ^ 37) :
    (M3X86System.getRootPt s).getAddr = some (s.frameAddr 0) := by
  unfold M3X86System.getRootPt
  rw [NocAddr.getAddr_ofTuple s.memPe 0 s.memOffset hpe (by decide) (by omega)]
  unfold M3X86System.PtEnv.frameAddr
  apply congrArg
  omega

theorem mapPage_spec (s : M3X86System.PtEnv) (hwf : s.layout.WellFormed)
    (hpe : s.memPe < 2 ^ 10) (hmo : s.memOffset % 2 ^ 12 = 0) (n0 virt phys access : Nat)
    (st st1 : M3X86System.PageTables) (lvl : Nat → Nat)
    (inv : M3X86System.PtInv s n0 st lvl)
    (hnf : st.nextFrame + s.layout.LEVEL_CNT ≤ 2 ^ 20)
    (h : M3X86System.mapPage s st virt phys access = some st1) :
    ∃ (lvl1 : Nat → Nat) (A : Nat), M3X86System.PtInv s n0 st1 lvl1 ∧
      st.nextFrame ≤ st1.nextFrame ∧ st1.nextFrame ≤ st.nextFrame + s.layout.LEVEL_CNT ∧
      M3X86System.KeepsEntries s st st1 ∧
      (NocAddr.ofTuple s.memPe 0 ((s.memOffset + phys) % 2 ^ 64)).getAddr = some A ∧
      M3X86System.WalkPath s n0 st1.nextFrame st1.mem virt
        (((A >>> DtuTlb.PAGE_BITS) <<< DtuTlb.PAGE_BITS) % 2 ^ 64) (access % 2 ^ 4)
        s.layout.LEVEL_CNT (s.frameAddr 0) := by
  have hroot := inv.root_lvl
  unfold M3X86System.mapPage at h
  rw [getRootPt_frame s hpe (inv.bound 0 (Or.inl rfl))] at h
  simp only at h
  rw [← hroot] at h ⊢
  obtain ⟨lvl1, A, inv1, h1, h2, h3, h4, h5⟩ :=
    mapLevels_spec s hwf hpe hmo n0 virt phys access (lvl 0) st st1 lvl 0 inv (Or.inl rfl) rfl
      (by omega) h
  exact ⟨lvl1, A, inv1, h1, by omega, h3, h4, h5⟩

theorem mapPages_spec (s : M3X86System.PtEnv) (hwf : s.layout.WellFormed)
    (hpe : s.memPe < 2 ^ 10) (hmo : s.memOffset % 2 ^ 12 = 0) (n0 : Nat) :
    ∀ (calls : List (Nat × Nat × Nat)) (st st1 : M3X86System.PageTables) (lvl : Nat → Nat),
      M3X86System.PtInv s n0 st lvl →
      st.nextFrame + calls.length * s.layout.LEVEL_CNT ≤ 2 ^ 20 →
      M3X86System.mapPages s calls st = some st1 →
      ∃ lvl1 : Nat → Nat, M3X86System.PtInv s n0 st1 lvl1 ∧
        st.nextFrame ≤ st1.nextFrame ∧
        st1.nextFrame ≤ st.nextFrame + calls.length * s.layout.LEVEL_CNT ∧
        M3X86System.KeepsEntries s st st1 := by
  intro calls
  induction calls with
  | nil =>
    intro st st1 lvl inv _ h
    simp only [M3X86System.mapPages, Option.some.injEq] at h
    subst h
    exact ⟨lvl, inv, Nat.le_refl _, by simp, keepsEntries_refl s st⟩
  | cons call rest ih =>
    intro st st1 lvl inv hnf h
    obtain ⟨virt, phys, access⟩ := call
    have hlen : (((virt, phys, access) :: rest).length) * s.layout.LEVEL_CNT =
        rest.length * s.layout.LEVEL_CNT + s.layout.LEVEL_CNT := by
      rw [List.length_cons, Nat.succ_mul]
    rw [hlen] at hnf ⊢
    simp only [M3X86System.mapPages] at h
    cases hm : M3X86System.mapPage s st virt phys access with
    | none => rw [hm] at h; cases h
    | some st2 =>
      rw [hm] at h
      simp only at h
      obtain ⟨lvl2, _, inv2, h1, h2, h3, _, _⟩ :=
        mapPage_spec s hwf hpe hmo n0 virt phys access st st2 lvl inv (by omega) hm
      obtain ⟨lvl1, inv1, h4, h5, h6⟩ := ih st2 st1 lvl2 inv2 (by omega) h
      exact ⟨lvl1, inv1, by omega, by omega, keepsEntries_trans h3 h6 h1 h4⟩

/-- The entries on the way of `virt` stay as they are when the used entries of the table
frames do, provided the entry of level 0 has some right. -/
theorem WalkPath.keep (s : M3X86System.PtEnv) (hwf : s.layout.WellFormed)
    (hpe : s.memPe < 2 ^ 10) (n0 nf nf1 : Nat) (mem mem1 : PteMem)
    (virt target rights : Nat) (hr0 : rights ≠ 0) (hn0 : 0 < n0) (hn0le : n0 ≤ nf)
    (hle : nf ≤ nf1)
    (hbound : ∀ f : Nat, M3X86System.IsTable n0 nf f →
      s.memOffset + f * 2 ^ 12 + 2 ^ 12 ≤ 2 ^ 37)
    (hkeep : ∀ p : Nat, (mem p).ixwr ≠ 0 →
      (∀ g : Nat, nf ≤ g → g < nf1 → ¬(s.frameAddr g ≤ p ∧ p < s.frameAddr g + 2 ^ 12)) →
      mem1 p = mem p) :
    ∀ (n t : Nat), M3X86System.WalkPath s n0 nf mem virt target rights n t →
      M3X86System.WalkPath s n0 nf1 mem1 virt target rights n t := by
  intro n
  induction n with
  | zero =>
    intro t h
    exact h
  | succ n ih =>
    intro t h
    obtain ⟨f, hf, ht, hix, hrest⟩ := h
    subst ht
    have hb := hbound f hf
    have hx := Layout.slot_lt s.layout hwf _ (Layout.idx_lt s.layout virt n)
    rw [pteAddr_frame s hwf hpe f virt n hb] at hix hrest
    have hnz : (mem (s.frameAddr f + s.layout.idx virt n * 2 ^ s.layout.PTE_BITS)).ixwr ≠ 0 := by
      rw [hix]
      split
      · exact hr0
      · decide
    have hsame := hkeep _ hnz (fun g hg _ => by
      apply frame_disjoint s f g _ _ _ hx rfl
      rcases hf with h0 | h0 <;> omega)
    refine ⟨f, IsTable.mono hf hle, rfl, ?_, ?_⟩
    · rw [pteAddr_frame s hwf hpe f virt n hb, hsame]
      exact hix
    · rw [pteAddr_frame s hwf hpe f virt n hb, hsame]
      exact ih _ hrest

theorem perm_upper (access rights : Nat) (hacc : access &&& rights = access)
    (hr : rights < 16) :
    DtuTlb.RWX &&& (access &&& notBits 32 DtuTlb.INTERN) =
      access &&& notBits 32 DtuTlb.INTERN := by
  have ha : access < 16 := by
    have : access &&& rights ≤ rights := Nat.and_le_right
    omega
  have hall : ∀ a, a < 16 →
      DtuTlb.RWX &&& (a &&& notBits 32 DtuTlb.INTERN) = a &&& notBits 32 DtuTlb.INTERN := by
    decide
  exact hall access ha

/-- The functional walk along the entries on the way of `virt`, for an address `v` of the
same page and an access within the rights of the last entry. -/
theorem WalkPath.walk (s : M3X86System.PtEnv) (hwf : s.layout.WellFormed)
    (hpe : s.memPe < 2 ^ 10) (n0 nf : Nat) (mem : PteMem)
    (virt target rights v access : Nat)
    (hv : v >>> DtuTlb.PAGE_BITS = virt >>> DtuTlb.PAGE_BITS)
    (hacc : access &&& rights = access) (hr : rights < 16)
    (hbound : ∀ f : Nat, M3X86System.IsTable n0 nf f →
      s.memOffset + f * 2 ^ 12 + 2 ^ 12 ≤ 2 ^ 37) :
    ∀ (n t : Nat), M3X86System.WalkPath s n0 nf mem virt target rights n t →
      PtUnit.walkLevels s.layout mem v access n t = some (some target) := by
  intro n
  induction n with
  | zero =>
    intro t h
    simp only [M3X86System.WalkPath] at h
    subst h
    rfl
  | succ n ih =>
    intro t h
    obtain ⟨f, hf, ht, hix, hrest⟩ := h
    subst ht
    have hb := hbound f hf
    rw [pteAddr_frame s hwf hpe f virt n hb] at hix hrest
    rw [PtUnit.walkLevels, createPacket_frame s hwf hpe f v n hb, Layout.idx_page _ v virt n hv]
    simp only
    have hok : PtUnit.finishTranslate
        (mem (s.frameAddr f + s.layout.idx virt n * 2 ^ s.layout.PTE_BITS)) (n : Int) access 0 =
        (true, (mem (s.frameAddr f + s.layout.idx virt n * 2 ^ s.layout.PTE_BITS)).ixwr % 2 ^ 32,
          ((mem (s.frameAddr f + s.layout.idx virt n * 2 ^ s.layout.PTE_BITS)).base
            <<< DtuTlb.PAGE_BITS) % 2 ^ 64) := by
      unfold PtUnit.finishTranslate
      rw [hix]
      by_cases hn : n = 0
      · subst hn
        simp only [Nat.cast_zero, if_true]
        rw [Nat.and_comm, hacc]
        simp
      · have hn' : ¬ ((n : Int) = 0) := by exact_mod_cast hn
        simp only [hn, hn', if_false]
        rw [perm_upper access rights hacc hr]
        simp
    rw [hok]
    exact ih _ hrest

theorem translateFunctional_of_walk (c : DtuTlb.Layout) (rootPt : Nat) (mem : PteMem)
    (v access target : Nat)
    (h : PtUnit.walkLevels c mem v access c.LEVEL_CNT rootPt = some (some target)) :
    PtUnit.translateFunctional c rootPt mem v access =
      some (some (NocAddr.ofAddr ((target + (v &&& DtuTlb.PAGE_MASK)) % 2 ^ 64))) := by
  unfold PtUnit.translateFunctional
  rw [h]

theorem mapPage_root_fits (s : M3X86System.PtEnv) (hpe : s.memPe < 2 ^ 10)
    (hm64 : s.memOffset < 2 ^ 64) (st st1 : M3X86System.PageTables)
    (virt phys access : Nat)
    (h : M3X86System.mapPage s st virt phys access = some st1) : s.memOffset < 2 ^ 37 := by
  unfold M3X86System.mapPage at h
  cases hr : (M3X86System.getRootPt s).getAddr with
  | none => rw [hr] at h; cases h
  | some r => exact (getAddr_ofTuple_inv s.memPe s.memOffset r hpe hm64 hr).1

theorem ptInv_init (s : M3X86System.PtEnv) (hwf : s.layout.WellFormed)
    (hfit : s.memOffset + 2 ^ 12 ≤ 2 ^ 37) (mem0 : PteMem) (n0 : Nat) (hn0 : 0 < n0)
    (hzero : ∀ p : Nat, s.frameAddr 0 ≤ p → p < s.frameAddr 0 + 2 ^ 12 →
      (mem0 p).ixwr = 0) :
    M3X86System.PtInv s n0 { mem := mem0, nextFrame := n0 }
      (fun _ => s.layout.LEVEL_CNT - 1) where
  n0_pos := hn0
  n0_le := Nat.le_refl _
  bound := by
    intro f hf
    rcases hf with h0 | h0
    · subst h0; omega
    · exfalso; have := h0.1; have := h0.2; simp only at *; omega
  root_lvl := by have := hwf.1; omega
  entries := by
    intro f i hf hi _ hnz
    exfalso
    rcases hf with h0 | h0
    · subst h0
      have hx := Layout.slot_lt s.layout hwf i hi
      exact hnz (hzero _ (Nat.le_add_right _ _) (by omega))
    · have := h0.1; have := h0.2; simp only at *; omega

/-- C40, as amended. Page tables built by `M3X86System::mapPage` from a zeroed root table,
with `memOffset` and `phys` page aligned, at most `2^20` page frames in reach of the calls
and rights that are not zero: after `mapPage(virt, phys, rights)` the functional walk
`PtUnit::translateFunctional(v, access)`, for every `v` in the page of `virt` and every
access mask contained in `rights`, succeeds and returns the address
`NocAddr(memPe, 0, memOffset + phys).getAddr() + (v mod PAGE_SIZE)`, right after the call
(`st2`) and after any later calls of `mapPage` that return (`st3`). -/
theorem mapPage_translateFunctional (s : M3X86System.PtEnv) (mem0 : PteMem)
    (before after : List (Nat × Nat × Nat)) (virt phys rights v access : Nat)
    (st1 st2 st3 : M3X86System.PageTables)
    (hwf : s.layout.WellFormed) (hpe : s.memPe < 2 ^ 10) (hm64 : s.memOffset < 2 ^ 64)
    (hmo : s.memOffset % DtuTlb.PAGE_SIZE = 0) (hphys : phys % DtuTlb.PAGE_SIZE = 0)
    (hzero : ∀ p : Nat, s.frameAddr 0 ≤ p → p < s.frameAddr 0 + DtuTlb.PAGE_SIZE →
      (mem0 p).ixwr = 0)
    (hframes : M3X86System.RES_PAGES +
      (before.length + 1 + after.length) * s.layout.LEVEL_CNT ≤ 2 ^ 20)
    (hrights : rights < 16) (hr0 : rights ≠ 0) (hacc : access &&& rights = access)
    (hv : v >>> DtuTlb.PAGE_BITS = virt >>> DtuTlb.PAGE_BITS)
    (h1 : M3X86System.mapPages s before
      { mem := mem0, nextFrame := M3X86System.RES_PAGES } = some st1)
    (h2 : M3X86System.mapPage s st1 virt phys rights = some st2)
    (h3 : M3X86System.mapPages s after st2 = some st3) :
    ∃ rootPt A : Nat, (M3X86System.getRootPt s).getAddr = some rootPt ∧
      (NocAddr.ofTuple s.memPe 0 ((s.memOffset + phys) % 2 ^ 64)).getAddr = some A ∧
      PtUnit.translateFunctional s.layout rootPt st2.mem v access =
        some (some (NocAddr.ofAddr (A + v % DtuTlb.PAGE_SIZE))) ∧
      PtUnit.translateFunctional s.layout rootPt st3.mem v access =
        some (some (NocAddr.ofAddr (A + v % DtuTlb.PAGE_SIZE))) ∧
      (NocAddr.ofAddr (A + v % DtuTlb.PAGE_SIZE)).getAddr =
        some (A + v % DtuTlb.PAGE_SIZE) := by
  have hps : DtuTlb.PAGE_SIZE = 2 ^ 12 := by decide
  have hpm : DtuTlb.PAGE_MASK = 2 ^ 12 - 1 := by decide
  have hpb : DtuTlb.PAGE_BITS = 12 := rfl
  rw [hps] at hmo hphys hzero ⊢
  have hm37 := mapPage_root_fits s hpe hm64 st1 st2 virt phys rights h2
  have hfit : s.memOffset + 2 ^ 12 ≤ 2 ^ 37 := by omega
  have hres : 0 < M3X86System.RES_PAGES := by decide
  have inv0 := ptInv_init s hwf hfit mem0 M3X86System.RES_PAGES hres hzero
  have hL := hwf.1
  have hmul : (before.length + 1 + after.length) * s.layout.LEVEL_CNT =
      before.length * s.layout.LEVEL_CNT + s.layout.LEVEL_CNT +
        after.length * s.layout.LEVEL_CNT := by ring
  rw [hmul] at hframes
  obtain ⟨lvl1, inv1, hle1, hub1, _⟩ :=
    mapPages_spec s hwf hpe hmo M3X86System.RES_PAGES before _ st1 _ inv0
      (by simp only; omega) h1
  simp only at hle1 hub1
  obtain ⟨lvl2, A, inv2, hle2, hub2, _, hA, path2⟩ :=
    mapPage_spec s hwf hpe hmo M3X86System.RES_PAGES virt phys rights st1 st2 lvl1 inv1
      (by omega) h2
  obtain ⟨lvl3, inv3, hle3, _, keep3⟩ :=
    mapPages_spec s hwf hpe hmo M3X86System.RES_PAGES after st2 st3 lvl2 inv2 (by omega) h3
  have hr16 : rights % 2 ^ 4 = rights := Nat.mod_eq_of_lt hrights
  rw [hr16] at path2
  have path3 := WalkPath.keep s hwf hpe M3X86System.RES_PAGES st2.nextFrame st3.nextFrame
    st2.mem st3.mem virt _ rights hr0 hres inv2.n0_le hle3 inv2.bound keep3 _ _ path2
  have walk2 := WalkPath.walk s hwf hpe M3X86System.RES_PAGES st2.nextFrame st2.mem virt _
    rights v access hv hacc hrights inv2.bound _ _ path2
  have walk3 := WalkPath.walk s hwf hpe M3X86System.RES_PAGES st3.nextFrame st3.mem virt _
    rights v access hv hacc hrights inv3.bound _ _ path3
  obtain ⟨ho37, hAeq⟩ := getAddr_ofTuple_inv s.memPe _ A hpe (Nat.mod_lt _ (by decide)) hA
  have htarget : (((A >>> DtuTlb.PAGE_BITS) <<< DtuTlb.PAGE_BITS) % 2 ^ 64 +
      (v &&& DtuTlb.PAGE_MASK)) % 2 ^ 64 = A + v % 2 ^ 12 := by
    rw [hpm, Nat.and_pow_two_sub_one_eq_mod, hpb, Nat.shiftRight_eq_div_pow,
      Nat.shiftLeft_eq]
    have hvlt : v % 2 ^ 12 < 2 ^ 12 := Nat.mod_lt _ (by decide)
    omega
  refine ⟨s.frameAddr 0, A, getRootPt_frame s hpe (by omega), hA, ?_, ?_, ?_⟩
  · rw [translateFunctional_of_walk _ _ _ _ _ _ walk2, htarget]
  · rw [translateFunctional_of_walk _ _ _ _ _ _ walk3, htarget]
  · have hvlt : v % 2 ^ 12 < 2 ^ 12 := Nat.mod_lt _ (by decide)
    have hsum : A + v % 2 ^ 12 = 2 ^ 59 + s.memPe * 2 ^ 49 + 0 * 2 ^ 38 +
        ((s.memOffset + phys) % 2 ^ 64 + v % 2 ^ 12) := by omega
    rw [hsum, NocAddr.ofAddr_packed s.memPe 0 _ hpe (by decide) (by omega)]
    exact NocAddr.getAddr_ofTuple s.memPe 0 _ hpe (by decide) (by omega)

set_option maxRecDepth 100000 in
theorem mapPage_translateFunctional_witness :
    ∃ rootPt A : Nat, (M3X86System.getRootPt ptEnv).getAddr = some rootPt ∧
      (NocAddr.ofTuple ptEnv.memPe 0 ((ptEnv.memOffset + 0x70000) % 2 ^ 64)).getAddr =
        some A ∧
      PtUnit.translateFunctional ptEnv.layout rootPt ptMapped.mem 0x4123 1 =
        some (some (NocAddr.ofAddr (A + 0x4123 % DtuTlb.PAGE_SIZE))) ∧
      PtUnit.translateFunctional ptEnv.layout rootPt ptAfter.mem 0x4123 1 =
        some (some (NocAddr.ofAddr (A + 0x4123 % DtuTlb.PAGE_SIZE))) ∧
      (NocAddr.ofAddr (A + 0x4123 % DtuTlb.PAGE_SIZE)).getAddr =
        some (A + 0x4123 % DtuTlb.PAGE_SIZE) :=
  mapPage_translateFunctional ptEnv (fun _ => {}) [(0x1000, 0x20000, 3)]
    [(0x8000, 0x90000, 9), (0x40000000, 0xA0000, 3)] 0x4000 0x70000 9 0x4123 1
    ptBefore ptMapped ptAfter ⟨by decide, by decide, by decide, by decide⟩ (by decide) (by decide) (by decide) (by decide)
    (fun _ _ _ => rfl) (by decide) (by decide) (by decide) (by decide) (by decide)
    rfl rfl rfl

set_option maxRecDepth 100000 in
/-- C40, counterexample. Two levels of 9 index bits, root table zeroed:
`mapPage(0x4000, 0x70000, 0)` gives the page of `0x4000` the rights 0, and the walk for
`0x4123` with the access mask 0 returns `NocAddr(3, 0, 0x80000).getAddr() + 0x123`; the
later call `mapPage(0x40004000, 0x90000, 3)` for another page, whose index bits are the
same, passes the assertion on the entry of level 0 and writes that entry again, and the
same walk returns `NocAddr(3, 0, 0xA0000).getAddr() + 0x123`. -/
theorem mapPage_rights_zero_overwritten :
    ∃ (st2 st3 : M3X86System.PageTables) (rootPt A B : Nat),
      M3X86System.mapPage ptEnv ptEmpty 0x4000 0x70000 0 = some st2 ∧
      M3X86System.mapPage ptEnv st2 0x40004000 0x90000 3 = some st3 ∧
      0x40004000 >>> DtuTlb.PAGE_BITS ≠ 0x4000 >>> DtuTlb.PAGE_BITS ∧
      (M3X86System.getRootPt ptEnv).getAddr = some rootPt ∧
      (NocAddr.ofTuple 3 0 0x80000).getAddr = some A ∧
      (NocAddr.ofTuple 3 0 0xA0000).getAddr = some B ∧
      PtUnit.translateFunctional ptEnv.layout rootPt st2.mem 0x4123 0 =
        some (some (NocAddr.ofAddr (A + 0x123))) ∧
      PtUnit.translateFunctional ptEnv.layout rootPt st3.mem 0x4123 0 =
        some (some (NocAddr.ofAddr (B + 0x123))) ∧
      NocAddr.ofAddr (A + 0x123) ≠ NocAddr.ofAddr (B + 0x123) :=
  ⟨(M3X86System.mapPage ptEnv ptEmpty 0x4000 0x70000 0).getD ptEmpty,
   (M3X86System.mapPages ptEnv [(0x4000, 0x70000, 0), (0x40004000, 0x90000, 3)]
      ptEmpty).getD ptEmpty,
   2 ^ 59 + 3 * 2 ^ 49 + 0x10000, 2 ^ 59 + 3 * 2 ^ 49 + 0x80000,
   2 ^ 59 + 3 * 2 ^ 49 + 0xA0000,
   rfl, rfl, by decide, by decide, by decide, by decide, by decide, by decide, by decide⟩

end SemperOS
